import Mathlib

/-! # picoc: storage arena, type tree, variables and scopes

A shallow embedding of `heap.cpp`, `type.cpp` and `variable.cpp`.

Conventions of the embedding.

* The host is LP64: `sizeof(void *) = sizeof(long) = 8`, `sizeof(int) = 4`,
  two's-complement integers.  A C `int` is a Lean `Int`; conversions to
  `size_t` and back are the explicit functions `toSizeT` and `toInt`.
* A pointer is the `Nat` address it holds; `nullptr` is `0`.
* Arena memory is a map from addresses to bytes.  A pointer stored in
  memory occupies eight bytes, least significant byte first.
* A function returns `none` where the C program has undefined behaviour
  (an access outside the allocated block, pointer arithmetic leaving the
  64-bit address space); such a call has no successor state.
-/

namespace PicocModel

/-! ## Host constants and integer conversions -/

/-- The constant `sizeof(ALIGN_TYPE)`, where `ALIGN_TYPE` is `void *` (platform.h). -/
def sizeofAlignType : Nat := 8

/-- One more than the largest `size_t` / address: `2^64`. -/
def addrLimit : Nat := 18446744073709551616

/-- The constant `INT_MAX` of the host. -/
def INT_MAX : Int := 2147483647

/-- Conversion of an `int` to `size_t`: the value modulo `2^64`. -/
def toSizeT (x : Int) : Nat := (x % (addrLimit : Int)).toNat

/-- Conversion of a `size_t` to `int`: truncation to 32 bits, two's complement. -/
def toInt (x : Nat) : Int :=
  if x % 4294967296 < 2147483648 then ((x % 4294967296 : Nat) : Int)
  else ((x % 4294967296 : Nat) : Int) - 4294967296

/-- The macro `MEM_ALIGN(x)` of interpreter.h,
`((x) + sizeof(ALIGN_TYPE) - 1) & ~(sizeof(ALIGN_TYPE)-1)`, computed in `size_t`. -/
def MEM_ALIGN (x : Nat) : Nat :=
  ((x + sizeofAlignType - 1) % addrLimit) &&& (addrLimit - 1 - (sizeofAlignType - 1))

/-! ## Raw memory -/

/-- Bytes of memory, by address. -/
abbrev Memory := Nat → Nat

/-- The effect of `memset(dst, c, n)` on memory. -/
def memset (m : Memory) (dst c n : Nat) : Memory :=
  fun a => if dst ≤ a ∧ a < dst + n then c else m a

/-- Store of a pointer value `v` at address `a` (eight bytes, little endian). -/
def writePtr (m : Memory) (a v : Nat) : Memory :=
  fun x => if a ≤ x ∧ x < a + 8 then (v / 256 ^ (x - a)) % 256 else m x

/-- Load of the pointer stored at address `a`. -/
def readPtr (m : Memory) (a : Nat) : Nat :=
  m a % 256 + 256 * (m (a + 1) % 256 + 256 * (m (a + 2) % 256 + 256 * (m (a + 3) % 256
    + 256 * (m (a + 4) % 256 + 256 * (m (a + 5) % 256 + 256 * (m (a + 6) % 256
    + 256 * (m (a + 7) % 256)))))))

/-- Store of the `int` value `v` at address `a` (four bytes, little endian, two's
complement). -/
def writeInt (m : Memory) (a : Nat) (v : Int) : Memory :=
  fun x => if a ≤ x ∧ x < a + 4 then ((v % 4294967296).toNat / 256 ^ (x - a)) % 256 else m x

/-- Load of the `int` stored at address `a`. -/
def readInt (m : Memory) (a : Nat) : Int :=
  toInt (m a % 256 + 256 * (m (a + 1) % 256 + 256 * (m (a + 2) % 256 + 256 * (m (a + 3) % 256))))

/-! ## heap.cpp -/

/-- The arena fields of `struct Picoc_Struct`, with the extent of the block
that `malloc` returned for `HeapMemory` and the contents of memory. -/
structure Arena where
  /-- Address of the block, `pc->HeapMemory`. -/
  HeapMemory : Nat
  /-- Number of bytes of the block at `HeapMemory`. -/
  HeapSize : Nat
  /-- The field `pc->HeapBottom`. -/
  HeapBottom : Nat
  /-- The field `pc->StackFrame`, the current frame base. -/
  StackFrame : Nat
  /-- The field `pc->HeapStackTop`. -/
  HeapStackTop : Nat
  /-- Contents of memory. -/
  Memory : Memory

/-- The `n` bytes at `a` lie inside the block at `HeapMemory`. -/
def Arena.inBlock (pc : Arena) (a n : Nat) : Prop :=
  pc.HeapMemory ≤ a ∧ a + n ≤ pc.HeapMemory + pc.HeapSize

instance (pc : Arena) (a n : Nat) : Decidable (pc.inBlock a n) := by
  unfold Arena.inBlock; infer_instance

/-- The loop `while (((unsigned long)&pc->HeapMemory[AlignOffset] & (sizeof(ALIGN_TYPE)-1)) != 0)
AlignOffset++;` of `HeapInit`, run for at most `fuel` iterations. -/
def alignLoop (HeapMemory : Nat) : Nat → Nat → Nat
  | 0, AlignOffset => AlignOffset
  | fuel + 1, AlignOffset =>
    if (HeapMemory + AlignOffset) &&& (sizeofAlignType - 1) ≠ 0 then
      alignLoop HeapMemory fuel (AlignOffset + 1)
    else AlignOffset

/-- `HeapInit(pc, StackOrHeapSize)`.  `HeapMemory` is the address `malloc` returned
(`0` when it failed) and `contents` the memory at that moment.  `malloc` cannot satisfy
a request for a negative `int` converted to `size_t`. -/
def HeapInit (HeapMemory : Nat) (contents : Memory) (StackOrHeapSize : Int) : Option Arena :=
  if StackOrHeapSize < 0 ∨ HeapMemory = 0 ∨ HeapMemory + toSizeT StackOrHeapSize > addrLimit then none
  else
    let AlignOffset := alignLoop HeapMemory sizeofAlignType 0
    let pc : Arena :=
      { HeapMemory := HeapMemory, HeapSize := toSizeT StackOrHeapSize,
        HeapBottom := 0, StackFrame := HeapMemory + AlignOffset,
        HeapStackTop := HeapMemory + AlignOffset, Memory := contents }
    if ¬ pc.inBlock pc.StackFrame 8 then none
    else
      some { pc with
        Memory := writePtr pc.Memory pc.StackFrame 0
        HeapBottom := HeapMemory +
          (toSizeT StackOrHeapSize + (addrLimit - sizeofAlignType) + AlignOffset) % addrLimit }

/-- `HeapAllocStack(pc, Size)`: the new state and the returned pointer (`0` for `nullptr`). -/
def HeapAllocStack (pc : Arena) (Size : Int) : Option (Arena × Nat) :=
  let NewMem := pc.HeapStackTop
  let NewTop := pc.HeapStackTop + MEM_ALIGN (toSizeT Size)
  if NewTop ≥ addrLimit then none
  else if NewTop > pc.HeapBottom then some (pc, 0)
  else if toSizeT Size ≠ 0 ∧ ¬ pc.inBlock NewMem (toSizeT Size) then none
  else some ({ pc with HeapStackTop := NewTop, Memory := memset pc.Memory NewMem 0 (toSizeT Size) }, NewMem)

/-- `HeapUnpopStack(pc, Size)`. -/
def HeapUnpopStack (pc : Arena) (Size : Int) : Option Arena :=
  let NewTop := pc.HeapStackTop + MEM_ALIGN (toSizeT Size)
  if NewTop ≥ addrLimit then none
  else some { pc with HeapStackTop := NewTop }

/-- `HeapPopStack(pc, Size)`: the new state and the returned flag. -/
def HeapPopStack (pc : Arena) (Size : Int) : Option (Arena × Bool) :=
  let ToLose : Int := toInt (MEM_ALIGN (toSizeT Size))
  let Used : Int := (pc.HeapStackTop : Int) - (pc.HeapMemory : Int)
  if Used < -9223372036854775808 ∨ Used > 9223372036854775807 then none
  else if ToLose > Used then some (pc, false)
  else
    let NewTop : Int := (pc.HeapStackTop : Int) - ToLose
    if NewTop < 0 ∨ NewTop ≥ addrLimit then none
    else some ({ pc with HeapStackTop := NewTop.toNat }, true)

/-- `HeapPushStackFrame(pc)`. -/
def HeapPushStackFrame (pc : Arena) : Option Arena :=
  if ¬ pc.inBlock pc.HeapStackTop 8 then none
  else
    some { pc with
      Memory := writePtr pc.Memory pc.HeapStackTop pc.StackFrame
      StackFrame := pc.HeapStackTop
      HeapStackTop := pc.HeapStackTop + MEM_ALIGN sizeofAlignType }

/-- `HeapPopStackFrame(pc)`: the new state and the returned flag. -/
def HeapPopStackFrame (pc : Arena) : Option (Arena × Bool) :=
  if ¬ pc.inBlock pc.StackFrame 8 then none
  else if readPtr pc.Memory pc.StackFrame ≠ 0 then
    some ({ pc with HeapStackTop := pc.StackFrame, StackFrame := readPtr pc.Memory pc.StackFrame }, true)
  else some (pc, false)

/-- One call of a stack operation of heap.cpp, with defined behaviour. -/
inductive HeapStep : Arena → Arena → Prop
  | alloc {pc pc2 : Arena} {p : Nat} (Size : Int) :
      HeapAllocStack pc Size = some (pc2, p) → HeapStep pc pc2
  | unpop {pc pc2 : Arena} (Size : Int) : HeapUnpopStack pc Size = some pc2 → HeapStep pc pc2
  | pop {pc pc2 : Arena} {b : Bool} (Size : Int) :
      HeapPopStack pc Size = some (pc2, b) → HeapStep pc pc2
  | pushFrame {pc pc2 : Arena} : HeapPushStackFrame pc = some pc2 → HeapStep pc pc2
  | popFrame {pc pc2 : Arena} {b : Bool} : HeapPopStackFrame pc = some (pc2, b) → HeapStep pc pc2
  | store {pc : Arena} (a v : Nat) : pc.inBlock a 1 →
      HeapStep pc { pc with Memory := fun x => if x = a then v % 256 else pc.Memory x }

/-- The arena states reachable from `HeapInit` by calls of the stack operations and by
stores of the program into the block. -/
inductive HeapReachable : Arena → Prop
  | init {pc : Arena} (HeapMemory : Nat) (contents : Memory) (StackOrHeapSize : Int) :
      StackOrHeapSize ≤ INT_MAX → HeapInit HeapMemory contents StackOrHeapSize = some pc →
      HeapReachable pc
  | step {pc pc2 : Arena} : HeapReachable pc → HeapStep pc pc2 → HeapReachable pc2

/-- Facts that hold of every reachable arena: the block address is not null, the stack
top is not below the block, the heap frontier is less than `2^31` bytes above it, the
frame base is a non-null address, and the block lies in the address space. -/
def ArenaInv (pc : Arena) : Prop :=
  0 < pc.HeapMemory ∧ pc.HeapMemory ≤ pc.HeapStackTop
    ∧ pc.HeapBottom < pc.HeapMemory + 2147483648
    ∧ 0 < pc.StackFrame ∧ pc.StackFrame < addrLimit ∧ pc.HeapMemory + pc.HeapSize ≤ addrLimit

/-- The stack base that `HeapInit` establishes, `&pc->HeapMemory[AlignOffset]`. -/
def stackBase (pc : Arena) : Nat := pc.HeapMemory + alignLoop pc.HeapMemory sizeofAlignType 0

/-- Balanced stack activity above the open frames whose links are at the addresses `Fs`:
allocations, pops that leave the links of the open frames on the stack, stores of the
program outside these links, and nested frames that are pushed and popped again. -/
inductive BalancedActivity : List Nat → Arena → Arena → Prop
  | refl (Fs : List Nat) (pc : Arena) : BalancedActivity Fs pc pc
  | alloc {Fs : List Nat} {pc pc1 pc2 : Arena} {p : Nat} (Size : Int) :
      HeapAllocStack pc Size = some (pc1, p) → BalancedActivity Fs pc1 pc2 →
      BalancedActivity Fs pc pc2
  | unpop {Fs : List Nat} {pc pc1 pc2 : Arena} (Size : Int) :
      HeapUnpopStack pc Size = some pc1 → BalancedActivity Fs pc1 pc2 →
      BalancedActivity Fs pc pc2
  | pop {Fs : List Nat} {pc pc1 pc2 : Arena} {b : Bool} (Size : Int) :
      HeapPopStack pc Size = some (pc1, b) → (∀ F ∈ Fs, F + 8 ≤ pc1.HeapStackTop) →
      BalancedActivity Fs pc1 pc2 → BalancedActivity Fs pc pc2
  | store {Fs : List Nat} {pc pc2 : Arena} (a v : Nat) :
      pc.inBlock a 1 → (∀ F ∈ Fs, a < F ∨ F + 8 ≤ a) →
      BalancedActivity Fs { pc with Memory := fun x => if x = a then v % 256 else pc.Memory x } pc2 →
      BalancedActivity Fs pc pc2
  | frame {Fs : List Nat} {pc pc1 pc2 pc3 pc4 : Arena} :
      HeapPushStackFrame pc = some pc1 → BalancedActivity (pc1.StackFrame :: Fs) pc1 pc2 →
      HeapPopStackFrame pc2 = some (pc3, true) → BalancedActivity Fs pc3 pc4 →
      BalancedActivity Fs pc pc4

/-! ## interpreter.h: the data model -/

/-- Result of `int` arithmetic: the value reduced to 32 bits, two's complement. -/
def wrapInt (x : Int) : Int := (x + 2147483648) % 4294967296 - 2147483648

/-- The enumeration `enum BaseType`. -/
inductive BaseType
  | TypeVoid | TypeInt | TypeShort | TypeChar | TypeLong | TypeUnsignedInt
  | TypeUnsignedShort | TypeUnsignedChar | TypeUnsignedLong | TypeFP | TypeFunction
  | TypeMacro | TypePointer | TypeArray | TypeStruct | TypeUnion | TypeEnum
  | TypeGotoLabel | Type_Type
  deriving DecidableEq, Repr

/-- The integer value of an enumerator of `enum BaseType`. -/
def BaseType.ord : BaseType → Nat
  | TypeVoid => 0 | TypeInt => 1 | TypeShort => 2 | TypeChar => 3 | TypeLong => 4
  | TypeUnsignedInt => 5 | TypeUnsignedShort => 6 | TypeUnsignedChar => 7
  | TypeUnsignedLong => 8 | TypeFP => 9 | TypeFunction => 10 | TypeMacro => 11
  | TypePointer => 12 | TypeArray => 13 | TypeStruct => 14 | TypeUnion => 15
  | TypeEnum => 16 | TypeGotoLabel => 17 | Type_Type => 18

/-- The `struct ValueType` members of `struct Picoc_Struct`. -/
inductive TypeField
  | UberType | IntType | ShortType | CharType | LongType | UnsignedIntType
  | UnsignedShortType | UnsignedLongType | UnsignedCharType | FPType | VoidType
  | TypeType | FunctionType | MacroType | EnumType | GotoLabelType
  deriving DecidableEq, Repr

/-- A `struct ValueType *`: null, the address of a member of the instance, or the
address of a node obtained from `HeapAllocMem`. -/
inductive TypePtr
  | null
  | field (f : TypeField)
  | heap (addr : Nat)
  deriving DecidableEq, Repr

/-- A `struct Table *` held in `ValueType::Members`: null, `&pc->GlobalTable` (set by
`TypeParseEnum`), or a table obtained from `HeapAllocMem`. -/
inductive TablePtr
  | null
  | GlobalTable
  | heap (addr : Nat)
  deriving DecidableEq, Repr

/-- The record `struct ValueType`.  `DerivedTypeList` holds the chain that starts at the C
field of that name and continues through the `Next` fields of the children, in order.
The field `StaticQualifier`, which no function of these files reads or writes, is left out. -/
structure ValueType where
  Base : BaseType
  ArraySize : Int
  Sizeof : Int
  AlignBytes : Int
  Identifier : Nat
  FromType : TypePtr
  DerivedTypeList : List TypePtr
  Members : TablePtr
  OnHeap : Bool
  deriving DecidableEq, Repr

/-- The record `struct Value`.  `Val` is the address of the payload (`union AnyValue *`). -/
structure Value where
  Typ : TypePtr
  Val : Nat
  LValueFrom : Nat
  ValOnHeap : Bool
  ValOnStack : Bool
  AnyValOnHeap : Bool
  IsLValue : Bool
  ScopeID : Int
  OutOfScope : Bool
  deriving DecidableEq, Repr

/-- The enumeration `enum RunMode`. -/
inductive RunMode
  | RunModeRun | RunModeSkip | RunModeReturn | RunModeCaseSearch | RunModeBreak
  | RunModeContinue | RunModeGoto
  deriving DecidableEq, Repr

/-- The record `struct ParseState` (without its back pointer `pc`). -/
structure ParseState where
  Pos : Nat
  FileName : Nat
  Line : Int
  CharacterPos : Int
  Mode : RunMode
  SearchLabel : Int
  SearchGotoLabel : Nat
  SourceText : Nat
  HashIfLevel : Int
  HashIfEvaluateToLevel : Int
  DebugMode : Int
  ScopeID : Int
  deriving DecidableEq, Repr

/-- The record `struct TableEntry` of a table of values (payload `p.v`); the `Next` field
is the position in the chain. -/
structure TableEntry where
  DeclFileName : Nat
  DeclLine : Int
  DeclColumn : Int
  Key : Nat
  Val : Nat
  deriving DecidableEq, Repr

/-- The record `struct Table`: `HashTable` is the array of `Size` chains. -/
structure Table where
  Size : Nat
  OnHeap : Bool
  HashTable : List (List TableEntry)
  deriving DecidableEq, Repr

/-- The record `struct StackFrame`. -/
structure StackFrame where
  ReturnParser : ParseState
  FuncName : Nat
  ReturnValue : Nat
  Parameter : Nat
  NumParams : Int
  LocalTable : Table
  PreviousStackFrame : Nat
  deriving DecidableEq, Repr

/-- The constant `sizeof(struct Value)` on the host. -/
def sizeofValue : Nat := 40

/-- The constant `sizeof(struct StackFrame)` on the host. -/
def sizeofStackFrame : Nat := 216

/-- The constant `sizeof(struct TableEntry)` on the host. -/
def sizeofTableEntry : Nat := 40

/-- The constant `sizeof(struct ValueType)` on the host. -/
def sizeofValueType : Nat := 64

/-- The constant `sizeof(struct Table)` on the host. -/
def sizeofTable : Nat := 16

/-- The constant `LOCAL_TABLE_SIZE` of platform.h. -/
def LOCAL_TABLE_SIZE : Nat := 11

/-- The constant `STRUCT_TABLE_SIZE` of platform.h. -/
def STRUCT_TABLE_SIZE : Nat := 11

/-- The constant `GLOBAL_TABLE_SIZE` of platform.h. -/
def GLOBAL_TABLE_SIZE : Nat := 97

/-- The constant `LINEBUFFER_MAX` of platform.h. -/
def LINEBUFFER_MAX : Nat := 256

/-- The state of an interpreter instance, `struct Picoc_Struct`, together with the objects
it points to.  Objects reached through pointers are held in stores indexed by address:
`types` (type nodes), `vals` (value headers), `frames` (stack frames), `tables` (heap
tables of struct members) and `strings` (the characters of a C string); payloads are
bytes of `arena.Memory`.  `calloc` lists the addresses the process allocator will
return to the following calls of `HeapAllocMem`, `0` for a failed call. -/
structure Picoc where
  arena : Arena
  calloc : List Nat
  types : TypePtr → Option ValueType
  /-- The file-scope variable `PointerAlignBytes` of type.cpp. -/
  PointerAlignBytes : Int
  /-- The file-scope variable `IntAlignBytes` of type.cpp. -/
  IntAlignBytes : Int
  CharPtrType : TypePtr
  CharPtrPtrType : TypePtr
  CharArrayType : TypePtr
  VoidPtrType : TypePtr
  vals : Nat → Option Value
  GlobalTable : Table
  StringLiteralTable : Table
  TopStackFrame : Nat
  frames : Nat → Option StackFrame
  tables : Nat → Option Table
  strings : Nat → Option (List Char)
  StringTable : List Nat
  StrEmpty : Nat

/-- The messages passed to `ProgramFail` by the functions embedded here. -/
inductive Failure
  /-- The message "out of memory". -/
  | OutOfMemory
  /-- The message "stack underrun". -/
  | StackUnderrun
  /-- The message "'%s' is already defined". -/
  | AlreadyDefined
  /-- The message "type '%t' isn't defined". -/
  | TypeNotDefined
  /-- The message "data type '%s' is already defined" (or '%t'). -/
  | DataTypeAlreadyDefined
  /-- The message "stack is empty - can't go back". -/
  | StackEmpty
  /-- The message "invalid type in struct". -/
  | InvalidTypeInStruct
  /-- The message "member '%s' already defined". -/
  | MemberAlreadyDefined
  /-- The message "struct/union definitions can only be globals". -/
  | StructNotGlobal
  /-- The message "semicolon expected". -/
  | SemicolonExpected
  /-- The message "'%s' is out of scope". -/
  | OutOfScope
  /-- The message "'%s' is undefined". -/
  | Undefined
  /-- The message "enum '%s' isn't defined". -/
  | EnumNotDefined
  /-- The message "enum definitions can only be globals". -/
  | EnumNotGlobal
  /-- The message "identifier expected". -/
  | IdentifierExpected
  /-- The message "comma expected". -/
  | CommaExpected
  /-- The message "']' expected". -/
  | RightSquareBracketExpected
  /-- The message "bad type declaration". -/
  | BadTypeDeclaration
  /-- The message "')' expected". -/
  | CloseBracketExpected
  deriving DecidableEq, Repr

/-- How a call ends: it returns a result, or `ProgramFail` leaves through the exit
point of the host with a message. -/
inductive Exit (α : Type) where
  | ret (a : α)
  | fail (f : Failure)
  deriving DecidableEq, Repr

/-- The type of an embedded function with result `α`: `none` when the call has no
successor state (undefined behaviour, a failed `assert`), otherwise how the call ended
and the state it left. -/
abbrev Call (α : Type) := Option (Exit α × Picoc)

/-! ## type.cpp: sizes -/

/-- The macro `IS_INTEGER_NUMERIC_TYPE(t)`. -/
def IS_INTEGER_NUMERIC_TYPE (t : ValueType) : Bool :=
  decide (t.Base.ord ≥ BaseType.TypeInt.ord) && decide (t.Base.ord ≤ BaseType.TypeUnsignedLong.ord)

/-- `TypeSize(Typ, ArraySize, Compact)`; `none` when `Typ`, or `Typ->FromType` of an array,
does not point to a type. -/
def TypeSize (types : TypePtr → Option ValueType) (Typ : TypePtr) (ArraySize : Int)
    (Compact : Bool) : Option Int :=
  match types Typ with
  | none => none
  | some t =>
    if IS_INTEGER_NUMERIC_TYPE t && !Compact then some (sizeofAlignType : Int)
    else if t.Base ≠ BaseType.TypeArray then some t.Sizeof
    else
      match types t.FromType with
      | none => none
      | some ft => some (wrapInt (ft.Sizeof * ArraySize))

/-- `TypeSizeValue(Val, Compact)`, on the value header `Val`. -/
def TypeSizeValue (types : TypePtr → Option ValueType) (Val : Value) (Compact : Bool) :
    Option Int :=
  match types Val.Typ with
  | none => none
  | some t =>
    if IS_INTEGER_NUMERIC_TYPE t && !Compact then some (sizeofAlignType : Int)
    else if t.Base ≠ BaseType.TypeArray then some t.Sizeof
    else
      match types t.FromType with
      | none => none
      | some ft => some (wrapInt (ft.Sizeof * t.ArraySize))

/-! ## heap.cpp: the process heap -/

/-- `HeapAllocMem(pc, Size)`, that is `calloc(Size, 1)`: the next address of `pc.calloc`,
with the block zero-filled.  A request of more than `PTRDIFF_MAX` bytes (a negative
`Size`) fails. -/
def HeapAllocMem (pc : Picoc) (Size : Int) : Nat × Picoc :=
  match pc.calloc with
  | [] => (0, pc)
  | a :: rest =>
    if Size < 0 ∨ a = 0 then (0, { pc with calloc := rest })
    else
      (a, { pc with
        calloc := rest
        arena := { pc.arena with Memory := memset pc.arena.Memory a 0 (toSizeT Size) } })

/-- `HeapFreeMem(pc, Mem)`, that is `free(Mem)`: the objects held at `Mem` are gone. -/
def HeapFreeMem (pc : Picoc) (Mem : Nat) : Picoc :=
  { pc with
    vals := fun a => if a = Mem then none else pc.vals a
    tables := fun a => if a = Mem then none else pc.tables a
    types := fun t => if t = TypePtr.heap Mem then none else pc.types t }

/-! ## variable.cpp: allocation of values -/

/-- `VariableAlloc(pc, Parser, Size, OnHeap)`: the address of the new block.  The process
allocator does not hand out the address of an object that is still allocated, nor memory
inside the block of the arena. -/
def VariableAlloc (pc : Picoc) (Size : Int) (OnHeap : Bool) : Call Nat :=
  if OnHeap then
    match HeapAllocMem pc Size with
    | (NewValue, pc1) =>
      if NewValue = 0 then some (Exit.fail Failure.OutOfMemory, pc1)
      else if (pc.vals NewValue).isSome ∨ (pc.tables NewValue).isSome
          ∨ (pc.types (TypePtr.heap NewValue)).isSome
          ∨ ¬ (NewValue + toSizeT Size ≤ pc.arena.HeapMemory
                ∨ pc.arena.HeapMemory + pc.arena.HeapSize ≤ NewValue) then none
      else some (Exit.ret NewValue, pc1)
  else
    match HeapAllocStack pc.arena Size with
    | none => none
    | some (arena1, NewValue) =>
      if NewValue = 0 then some (Exit.fail Failure.OutOfMemory, { pc with arena := arena1 })
      else some (Exit.ret NewValue, { pc with arena := arena1 })

/-- `VariableAllocValueAndData(pc, Parser, DataSize, IsLValue, LValueFrom, OnHeap)`: the
address of the new value header.  The block is zero-filled, so `Typ` is null and, when
`Parser` is null, `ScopeID` is zero. -/
def VariableAllocValueAndData (pc : Picoc) (Parser : Option ParseState) (DataSize : Int)
    (IsLValue : Bool) (LValueFrom : Nat) (OnHeap : Bool) : Call Nat :=
  match VariableAlloc pc (toInt ((MEM_ALIGN sizeofValue + toSizeT DataSize) % addrLimit)) OnHeap with
  | none => none
  | some (Exit.fail f, pc1) => some (Exit.fail f, pc1)
  | some (Exit.ret NewValue, pc1) =>
    let v : Value :=
      { Typ := TypePtr.null, Val := NewValue + MEM_ALIGN sizeofValue, LValueFrom := LValueFrom,
        ValOnHeap := OnHeap, ValOnStack := !OnHeap, AnyValOnHeap := false, IsLValue := IsLValue,
        ScopeID := match Parser with
          | some ps => ps.ScopeID
          | none => 0,
        OutOfScope := false }
    some (Exit.ret NewValue, { pc1 with vals := fun a => if a = NewValue then some v else pc1.vals a })

/-- `VariableAllocValueFromType(pc, Parser, Typ, IsLValue, LValueFrom, OnHeap)`. -/
def VariableAllocValueFromType (pc : Picoc) (Parser : Option ParseState) (Typ : TypePtr)
    (IsLValue : Bool) (LValueFrom : Nat) (OnHeap : Bool) : Call Nat :=
  match pc.types Typ with
  | none => none
  | some t =>
    match TypeSize pc.types Typ t.ArraySize false with
    | none => none
    | some Size =>
      match VariableAllocValueAndData pc Parser Size IsLValue LValueFrom OnHeap with
      | none => none
      | some (Exit.fail f, pc1) => some (Exit.fail f, pc1)
      | some (Exit.ret NewValue, pc1) =>
        if ¬ (Size ≥ 0 ∨ Typ = TypePtr.field TypeField.VoidType) then none
        else
          match pc1.vals NewValue with
          | none => none
          | some v =>
            some (Exit.ret NewValue,
              { pc1 with vals := fun a => if a = NewValue then some { v with Typ := Typ } else pc1.vals a })

/-- `VariableAllocValueFromExistingData(Parser, Typ, FromValue, IsLValue, LValueFrom)`. -/
def VariableAllocValueFromExistingData (pc : Picoc) (Typ : TypePtr) (FromValue : Nat)
    (IsLValue : Bool) (LValueFrom : Nat) : Call Nat :=
  match VariableAlloc pc (toInt sizeofValue) false with
  | none => none
  | some (Exit.fail f, pc1) => some (Exit.fail f, pc1)
  | some (Exit.ret NewValue, pc1) =>
    let v : Value :=
      { Typ := Typ, Val := FromValue, LValueFrom := LValueFrom, ValOnHeap := false,
        ValOnStack := false, AnyValOnHeap := false, IsLValue := IsLValue, ScopeID := 0,
        OutOfScope := false }
    some (Exit.ret NewValue, { pc1 with vals := fun a => if a = NewValue then some v else pc1.vals a })

/-- `VariableAllocValueShared(Parser, FromValue)`. -/
def VariableAllocValueShared (pc : Picoc) (FromValue : Nat) : Call Nat :=
  match pc.vals FromValue with
  | none => none
  | some fv =>
    VariableAllocValueFromExistingData pc fv.Typ fv.Val fv.IsLValue
      (if fv.IsLValue then FromValue else 0)

/-- `VariableStackPop(Parser, Var)`. -/
def VariableStackPop (pc : Picoc) (Var : Nat) : Call Unit :=
  match pc.vals Var with
  | none => none
  | some v =>
    let popped : Option (Option (Arena × Bool) × Picoc) :=
      if v.ValOnHeap then
        let pc1 := if v.Val ≠ 0 then HeapFreeMem pc v.Val else pc
        some (HeapPopStack pc1.arena (toInt sizeofValue), pc1)
      else if v.ValOnStack then
        match TypeSizeValue pc.types v false with
        | none => none
        | some sz =>
          some (HeapPopStack pc.arena (toInt ((sizeofValue + toSizeT sz) % addrLimit)), pc)
      else some (HeapPopStack pc.arena (toInt sizeofValue), pc)
    match popped with
    | none => none
    | some (none, _) => none
    | some (some (arena1, Success), pc1) =>
      if ¬ Success then some (Exit.fail Failure.StackUnderrun, { pc1 with arena := arena1 })
      else some (Exit.ret (), { pc1 with arena := arena1 })

/-! ## type.cpp: the type tree -/

/-- Store of the record `t` at the type pointer `p`. -/
def setType (types : TypePtr → Option ValueType) (p : TypePtr) (t : ValueType) :
    TypePtr → Option ValueType :=
  fun q => if q = p then some t else types q

/-- `TypeAdd(pc, Parser, ParentType, Base, ArraySize, Identifier, Sizeof, AlignBytes)`. -/
def TypeAdd (pc : Picoc) (ParentType : TypePtr) (Base : BaseType) (ArraySize : Int)
    (Identifier : Nat) (Sizeof AlignBytes : Int) : Call TypePtr :=
  match VariableAlloc pc (toInt sizeofValueType) true with
  | none => none
  | some (Exit.fail f, pc1) => some (Exit.fail f, pc1)
  | some (Exit.ret a, pc1) =>
    let NewType := TypePtr.heap a
    let node : ValueType :=
      { Base := Base, ArraySize := ArraySize, Sizeof := Sizeof, AlignBytes := AlignBytes,
        Identifier := Identifier, FromType := ParentType, DerivedTypeList := [],
        Members := TablePtr.null, OnHeap := true }
    match pc1.types ParentType with
    | none => none
    | some parent =>
      some (Exit.ret NewType,
        { pc1 with types :=
            (setType (setType pc1.types NewType node) ParentType
              { parent with DerivedTypeList := NewType :: parent.DerivedTypeList }) })

/-- The loop of `TypeGetMatching` along the chain of derived types: the first node of the
chain with the given base, array size and identifier, `some none` when the chain ends
without one, `none` when a link of the chain does not point to a type. -/
def findMatching (types : TypePtr → Option ValueType) (Base : BaseType) (ArraySize : Int)
    (Identifier : Nat) : List TypePtr → Option (Option TypePtr)
  | [] => some none
  | ThisType :: Next =>
    match types ThisType with
    | none => none
    | some t =>
      if t.Base ≠ Base ∨ t.ArraySize ≠ ArraySize ∨ t.Identifier ≠ Identifier then
        findMatching types Base ArraySize Identifier Next
      else some (some ThisType)

/-- `TypeGetMatching(pc, Parser, ParentType, Base, ArraySize, Identifier, AllowDuplicates)`. -/
def TypeGetMatching (pc : Picoc) (ParentType : TypePtr) (Base : BaseType) (ArraySize : Int)
    (Identifier : Nat) (AllowDuplicates : Bool) : Call TypePtr :=
  match pc.types ParentType with
  | none => none
  | some parent =>
    match findMatching pc.types Base ArraySize Identifier parent.DerivedTypeList with
    | none => none
    | some (some ThisType) =>
      if AllowDuplicates then some (Exit.ret ThisType, pc)
      else some (Exit.fail Failure.DataTypeAlreadyDefined, pc)
    | some none =>
      match Base with
      | BaseType.TypePointer =>
        TypeAdd pc ParentType Base ArraySize Identifier 8 pc.PointerAlignBytes
      | BaseType.TypeArray =>
        TypeAdd pc ParentType Base ArraySize Identifier (wrapInt (ArraySize * parent.Sizeof))
          parent.AlignBytes
      | BaseType.TypeEnum => TypeAdd pc ParentType Base ArraySize Identifier 4 pc.IntAlignBytes
      | _ => TypeAdd pc ParentType Base ArraySize Identifier 0 0

/-- A `struct ValueType` of zero bytes, as the host leaves the members of the instance
before `TypeInit`. -/
def zeroType : ValueType :=
  { Base := BaseType.TypeVoid, ArraySize := 0, Sizeof := 0, AlignBytes := 0, Identifier := 0,
    FromType := TypePtr.null, DerivedTypeList := [], Members := TablePtr.null, OnHeap := false }

/-- The record of `pc->UberType`. -/
def uberType (types : TypePtr → Option ValueType) : ValueType :=
  match types (TypePtr.field TypeField.UberType) with
  | some u => u
  | none => zeroType

/-- `TypeAddBaseType(pc, TypeNode, Base, Sizeof, AlignBytes)`, on the store of types. -/
def TypeAddBaseType (StrEmpty : Nat) (types : TypePtr → Option ValueType) (TypeNode : TypeField)
    (Base : BaseType) (Sizeof AlignBytes : Int) : TypePtr → Option ValueType :=
  let node : ValueType :=
    { Base := Base, ArraySize := 0, Sizeof := Sizeof, AlignBytes := AlignBytes,
      Identifier := StrEmpty, FromType := TypePtr.null, DerivedTypeList := [],
      Members := TablePtr.null, OnHeap := false }
  let types1 := setType types (TypePtr.field TypeNode) node
  setType types1 (TypePtr.field TypeField.UberType)
    { uberType types1 with
      DerivedTypeList := TypePtr.field TypeNode :: (uberType types1).DerivedTypeList }

/-- The arguments of the calls of `TypeAddBaseType` in `TypeInit`, in order; the sizes and
alignments are those of the host (`NO_FP` is not defined). -/
def baseTypeCalls : List (TypeField × BaseType × Int × Int) :=
  [ (TypeField.IntType, BaseType.TypeInt, 4, 4),
    (TypeField.ShortType, BaseType.TypeShort, 2, 2),
    (TypeField.CharType, BaseType.TypeChar, 1, 1),
    (TypeField.LongType, BaseType.TypeLong, 8, 8),
    (TypeField.UnsignedIntType, BaseType.TypeUnsignedInt, 4, 4),
    (TypeField.UnsignedShortType, BaseType.TypeUnsignedShort, 2, 2),
    (TypeField.UnsignedLongType, BaseType.TypeUnsignedLong, 8, 8),
    (TypeField.UnsignedCharType, BaseType.TypeUnsignedChar, 1, 1),
    (TypeField.VoidType, BaseType.TypeVoid, 0, 1),
    (TypeField.FunctionType, BaseType.TypeFunction, 4, 4),
    (TypeField.MacroType, BaseType.TypeMacro, 4, 4),
    (TypeField.GotoLabelType, BaseType.TypeGotoLabel, 0, 1),
    (TypeField.FPType, BaseType.TypeFP, 8, 8),
    (TypeField.TypeType, BaseType.Type_Type, 8, 8) ]

/-- `TypeInit(pc)`. -/
def TypeInit (pc : Picoc) : Call Unit :=
  let pc1 : Picoc := { pc with IntAlignBytes := 4, PointerAlignBytes := 8 }
  let types1 := setType pc1.types (TypePtr.field TypeField.UberType)
    { uberType pc1.types with DerivedTypeList := [] }
  let types2 := baseTypeCalls.foldl
    (fun types c => TypeAddBaseType pc1.StrEmpty types c.1 c.2.1 c.2.2.1 c.2.2.2) types1
  let pc2 : Picoc := { pc1 with types := types2 }
  match TypeAdd pc2 (TypePtr.field TypeField.CharType) BaseType.TypeArray 0 pc2.StrEmpty 1 1 with
  | none => none
  | some (Exit.fail f, pc3) => some (Exit.fail f, pc3)
  | some (Exit.ret CharArrayType, pc3) =>
    let pc3 : Picoc := { pc3 with CharArrayType := CharArrayType }
    match TypeAdd pc3 (TypePtr.field TypeField.CharType) BaseType.TypePointer 0 pc3.StrEmpty 8
        pc3.PointerAlignBytes with
    | none => none
    | some (Exit.fail f, pc4) => some (Exit.fail f, pc4)
    | some (Exit.ret CharPtrType, pc4) =>
      let pc4 : Picoc := { pc4 with CharPtrType := CharPtrType }
      match TypeAdd pc4 pc4.CharPtrType BaseType.TypePointer 0 pc4.StrEmpty 8
          pc4.PointerAlignBytes with
      | none => none
      | some (Exit.fail f, pc5) => some (Exit.fail f, pc5)
      | some (Exit.ret CharPtrPtrType, pc5) =>
        let pc5 : Picoc := { pc5 with CharPtrPtrType := CharPtrPtrType }
        match TypeAdd pc5 (TypePtr.field TypeField.VoidType) BaseType.TypePointer 0 pc5.StrEmpty 8
            pc5.PointerAlignBytes with
        | none => none
        | some (Exit.fail f, pc6) => some (Exit.fail f, pc6)
        | some (Exit.ret VoidPtrType, pc6) =>
          some (Exit.ret (), { pc6 with VoidPtrType := VoidPtrType })

/-- The store of types of an instance that the host has filled with zero bytes: every
member of the instance is a zero record and no node is allocated. -/
def blankTypes : TypePtr → Option ValueType
  | TypePtr.field _ => some zeroType
  | _ => none

/-- Two type nodes have the same base, array size and identifier. -/
def sameTriple (t1 t2 : ValueType) : Prop :=
  t1.Base = t2.Base ∧ t1.ArraySize = t2.ArraySize ∧ t1.Identifier = t2.Identifier

/-- No two children of a type node of the store have the same (Base, ArraySize, Identifier). -/
def TypeUnique (types : TypePtr → Option ValueType) : Prop :=
  ∀ p t, types p = some t →
    t.DerivedTypeList.Pairwise
      (fun c1 c2 => ∀ t1 t2, types c1 = some t1 → types c2 = some t2 → ¬ sameTriple t1 t2)

/-- The instances reachable from `TypeInit`, run on an instance filled with zero bytes, by
calls of `TypeGetMatching`, whichever way each call ends. -/
inductive TypeReachable : Picoc → Prop
  | init {pc0 pc : Picoc} {e : Exit Unit} :
      pc0.types = blankTypes → TypeInit pc0 = some (e, pc) → TypeReachable pc
  | step {pc pc2 : Picoc} {e : Exit TypePtr} (ParentType : TypePtr) (Base : BaseType)
      (ArraySize : Int) (Identifier : Nat) (AllowDuplicates : Bool) :
      TypeReachable pc →
      TypeGetMatching pc ParentType Base ArraySize Identifier AllowDuplicates = some (e, pc2) →
      TypeReachable pc2

/-- Every link of a chain of derived types points to a type node. -/
def ChildrenExist (types : TypePtr → Option ValueType) : Prop :=
  ∀ p t, types p = some t → ∀ c ∈ t.DerivedTypeList, ∃ tc, types c = some tc

/-- The invariant of the store of types. -/
def TypeInv (types : TypePtr → Option ValueType) : Prop :=
  ChildrenExist types ∧ TypeUnique types

/-- The state of the store while `TypeInit` adds the base types: the base types in
`done` have been added.  Only `UberType` has children, they are members of the instance
listed in `done`, and their bases are bases listed in `done`. -/
def BasePhase (types : TypePtr → Option ValueType) (done : List (TypeField × BaseType)) : Prop :=
  TypeInv types
    ∧ (∀ p t, types p = some t → ∀ c ∈ t.DerivedTypeList, ∃ fb ∈ done, c = TypePtr.field fb.1)
    ∧ (∀ c ∈ (uberType types).DerivedTypeList, ∀ tc, types c = some tc → ∃ fb ∈ done, tc.Base = fb.2)
    ∧ (∀ p t, p ≠ TypePtr.field TypeField.UberType → types p = some t → t.DerivedTypeList = [])
    ∧ (∀ a, types (TypePtr.heap a) = none)
    ∧ (∃ u, types (TypePtr.field TypeField.UberType) = some u)
    ∧ (∀ fb ∈ done, fb.1 ≠ TypeField.UberType)

/-! ## Symbol tables (table.cpp is not among the sources) -/

/-- Modelled from the spec: the lookup of table.c, which is not among the sources.  A
table is a fixed number of chains and collisions are resolved by chaining (§4.2); keys are
canonical pointers compared by address (§2); the chain of a key is chosen from the
address, here the address modulo the number of chains.  The result is the first entry of
that chain with the key. -/
def TableSearch (Tbl : Table) (Key : Nat) : Option TableEntry :=
  (Tbl.HashTable.getD (Key % Tbl.Size) []).find? (fun e => decide (e.Key = Key))

/-- Modelled from the spec: `TableGet` of table.c, which is not among the sources:
`get(key)` returns the value and the declaration site, or absence (§4.2). -/
def TableGet (Tbl : Table) (Key : Nat) : Option TableEntry := TableSearch Tbl Key

/-- Modelled from the spec: `TableSet` of table.c, which is not among the sources:
`set(key, value, site)` fails if the key is already present (§4.2); otherwise an entry is
allocated, on the heap for a table marked on-heap and on the arena stack otherwise, and
put at the head of the chain of the key.  The result is the flag and the table.  The line
and column are stored in the `unsigned short` fields of `struct TableEntry`. -/
def TableSet (pc : Picoc) (Tbl : Table) (Key Val DeclFileName : Nat) (DeclLine DeclColumn : Int) :
    Call (Bool × Table) :=
  match TableSearch Tbl Key with
  | some _ => some (Exit.ret (false, Tbl), pc)
  | none =>
    match VariableAlloc pc (toInt sizeofTableEntry) Tbl.OnHeap with
    | none => none
    | some (Exit.fail f, pc1) => some (Exit.fail f, pc1)
    | some (Exit.ret _, pc1) =>
      let NewEntry : TableEntry :=
        { DeclFileName := DeclFileName, DeclLine := DeclLine % 65536,
          DeclColumn := DeclColumn % 65536, Key := Key, Val := Val }
      some (Exit.ret (true,
        { Tbl with HashTable :=
            (List.set Tbl.HashTable (Key % Tbl.Size)
              (NewEntry :: Tbl.HashTable.getD (Key % Tbl.Size) [])) }), pc1)

/-- Modelled from the spec: `TableDelete` of table.c, which is not among the sources:
`delete(key)` (§4.2) takes the entry of the key out of its chain. -/
def TableDelete (Tbl : Table) (Key : Nat) : Table :=
  { Tbl with HashTable :=
      (List.set Tbl.HashTable (Key % Tbl.Size)
        ((Tbl.HashTable.getD (Key % Tbl.Size) []).filter (fun e => decide (e.Key ≠ Key)))) }

/-- Modelled from the spec: `TableInitTable` of table.c, which is not among the sources.
A symbol table is a fixed number of chains (§4.2); a new table has `Size` empty chains. -/
def TableInitTable (Size : Nat) (OnHeap : Bool) : Table :=
  { Size := Size, OnHeap := OnHeap, HashTable := List.replicate Size [] }

/-- All entries of a table, chain after chain. -/
def Table.entries (Tbl : Table) : List TableEntry := Tbl.HashTable.flatten

/-! ## type.cpp: struct and union definitions -/

/-- The operator `&` on two `int`s (32 bits, two's complement). -/
def intAnd (a b : Int) : Int := toInt ((a % 4294967296).toNat &&& (b % 4294967296).toNat)

/-- The statement `if ((Sizeof & (AlignBoundary-1)) != 0)
Sizeof += AlignBoundary - (Sizeof & (AlignBoundary-1));` of `TypeParseStruct`: the new
value of `Sizeof`. -/
def alignUp (Sizeof AlignBoundary : Int) : Int :=
  if intAnd Sizeof (wrapInt (AlignBoundary - 1)) ≠ 0 then
    wrapInt (Sizeof + wrapInt (AlignBoundary - intAnd Sizeof (wrapInt (AlignBoundary - 1))))
  else Sizeof

/-- One member declaration of a struct or union body, as the lexer and `TypeParse` deliver
it: the type and identifier that `TypeParse` returns, and whether the token that follows
is `TokenSemicolon`.  The call of `TypeParse` is not made by this model of the loop: the
instance is taken to be the same before and after it, which is so when the declaration
names types that exist and defines none; a body with a member declaration that defines a
type cannot be given this way. -/
structure MemberDecl where
  MemberType : TypePtr
  MemberIdentifier : Nat
  Semicolon : Bool
  deriving DecidableEq, Repr

/-- One iteration of the `do ... while` loop of `TypeParseStruct`, for the struct or union
`Typ` whose member table is at `Members`. -/
def structMember (pc : Picoc) (Parser : ParseState) (Typ : TypePtr) (Members : Nat)
    (IsStruct : Bool) (m : MemberDecl) : Call Unit :=
  if m.MemberType = TypePtr.null ∨ m.MemberIdentifier = 0 then
    some (Exit.fail Failure.InvalidTypeInStruct, pc)
  else
    match VariableAllocValueAndData pc (some Parser) 4 false 0 true with
    | none => none
    | some (Exit.fail f, pc1) => some (Exit.fail f, pc1)
    | some (Exit.ret MemberValue, pc1) =>
      match pc1.vals MemberValue, pc1.types Typ, pc1.types m.MemberType with
      | some v0, some st, some mt =>
        let v : Value := { v0 with Typ := m.MemberType }
        let vals1 := fun a => if a = MemberValue then some v else pc1.vals a
        -- the location of the member and the new size
        let laid : Option (Memory × (TypePtr → Option ValueType)) :=
          if IsStruct then
            let AlignBoundary := mt.AlignBytes
            let types1 := setType pc1.types Typ { st with Sizeof := alignUp st.Sizeof AlignBoundary }
            let Integer1 := writeInt pc1.arena.Memory v.Val (alignUp st.Sizeof AlignBoundary)
            match TypeSizeValue types1 v true with
            | none => none
            | some sz =>
              some (Integer1, setType types1 Typ
                { st with Sizeof := wrapInt (alignUp st.Sizeof AlignBoundary + sz) })
          else
            let Integer1 := writeInt pc1.arena.Memory v.Val 0
            if mt.Sizeof > st.Sizeof then
              match TypeSizeValue pc1.types v true with
              | none => none
              | some sz => some (Integer1, setType pc1.types Typ { st with Sizeof := sz })
            else some (Integer1, pc1.types)
        match laid with
        | none => none
        | some (Integer1, types2) =>
          -- the alignment of the largest member
          match types2 Typ, types2 m.MemberType with
          | some st2, some mt2 =>
            let types3 :=
              if st2.AlignBytes < mt2.AlignBytes then
                setType types2 Typ { st2 with AlignBytes := mt2.AlignBytes }
              else types2
            let pc2 : Picoc :=
              { pc1 with
                vals := vals1, arena := { pc1.arena with Memory := Integer1 }, types := types3 }
            match pc2.tables Members with
            | none => none
            | some Tbl =>
              match TableSet pc2 Tbl m.MemberIdentifier MemberValue Parser.FileName Parser.Line
                  Parser.CharacterPos with
              | none => none
              | some (Exit.fail f, pc3) => some (Exit.fail f, pc3)
              | some (Exit.ret (ok, Tbl1), pc3) =>
                let pc4 : Picoc :=
                  { pc3 with tables := fun a => if a = Members then some Tbl1 else pc3.tables a }
                if ¬ ok then some (Exit.fail Failure.MemberAlreadyDefined, pc4)
                else if ¬ m.Semicolon then some (Exit.fail Failure.SemicolonExpected, pc4)
                else some (Exit.ret (), pc4)
          | _, _ => none
      | _, _, _ => none

/-- The iterations of the `do ... while` loop of `TypeParseStruct` over the member
declarations of the body. -/
def structMembers (pc : Picoc) (Parser : ParseState) (Typ : TypePtr) (Members : Nat)
    (IsStruct : Bool) : List MemberDecl → Call Unit
  | [] => some (Exit.ret (), pc)
  | m :: rest =>
    match structMember pc Parser Typ Members IsStruct m with
    | none => none
    | some (Exit.fail f, pc1) => some (Exit.fail f, pc1)
    | some (Exit.ret _, pc1) => structMembers pc1 Parser Typ Members IsStruct rest

/-- `TypeParseStruct(Parser, Typ, IsStruct)`: the result is `*Typ`.  The tokens are given by
what the lexer and `TypeParse` deliver: `StructIdentifier` is the identifier after the
keyword (or the temporary name made for an anonymous type), `LeftBrace` tells whether a
body follows, and `first :: rest` are the member declarations of the body (the loop runs
at least once). -/
def TypeParseStruct (pc : Picoc) (Parser : ParseState) (StructIdentifier : Nat) (LeftBrace : Bool)
    (first : MemberDecl) (rest : List MemberDecl) (IsStruct : Bool) : Call TypePtr :=
  match TypeGetMatching pc (TypePtr.field TypeField.UberType)
      (if IsStruct then BaseType.TypeStruct else BaseType.TypeUnion) 0 StructIdentifier true with
  | none => none
  | some (Exit.fail f, pc1) => some (Exit.fail f, pc1)
  | some (Exit.ret Typ, pc1) =>
    match pc1.types Typ with
    | none => none
    | some st =>
      if LeftBrace ∧ st.Members ≠ TablePtr.null then
        some (Exit.fail Failure.DataTypeAlreadyDefined, pc1)
      else if ¬ LeftBrace then some (Exit.ret Typ, pc1)
      else if pc1.TopStackFrame ≠ 0 then some (Exit.fail Failure.StructNotGlobal, pc1)
      else
        match VariableAlloc pc1
            (toInt (sizeofTable + STRUCT_TABLE_SIZE * sizeofTableEntry)) true with
        | none => none
        | some (Exit.fail f, pc2) => some (Exit.fail f, pc2)
        | some (Exit.ret Members, pc2) =>
          let pc3 : Picoc :=
            { pc2 with
              types := (setType pc2.types Typ { st with Members := TablePtr.heap Members })
              tables := (fun a =>
                if a = Members then some (TableInitTable STRUCT_TABLE_SIZE true) else pc2.tables a) }
          match structMembers pc3 Parser Typ Members IsStruct (first :: rest) with
          | none => none
          | some (Exit.fail f, pc4) => some (Exit.fail f, pc4)
          | some (Exit.ret _, pc4) =>
            match pc4.types Typ with
            | none => none
            | some st4 =>
              some (Exit.ret Typ,
                { pc4 with types :=
                    (setType pc4.types Typ
                      { st4 with Sizeof := alignUp st4.Sizeof st4.AlignBytes }) })

/-- `TypeCreateOpaqueStruct(pc, Parser, StructName, Size)`. -/
def TypeCreateOpaqueStruct (pc : Picoc) (StructName : Nat) (Size : Int) : Call TypePtr :=
  match TypeGetMatching pc (TypePtr.field TypeField.UberType) BaseType.TypeStruct 0 StructName
      false with
  | none => none
  | some (Exit.fail f, pc1) => some (Exit.fail f, pc1)
  | some (Exit.ret Typ, pc1) =>
    match VariableAlloc pc1 (toInt (sizeofTable + STRUCT_TABLE_SIZE * sizeofTableEntry)) true with
    | none => none
    | some (Exit.fail f, pc2) => some (Exit.fail f, pc2)
    | some (Exit.ret Members, pc2) =>
      match pc2.types Typ with
      | none => none
      | some st =>
        some (Exit.ret Typ,
          { pc2 with
            types := (setType pc2.types Typ
              { st with Members := TablePtr.heap Members, Sizeof := Size })
            tables := (fun a =>
              if a = Members then some (TableInitTable STRUCT_TABLE_SIZE true) else pc2.tables a) })

/-! ## variable.cpp: stack frames -/

/-- Modelled from the spec: `ParserCopy` of parse.c, which is not among the sources.  The
parser state is a value type that is copied as a whole (§3), so the destination becomes
the source. -/
def ParserCopy (From : ParseState) : ParseState := From

/-- `VariableStackFrameAdd(Parser, FuncName, NumParams)`.  The frame record is zero-filled
by `HeapAllocStack`, so `ReturnValue` and `NumParams` are zero. -/
def VariableStackFrameAdd (pc : Picoc) (Parser : ParseState) (FuncName : Nat) (NumParams : Int) :
    Call Unit :=
  match HeapPushStackFrame pc.arena with
  | none => none
  | some arena1 =>
    match HeapAllocStack arena1
        (toInt ((sizeofStackFrame + (8 * toSizeT NumParams) % addrLimit) % addrLimit)) with
    | none => none
    | some (arena2, NewFrame) =>
      if NewFrame = 0 then some (Exit.fail Failure.OutOfMemory, { pc with arena := arena2 })
      else
        let frame : StackFrame :=
          { ReturnParser := ParserCopy Parser, FuncName := FuncName, ReturnValue := 0,
            Parameter := if NumParams > 0 then NewFrame + sizeofStackFrame else 0,
            NumParams := 0, LocalTable := TableInitTable LOCAL_TABLE_SIZE false,
            PreviousStackFrame := pc.TopStackFrame }
        some (Exit.ret (),
          { pc with
            arena := arena2
            frames := fun a => if a = NewFrame then some frame else pc.frames a
            TopStackFrame := NewFrame })

/-- `VariableStackFramePop(Parser)`: the result is the parser state left in `*Parser`.  The
flag returned by `HeapPopStackFrame` is not looked at. -/
def VariableStackFramePop (pc : Picoc) (_Parser : ParseState) : Call ParseState :=
  if pc.TopStackFrame = 0 then some (Exit.fail Failure.StackEmpty, pc)
  else
    match pc.frames pc.TopStackFrame with
    | none => none
    | some frame =>
      match HeapPopStackFrame pc.arena with
      | none => none
      | some (arena1, _) =>
        some (Exit.ret (ParserCopy frame.ReturnParser),
          { pc with TopStackFrame := frame.PreviousStackFrame, arena := arena1 })

/-- What a function body does to the instance between the call and the return, as far as
the frame is concerned: it allocates on the stack, pops what it allocated (the top stays
above the frame link), writes value headers and payloads (not the frame link), and binds
names in the local table of the top frame. -/
inductive FrameActivity : Picoc → Picoc → Prop
  | refl (pc : Picoc) : FrameActivity pc pc
  | alloc {pc pc1 pc2 : Picoc} {p : Nat} (Size : Int) :
      VariableAlloc pc Size false = some (Exit.ret p, pc1) → FrameActivity pc1 pc2 →
      FrameActivity pc pc2
  | pop {pc pc2 : Picoc} {arena1 : Arena} {b : Bool} (Size : Int) :
      HeapPopStack pc.arena Size = some (arena1, b) →
      pc.arena.StackFrame + 8 ≤ arena1.HeapStackTop →
      FrameActivity { pc with arena := arena1 } pc2 → FrameActivity pc pc2
  | header {pc pc2 : Picoc} (vals : Nat → Option Value) (Memory : Memory) :
      (∀ k, k < 8 → Memory (pc.arena.StackFrame + k) = pc.arena.Memory (pc.arena.StackFrame + k)) →
      FrameActivity { pc with vals := vals, arena := { pc.arena with Memory := Memory } } pc2 →
      FrameActivity pc pc2
  | bind {pc pc2 : Picoc} {frame : StackFrame} (LocalTable : Table) :
      pc.frames pc.TopStackFrame = some frame →
      FrameActivity
        { pc with frames := fun a =>
            if a = pc.TopStackFrame then some { frame with LocalTable := LocalTable }
            else pc.frames a } pc2 →
      FrameActivity pc pc2

/-! ## variable.cpp: scopes -/

/-- The table `(pc->TopStackFrame == nullptr) ? &pc->GlobalTable :
&pc->TopStackFrame->LocalTable`; `none` when `TopStackFrame` does not point to a frame. -/
def currentTable (pc : Picoc) : Option Table :=
  if pc.TopStackFrame = 0 then some pc.GlobalTable
  else (pc.frames pc.TopStackFrame).map (fun f => f.LocalTable)

/-- Store of a table in the place of the current table. -/
def setCurrentTable (pc : Picoc) (Tbl : Table) : Picoc :=
  if pc.TopStackFrame = 0 then { pc with GlobalTable := Tbl }
  else
    { pc with frames := (fun a =>
        if a = pc.TopStackFrame then (pc.frames a).map (fun f => { f with LocalTable := Tbl })
        else pc.frames a) }

/-- The loop `for (Entry = ...; Entry != nullptr; Entry = NextEntry)` along one chain, with
`body` applied to each entry in turn; `body` may change the value headers and the entry. -/
def chainLoop (body : (Nat → Option Value) → TableEntry → Option ((Nat → Option Value) × TableEntry)) :
    (Nat → Option Value) → List TableEntry → Option ((Nat → Option Value) × List TableEntry)
  | vals, [] => some (vals, [])
  | vals, Entry :: Next =>
    match body vals Entry with
    | none => none
    | some (vals1, Entry1) =>
      match chainLoop body vals1 Next with
      | none => none
      | some (vals2, Next1) => some (vals2, Entry1 :: Next1)

/-- The loop `for (Count = 0; Count < HashTable->Size; Count++)` over the chains. -/
def tableLoop (body : (Nat → Option Value) → TableEntry → Option ((Nat → Option Value) × TableEntry)) :
    (Nat → Option Value) → List (List TableEntry) →
      Option ((Nat → Option Value) × List (List TableEntry))
  | vals, [] => some (vals, [])
  | vals, chain :: chains =>
    match chainLoop body vals chain with
    | none => none
    | some (vals1, chain1) =>
      match tableLoop body vals1 chains with
      | none => none
      | some (vals2, chains1) => some (vals2, chain1 :: chains1)

/-- The body of the loops of `VariableScopeBegin`: an entry whose value has the scope id
and is out of scope is brought back, `Key & ~1`. -/
def scopeBeginEntry (ScopeID : Int) (vals : Nat → Option Value) (Entry : TableEntry) :
    Option ((Nat → Option Value) × TableEntry) :=
  match vals Entry.Val with
  | none => none
  | some v =>
    if v.ScopeID = ScopeID ∧ v.OutOfScope = true then
      some (fun a => if a = Entry.Val then some { v with OutOfScope := false } else vals a,
        { Entry with Key := Entry.Key &&& (addrLimit - 2) })
    else some (vals, Entry)

/-- The body of the loops of `VariableScopeEnd`: an entry whose value has the scope id and
is in scope is hidden, `Key | 1`. -/
def scopeEndEntry (ScopeID : Int) (vals : Nat → Option Value) (Entry : TableEntry) :
    Option ((Nat → Option Value) × TableEntry) :=
  match vals Entry.Val with
  | none => none
  | some v =>
    if v.ScopeID = ScopeID ∧ ¬ v.OutOfScope = true then
      some (fun a => if a = Entry.Val then some { v with OutOfScope := true } else vals a,
        { Entry with Key := Entry.Key ||| 1 })
    else some (vals, Entry)

/-- The scope id that `VariableScopeBegin` computes,
`(int)(intptr_t)(Parser->SourceText) * ((int)(intptr_t)(Parser->Pos) / sizeof(char*))`:
the division and the product are done in `size_t`, the result is cut to an `int`. -/
def scopeHash (Parser : ParseState) : Int :=
  toInt ((toSizeT (toInt Parser.SourceText) * (toSizeT (toInt Parser.Pos) / 8)) % addrLimit)

/-- `VariableScopeBegin(Parser, OldScopeID)`: the result is the returned id, the parser
state and the content of `*OldScopeID` (`OldScopeID` on entry). -/
def VariableScopeBegin (pc : Picoc) (Parser : ParseState) (OldScopeID : Int) :
    Call (Int × ParseState × Int) :=
  if Parser.ScopeID = -1 then some (Exit.ret (-1, Parser, OldScopeID), pc)
  else
    let Parser1 : ParseState := { Parser with ScopeID := scopeHash Parser }
    match currentTable pc with
    | none => none
    | some HashTable =>
      if HashTable.HashTable.length ≠ HashTable.Size then none
      else
        match tableLoop (scopeBeginEntry Parser1.ScopeID) pc.vals HashTable.HashTable with
        | none => none
        | some (vals1, chains1) =>
          some (Exit.ret (Parser1.ScopeID, Parser1, Parser.ScopeID),
            setCurrentTable { pc with vals := vals1 } { HashTable with HashTable := chains1 })

/-- `VariableScopeEnd(Parser, ScopeID, PrevScopeID)`: the result is the parser state. -/
def VariableScopeEnd (pc : Picoc) (Parser : ParseState) (ScopeID PrevScopeID : Int) :
    Call ParseState :=
  if ScopeID = -1 then some (Exit.ret Parser, pc)
  else
    match currentTable pc with
    | none => none
    | some HashTable =>
      if HashTable.HashTable.length ≠ HashTable.Size then none
      else
        match tableLoop (scopeEndEntry ScopeID) pc.vals HashTable.HashTable with
        | none => none
        | some (vals1, chains1) =>
          some (Exit.ret { Parser with ScopeID := PrevScopeID },
            setCurrentTable { pc with vals := vals1 } { HashTable with HashTable := chains1 })

/-- The loops of `VariableDefinedAndOutOfScope` over the entries of a table. -/
def definedAndOutOfScope (vals : Nat → Option Value) (Ident : Nat) : List TableEntry → Option Bool
  | [] => some false
  | Entry :: Next =>
    match vals Entry.Val with
    | none => none
    | some v =>
      if v.OutOfScope = true ∧ Entry.Key &&& (addrLimit - 2) = Ident then some true
      else definedAndOutOfScope vals Ident Next

/-- `VariableDefinedAndOutOfScope(pc, Ident)`. -/
def VariableDefinedAndOutOfScope (pc : Picoc) (Ident : Nat) : Option Bool :=
  match currentTable pc with
  | none => none
  | some HashTable =>
    if HashTable.HashTable.length ≠ HashTable.Size then none
    else definedAndOutOfScope pc.vals Ident HashTable.entries

/-- `VariableDefined(pc, Ident)`. -/
def VariableDefined (pc : Picoc) (Ident : Nat) : Option Bool :=
  match currentTable pc with
  | none => none
  | some Tbl =>
    if pc.TopStackFrame = 0 ∨ (TableGet Tbl Ident).isNone then
      if (TableGet pc.GlobalTable Ident).isNone then some false else some true
    else some true

/-- `VariableGet(pc, Parser, Ident, LVal)`: the result is `*LVal`. -/
def VariableGet (pc : Picoc) (Ident : Nat) : Call Nat :=
  match currentTable pc with
  | none => none
  | some Tbl =>
    match (if pc.TopStackFrame = 0 then none else TableGet Tbl Ident) with
    | some e => some (Exit.ret e.Val, pc)
    | none =>
      match TableGet pc.GlobalTable Ident with
      | some e => some (Exit.ret e.Val, pc)
      | none =>
        match VariableDefinedAndOutOfScope pc Ident with
        | none => none
        | some true => some (Exit.fail Failure.OutOfScope, pc)
        | some false => some (Exit.fail Failure.Undefined, pc)

/-! ## variable.cpp: definitions -/

/-- The effect of `memcpy(dst, src, n)` through a temporary buffer. -/
def memcpy (m : Memory) (dst src n : Nat) : Memory :=
  fun a => if dst ≤ a ∧ a < dst + n then m (src + (a - dst)) else m a

/-- The constant `MAX_TMP_COPY_BUF` of variable.cpp. -/
def MAX_TMP_COPY_BUF : Int := 256

/-- `VariableAllocValueAndCopy(pc, Parser, FromValue, OnHeap)`. -/
def VariableAllocValueAndCopy (pc : Picoc) (Parser : Option ParseState) (FromValue : Nat)
    (OnHeap : Bool) : Call Nat :=
  match pc.vals FromValue with
  | none => none
  | some fv =>
    match TypeSizeValue pc.types fv true with
    | none => none
    | some CopySize =>
      if ¬ CopySize ≤ MAX_TMP_COPY_BUF then none
      else
        let TmpBuf : Memory := fun k => pc.arena.Memory (fv.Val + k)
        match VariableAllocValueAndData pc Parser CopySize fv.IsLValue fv.LValueFrom OnHeap with
        | none => none
        | some (Exit.fail f, pc1) => some (Exit.fail f, pc1)
        | some (Exit.ret NewValue, pc1) =>
          match pc1.vals NewValue with
          | none => none
          | some v =>
            some (Exit.ret NewValue,
              { pc1 with
                vals := (fun a => if a = NewValue then some { v with Typ := fv.Typ } else pc1.vals a)
                arena := { pc1.arena with
                  Memory := (fun a =>
                    if v.Val ≤ a ∧ a < v.Val + toSizeT CopySize then TmpBuf (a - v.Val)
                    else pc1.arena.Memory a) } })

/-- `VariableDefine(pc, Parser, Ident, InitValue, Typ, MakeWritable)`; `InitValue` is `0`
for `nullptr`. -/
def VariableDefine (pc : Picoc) (Parser : Option ParseState) (Ident : Nat) (InitValue : Nat)
    (Typ : TypePtr) (MakeWritable : Bool) : Call Nat :=
  let ScopeID : Int := match Parser with
    | some ps => ps.ScopeID
    | none => -1
  match (if InitValue ≠ 0 then
      VariableAllocValueAndCopy pc Parser InitValue (decide (pc.TopStackFrame = 0))
    else
      VariableAllocValueFromType pc Parser Typ MakeWritable 0 (decide (pc.TopStackFrame = 0))) with
  | none => none
  | some (Exit.fail f, pc1) => some (Exit.fail f, pc1)
  | some (Exit.ret AssignValue, pc1) =>
    match pc1.vals AssignValue, currentTable pc1 with
    | some v, some Tbl =>
      let pc2 : Picoc :=
        { pc1 with vals := (fun a =>
            if a = AssignValue then
              some { v with IsLValue := MakeWritable, ScopeID := ScopeID, OutOfScope := false }
            else pc1.vals a) }
      match TableSet pc2 Tbl Ident AssignValue
          (match Parser with
            | some ps => ps.FileName
            | none => 0)
          (match Parser with
            | some ps => ps.Line
            | none => 0)
          (match Parser with
            | some ps => ps.CharacterPos
            | none => 0) with
      | none => none
      | some (Exit.fail f, pc3) => some (Exit.fail f, pc3)
      | some (Exit.ret (ok, Tbl1), pc3) =>
        if ¬ ok then some (Exit.fail Failure.AlreadyDefined, setCurrentTable pc3 Tbl1)
        else some (Exit.ret AssignValue, setCurrentTable pc3 Tbl1)
    | _, _ => none

/-- Modelled from the spec: `TableSearchIdentifier` of table.c, which is not among the
sources: the canonical pointer of a character sequence that was registered (§4.2), found
by a search of the string table. -/
def TableSearchIdentifier (pc : Picoc) (Str : List Char) : Option Nat :=
  pc.StringTable.find? (fun a => decide (pc.strings a = some Str))

/-- Modelled from the spec: `TableStrRegister` of table.c, which is not among the sources.
`register(text)` returns the canonical pointer of the character sequence, the same for equal
sequences (§4.2); an interned string is a table entry whose key bytes follow the header and
whose address is the canonical pointer (§3).  A sequence not yet registered gets a new
entry from the heap, 24 bytes of header and the characters. -/
def TableStrRegister (pc : Picoc) (Str : List Char) : Call Nat :=
  match TableSearchIdentifier pc Str with
  | some a => some (Exit.ret a, pc)
  | none =>
    match VariableAlloc pc (24 + Str.length + 1) true with
    | none => none
    | some (Exit.fail f, pc1) => some (Exit.fail f, pc1)
    | some (Exit.ret NewEntry, pc1) =>
      if (pc1.strings (NewEntry + 24)).isSome then none
      else
        some (Exit.ret (NewEntry + 24),
          { pc1 with
            strings := (fun a => if a = NewEntry + 24 then some Str else pc1.strings a)
            StringTable := (NewEntry + 24) :: pc1.StringTable })

/-- `VariableDefinePlatformVar(pc, Parser, Ident, Typ, FromValue, IsWritable)`; `Ident` is
the address of a C string. -/
def VariableDefinePlatformVar (pc : Picoc) (Parser : Option ParseState) (Ident : Nat)
    (Typ : TypePtr) (FromValue : Nat) (IsWritable : Bool) : Call Unit :=
  match VariableAllocValueAndData pc none 0 IsWritable 0 true with
  | none => none
  | some (Exit.fail f, pc1) => some (Exit.fail f, pc1)
  | some (Exit.ret SomeValue, pc1) =>
    match pc1.vals SomeValue, pc1.strings Ident with
    | some v, some Str =>
      let pc2 : Picoc :=
        { pc1 with vals := (fun a =>
            if a = SomeValue then some { v with Typ := Typ, Val := FromValue } else pc1.vals a) }
      match TableStrRegister pc2 Str with
      | none => none
      | some (Exit.fail f, pc3) => some (Exit.fail f, pc3)
      | some (Exit.ret Key, pc3) =>
        match currentTable pc3 with
        | none => none
        | some Tbl =>
          match TableSet pc3 Tbl Key SomeValue
              (match Parser with
                | some ps => ps.FileName
                | none => 0)
              (match Parser with
                | some ps => ps.Line
                | none => 0)
              (match Parser with
                | some ps => ps.CharacterPos
                | none => 0) with
          | none => none
          | some (Exit.fail f, pc4) => some (Exit.fail f, pc4)
          | some (Exit.ret (ok, Tbl1), pc4) =>
            if ¬ ok then some (Exit.fail Failure.AlreadyDefined, setCurrentTable pc4 Tbl1)
            else some (Exit.ret (), setCurrentTable pc4 Tbl1)
    | _, _ => none

/-- `TypeIsForwardDeclared(Parser, Typ)`, with at most `fuel` nested calls. -/
def TypeIsForwardDeclared (types : TypePtr → Option ValueType) : Nat → TypePtr → Option Bool
  | 0, _ => none
  | fuel + 1, Typ =>
    match types Typ with
    | none => none
    | some t =>
      if t.Base = BaseType.TypeArray then TypeIsForwardDeclared types fuel t.FromType
      else if (t.Base = BaseType.TypeStruct ∨ t.Base = BaseType.TypeUnion)
          ∧ t.Members = TablePtr.null then some true
      else some false

/-- The name that `VariableDefineButIgnoreIdentical` builds in `MangledName` for a static:
`/`, the file name, inside a function `/` and the function name, `/` and the identifier,
cut to the `LINEBUFFER_MAX - 1` characters of the buffer. -/
def mangledName (FileName : List Char) (FuncName : Option (List Char)) (Ident : List Char) :
    List Char :=
  let MNEnd := LINEBUFFER_MAX - 1
  let buf1 := ['/'] ++ FileName.take (MNEnd - 1)
  let buf2 := match FuncName with
    | none => buf1
    | some fn =>
      let b := if MNEnd - buf1.length > 0 then buf1 ++ ['/'] else buf1
      b ++ fn.take (MNEnd - b.length)
  let buf3 := if MNEnd - buf2.length > 0 then buf2 ++ ['/'] else buf2
  buf3 ++ Ident.take (MNEnd - buf3.length)

/-- The characters of `pc->TopStackFrame->FuncName` inside a function (`some`), nothing at
file scope, where `pc->TopStackFrame == nullptr`; `none` when a pointer on the way does not
point to an object. -/
def enclosingFuncName (pc : Picoc) : Option (Option (List Char)) :=
  if pc.TopStackFrame ≠ 0 then
    (pc.frames pc.TopStackFrame).bind (fun f => (pc.strings f.FuncName).map some)
  else some none

/-- `VariableDefineButIgnoreIdentical(Parser, Ident, Typ, IsStatic, FirstVisit)`: the result
is the returned value and the content of `*FirstVisit` (`FirstVisit` on entry).  `fuel`
bounds the nesting of `TypeIsForwardDeclared`. -/
def VariableDefineButIgnoreIdentical (fuel : Nat) (pc : Picoc) (Parser : ParseState) (Ident : Nat)
    (Typ : TypePtr) (IsStatic : Bool) (FirstVisit : Bool) : Call (Nat × Bool) :=
  match TypeIsForwardDeclared pc.types fuel Typ with
  | none => none
  | some true => some (Exit.fail Failure.TypeNotDefined, pc)
  | some false =>
    if IsStatic then
      match pc.strings Parser.FileName, pc.strings Ident, enclosingFuncName pc with
      | some FileName, some IdentStr, some FuncName =>
        match TableStrRegister pc (mangledName FileName FuncName IdentStr) with
        | none => none
        | some (Exit.fail f, pc1) => some (Exit.fail f, pc1)
        | some (Exit.ret RegisteredMangledName, pc1) =>
          let found : Call (Nat × Bool) :=
            match TableGet pc1.GlobalTable RegisteredMangledName with
            | some e => some (Exit.ret (e.Val, FirstVisit), pc1)
            | none =>
              match VariableAllocValueFromType pc1 (some Parser) Typ true 0 true with
              | none => none
              | some (Exit.fail f, pc2) => some (Exit.fail f, pc2)
              | some (Exit.ret ExistingValue, pc2) =>
                match TableSet pc2 pc2.GlobalTable RegisteredMangledName ExistingValue
                    Parser.FileName Parser.Line Parser.CharacterPos with
                | none => none
                | some (Exit.fail f, pc3) => some (Exit.fail f, pc3)
                | some (Exit.ret (_, Tbl1), pc3) =>
                  some (Exit.ret (ExistingValue, true), { pc3 with GlobalTable := Tbl1 })
          match found with
          | none => none
          | some (Exit.fail f, pc4) => some (Exit.fail f, pc4)
          | some (Exit.ret (ExistingValue, FirstVisit1), pc4) =>
            match pc4.vals ExistingValue with
            | none => none
            | some ev =>
              match VariableDefinePlatformVar pc4 (some Parser) Ident ev.Typ ev.Val true with
              | none => none
              | some (Exit.fail f, pc5) => some (Exit.fail f, pc5)
              | some (Exit.ret _, pc5) => some (Exit.ret (ExistingValue, FirstVisit1), pc5)
      | _, _, _ => none
    else
      match currentTable pc with
      | none => none
      | some Tbl =>
        match (if Parser.Line ≠ 0 then TableGet Tbl Ident else none) with
        | some e =>
          if e.DeclFileName = Parser.FileName ∧ e.DeclLine = Parser.Line
              ∧ e.DeclColumn = Parser.CharacterPos then
            some (Exit.ret (e.Val, FirstVisit), pc)
          else
            match VariableDefine pc (some Parser) Ident 0 Typ true with
            | none => none
            | some (Exit.fail f, pc1) => some (Exit.fail f, pc1)
            | some (Exit.ret v, pc1) => some (Exit.ret (v, FirstVisit), pc1)
        | none =>
          match VariableDefine pc (some Parser) Ident 0 Typ true with
          | none => none
          | some (Exit.fail f, pc1) => some (Exit.fail f, pc1)
          | some (Exit.ret v, pc1) => some (Exit.ret (v, FirstVisit), pc1)

/-! ## Closed form of the scope loops -/

/-- A loop body of the shape shared by `VariableScopeBegin` and `VariableScopeEnd`: when
the value of the entry passes the test `cond`, the value becomes `f v` and the entry
`g Entry`. -/
def condBody (cond : Value → Bool) (f : Value → Value) (g : TableEntry → TableEntry)
    (vals : Nat → Option Value) (Entry : TableEntry) : Option ((Nat → Option Value) × TableEntry) :=
  match vals Entry.Val with
  | none => none
  | some v =>
    if cond v then some (fun a => if a = Entry.Val then some (f v) else vals a, g Entry)
    else some (vals, Entry)

/-- The value of the entry `e` passes the test `cond`. -/
def hit (cond : Value → Bool) (vals : Nat → Option Value) (e : TableEntry) : Bool :=
  match vals e.Val with
  | some v => cond v
  | none => false

/-- Some entry of `l` points to the value at `a` and that value passes the test `cond`. -/
def hitAt (cond : Value → Bool) (vals : Nat → Option Value) (l : List TableEntry) (a : Nat) : Bool :=
  l.any (fun e => decide (e.Val = a) && hit cond vals e)

/-- The test of `VariableScopeEnd`: `Val->ScopeID == ScopeID && !Val->OutOfScope`. -/
def endCond (ScopeID : Int) (v : Value) : Bool := decide (v.ScopeID = ScopeID) && !v.OutOfScope

/-- The test of `VariableScopeBegin`: `Val->ScopeID == Parser->ScopeID && Val->OutOfScope`. -/
def beginCond (ScopeID : Int) (v : Value) : Bool := decide (v.ScopeID = ScopeID) && v.OutOfScope

/-- The parts of the state that an allocation leaves alone. -/
def SameBindings (pc pc1 : Picoc) : Prop :=
  pc1.GlobalTable = pc.GlobalTable ∧ pc1.TopStackFrame = pc.TopStackFrame
    ∧ pc1.frames = pc.frames ∧ pc1.strings = pc.strings ∧ pc1.StringTable = pc.StringTable
    ∧ pc1.types = pc.types

/-- The forward-declared types in the words of the specification: a struct or union
without a member table, or an array whose element type is forward-declared. -/
inductive ForwardDeclared (types : TypePtr → Option ValueType) : TypePtr → Prop
  | aggregate {Typ : TypePtr} {t : ValueType} : types Typ = some t →
      (t.Base = BaseType.TypeStruct ∨ t.Base = BaseType.TypeUnion) → t.Members = TablePtr.null →
      ForwardDeclared types Typ
  | array {Typ : TypePtr} {t : ValueType} : types Typ = some t → t.Base = BaseType.TypeArray →
      ForwardDeclared types t.FromType → ForwardDeclared types Typ

/-- The type is `Depth` array derivations above a type that is not an array. -/
inductive ArrayDepth (types : TypePtr → Option ValueType) : TypePtr → Nat → Prop
  | element {Typ : TypePtr} {t : ValueType} : types Typ = some t → t.Base ≠ BaseType.TypeArray →
      ArrayDepth types Typ 0
  | array {Typ : TypePtr} {t : ValueType} {Depth : Nat} : types Typ = some t →
      t.Base = BaseType.TypeArray → ArrayDepth types t.FromType Depth →
      ArrayDepth types Typ (Depth + 1)

/-- The allocation with which `VariableDefine` starts: a copy of `InitValue`, or a new
value of the type `Typ`. -/
def VariableDefineValue (pc : Picoc) (Parser : Option ParseState) (InitValue : Nat)
    (Typ : TypePtr) (MakeWritable : Bool) : Call Nat :=
  if InitValue ≠ 0 then
    VariableAllocValueAndCopy pc Parser InitValue (decide (pc.TopStackFrame = 0))
  else
    VariableAllocValueFromType pc Parser Typ MakeWritable 0 (decide (pc.TopStackFrame = 0))

/-- The facts about an open frame that the body of the function keeps: the top frame
`T` with its saved parser `P` and link `prev`, the arena frame base `SF` with the link
`link` stored at it, and a stack top above that link. -/
def FrameKept (T : Nat) (P : ParseState) (prev SF link : Nat) (pc : Picoc) : Prop :=
  pc.TopStackFrame = T
    ∧ (∃ f, pc.frames T = some f ∧ f.ReturnParser = P ∧ f.PreviousStackFrame = prev)
    ∧ pc.arena.StackFrame = SF ∧ readPtr pc.arena.Memory SF = link
    ∧ SF + 8 ≤ pc.arena.HeapStackTop ∧ pc.arena.inBlock SF 8

/-! ## type.cpp: enum definitions -/

/-- The token that follows an enumerator in the body of an enum, as far as `TypeParseEnum`
looks at it. -/
inductive EnumToken
  | TokenComma | TokenRightBrace | other
  deriving DecidableEq, Repr

/-- One enumerator of the body of an enum, as the lexer delivers it: the identifier, the
`int` that `ExpressionParseInt` returns for the constant after `=` when there is one, the
state of the parser when the enumerator is defined, and the token that follows.
Modelled from the spec: `ExpressionParseInt` of expression.c, which is not among the
sources, evaluates an integer constant (§4.4) and leaves the instance as it is. -/
structure EnumDecl where
  EnumIdentifier : Nat
  Assign : Option Int
  Parser : ParseState
  Token : EnumToken
  deriving DecidableEq, Repr

/-- The `do ... while` loop of `TypeParseEnum` over the enumerators that the lexer still
has.  `InitValue` and `pEnumValue` are the addresses of the local variables `InitValue` and
`EnumValue` of the call, `EnumValue` is the content of the latter; its bytes are at
`pEnumValue` when `VariableDefine` copies them.  Without a further enumerator the next
token is not an identifier. -/
def enumLoop (InitValue pEnumValue : Nat) : Picoc → Int → List EnumDecl → Call Unit
  | pc, _, [] => some (Exit.fail Failure.IdentifierExpected, pc)
  | pc, EnumValue, d :: rest =>
    let EnumValue1 : Int := d.Assign.getD EnumValue
    let pc1 : Picoc :=
      { pc with arena := { pc.arena with
          Memory := writeInt pc.arena.Memory pEnumValue EnumValue1 } }
    match VariableDefine pc1 (some d.Parser) d.EnumIdentifier InitValue TypePtr.null false with
    | none => none
    | some (Exit.fail f, pc2) => some (Exit.fail f, pc2)
    | some (Exit.ret _, pc2) =>
      match d.Token with
      | EnumToken.other => some (Exit.fail Failure.CommaExpected, pc2)
      | EnumToken.TokenRightBrace => some (Exit.ret (), pc2)
      | EnumToken.TokenComma => enumLoop InitValue pEnumValue pc2 (wrapInt (EnumValue1 + 1)) rest

/-- The header of the local variable `InitValue` of `TypeParseEnum`: the bytes are zero
(`memset`) but for the type, `int`, and the payload pointer, the address of the local
variable `EnumValue`. -/
def enumInitValue (pEnumValue : Nat) : Value :=
  { Typ := TypePtr.field TypeField.IntType, Val := pEnumValue, LValueFrom := 0,
    ValOnHeap := false, ValOnStack := false, AnyValOnHeap := false, IsLValue := false,
    ScopeID := 0, OutOfScope := false }

/-- `TypeParseEnum(Parser, Typ)`: the result is `*Typ`.  The tokens are given by what the
lexer delivers: `EnumIdentifier` is the identifier after the keyword (or the temporary
name made for an anonymous enum), `LeftBrace` tells whether a body follows, and `decls`
are the enumerators of the body.  `InitValue` and `pEnumValue` are the addresses of the
local variables `InitValue` and `EnumValue` in the frame of the call, which end with the
call. -/
def TypeParseEnum (pc : Picoc) (EnumIdentifier : Nat) (LeftBrace : Bool) (decls : List EnumDecl)
    (InitValue pEnumValue : Nat) : Call TypePtr :=
  match TypeGetMatching pc (TypePtr.field TypeField.UberType) BaseType.TypeEnum 0 EnumIdentifier
      (!LeftBrace) with
  | none => none
  | some (Exit.fail f, pc1) => some (Exit.fail f, pc1)
  | some (Exit.ret _, pc1) =>
    let Typ := TypePtr.field TypeField.IntType
    match pc1.types Typ with
    | none => none
    | some it =>
      if ¬ LeftBrace then
        if it.Members = TablePtr.null then some (Exit.fail Failure.EnumNotDefined, pc1)
        else some (Exit.ret Typ, pc1)
      else if pc1.TopStackFrame ≠ 0 then some (Exit.fail Failure.EnumNotGlobal, pc1)
      else if InitValue = 0 ∨ (pc1.vals InitValue).isSome then none
      else
        let pc2 : Picoc :=
          { pc1 with
            types := (setType pc1.types Typ { it with Members := TablePtr.GlobalTable })
            vals := (fun a =>
              if a = InitValue then some (enumInitValue pEnumValue) else pc1.vals a) }
        match enumLoop InitValue pEnumValue pc2 0 decls with
        | none => none
        | some (Exit.fail f, pc3) =>
          some (Exit.fail f,
            { pc3 with vals := fun a => if a = InitValue then none else pc3.vals a })
        | some (Exit.ret _, pc3) =>
          some (Exit.ret Typ,
            { pc3 with vals := fun a => if a = InitValue then none else pc3.vals a })

/-- The block of `n` bytes at `a` is one the process allocator may return: the address is
not null, no object of the instance is at it, and the block does not overlap the block of
the arena. -/
def FreshBlock (pc : Picoc) (a n : Nat) : Prop :=
  a ≠ 0 ∧ pc.vals a = none ∧ pc.tables a = none ∧ pc.types (TypePtr.heap a) = none
    ∧ (a + n ≤ pc.arena.HeapMemory ∨ pc.arena.HeapMemory + pc.arena.HeapSize ≤ a)

/-- The blocks of `n` bytes at the addresses of `l` do not overlap one another. -/
def DisjointBlocks (n : Nat) (l : List Nat) : Prop :=
  l.Pairwise (fun a b => a + n ≤ b ∨ b + n ≤ a)

/-- The byte at `x` is live storage that no allocation of at most `N` bytes hands out: it
lies in the block of the arena below the stack top, or outside that block and outside the
blocks of `N` bytes at the addresses that the process allocator will return. -/
def LiveByte (pc : Picoc) (N x : Nat) : Prop :=
  (pc.arena.HeapMemory ≤ x ∧ x < pc.arena.HeapStackTop
      ∧ x < pc.arena.HeapMemory + pc.arena.HeapSize)
    ∨ ((x < pc.arena.HeapMemory ∨ pc.arena.HeapMemory + pc.arena.HeapSize ≤ x)
        ∧ ∀ a ∈ pc.calloc, x < a ∨ a + N ≤ x)

instance (n : Nat) (l : List Nat) : Decidable (DisjointBlocks n l) := by
  unfold DisjointBlocks; infer_instance

instance (pc : Picoc) (N x : Nat) : Decidable (LiveByte pc N x) := by
  unfold LiveByte; infer_instance

/-- The numbering of enumerators in the words of the specification: the first is 0 unless
it is written with `= c`; an enumerator written `X = c` gets `c`; an enumerator without
`=` gets the value of the previous one plus one.  `next` is the value for an enumerator
without `=`. -/
def enumValues : Int → List (Option Int) → List Int
  | _, [] => []
  | _, some c :: rest => c :: enumValues (c + 1) rest
  | next, none :: rest => next :: enumValues (next + 1) rest

/-- The global table binds the identifier to a value that is not writable, has the type
`int` and holds `x`. -/
def EnumBound (pc : Picoc) (Ident : Nat) (x : Int) : Prop :=
  ∃ e hdr, TableGet pc.GlobalTable Ident = some e ∧ pc.vals e.Val = some hdr
    ∧ hdr.Typ = TypePtr.field TypeField.IntType ∧ hdr.IsLValue = false
    ∧ readInt pc.arena.Memory hdr.Val = x

/-- The state in which the loop of `TypeParseEnum` runs: no frame, a well-formed global
table, the header of `InitValue`, the type `int` of four bytes, an allocator whose blocks
do not overlap, and the local variable `EnumValue` in live storage. -/
def EnumInv (InitValue pEnumValue : Nat) (pc : Picoc) : Prop :=
  pc.TopStackFrame = 0 ∧ pc.GlobalTable.HashTable.length = pc.GlobalTable.Size
    ∧ 0 < pc.GlobalTable.Size ∧ pc.vals InitValue = some (enumInitValue pEnumValue)
    ∧ (∃ it, pc.types (TypePtr.field TypeField.IntType) = some it
        ∧ it.Base = BaseType.TypeInt ∧ it.Sizeof = 4)
    ∧ DisjointBlocks 44 pc.calloc ∧ ∀ k, k < 4 → LiveByte pc 44 (pEnumValue + k)

/-- The binding `EnumBound`, with the facts that keep it while further enumerators are
defined: the header is not the local variable `InitValue`, and the payload is live storage
that does not overlap the local variable `EnumValue`. -/
def EnumKept (InitValue pEnumValue : Nat) (pc : Picoc) (Ident : Nat) (x : Int) : Prop :=
  ∃ e hdr, TableGet pc.GlobalTable Ident = some e ∧ e.Val ≠ InitValue
    ∧ pc.vals e.Val = some hdr
    ∧ hdr.Typ = TypePtr.field TypeField.IntType ∧ hdr.IsLValue = false
    ∧ readInt pc.arena.Memory hdr.Val = x
    ∧ ∀ k, k < 4 → LiveByte pc 44 (hdr.Val + k) ∧ ∀ j, j < 4 → hdr.Val + k ≠ pEnumValue + j

/-! ## The layout of a struct in the words of the specification -/

/-- In the words of the specification (§4.4): the size `x` rounded up to the alignment
`a`. -/
def roundUpTo (x a : Int) : Int := if x % a = 0 then x else x + (a - x % a)

/-- In the words of the specification (§4.4): the offsets of the members of a struct, each
given by its alignment and its size, in the order of declaration, when the aggregate has
the size `cur` so far: the size so far is rounded up to the alignment of the member, which
is the offset of the member, and the size of the member is added. -/
def referenceOffsets : Int → List (Int × Int) → List Int
  | _, [] => []
  | cur, (a, s) :: rest => roundUpTo cur a :: referenceOffsets (roundUpTo cur a + s) rest

/-- In the words of the specification (§4.4): the size of the aggregate after its last
member. -/
def referenceEnd : Int → List (Int × Int) → Int
  | cur, [] => cur
  | cur, (a, s) :: rest => referenceEnd (roundUpTo cur a + s) rest

/-- In the words of the specification (§4.4): the maximum alignment seen, from `al` on. -/
def referenceAlign : Int → List (Int × Int) → Int
  | al, [] => al
  | al, (a, _) :: rest => referenceAlign (max al a) rest

/-- In the words of the specification (§4.4): the size of a struct, the size after the last
member rounded up to the maximum alignment. -/
def referenceSizeof (ms : List (Int × Int)) : Int :=
  roundUpTo (referenceEnd 0 ms) (referenceAlign 0 ms)

/-- The alignment of the type of a member: `MemberValue->Typ->AlignBytes`. -/
def memberAlign (pc : Picoc) (m : MemberDecl) : Int :=
  ((pc.types m.MemberType).map (fun t => t.AlignBytes)).getD 0

/-- The size of a member: `TypeSizeValue(MemberValue, true)` for a value of the type of
the member. -/
def memberSize (pc : Picoc) (m : MemberDecl) : Int :=
  (TypeSizeValue pc.types
    { Typ := m.MemberType, Val := 0, LValueFrom := 0, ValOnHeap := true, ValOnStack := false,
      AnyValOnHeap := false, IsLValue := false, ScopeID := 0, OutOfScope := false } true).getD 0

/-- The alignments and sizes of the members of a declaration. -/
def memberLayout (pc : Picoc) (ms : List MemberDecl) : List (Int × Int) :=
  ms.map (fun m => (memberAlign pc m, memberSize pc m))

/-- The member table at `Members` binds the identifier of the member `m` to a value of the
type of `m` whose payload, four bytes of live storage, holds the offset `off`. -/
def MemberKept (Members : Nat) (pc : Picoc) (m : MemberDecl) (off : Int) : Prop :=
  ∃ tbl e hdr, pc.tables Members = some tbl ∧ TableGet tbl m.MemberIdentifier = some e
    ∧ pc.vals e.Val = some hdr ∧ hdr.Typ = m.MemberType
    ∧ readInt pc.arena.Memory hdr.Val = off ∧ ∀ k, k < 4 → LiveByte pc 44 (hdr.Val + k)

/-- The struct `Typ` has a member table which binds the identifier of the member `m` to a
value of the type of `m` whose payload holds the offset `off`. -/
def MemberAt (pc : Picoc) (Typ : TypePtr) (m : MemberDecl) (off : Int) : Prop :=
  ∃ st M tbl e hdr, pc.types Typ = some st ∧ st.Members = TablePtr.heap M
    ∧ pc.tables M = some tbl ∧ TableGet tbl m.MemberIdentifier = some e
    ∧ pc.vals e.Val = some hdr ∧ hdr.Typ = m.MemberType
    ∧ readInt pc.arena.Memory hdr.Val = off

/-! ## lex.c: the token buffer -/

/-- The constants of `enum LexToken` (interpreter.h). -/
inductive LexToken
  | TokenNone
  | TokenComma
  | TokenAssign | TokenAddAssign | TokenSubtractAssign | TokenMultiplyAssign
  | TokenDivideAssign | TokenModulusAssign
  | TokenShiftLeftAssign | TokenShiftRightAssign | TokenArithmeticAndAssign
  | TokenArithmeticOrAssign | TokenArithmeticExorAssign
  | TokenQuestionMark | TokenColon
  | TokenLogicalOr
  | TokenLogicalAnd
  | TokenArithmeticOr
  | TokenArithmeticExor
  | TokenAmpersand
  | TokenEqual | TokenNotEqual
  | TokenLessThan | TokenGreaterThan | TokenLessEqual | TokenGreaterEqual
  | TokenShiftLeft | TokenShiftRight
  | TokenPlus | TokenMinus
  | TokenAsterisk | TokenSlash | TokenModulus
  | TokenIncrement | TokenDecrement | TokenUnaryNot | TokenUnaryExor | TokenSizeof | TokenCast
  | TokenLeftSquareBracket | TokenRightSquareBracket | TokenDot | TokenArrow
  | TokenOpenBracket | TokenCloseBracket
  | TokenIdentifier | TokenIntegerConstant | TokenFPConstant | TokenStringConstant
  | TokenCharacterConstant
  | TokenSemicolon | TokenEllipsis
  | TokenLeftBrace | TokenRightBrace
  | TokenIntType | TokenCharType | TokenFloatType | TokenDoubleType | TokenVoidType
  | TokenEnumType
  | TokenLongType | TokenSignedType | TokenShortType | TokenStaticType | TokenAutoType
  | TokenRegisterType | TokenExternType | TokenStructType | TokenUnionType
  | TokenUnsignedType | TokenTypedef
  | TokenContinue | TokenDo | TokenElse | TokenFor | TokenGoto | TokenIf | TokenWhile
  | TokenBreak | TokenSwitch | TokenCase | TokenDefault | TokenReturn
  | TokenHashDefine | TokenHashInclude | TokenHashIf | TokenHashIfdef | TokenHashIfndef
  | TokenHashElse | TokenHashEndif
  | TokenNew | TokenDelete
  | TokenOpenMacroBracket
  | TokenEOF | TokenEndOfLine | TokenEndOfFunction
  deriving DecidableEq, Repr

/-- Modelled from the spec: one token of the token buffer into which the cursor of the
parser points (§3, Parser State), as `LexGetToken` of lex.c, which is not among the
sources, delivers it: the token, the identifier (`LexValue->Val->Identifier`) of a
`TokenIdentifier`, the value of a `TokenIntegerConstant`, the position of the cursor after
the token, and the line and column of the parser once it has passed the token. -/
structure Lexeme where
  Token : LexToken
  Identifier : Nat
  Integer : Int
  NextPos : Nat
  Line : Int
  CharacterPos : Int
  deriving DecidableEq, Repr

/-- The token buffer: the token at each position of the cursor. -/
abbrev TokenBuffer := Nat → Lexeme

/-- Modelled from the spec: `LexGetToken(Parser, Value, IncPos)` of lex.c, which is not
among the sources: the token at the cursor and its value; the parser moves past the token
when `IncPos` is set and stays as it is otherwise. -/
def LexGetToken (buf : TokenBuffer) (Parser : ParseState) (IncPos : Bool) :
    LexToken × Lexeme × ParseState :=
  ((buf Parser.Pos).Token, buf Parser.Pos,
    if IncPos then
      { Parser with Pos := (buf Parser.Pos).NextPos, Line := (buf Parser.Pos).Line,
                    CharacterPos := (buf Parser.Pos).CharacterPos }
    else Parser)

/-- Modelled from the spec: `ExpressionParseInt(Parser)` of expression.c, which is not
among the sources, for an expression that is one integer constant: the value of the
constant and the parser after it.  Other expressions are outside the model (`none`). -/
def ExpressionParseInt (buf : TokenBuffer) (Parser : ParseState) : Option (Int × ParseState) :=
  if (LexGetToken buf Parser true).1 = LexToken.TokenIntegerConstant then
    some ((LexGetToken buf Parser true).2.1.Integer, (LexGetToken buf Parser true).2.2)
  else none

/-! ## type.cpp: declarators -/

/-- `TypeParseBack(Parser, FromType)`, with at most `fuel` nested calls: the result is the
returned type and the parser.  The recursive call is an argument of the call of
`TypeGetMatching`, so it is made first.  The `long` that `ExpressionParseInt` returns is
stored in the `int ArraySize`. -/
def TypeParseBack (buf : TokenBuffer) : Nat → Picoc → ParseState → TypePtr →
    Call (TypePtr × ParseState)
  | 0, _, _, _ => none
  | fuel + 1, pc, Parser, FromType =>
    let Before := ParserCopy Parser
    let Parser1 := (LexGetToken buf Parser true).2.2
    if (LexGetToken buf Parser true).1 = LexToken.TokenLeftSquareBracket then
      if (LexGetToken buf Parser1 false).1 = LexToken.TokenRightSquareBracket then
        let Parser2 := (LexGetToken buf Parser1 true).2.2
        match TypeParseBack buf fuel pc Parser2 FromType with
        | none => none
        | some (Exit.fail f, pc1) => some (Exit.fail f, pc1)
        | some (Exit.ret (Elem, Parser3), pc1) =>
          match TypeGetMatching pc1 Elem BaseType.TypeArray 0 pc1.StrEmpty true with
          | none => none
          | some (Exit.fail f, pc2) => some (Exit.fail f, pc2)
          | some (Exit.ret Typ, pc2) => some (Exit.ret (Typ, Parser3), pc2)
      else
        let OldMode := Parser1.Mode
        match ExpressionParseInt buf { Parser1 with Mode := RunMode.RunModeRun } with
        | none => none
        | some (Value, ParserE) =>
          let ArraySize := wrapInt Value
          let Parser2 : ParseState := { ParserE with Mode := OldMode }
          let Parser3 := (LexGetToken buf Parser2 true).2.2
          if (LexGetToken buf Parser2 true).1 ≠ LexToken.TokenRightSquareBracket then
            some (Exit.fail Failure.RightSquareBracketExpected, pc)
          else
            match TypeParseBack buf fuel pc Parser3 FromType with
            | none => none
            | some (Exit.fail f, pc1) => some (Exit.fail f, pc1)
            | some (Exit.ret (Elem, Parser4), pc1) =>
              match TypeGetMatching pc1 Elem BaseType.TypeArray ArraySize pc1.StrEmpty true with
              | none => none
              | some (Exit.fail f, pc2) => some (Exit.fail f, pc2)
              | some (Exit.ret Typ, pc2) => some (Exit.ret (Typ, Parser4), pc2)
    else some (Exit.ret (FromType, ParserCopy Before), pc)

/-- The loop `while (Token == TokenStaticType || Token == TokenAutoType || Token ==
TokenRegisterType || Token == TokenExternType)` of `TypeParseFront`, for at most `fuel`
qualifiers: the token that ends it with its value, the parser after that token, and
`StaticQualifier`. -/
def qualifierLoop (buf : TokenBuffer) : Nat → LexToken → Lexeme → ParseState → Bool →
    Option (LexToken × Lexeme × ParseState × Bool)
  | 0, _, _, _, _ => none
  | fuel + 1, Token, LexerValue, Parser, StaticQualifier =>
    if Token = LexToken.TokenStaticType ∨ Token = LexToken.TokenAutoType
        ∨ Token = LexToken.TokenRegisterType ∨ Token = LexToken.TokenExternType then
      qualifierLoop buf fuel (LexGetToken buf Parser true).1 (LexGetToken buf Parser true).2.1
        (LexGetToken buf Parser true).2.2
        (if Token = LexToken.TokenStaticType then true else StaticQualifier)
    else some (Token, LexerValue, Parser, StaticQualifier)

/-- What the model takes as given in `TypeParseFront`: the calls `TypeParseStruct(Parser,
Typ, IsStruct)` and `TypeParseEnum(Parser, Typ)`, embedded above on the declarations that
the lexer and `TypeParse` deliver, and the lookup of a typedef name, `VariableGet` followed
by `*Typ = VarValue->Val->Typ`, which reads the address of a type from a payload.  The
arguments are the token, the value of the token, the instance and the parser after the
token; the result is `*Typ` and the parser. -/
abbrev NamedType := LexToken → Lexeme → Picoc → ParseState → Call (TypePtr × ParseState)

/-- `TypeParseFront(Parser, Typ, IsStatic)`, for at most `fuel` qualifiers: the result is
the returned flag, `*Typ`, the value of `StaticQualifier` (stored in `*IsStatic` when that
pointer is not null) and the parser.  In the cases of struct, union and enum `*Typ` is
still null, so the test before the call of the parser of the body does not fail. -/
def TypeParseFront (Named : NamedType) (buf : TokenBuffer) (fuel : Nat) (pc : Picoc)
    (Parser : ParseState) : Call (Bool × TypePtr × Bool × ParseState) :=
  let Before := ParserCopy Parser
  match qualifierLoop buf fuel (LexGetToken buf Parser true).1
      (LexGetToken buf Parser true).2.1 (LexGetToken buf Parser true).2.2 false with
  | none => none
  | some (Token0, LexerValue0, Parser1, StaticQualifier) =>
    let Signed : Bool :=
      decide (Token0 = LexToken.TokenSignedType ∨ Token0 = LexToken.TokenUnsignedType)
    let FollowToken := (LexGetToken buf Parser1 false).1
    let Unsigned : Bool := decide (Token0 = LexToken.TokenUnsignedType)
    if Signed ∧ FollowToken ≠ LexToken.TokenIntType ∧ FollowToken ≠ LexToken.TokenLongType
        ∧ FollowToken ≠ LexToken.TokenShortType ∧ FollowToken ≠ LexToken.TokenCharType then
      some (Exit.ret (true,
        (if Token0 = LexToken.TokenUnsignedType then TypePtr.field TypeField.UnsignedIntType
         else TypePtr.field TypeField.IntType), StaticQualifier, Parser1), pc)
    else
      let Token := if Signed then (LexGetToken buf Parser1 true).1 else Token0
      let LexerValue := if Signed then (LexGetToken buf Parser1 true).2.1 else LexerValue0
      let Parser2 := if Signed then (LexGetToken buf Parser1 true).2.2 else Parser1
      let basic (t u : TypeField) : Call (Bool × TypePtr × Bool × ParseState) :=
        some (Exit.ret (true, TypePtr.field (if Unsigned then u else t), StaticQualifier,
          Parser2), pc)
      if Token = LexToken.TokenIntType then basic TypeField.IntType TypeField.UnsignedIntType
      else if Token = LexToken.TokenShortType then
        basic TypeField.ShortType TypeField.UnsignedShortType
      else if Token = LexToken.TokenCharType then
        basic TypeField.CharType TypeField.UnsignedCharType
      else if Token = LexToken.TokenLongType then
        basic TypeField.LongType TypeField.UnsignedLongType
      else if Token = LexToken.TokenFloatType ∨ Token = LexToken.TokenDoubleType then
        basic TypeField.FPType TypeField.FPType
      else if Token = LexToken.TokenVoidType then basic TypeField.VoidType TypeField.VoidType
      else if Token = LexToken.TokenStructType ∨ Token = LexToken.TokenUnionType
          ∨ Token = LexToken.TokenEnumType ∨ Token = LexToken.TokenIdentifier then
        match Named Token LexerValue pc Parser2 with
        | none => none
        | some (Exit.fail f, pc1) => some (Exit.fail f, pc1)
        | some (Exit.ret (Typ, Parser3), pc1) =>
          some (Exit.ret (true, Typ, StaticQualifier, Parser3), pc1)
      else some (Exit.ret (false, TypePtr.null, StaticQualifier, ParserCopy Before), pc)

/-- The loop `while (!Done)` of `TypeParseIdentPart`, for at most `fuel` tokens, with `*Typ`
and `*Identifier` as arguments and results; `Rec` is the call `TypeParse(Parser, Typ,
Identifier, nullptr)` of the case of the open bracket. -/
def identLoop (Rec : Picoc → ParseState → Call (TypePtr × Nat × ParseState))
    (buf : TokenBuffer) :
    Nat → Picoc → ParseState → TypePtr → Nat → Call (TypePtr × Nat × ParseState)
  | 0, _, _, _, _ => none
  | fuel + 1, pc, Parser, Typ, Identifier =>
    let Before := ParserCopy Parser
    let Token := (LexGetToken buf Parser true).1
    let LexValue := (LexGetToken buf Parser true).2.1
    let Parser1 := (LexGetToken buf Parser true).2.2
    if Token = LexToken.TokenOpenBracket then
      if Typ ≠ TypePtr.null then some (Exit.fail Failure.BadTypeDeclaration, pc)
      else
        match Rec pc Parser1 with
        | none => none
        | some (Exit.fail f, pc1) => some (Exit.fail f, pc1)
        | some (Exit.ret (Typ1, Identifier1, Parser2), pc1) =>
          if (LexGetToken buf Parser2 true).1 ≠ LexToken.TokenCloseBracket then
            some (Exit.fail Failure.CloseBracketExpected, pc1)
          else identLoop Rec buf fuel pc1 (LexGetToken buf Parser2 true).2.2 Typ1 Identifier1
    else if Token = LexToken.TokenAsterisk then
      if Typ = TypePtr.null then some (Exit.fail Failure.BadTypeDeclaration, pc)
      else
        match TypeGetMatching pc Typ BaseType.TypePointer 0 pc.StrEmpty true with
        | none => none
        | some (Exit.fail f, pc1) => some (Exit.fail f, pc1)
        | some (Exit.ret Typ1, pc1) => identLoop Rec buf fuel pc1 Parser1 Typ1 Identifier
    else if Token = LexToken.TokenIdentifier then
      if Typ = TypePtr.null ∨ Identifier ≠ pc.StrEmpty then
        some (Exit.fail Failure.BadTypeDeclaration, pc)
      else some (Exit.ret (Typ, LexValue.Identifier, Parser1), pc)
    else some (Exit.ret (Typ, Identifier, ParserCopy Before), pc)

/-- The body of `TypeParseIdentPart(Parser, BasicTyp, Typ, Identifier)` with the nested call
of `TypeParse` given by `Rec`: the result is `*Typ`, `*Identifier` and the parser. -/
def identPart (Rec : Picoc → ParseState → Call (TypePtr × Nat × ParseState))
    (buf : TokenBuffer) (fuel : Nat) (pc : Picoc) (Parser : ParseState) (BasicTyp : TypePtr) :
    Call (TypePtr × Nat × ParseState) :=
  match identLoop Rec buf fuel pc Parser BasicTyp pc.StrEmpty with
  | none => none
  | some (Exit.fail f, pc1) => some (Exit.fail f, pc1)
  | some (Exit.ret (Typ, Identifier, Parser1), pc1) =>
    if Typ = TypePtr.null then some (Exit.fail Failure.BadTypeDeclaration, pc1)
    else if Identifier ≠ pc1.StrEmpty then
      match TypeParseBack buf fuel pc1 Parser1 Typ with
      | none => none
      | some (Exit.fail f, pc2) => some (Exit.fail f, pc2)
      | some (Exit.ret (Typ2, Parser2), pc2) => some (Exit.ret (Typ2, Identifier, Parser2), pc2)
    else some (Exit.ret (Typ, Identifier, Parser1), pc1)

/-- `TypeParse(Parser, Typ, Identifier, IsStatic)`, nested at most `fuel` deep: the result
is `*Typ`, `*Identifier`, the value for `*IsStatic` and the parser.  The value that
`TypeParseFront` returns is not looked at. -/
def TypeParse (Named : NamedType) (buf : TokenBuffer) :
    Nat → Picoc → ParseState → Call (TypePtr × Nat × Bool × ParseState)
  | 0, _, _ => none
  | fuel + 1, pc, Parser =>
    match TypeParseFront Named buf (fuel + 1) pc Parser with
    | none => none
    | some (Exit.fail f, pc1) => some (Exit.fail f, pc1)
    | some (Exit.ret (_, BasicType, IsStatic, Parser1), pc1) =>
      match identPart
          (fun pcR ParserR =>
            match TypeParse Named buf fuel pcR ParserR with
            | none => none
            | some (Exit.fail f, pc2) => some (Exit.fail f, pc2)
            | some (Exit.ret (Typ, Identifier, _, Parser2), pc2) =>
              some (Exit.ret (Typ, Identifier, Parser2), pc2))
          buf (fuel + 1) pc1 Parser1 BasicType with
      | none => none
      | some (Exit.fail f, pc2) => some (Exit.fail f, pc2)
      | some (Exit.ret (Typ, Identifier, Parser2), pc2) =>
        some (Exit.ret (Typ, Identifier, IsStatic, Parser2), pc2)

/-- `TypeParseIdentPart(Parser, BasicTyp, Typ, Identifier)`, with nested declarations at
most `fuel` deep: the result is `*Typ`, `*Identifier` and the parser. -/
def TypeParseIdentPart (Named : NamedType) (buf : TokenBuffer) (fuel : Nat) (pc : Picoc)
    (Parser : ParseState) (BasicTyp : TypePtr) : Call (TypePtr × Nat × ParseState) :=
  identPart
    (fun pcR ParserR =>
      match TypeParse Named buf fuel pcR ParserR with
      | none => none
      | some (Exit.fail f, pc2) => some (Exit.fail f, pc2)
      | some (Exit.ret (Typ, Identifier, _, Parser2), pc2) =>
        some (Exit.ret (Typ, Identifier, Parser2), pc2))
    buf (fuel + 1) pc Parser BasicTyp

/-! ## Example states -/

/-- The arena after `HeapInit` on a block of 1024 zero bytes at address 4096. -/
def exArena : Arena :=
  { HeapMemory := 4096, HeapSize := 1024, HeapBottom := 5112, StackFrame := 4096,
    HeapStackTop := 4096, Memory := writePtr (fun _ => 0) 4096 0 }

/-- The arena `exArena` after `HeapAllocStack(5)`. -/
def exArenaPushed : Arena :=
  { exArena with HeapStackTop := 4104, Memory := memset exArena.Memory 4096 0 5 }

/-- The `int` type node as `TypeInit` makes it. -/
def exIntType : ValueType :=
  { Base := BaseType.TypeInt, ArraySize := 0, Sizeof := 4, AlignBytes := 4, Identifier := 16,
    FromType := TypePtr.null, DerivedTypeList := [], Members := TablePtr.null, OnHeap := false }

/-- The `char` type node, with one derived type: the array type at heap address 800. -/
def exCharType : ValueType :=
  { Base := BaseType.TypeChar, ArraySize := 0, Sizeof := 1, AlignBytes := 1, Identifier := 16,
    FromType := TypePtr.null, DerivedTypeList := [TypePtr.heap 800], Members := TablePtr.null,
    OnHeap := false }

/-- The type `char [3]`. -/
def exCharArray3 : ValueType :=
  { Base := BaseType.TypeArray, ArraySize := 3, Sizeof := 3, AlignBytes := 1, Identifier := 16,
    FromType := TypePtr.field TypeField.CharType, DerivedTypeList := [],
    Members := TablePtr.null, OnHeap := true }

/-- An empty table with `n` chains. -/
def emptyTable (n : Nat) (OnHeap : Bool) : Table :=
  { Size := n, OnHeap := OnHeap, HashTable := List.replicate n [] }

/-- An instance on the arena `exArena` with the types `int`, `char` and `char [3]`, empty
tables and no stack frame; the allocator will return 10000, 10100, 10200, 10300. -/
def exPicoc : Picoc :=
  { arena := exArena, calloc := [10000, 10100, 10200, 10300],
    types := fun t =>
      if t = TypePtr.field TypeField.IntType then some exIntType
      else if t = TypePtr.field TypeField.CharType then some exCharType
      else if t = TypePtr.heap 800 then some exCharArray3
      else none,
    PointerAlignBytes := 8, IntAlignBytes := 4, CharPtrType := TypePtr.null,
    CharPtrPtrType := TypePtr.null, CharArrayType := TypePtr.null, VoidPtrType := TypePtr.null,
    vals := fun _ => none,
    GlobalTable := emptyTable GLOBAL_TABLE_SIZE true,
    StringLiteralTable := emptyTable GLOBAL_TABLE_SIZE true,
    TopStackFrame := 0, frames := fun _ => none, tables := fun _ => none,
    strings := fun _ => none, StringTable := [], StrEmpty := 16 }

/-- A parser state in the middle of a source file. -/
def exParser : ParseState :=
  { Pos := 70000, FileName := 32, Line := 3, CharacterPos := 5, Mode := RunMode.RunModeRun,
    SearchLabel := 0, SearchGotoLabel := 0, SourceText := 60000, HashIfLevel := 0,
    HashIfEvaluateToLevel := 0, DebugMode := 0, ScopeID := 77 }

/-- The state that a call leaves, or `pc` when the call has none. -/
def stateAfter {α : Type} (pc : Picoc) (c : Call α) : Picoc :=
  match c with
  | some (_, pc1) => pc1
  | none => pc

/-- The instance `exPicoc` after a `char [3]` value was allocated on the stack. -/
def exAfterFromType : Picoc :=
  stateAfter exPicoc (VariableAllocValueFromType exPicoc none (TypePtr.heap 800) true 0 false)

/-- The instance `exPicoc` after a header for the payload at 10000 was allocated. -/
def exAfterExisting : Picoc :=
  stateAfter exPicoc
    (VariableAllocValueFromExistingData exPicoc (TypePtr.field TypeField.IntType) 10000 true 0)

/-- The instance `exAfterFromType` after a header sharing the value at 4096 was allocated. -/
def exAfterShared : Picoc :=
  stateAfter exAfterFromType (VariableAllocValueShared exAfterFromType 4096)

/-- The instance `exPicoc` after `VariableStackFrameAdd` for a call with two parameters. -/
def exAfterFrameAdd : Picoc :=
  stateAfter exPicoc (VariableStackFrameAdd exPicoc exParser 24 2)

/-- The instance `exAfterFrameAdd` after a stack allocation of 12 bytes. -/
def exAfterFrameAlloc : Picoc :=
  stateAfter exAfterFrameAdd (VariableAlloc exAfterFrameAdd 12 false)

/-- An instance filled with zero bytes, on the arena `exArena`, whose allocator will return
10000, 10100, 10200, 10300, 10400. -/
def exBlank : Picoc :=
  { exPicoc with types := blankTypes, calloc := [10000, 10100, 10200, 10300, 10400] }

/-- The instance `exBlank` after `TypeInit`. -/
def exTyped : Picoc := stateAfter exBlank (TypeInit exBlank)

/-- The instance `exTyped` after the type `int *` was made. -/
def exTypedPtr : Picoc :=
  stateAfter exTyped
    (TypeGetMatching exTyped (TypePtr.field TypeField.IntType) BaseType.TypePointer 0 16 true)

/-- The instance `exTyped` with a fresh supply of heap addresses. -/
def exS : Picoc :=
  { exTyped with calloc := [20000, 20100, 20200, 20300, 20400, 20500, 20600, 20700] }

/-- The instance after `struct S { char c; struct S inner; int x; };` was parsed in `exS`:
`S` is the identifier at 48 and the node at heap address 20000; `c`, `inner` and `x` are
the identifiers at 52, 56 and 60. -/
def exAfterSelfStruct : Picoc :=
  stateAfter exS
    (TypeParseStruct exS exParser 48 true ⟨TypePtr.field TypeField.CharType, 52, true⟩
      [⟨TypePtr.heap 20000, 56, true⟩, ⟨TypePtr.field TypeField.IntType, 60, true⟩] true)

/-- The instance `exS` after the time library made its opaque `struct tm` (identifier at
64, `sizeof(struct tm)` is 56 on the host): the node at heap address 20000. -/
def exTm : Picoc := stateAfter exS (TypeCreateOpaqueStruct exS 64 56)

/-- The instance after `struct X { int a; struct tm t; };` was parsed in `exTm`: `X` is the
node at heap address 20200; `a` and `t` are the identifiers at 52 and 56. -/
def exAfterTmStruct : Picoc :=
  stateAfter exTm
    (TypeParseStruct exTm exParser 48 true ⟨TypePtr.field TypeField.IntType, 52, true⟩
      [⟨TypePtr.heap 20000, 56, true⟩] true)

/-- The instance after `union U { struct tm t; };` was parsed in `exTm`: `U` is the node
at heap address 20200; `t` is the identifier at 56. -/
def exAfterTmUnion : Picoc :=
  stateAfter exTm
    (TypeParseStruct exTm exParser 48 true ⟨TypePtr.heap 20000, 56, true⟩ [] false)

/-- The instance after `union V { char a[]; };` was parsed in `exS`: `V` is the node at heap
address 20000; the type `char []` is the node at 10000 that `TypeInit` made. -/
def exAfterCharUnion : Picoc :=
  stateAfter exS
    (TypeParseStruct exS exParser 48 true ⟨TypePtr.heap 10000, 56, true⟩ [] false)

/-- A value header of an `int` variable on the stack. -/
def exScopeValue (Val : Nat) (ScopeID : Int) (OutOfScope : Bool) : Value :=
  { Typ := TypePtr.field TypeField.IntType, Val := Val, LValueFrom := 0, ValOnHeap := false,
    ValOnStack := true, AnyValOnHeap := false, IsLValue := true, ScopeID := ScopeID,
    OutOfScope := OutOfScope }

/-- A table entry declared in the file of `exParser`. -/
def exScopeEntry (Key Val : Nat) : TableEntry :=
  { DeclFileName := 32, DeclLine := 3, DeclColumn := 5, Key := Key, Val := Val }

/-- A local table with four variables: the keys 52 and 60 of the block 525000000, the key 56
of the block 5, and the hidden key 62 of the block 7. -/
def exScopeTable : Table :=
  { Size := 11, OnHeap := false,
    HashTable := [[], [exScopeEntry 56 30100], [], [], [], [exScopeEntry 60 30200], [],
      [exScopeEntry 63 30300], [exScopeEntry 52 30000], [], []] }

/-- The table `exScopeTable` with the keys 52 and 60 tagged. -/
def exScopeHidden : Table :=
  { Size := 11, OnHeap := false,
    HashTable := [[], [exScopeEntry 56 30100], [], [], [], [exScopeEntry 61 30200], [],
      [exScopeEntry 63 30300], [exScopeEntry 53 30000], [], []] }

/-- An instance inside a function call whose local table is `exScopeTable`. -/
def exScope : Picoc :=
  { exPicoc with
    TopStackFrame := 20000,
    frames := (fun a =>
      if a = 20000 then
        some { ReturnParser := exParser, FuncName := 24, ReturnValue := 0, Parameter := 0,
               NumParams := 0, LocalTable := exScopeTable, PreviousStackFrame := 0 }
      else none),
    vals := (fun a =>
      if a = 30000 then some (exScopeValue 4200 525000000 false)
      else if a = 30100 then some (exScopeValue 4208 5 false)
      else if a = 30200 then some (exScopeValue 4216 525000000 false)
      else if a = 30300 then some (exScopeValue 4224 7 true)
      else none) }

/-- An instance at file scope with the registered strings `f`, `a.c` and `x`. -/
def exStatic : Picoc :=
  { exPicoc with
    calloc := [10000, 10100, 10200, 10300, 10400, 10500, 10600, 10700],
    strings := (fun a =>
      if a = 24 then some ['f']
      else if a = 32 then some ['a', '.', 'c']
      else if a = 52 then some ['x']
      else none),
    StringTable := [24, 32, 52] }

/-- The instance `exStatic` after `static int x;` was executed at file scope. -/
def exStatic1 : Picoc :=
  stateAfter exStatic
    (VariableDefineButIgnoreIdentical 2 exStatic exParser 52 (TypePtr.field TypeField.IntType)
      true false)

/-- The instance `exStatic1` with the short name `x` taken out of the global table. -/
def exStaticDeleted : Picoc :=
  { exStatic1 with GlobalTable := TableDelete exStatic1.GlobalTable 52 }

/-- The instance `exStaticDeleted` after `static int x;` was executed again. -/
def exStaticDeleted2 : Picoc :=
  stateAfter exStaticDeleted
    (VariableDefineButIgnoreIdentical 2 exStaticDeleted exParser 52
      (TypePtr.field TypeField.IntType) true false)

/-- The instance `exStatic` inside a call of the function `f`, with an empty local table. -/
def exStaticF : Picoc :=
  { exStatic with
    TopStackFrame := 20000,
    frames := (fun a =>
      if a = 20000 then
        some { ReturnParser := exParser, FuncName := 24, ReturnValue := 0, Parameter := 0,
               NumParams := 0, LocalTable := emptyTable LOCAL_TABLE_SIZE false,
               PreviousStackFrame := 0 }
      else none) }

/-- The instance `exStaticF` after `static int x;` was executed in `f`. -/
def exStaticF1 : Picoc :=
  stateAfter exStaticF
    (VariableDefineButIgnoreIdentical 2 exStaticF exParser 52 (TypePtr.field TypeField.IntType)
      true false)

/-- The instance `exStaticF1` in a later call of `f`: the local table is empty again. -/
def exStaticF2 : Picoc := { exStaticF1 with frames := exStaticF.frames }

/-- The instance `exStaticF2` after `static int x;` was executed in `f` again. -/
def exStaticF3 : Picoc :=
  stateAfter exStaticF2
    (VariableDefineButIgnoreIdentical 2 exStaticF2 exParser 52
      (TypePtr.field TypeField.IntType) true false)

/-- The arena `exArena` after `HeapPushStackFrame`. -/
def exFramePushed : Arena :=
  { exArena with StackFrame := 4096, HeapStackTop := 4104,
                 Memory := writePtr exArena.Memory 4096 4096 }

/-- The arena `exFramePushed` after `HeapAllocStack(12)`. -/
def exFrameAlloc : Arena :=
  { exFramePushed with HeapStackTop := 4120, Memory := memset exFramePushed.Memory 4104 0 12 }

/-- The arena `exFramePushed` after `HeapPopStackFrame`. -/
def exFramePopped : Arena := { exFramePushed with HeapStackTop := 4096, StackFrame := 4096 }

/-- The arena `exArena` after `HeapAllocStack(8)`. -/
def exArenaAlloc8 : Arena :=
  { exArena with HeapStackTop := 4104, Memory := memset exArena.Memory 4096 0 8 }

/-- A store of the byte 5 at the address 4096. -/
def exArenaStore5 (pc : Arena) : Arena :=
  { pc with Memory := fun x => if x = 4096 then 5 % 256 else pc.Memory x }

/-- The arena `exArenaAlloc8` after a store of the byte 5 into the allocated block and
`HeapPopStack(8)`. -/
def exArenaStored : Arena := { exArenaStore5 exArenaAlloc8 with HeapStackTop := 4096 }

/-- The struct type `T` without members. -/
def exStructT : ValueType :=
  { Base := BaseType.TypeStruct, ArraySize := 0, Sizeof := 0, AlignBytes := 0, Identifier := 24,
    FromType := TypePtr.field TypeField.UberType,
    DerivedTypeList := [TypePtr.heap 1000, TypePtr.heap 900], Members := TablePtr.null,
    OnHeap := true }

/-- The type `struct T [3]`. -/
def exArrayT : ValueType :=
  { Base := BaseType.TypeArray, ArraySize := 3, Sizeof := 0, AlignBytes := 0, Identifier := 16,
    FromType := TypePtr.heap 800, DerivedTypeList := [], Members := TablePtr.null,
    OnHeap := true }

/-- The type `struct T *`. -/
def exPtrT : ValueType :=
  { Base := BaseType.TypePointer, ArraySize := 0, Sizeof := 8, AlignBytes := 8, Identifier := 16,
    FromType := TypePtr.heap 800, DerivedTypeList := [], Members := TablePtr.null,
    OnHeap := true }

/-- An instance with the forward-declared `struct T` at 800, the type `struct T [3]` at 900
and the type `struct T *` at 1000. -/
def exFwd : Picoc :=
  { exStatic with
    types := (fun t =>
      if t = TypePtr.heap 800 then some exStructT
      else if t = TypePtr.heap 900 then some exArrayT
      else if t = TypePtr.heap 1000 then some exPtrT
      else exStatic.types t) }

/-- The instance `exStaticF` after `int x;` was executed in the function `f`. -/
def exDefinedF : Picoc :=
  stateAfter exStaticF
    (VariableDefine exStaticF (some exParser) 52 0 (TypePtr.field TypeField.IntType) true)

/-- The instance `exScope` with a global variable of the key 52, which the local table
binds too. -/
def exShadow : Picoc :=
  { exScope with
    GlobalTable :=
      { Size := GLOBAL_TABLE_SIZE, OnHeap := true,
        HashTable := List.set (List.replicate GLOBAL_TABLE_SIZE []) 52 [exScopeEntry 52 30500] } }

/-- An instance at file scope inside the block 525000000, which declared the global
variable of the key 72. -/
def exBlock : Picoc :=
  { exStatic with
    GlobalTable :=
      { Size := GLOBAL_TABLE_SIZE, OnHeap := true,
        HashTable := List.set (List.replicate GLOBAL_TABLE_SIZE []) 72 [exScopeEntry 72 30400] },
    vals := (fun a => if a = 30400 then some (exScopeValue 4200 525000000 false) else none) }

/-- The instance `exBlock` after the end of the block. -/
def exBlockEnded : Picoc := stateAfter exBlock (VariableScopeEnd exBlock exParser 525000000 3)

/-- The instance `exBlockEnded` inside a call of the function `f`. -/
def exBlockCall : Picoc :=
  stateAfter exBlockEnded (VariableStackFrameAdd exBlockEnded exParser 24 0)

/-- The instance `exStatic` after the platform variable `x`, on the host cell at 9000, was
defined with a null parser. -/
def exPlatform : Picoc :=
  stateAfter exStatic
    (VariableDefinePlatformVar exStatic none 52 (TypePtr.field TypeField.IntType) 9000 true)

/-- The instance `exPlatform` after the allocation of one more header on the heap. -/
def exPlatformAlloc : Picoc :=
  stateAfter exPlatform (VariableAllocValueAndData exPlatform none 0 false 0 true)

/-- A parser state without source text. -/
def exParserNoText : ParseState := { exParser with SourceText := 0 }

/-- The instance `exPlatform` after the end of a block with the scope id 0. -/
def exPlatformHidden : Picoc :=
  stateAfter exPlatform (VariableScopeEnd exPlatform { exParserNoText with ScopeID := 0 } 0 77)

/-- The instance `exStatic` after `VariableDefine` of `x` with a null parser. -/
def exDefinedNoParser : Picoc :=
  stateAfter exStatic (VariableDefine exStatic none 52 0 (TypePtr.field TypeField.IntType) true)

/-- An instance whose memory holds the byte 255 everywhere but in the payload, at 30040, of
the `int` value at 30000, which holds the bytes 7, 0, 0, 0. -/
def exNoisy : Picoc :=
  { exPicoc with
    arena := { exArena with
      Memory := (fun a => if a = 30040 then 7 else if 30040 < a ∧ a < 30044 then 0 else 255) },
    vals := (fun a => if a = 30000 then some (exScopeValue 30040 77 false) else none) }

/-- The instance `exNoisy` after a copy of the value at 30000 was allocated on the heap. -/
def exNoisyCopy : Picoc := stateAfter exNoisy (VariableAllocValueAndCopy exNoisy none 30000 true)

/-- The instance `exNoisy` after an `int` value was allocated on the heap from its type. -/
def exNoisyFromType : Picoc :=
  stateAfter exNoisy
    (VariableAllocValueFromType exNoisy none (TypePtr.field TypeField.IntType) true 0 true)

/-- The instance `exNoisy` after a copy of the value at 30000 was allocated on the stack. -/
def exNoisyStack : Picoc := stateAfter exNoisy (VariableAllocValueAndCopy exNoisy none 30000 false)

/-- The instance `exNoisy` when the allocator returns the 44 bytes below the block of the
arena. -/
def exTight : Picoc := { exNoisy with calloc := [4052] }

/-- The instance `exTight` after a copy of the value at 30000 was allocated on the heap. -/
def exTightCopy : Picoc := stateAfter exTight (VariableAllocValueAndCopy exTight none 30000 true)

/-- The instance `exNoisy` after the identifier at 52 was defined with the value at 30000 as
its initial value. -/
def exNoisyDefined : Picoc :=
  stateAfter exNoisy (VariableDefine exNoisy (some exParser) 52 30000 TypePtr.null false)

/-- The instance `exTyped` with global tables as `VariableInit` makes them and a fresh
supply of heap addresses. -/
def exE : Picoc :=
  { exTyped with
    calloc := [20000, 20100, 20200, 20300, 20400, 20500, 20600, 20700],
    GlobalTable := TableInitTable GLOBAL_TABLE_SIZE true }

/-- The enumerators of `enum E { A, B = 5, C };`: the identifiers at 52, 56 and 60. -/
def exEnumerators : List EnumDecl :=
  [⟨52, none, exParser, EnumToken.TokenComma⟩, ⟨56, some 5, exParser, EnumToken.TokenComma⟩,
   ⟨60, none, exParser, EnumToken.TokenRightBrace⟩]

/-- The instance `exE` after `enum E { A, B = 5, C };` was parsed; the local variables of
`TypeParseEnum` are at the addresses 900000 and 900100 of the host stack. -/
def exAfterEnum : Picoc :=
  stateAfter exE (TypeParseEnum exE 48 true exEnumerators 900000 900100)

/-- The instance `exS` after the declaration `struct A;`: `A` is the identifier at 44 and the
node at heap address 20000. -/
def exFwdA : Picoc :=
  stateAfter exS
    (TypeParseStruct exS exParser 44 false ⟨TypePtr.null, 0, false⟩ [] true)

/-- The instance `exFwdA` after the type `struct A *` was made: the node at heap address
20100. -/
def exFwdAPtr : Picoc :=
  stateAfter exFwdA (TypeGetMatching exFwdA (TypePtr.heap 20000) BaseType.TypePointer 0 16 true)

/-- The instance after `struct B { struct A a; struct A *p; };` was parsed in `exFwdAPtr`:
`B` is the identifier at 48, `a` and `p` are the identifiers at 52 and 56. -/
def exAfterFwdMember : Picoc :=
  stateAfter exFwdAPtr
    (TypeParseStruct exFwdAPtr exParser 48 true ⟨TypePtr.heap 20000, 52, true⟩
      [⟨TypePtr.heap 20100, 56, true⟩] true)

/-- The instance after `struct P { char a; int b; };` was parsed in `exS`: `P` is the
identifier at 48 and the node at heap address 20000; `a` and `b` are the identifiers at 52
and 56. -/
def exAfterPair : Picoc :=
  stateAfter exS
    (TypeParseStruct exS exParser 48 true ⟨TypePtr.field TypeField.CharType, 52, true⟩
      [⟨TypePtr.field TypeField.IntType, 56, true⟩] true)

/-- The members of `struct P { char a; int b; };`. -/
def exPairMembers : List MemberDecl :=
  [⟨TypePtr.field TypeField.CharType, 52, true⟩, ⟨TypePtr.field TypeField.IntType, 56, true⟩]

/-- The arena that a call leaves, or `pc` when the call has none. -/
def arenaAfter {α : Type} (pc : Arena) (c : Option (Arena × α)) : Arena :=
  match c with
  | some (pc1, _) => pc1
  | none => pc

/-- The arena `exArenaAlloc8` after the program stored the byte 255 into each of the eight
bytes of the block at 4096. -/
def exArenaUsed : Arena :=
  { exArenaAlloc8 with
    Memory := fun x => if 4096 ≤ x ∧ x < 4104 then 255 else exArenaAlloc8.Memory x }

/-- The arena `exArenaUsed` after `HeapPopStack(8)`. -/
def exArenaUsedPopped : Arena := arenaAfter exArenaUsed (HeapPopStack exArenaUsed 8)

/-- The arena `exArenaUsedPopped` after `HeapAllocStack(3)`. -/
def exArenaReused : Arena := arenaAfter exArenaUsedPopped (HeapAllocStack exArenaUsedPopped 3)

/-- The arena `exArena` after `HeapAllocStack(1016)`, which fills the stack up to the heap
frontier. -/
def exArenaFull : Arena := arenaAfter exArena (HeapAllocStack exArena 1016)

/-- The arena `exArenaFull` after `HeapPushStackFrame`. -/
def exArenaOver : Arena := (HeapPushStackFrame exArenaFull).getD exArenaFull

/-- A parser state whose source text is at an address with the low 32 bits all set and
whose position is nine bytes further, with the scope id 0. -/
def exParserMinusOne : ParseState :=
  { exParser with SourceText := 4294967295, Pos := 4294967304, ScopeID := 0 }

/-- An instance at file scope with the registered strings `d...d` (253 characters, the name
of the file), `x` and `y`. -/
def exLong : Picoc :=
  { exStatic with
    strings := (fun a =>
      if a = 32 then some (List.replicate 253 'd')
      else if a = 52 then some ['x']
      else if a = 56 then some ['y']
      else none),
    StringTable := [32, 52, 56] }

/-- The instance `exLong` after `static int x;` was executed at file scope. -/
def exLong1 : Picoc :=
  stateAfter exLong
    (VariableDefineButIgnoreIdentical 2 exLong exParser 52 (TypePtr.field TypeField.IntType)
      true false)

/-- The instance `exLong1` after `static char y;` was executed at file scope, two lines
further down. -/
def exLong2 : Picoc :=
  stateAfter exLong1
    (VariableDefineButIgnoreIdentical 2 exLong1 { exParser with Line := 5 } 56
      (TypePtr.field TypeField.CharType) true false)

/-- An instance at file scope with the registered strings `f`, `a`, `a/f` and `x`. -/
def exSlash : Picoc :=
  { exStatic with
    strings := (fun a =>
      if a = 24 then some ['f']
      else if a = 32 then some ['a']
      else if a = 40 then some ['a', '/', 'f']
      else if a = 52 then some ['x']
      else none),
    StringTable := [24, 32, 40, 52] }

/-- The instance `exSlash` after `static int x;` was executed at file scope in the file
`a/f`. -/
def exSlash1 : Picoc :=
  stateAfter exSlash
    (VariableDefineButIgnoreIdentical 2 exSlash { exParser with FileName := 40 } 52
      (TypePtr.field TypeField.IntType) true false)

/-- The instance `exSlash1` inside a call of the function `f`, with an empty local table. -/
def exSlashF : Picoc := { exSlash1 with TopStackFrame := 20000, frames := exStaticF.frames }

/-- The instance `exSlashF` after `static char x;` was executed in the function `f` of the
file `a`. -/
def exSlashF1 : Picoc :=
  stateAfter exSlashF
    (VariableDefineButIgnoreIdentical 2 exSlashF { exParser with Line := 9 } 52
      (TypePtr.field TypeField.CharType) true false)

/-- The parser at the `{` of the body of the loop `for (...) { { int x; } int x; }`. -/
def exOuterBrace : ParseState := exParser

/-- The parser at the `{` of the inner block of the loop, inside the body. -/
def exInnerBrace : ParseState := { exParser with Pos := 70008, ScopeID := 525000000 }

/-- The parser at the inner declaration `int x;`. -/
def exInnerDecl : ParseState := { exParser with CharacterPos := 20, ScopeID := 525060000 }

/-- The parser at the declaration `int x;` that follows the inner block. -/
def exOuterDecl : ParseState := { exParser with CharacterPos := 30, ScopeID := 525000000 }

/-- The instance `exStatic` after the body of the loop was entered. -/
def exLoop1 : Picoc := stateAfter exStatic (VariableScopeBegin exStatic exOuterBrace 0)

/-- The instance `exLoop1` after the inner block was entered. -/
def exLoop2 : Picoc := stateAfter exLoop1 (VariableScopeBegin exLoop1 exInnerBrace 0)

/-- The instance `exLoop2` after the inner `int x;` was executed. -/
def exLoop3 : Picoc :=
  stateAfter exLoop2
    (VariableDefineButIgnoreIdentical 2 exLoop2 exInnerDecl 52 (TypePtr.field TypeField.IntType)
      false false)

/-- The instance `exLoop3` after the inner block was left. -/
def exLoop4 : Picoc :=
  stateAfter exLoop3 (VariableScopeEnd exLoop3 exInnerDecl 525060000 525000000)

/-- The instance `exLoop4` after the `int x;` that follows the inner block was executed. -/
def exLoop5 : Picoc :=
  stateAfter exLoop4
    (VariableDefineButIgnoreIdentical 2 exLoop4 exOuterDecl 52 (TypePtr.field TypeField.IntType)
      false false)

/-- The instance `exLoop5` after the body of the loop was left. -/
def exLoop6 : Picoc := stateAfter exLoop5 (VariableScopeEnd exLoop5 exOuterDecl 525000000 77)

/-- The instance `exLoop6` after the body of the loop was entered for the second time. -/
def exLoop7 : Picoc := stateAfter exLoop6 (VariableScopeBegin exLoop6 exOuterBrace 0)

/-- The instance `exLoop7` after the inner block was entered for the second time. -/
def exLoop8 : Picoc := stateAfter exLoop7 (VariableScopeBegin exLoop7 exInnerBrace 0)

/-- A token buffer that holds the tokens of `l`, each with its identifier and its integer
value, from the position `start` on, one every two bytes, all on line 3; everywhere else
it holds `TokenEOF`. -/
def exBuffer (start : Nat) (l : List (LexToken × Nat × Int)) : TokenBuffer :=
  fun pos =>
    match (if start ≤ pos ∧ (pos - start) % 2 = 0 then l.get? ((pos - start) / 2) else none) with
    | some (t, id, n) =>
      { Token := t, Identifier := id, Integer := n, NextPos := pos + 2, Line := 3,
        CharacterPos := ((pos - start) / 2 + 6 : Nat) }
    | none =>
      { Token := LexToken.TokenEOF, Identifier := 0, Integer := 0, NextPos := pos, Line := 3,
        CharacterPos := 0 }

/-- The tokens `[ ] ;`. -/
def exUnsized : TokenBuffer :=
  exBuffer 70000
    [(LexToken.TokenLeftSquareBracket, 0, 0), (LexToken.TokenRightSquareBracket, 0, 0),
     (LexToken.TokenSemicolon, 0, 0)]

/-- The tokens `[ 2 ] [ 3 ] ;`. -/
def exTwoByThree : TokenBuffer :=
  exBuffer 70000
    [(LexToken.TokenLeftSquareBracket, 0, 0), (LexToken.TokenIntegerConstant, 0, 2),
     (LexToken.TokenRightSquareBracket, 0, 0), (LexToken.TokenLeftSquareBracket, 0, 0),
     (LexToken.TokenIntegerConstant, 0, 3), (LexToken.TokenRightSquareBracket, 0, 0),
     (LexToken.TokenSemicolon, 0, 0)]

/-- The tokens `= 1 ;`. -/
def exNoSuffix : TokenBuffer :=
  exBuffer 70000
    [(LexToken.TokenAssign, 0, 0), (LexToken.TokenIntegerConstant, 0, 1),
     (LexToken.TokenSemicolon, 0, 0)]

/-- The instance `exS` after the suffix `[]` was parsed for the base type `char`. -/
def exAfterCharUnsized : Picoc :=
  stateAfter exS (TypeParseBack exUnsized 3 exS exParser (TypePtr.field TypeField.CharType))

/-- The instance `exS` after the suffix `[]` was parsed for the base type `int`. -/
def exAfterIntUnsized : Picoc :=
  stateAfter exS (TypeParseBack exUnsized 3 exS exParser (TypePtr.field TypeField.IntType))

/-- The instance `exS` after the suffix `[2][3]` was parsed for the base type `int`. -/
def exAfterTwoByThree : Picoc :=
  stateAfter exS (TypeParseBack exTwoByThree 3 exS exParser (TypePtr.field TypeField.IntType))

/-- The tokens `int ( * p ) ;`, where `p` is the identifier at 52. -/
def exNested : TokenBuffer :=
  exBuffer 70000
    [(LexToken.TokenIntType, 0, 0), (LexToken.TokenOpenBracket, 0, 0),
     (LexToken.TokenAsterisk, 0, 0), (LexToken.TokenIdentifier, 52, 0),
     (LexToken.TokenCloseBracket, 0, 0), (LexToken.TokenSemicolon, 0, 0)]

/-- The tokens `int ( * a ) [ 3 ] ;`, where `a` is the identifier at 52. -/
def exNestedArray : TokenBuffer :=
  exBuffer 70000
    [(LexToken.TokenIntType, 0, 0), (LexToken.TokenOpenBracket, 0, 0),
     (LexToken.TokenAsterisk, 0, 0), (LexToken.TokenIdentifier, 52, 0),
     (LexToken.TokenCloseBracket, 0, 0), (LexToken.TokenLeftSquareBracket, 0, 0),
     (LexToken.TokenIntegerConstant, 0, 3), (LexToken.TokenRightSquareBracket, 0, 0),
     (LexToken.TokenSemicolon, 0, 0)]

/-- The tokens `int * p ;`, where `p` is the identifier at 52. -/
def exPlain : TokenBuffer :=
  exBuffer 70000
    [(LexToken.TokenIntType, 0, 0), (LexToken.TokenAsterisk, 0, 0),
     (LexToken.TokenIdentifier, 52, 0), (LexToken.TokenSemicolon, 0, 0)]

/-- A parser of struct, union and enum bodies and of typedef names that is never called. -/
def exNoNamed : NamedType := fun _ _ _ _ => none

/-- The instance `exS` after the declaration `int *p` was parsed. -/
def exAfterPlain : Picoc := stateAfter exS (TypeParse exNoNamed exPlain 3 exS exParser)

/-! ## States reached through definitions and scope changes -/

/-- What an allocation or a registration leaves alone: the current table, the extent of
the arena and its heap frontier; the stack top does not go down, the allocator hands out
only addresses that it had in store, and the registered strings stay at even addresses
when the allocator returns even addresses. -/
def Grown (pc pc1 : Picoc) : Prop :=
  currentTable pc1 = currentTable pc ∧ pc1.TopStackFrame = pc.TopStackFrame
    ∧ pc1.arena.HeapMemory = pc.arena.HeapMemory
    ∧ pc1.arena.HeapSize = pc.arena.HeapSize ∧ pc1.arena.HeapBottom = pc.arena.HeapBottom
    ∧ pc.arena.HeapStackTop ≤ pc1.arena.HeapStackTop ∧ (∀ a ∈ pc1.calloc, a ∈ pc.calloc)
    ∧ ((∀ a ∈ pc.StringTable, a % 2 = 0) → (∀ a ∈ pc.calloc, a % 2 = 0) →
        ∀ a ∈ pc1.StringTable, a % 2 = 0)

/-- The key tag of the entry `e` matches the flag of its value: the value header exists
and the low-order bit of the key is set exactly when `OutOfScope` is. -/
def TagMatches (pc : Picoc) (e : TableEntry) : Prop :=
  ∃ v, pc.vals e.Val = some v ∧ (e.Key % 2 = 1 ↔ v.OutOfScope = true)

/-- The value header of the entry `e` is in use: it lies below the stack top of the arena
or outside the block of the arena. -/
def HeaderLive (pc : Picoc) (e : TableEntry) : Prop :=
  e.Val < pc.arena.HeapStackTop ∨ e.Val < pc.arena.HeapMemory
    ∨ pc.arena.HeapMemory + pc.arena.HeapSize ≤ e.Val

/-- The facts about the current table that the four functions keep: the table has its
chains, it is on the heap exactly when it is the global table, every key tag matches the
flag of the value, no two entries share a value header, in a function every header is in
use, the stack top and the heap frontier are inside the block of the arena, and the
registered strings and the addresses of the allocator are even. -/
def TagInv (pc : Picoc) : Prop :=
  ∃ Tbl, currentTable pc = some Tbl ∧ Tbl.HashTable.length = Tbl.Size
    ∧ Tbl.OnHeap = decide (pc.TopStackFrame = 0)
    ∧ (∀ e ∈ Tbl.entries, TagMatches pc e)
    ∧ (Tbl.entries.map (fun e => e.Val)).Nodup
    ∧ (pc.TopStackFrame ≠ 0 → ∀ e ∈ Tbl.entries, HeaderLive pc e)
    ∧ pc.arena.HeapMemory ≤ pc.arena.HeapStackTop
    ∧ pc.arena.HeapBottom < pc.arena.HeapMemory + pc.arena.HeapSize
    ∧ (∀ a ∈ pc.StringTable, a % 2 = 0) ∧ (∀ a ∈ pc.calloc, a % 2 = 0)

/-- A state in which the current table was just initialised, as `VariableInit` does for the
global table (on the heap) and `VariableStackFrameAdd` for the table of a frame (on the
stack): the stack top and the heap frontier are inside the block of the arena, the
registered strings are at even addresses and the allocator returns even addresses. -/
def ScopeStart (pc : Picoc) : Prop :=
  ∃ Tbl, currentTable pc = some Tbl
    ∧ Tbl = TableInitTable Tbl.Size (decide (pc.TopStackFrame = 0))
    ∧ pc.arena.HeapMemory ≤ pc.arena.HeapStackTop
    ∧ pc.arena.HeapBottom < pc.arena.HeapMemory + pc.arena.HeapSize
    ∧ (∀ a ∈ pc.StringTable, a % 2 = 0) ∧ (∀ a ∈ pc.calloc, a % 2 = 0)

/-- One call of `VariableDefine`, `VariableDefinePlatformVar`, `VariableScopeBegin` or
`VariableScopeEnd`, whichever way it ends.  The identifier given to `VariableDefine` is an
even address. -/
inductive ScopeStep : Picoc → Picoc → Prop
  | define {pc pc2 : Picoc} (Parser : Option ParseState) (Ident InitValue : Nat) (Typ : TypePtr)
      (MakeWritable : Bool) (e : Exit Nat) :
      Ident % 2 = 0 →
      VariableDefine pc Parser Ident InitValue Typ MakeWritable = some (e, pc2) →
      ScopeStep pc pc2
  | platformVar {pc pc2 : Picoc} (Parser : Option ParseState) (Ident : Nat) (Typ : TypePtr)
      (FromValue : Nat) (IsWritable : Bool) (e : Exit Unit) :
      VariableDefinePlatformVar pc Parser Ident Typ FromValue IsWritable = some (e, pc2) →
      ScopeStep pc pc2
  | scopeBegin {pc pc2 : Picoc} (Parser : ParseState) (OldScopeID : Int)
      (e : Exit (Int × ParseState × Int)) :
      VariableScopeBegin pc Parser OldScopeID = some (e, pc2) → ScopeStep pc pc2
  | scopeEnd {pc pc2 : Picoc} (Parser : ParseState) (ScopeID PrevScopeID : Int)
      (e : Exit ParseState) :
      VariableScopeEnd pc Parser ScopeID PrevScopeID = some (e, pc2) → ScopeStep pc pc2

/-- The states reached from a newly initialised table through the four functions. -/
inductive ScopeReachable : Picoc → Prop
  | start {pc : Picoc} : ScopeStart pc → ScopeReachable pc
  | step {pc pc2 : Picoc} : ScopeReachable pc → ScopeStep pc pc2 → ScopeReachable pc2

/-- The value header at `p` is new in `pc1`: the other headers are those of `pc`, the new
one is in scope, a heap header is at an address that held none, and a stack header is at
the old stack top, with the new stack top not above the heap frontier. -/
def NewHeader (pc pc1 : Picoc) (OnHeap : Bool) (p : Nat) : Prop :=
  (∀ a, a ≠ p → pc1.vals a = pc.vals a) ∧ (∃ x, pc1.vals p = some x ∧ x.OutOfScope = false)
    ∧ (OnHeap = true → pc.vals p = none)
    ∧ (OnHeap = false → p = pc.arena.HeapStackTop
        ∧ pc1.arena.HeapStackTop ≤ pc.arena.HeapBottom)

/-- The instance `exStaticF` after a block of the function `f` was entered. -/
def exTag1 : Picoc := stateAfter exStaticF (VariableScopeBegin exStaticF exParser 0)

/-- The instance `exTag1` after `int x;` was executed in the block. -/
def exTag2 : Picoc :=
  stateAfter exTag1
    (VariableDefine exTag1 (some exInnerBrace) 52 0 (TypePtr.field TypeField.IntType) true)

/-- The instance `exTag2` after the platform variable `f`, an `int` at 30000, was defined. -/
def exTag3 : Picoc :=
  stateAfter exTag2
    (VariableDefinePlatformVar exTag2 (some exInnerBrace) 24 (TypePtr.field TypeField.IntType)
      30000 true)

/-- The instance `exTag3` after the block was left. -/
def exTag4 : Picoc := stateAfter exTag3 (VariableScopeEnd exTag3 exInnerBrace 525000000 77)

theorem land_align_mask (y : Nat) (hy : y < addrLimit) :
    y &&& (addrLimit - 1 - (sizeofAlignType - 1)) = y / 8 * 8 := by
  apply Nat.eq_of_testBit_eq
  intro i
  have h1 : (addrLimit - 1 - (sizeofAlignType - 1) : Nat) = (2 ^ 61 - 1) <<< 3 := by decide
  have h2 : y / 8 * 8 = (y >>> 3) <<< 3 := by
    rw [Nat.shiftLeft_eq, Nat.shiftRight_eq_div_pow]
  rw [h1, h2, Nat.testBit_and, Nat.testBit_shiftLeft, Nat.testBit_shiftLeft,
    Nat.testBit_two_pow_sub_one, Nat.testBit_shiftRight]
  by_cases h3 : i ≥ 3
  · simp only [h3, decide_True, Bool.true_and]
    have h5 : 3 + (i - 3) = i := by omega
    rw [h5]
    by_cases h4 : i - 3 < 61
    · simp [h4]
    · simp only [h4, decide_False, Bool.and_false]
      have h6 : y < 2 ^ i := lt_of_lt_of_le hy (by
        have h7 : addrLimit = 2 ^ 64 := by decide
        rw [h7]; exact Nat.pow_le_pow_right (by norm_num) (by omega))
      rw [Nat.testBit_lt_two_pow h6]
  · simp [h3]

/-- `MEM_ALIGN` rounds up to the next multiple of eight, modulo `2^64`. -/
theorem MEM_ALIGN_eq (x : Nat) : MEM_ALIGN x = (x + 7) % 18446744073709551616 / 8 * 8 := by
  unfold MEM_ALIGN
  rw [land_align_mask _ (Nat.mod_lt _ (by decide))]
  rfl

theorem toSizeT_of_nonneg (n : Int) (h0 : 0 ≤ n) (h1 : n ≤ INT_MAX) : (toSizeT n : Int) = n := by
  unfold toSizeT addrLimit
  unfold INT_MAX at h1
  omega

theorem toInt_of_lt (x : Nat) (h : x < 2147483648) : toInt x = (x : Int) := by
  unfold toInt
  have e : x % 4294967296 = x := by omega
  rw [e, if_pos h]

/-! ## Raw memory -/

theorem readPtr_lt (m : Memory) (a : Nat) : readPtr m a < 18446744073709551616 := by
  unfold readPtr; omega

theorem writePtr_at (m : Memory) (a v k : Nat) (hk : k < 8) :
    writePtr m a v (a + k) = (v / 256 ^ k) % 256 := by
  unfold writePtr
  rw [if_pos (by omega), Nat.add_sub_cancel_left]

/-- A pointer stored at an address is the pointer loaded from it. -/
theorem readPtr_writePtr (m : Memory) (a v : Nat) (hv : v < 18446744073709551616) :
    readPtr (writePtr m a v) a = v := by
  unfold readPtr
  have h0 := writePtr_at m a v 0 (by omega)
  rw [Nat.add_zero] at h0
  rw [h0, writePtr_at m a v 1 (by omega), writePtr_at m a v 2 (by omega),
    writePtr_at m a v 3 (by omega), writePtr_at m a v 4 (by omega),
    writePtr_at m a v 5 (by omega), writePtr_at m a v 6 (by omega),
    writePtr_at m a v 7 (by omega)]
  norm_num
  omega

theorem readPtr_congr (m m2 : Memory) (a : Nat) (h : ∀ k, k < 8 → m2 (a + k) = m (a + k)) :
    readPtr m2 a = readPtr m a := by
  unfold readPtr
  have h0 := h 0 (by omega)
  rw [Nat.add_zero] at h0
  rw [h0, h 1 (by omega), h 2 (by omega), h 3 (by omega), h 4 (by omega), h 5 (by omega),
    h 6 (by omega), h 7 (by omega)]

/-- A `memset` that does not overlap a stored pointer leaves it as it is. -/
theorem readPtr_memset (m : Memory) (dst c n a : Nat) (h : a + 8 ≤ dst ∨ dst + n ≤ a) :
    readPtr (memset m dst c n) a = readPtr m a := by
  apply readPtr_congr
  intro k hk
  unfold memset
  rw [if_neg (by omega)]

/-! ## Arena invariant -/

theorem alignLoop_le (HeapMemory fuel AlignOffset : Nat) :
    alignLoop HeapMemory fuel AlignOffset ≤ AlignOffset + fuel := by
  induction fuel generalizing AlignOffset with
  | zero => simp [alignLoop]
  | succ k ih =>
    unfold alignLoop
    split
    · have := ih (AlignOffset + 1); omega
    · omega

theorem le_alignLoop (HeapMemory fuel AlignOffset : Nat) :
    AlignOffset ≤ alignLoop HeapMemory fuel AlignOffset := by
  induction fuel generalizing AlignOffset with
  | zero => simp [alignLoop]
  | succ k ih =>
    unfold alignLoop
    split
    · have := ih (AlignOffset + 1); omega
    · omega

theorem HeapInit_inv {HeapMemory : Nat} {contents : Memory} {StackOrHeapSize : Int} {pc : Arena}
    (hs : StackOrHeapSize ≤ INT_MAX) (h : HeapInit HeapMemory contents StackOrHeapSize = some pc) :
    ArenaInv pc := by
  unfold HeapInit at h
  have hoff := alignLoop_le HeapMemory sizeofAlignType 0
  generalize alignLoop HeapMemory sizeofAlignType 0 = off at h hoff
  simp only [Arena.inBlock] at h
  split at h
  · cases h
  · split at h
    · cases h
    · rename_i h1 h2
      cases h
      have h3 : (toSizeT StackOrHeapSize : Int) = StackOrHeapSize :=
        toSizeT_of_nonneg _ (by omega) hs
      unfold INT_MAX at hs
      unfold sizeofAlignType at hoff
      simp only [ArenaInv, Arena.inBlock, sizeofAlignType, addrLimit, not_or, not_lt, not_not] at *
      omega

/-- The effect of `HeapAllocStack`: it fails and changes nothing, or it returns the old
top, raises the top by the aligned size and clears `Size` bytes. -/
theorem HeapAllocStack_effect {pc pc2 : Arena} {n : Int} {p : Nat}
    (h : HeapAllocStack pc n = some (pc2, p)) :
    (p = 0 ∧ pc2 = pc) ∨
    (p = pc.HeapStackTop
      ∧ pc2 = { pc with HeapStackTop := pc.HeapStackTop + MEM_ALIGN (toSizeT n),
                        Memory := memset pc.Memory pc.HeapStackTop 0 (toSizeT n) }
      ∧ pc.HeapStackTop + MEM_ALIGN (toSizeT n) ≤ pc.HeapBottom
      ∧ (toSizeT n = 0 ∨ pc.inBlock pc.HeapStackTop (toSizeT n))) := by
  unfold HeapAllocStack at h
  simp only at h
  split at h
  · cases h
  · split at h
    · cases h; exact Or.inl ⟨rfl, rfl⟩
    · split at h
      · cases h
      · rename_i h1 h2 h3
        cases h
        refine Or.inr ⟨rfl, rfl, by omega, ?_⟩
        by_cases h4 : toSizeT n = 0
        · exact Or.inl h4
        · right
          by_contra h5
          exact h3 ⟨h4, h5⟩

/-- The effect of `HeapPopStack`: it fails and changes nothing, or lowers the top. -/
theorem HeapPopStack_effect {pc pc2 : Arena} {n : Int} {b : Bool}
    (h : HeapPopStack pc n = some (pc2, b)) :
    (b = false ∧ pc2 = pc) ∨
    (b = true ∧ ∃ t : Nat, pc2 = { pc with HeapStackTop := t } ∧ pc.HeapMemory ≤ t) := by
  unfold HeapPopStack at h
  simp only at h
  generalize toInt (MEM_ALIGN (toSizeT n)) = ToLose at h
  split at h
  · cases h
  · split at h
    · cases h; exact Or.inl ⟨rfl, rfl⟩
    · split at h
      · cases h
      · cases h
        refine Or.inr ⟨rfl, _, rfl, ?_⟩
        omega

theorem MEM_ALIGN_sizeofAlignType : MEM_ALIGN sizeofAlignType = 8 := by decide

theorem HeapStep_inv {pc pc2 : Arena} (hi : ArenaInv pc) (h : HeapStep pc pc2) : ArenaInv pc2 := by
  obtain ⟨h0, h1, h2, h3, h4, h5⟩ := hi
  cases h with
  | alloc Size ha =>
    rcases HeapAllocStack_effect ha with ⟨_, rfl⟩ | ⟨_, rfl, _, _⟩
    · exact ⟨h0, h1, h2, h3, h4, h5⟩
    · exact ⟨h0, Nat.le_add_right_of_le h1, h2, h3, h4, h5⟩
  | unpop Size ha =>
    unfold HeapUnpopStack at ha
    simp only at ha
    split at ha
    · cases ha
    · cases ha; exact ⟨h0, Nat.le_add_right_of_le h1, h2, h3, h4, h5⟩
  | pop Size ha =>
    rcases HeapPopStack_effect ha with ⟨_, rfl⟩ | ⟨_, t, rfl, ht⟩
    · exact ⟨h0, h1, h2, h3, h4, h5⟩
    · exact ⟨h0, ht, h2, h3, h4, h5⟩
  | pushFrame ha =>
    unfold HeapPushStackFrame at ha
    split at ha
    · cases ha
    · rename_i hb
      simp only [Arena.inBlock, not_not] at hb
      cases ha
      refine ⟨h0, Nat.le_add_right_of_le h1, h2, ?_, ?_, h5⟩
      · show 0 < pc.HeapStackTop
        omega
      · show pc.HeapStackTop < addrLimit
        omega
  | popFrame ha =>
    unfold HeapPopStackFrame at ha
    split at ha
    · cases ha
    · rename_i hb
      simp only [Arena.inBlock, not_not] at hb
      split at ha
      · rename_i hne
        cases ha
        exact ⟨h0, hb.1, h2, Nat.pos_of_ne_zero hne, readPtr_lt _ _, h5⟩
      · cases ha; exact ⟨h0, h1, h2, h3, h4, h5⟩
  | store a v hb => exact ⟨h0, h1, h2, h3, h4, h5⟩

theorem HeapReachable_inv {pc : Arena} (h : HeapReachable pc) : ArenaInv pc := by
  induction h with
  | init HeapMemory contents StackOrHeapSize hs hi => exact HeapInit_inv hs hi
  | step _ hstep ih => exact HeapStep_inv ih hstep

theorem exArena_reachable : HeapReachable exArena :=
  HeapReachable.init 4096 (fun _ => 0) 1024 (by decide) (by rfl)

/-- A successful push of `n` bytes followed by a pop of `n` bytes restores the top. -/
theorem HeapPopStack_after_alloc {pc pc2 : Arena} (hi : ArenaInv pc) (n : Int) {p : Nat}
    (ha : HeapAllocStack pc n = some (pc2, p)) (hp : p ≠ 0) :
    HeapPopStack pc2 n = some ({ pc2 with HeapStackTop := pc.HeapStackTop }, true)
      ∧ p = pc.HeapStackTop ∧ pc2.HeapMemory = pc.HeapMemory := by
  obtain ⟨i0, i1, i2, _⟩ := hi
  unfold HeapAllocStack at ha
  simp only at ha
  split at ha
  · cases ha
  · split at ha
    · cases ha; exact absurd rfl hp
    · split at ha
      · cases ha
      · rename_i hlim hbot _
        cases ha
        have hA : MEM_ALIGN (toSizeT n) < 2147483648 := by omega
        unfold HeapPopStack
        simp only [toInt_of_lt _ hA, addrLimit] at hlim ⊢
        rw [if_neg (by omega), if_neg (by omega), if_neg (by omega)]
        refine ⟨?_, trivial, trivial⟩
        have e : ((pc.HeapStackTop + MEM_ALIGN (toSizeT n) : Nat) : Int) - (MEM_ALIGN (toSizeT n) : Int)
            = (pc.HeapStackTop : Int) := by omega
        rw [e]
        rfl

/-! ## C1 -/

/-- C1 (push-pop parity): in every arena state reachable from `HeapInit`, for every
`int` size `n` (so for every `n ≥ 0`), if `HeapAllocStack(n)` succeeds (it returns a pointer that is not
null) then `HeapPopStack(n)` called next returns `true` and `HeapStackTop` is back at
the value it had before the allocation. -/
theorem C1_push_pop_parity (pc : Arena) (hr : HeapReachable pc) (n : Int)
    (pc2 : Arena) (p : Nat) (ha : HeapAllocStack pc n = some (pc2, p)) (hp : p ≠ 0) :
    ∃ pc3, HeapPopStack pc2 n = some (pc3, true) ∧ pc3.HeapStackTop = pc.HeapStackTop :=
  ⟨_, (HeapPopStack_after_alloc (HeapReachable_inv hr) n ha hp).1, rfl⟩

/-- C1 at a concrete input: five bytes pushed on the fresh arena `exArena` and popped. -/
theorem C1_push_pop_parity_witness :
    ∃ pc3, HeapPopStack exArenaPushed 5 = some (pc3, true)
      ∧ pc3.HeapStackTop = exArena.HeapStackTop :=
  C1_push_pop_parity exArena exArena_reachable 5 _ 4096 (by rfl) (by decide)

/-! ## C2 -/

theorem MEM_ALIGN_sizeofValue : MEM_ALIGN sizeofValue = sizeofValue := by decide


theorem VariableAlloc_stack {pc pc1 : Picoc} {n : Int} {p : Nat}
    (h : VariableAlloc pc n false = some (Exit.ret p, pc1)) :
    ∃ a1, HeapAllocStack pc.arena n = some (a1, p) ∧ p ≠ 0 ∧ pc1 = { pc with arena := a1 } := by
  unfold VariableAlloc at h
  simp only [Bool.false_eq_true, if_false] at h
  split at h
  · cases h
  · rename_i a1 q hq
    split at h
    · cases h
    · rename_i hne
      simp only [Option.some.injEq, Prod.mk.injEq, Exit.ret.injEq] at h
      obtain ⟨h1, h2⟩ := h
      subst h1
      exact ⟨a1, hq, hne, h2.symm⟩

/-- A header-only value (neither flag set) at the top of the stack is popped. -/
theorem VariableStackPop_header {pc : Picoc} {pc0a : Arena} (hi : ArenaInv pc0a) {p : Nat}
    {v : Value} (ha : HeapAllocStack pc0a (toInt sizeofValue) = some (pc.arena, p)) (hp : p ≠ 0)
    (hv : pc.vals p = some v) (h1 : v.ValOnHeap = false) (h2 : v.ValOnStack = false) :
    ∃ pc2, VariableStackPop pc p = some (Exit.ret (), pc2)
      ∧ pc2.arena.HeapStackTop = pc0a.HeapStackTop := by
  have hpop := (HeapPopStack_after_alloc hi _ ha hp).1
  unfold VariableStackPop
  simp only [hv, h1, h2, Bool.false_eq_true, if_false, hpop]
  exact ⟨_, rfl, rfl⟩

/-- C2 (value allocation/pop parity): on an instance whose arena is reachable from
`HeapInit`, a value allocated on the stack by `VariableAllocValueFromType` (header and
payload), by `VariableAllocValueFromExistingData` or by `VariableAllocValueShared` (header
only) and handed to `VariableStackPop` right after the allocation is popped without
"stack underrun", and `HeapStackTop` is back at its value before the allocation. -/
theorem C2_value_alloc_pop_parity (pc : Picoc) (hr : HeapReachable pc.arena) :
    (∀ (Parser : Option ParseState) (Typ : TypePtr) (IsLValue : Bool) (LValueFrom v : Nat)
        (pc1 : Picoc),
        VariableAllocValueFromType pc Parser Typ IsLValue LValueFrom false
            = some (Exit.ret v, pc1) →
        ∃ pc2, VariableStackPop pc1 v = some (Exit.ret (), pc2)
          ∧ pc2.arena.HeapStackTop = pc.arena.HeapStackTop)
    ∧ (∀ (Typ : TypePtr) (FromValue : Nat) (IsLValue : Bool) (LValueFrom v : Nat) (pc1 : Picoc),
        VariableAllocValueFromExistingData pc Typ FromValue IsLValue LValueFrom
            = some (Exit.ret v, pc1) →
        ∃ pc2, VariableStackPop pc1 v = some (Exit.ret (), pc2)
          ∧ pc2.arena.HeapStackTop = pc.arena.HeapStackTop)
    ∧ (∀ (FromValue v : Nat) (pc1 : Picoc),
        VariableAllocValueShared pc FromValue = some (Exit.ret v, pc1) →
        ∃ pc2, VariableStackPop pc1 v = some (Exit.ret (), pc2)
          ∧ pc2.arena.HeapStackTop = pc.arena.HeapStackTop) := by
  have hi := HeapReachable_inv hr
  have hexisting : ∀ (Typ : TypePtr) (FromValue : Nat) (IsLValue : Bool) (LValueFrom v : Nat)
      (pc1 : Picoc),
      VariableAllocValueFromExistingData pc Typ FromValue IsLValue LValueFrom
          = some (Exit.ret v, pc1) →
      ∃ pc2, VariableStackPop pc1 v = some (Exit.ret (), pc2)
        ∧ pc2.arena.HeapStackTop = pc.arena.HeapStackTop := by
    intro Typ FromValue IsLValue LValueFrom v pc1 h
    unfold VariableAllocValueFromExistingData at h
    split at h
    · cases h
    · cases h
    · rename_i NewValue pc0 hal
      obtain ⟨a1, ha, hne, rfl⟩ := VariableAlloc_stack hal
      simp only [Option.some.injEq, Prod.mk.injEq, Exit.ret.injEq] at h
      obtain ⟨rfl, rfl⟩ := h
      exact VariableStackPop_header hi ha hne (if_pos rfl) rfl rfl
  refine ⟨?_, hexisting, ?_⟩
  · intro Parser Typ IsLValue LValueFrom v pc1 h
    unfold VariableAllocValueFromType at h
    split at h
    · cases h
    · rename_i t ht
      split at h
      · cases h
      · rename_i Size hsz
        split at h
        · cases h
        · cases h
        · rename_i NewValue pc0 hal
          unfold VariableAllocValueAndData at hal
          split at hal
          · cases hal
          · cases hal
          · rename_i NewValue0 pc00 hal0
            obtain ⟨a1, ha, hne, rfl⟩ := VariableAlloc_stack hal0
            simp only [Option.some.injEq, Prod.mk.injEq, Exit.ret.injEq] at hal
            obtain ⟨rfl, rfl⟩ := hal
            split at h
            · cases h
            · simp only [if_true, Option.some.injEq, Prod.mk.injEq, Exit.ret.injEq] at h
              obtain ⟨rfl, rfl⟩ := h
              have hpop := (HeapPopStack_after_alloc hi _ ha hne).1
              rw [MEM_ALIGN_sizeofValue] at hpop
              have hsz2 : ∀ v : Value, v.Typ = Typ → TypeSizeValue pc.types v false = some Size := by
                intro v hv
                unfold TypeSize at hsz
                unfold TypeSizeValue
                rw [hv]
                simp only [ht] at hsz ⊢
                exact hsz
              unfold VariableStackPop
              simp only [if_true, Bool.not_false, Bool.false_eq_true, if_false]
              rw [hsz2 _ rfl]
              simp only [hpop]
              exact ⟨_, rfl, rfl⟩
  · intro FromValue v pc1 h
    unfold VariableAllocValueShared at h
    split at h
    · cases h
    · exact hexisting _ _ _ _ _ _ h

theorem exAfterFromType_reachable : HeapReachable exAfterFromType.arena :=
  HeapReachable.step exArena_reachable
    (HeapStep.alloc 43 (show HeapAllocStack exArena 43 = some (exAfterFromType.arena, 4096) by rfl))

/-- C2 at concrete inputs: a `char [3]` value, a header for an existing payload and a
header sharing the `char [3]` value, each allocated and popped. -/
theorem C2_value_alloc_pop_parity_witness :
    (∃ pc2, VariableStackPop exAfterFromType 4096 = some (Exit.ret (), pc2)
        ∧ pc2.arena.HeapStackTop = exPicoc.arena.HeapStackTop)
    ∧ (∃ pc2, VariableStackPop exAfterExisting 4096 = some (Exit.ret (), pc2)
        ∧ pc2.arena.HeapStackTop = exPicoc.arena.HeapStackTop)
    ∧ (∃ pc2, VariableStackPop exAfterShared 4144 = some (Exit.ret (), pc2)
        ∧ pc2.arena.HeapStackTop = exAfterFromType.arena.HeapStackTop) :=
  ⟨(C2_value_alloc_pop_parity exPicoc exArena_reachable).1 none (TypePtr.heap 800) true 0 4096
      exAfterFromType (by rfl),
   (C2_value_alloc_pop_parity exPicoc exArena_reachable).2.1 (TypePtr.field TypeField.IntType)
      10000 true 0 4096 exAfterExisting (by rfl),
   (C2_value_alloc_pop_parity exAfterFromType exAfterFromType_reachable).2.2 4096 4144
      exAfterShared (by rfl)⟩

/-! ## C3 -/

theorem FrameActivity_kept {pc1 pc2 : Picoc} (h : FrameActivity pc1 pc2) (T : Nat)
    (P : ParseState) (prev SF link : Nat) (hk : FrameKept T P prev SF link pc1) :
    FrameKept T P prev SF link pc2 := by
  induction h with
  | refl pc => exact hk
  | alloc Size hal _ ih =>
    apply ih
    obtain ⟨a1, ha, _, rfl⟩ := VariableAlloc_stack hal
    obtain ⟨k1, k2, k3, k4, k5, k6⟩ := hk
    rcases HeapAllocStack_effect ha with ⟨_, rfl⟩ | ⟨_, rfl, _, _⟩
    · exact ⟨k1, k2, k3, k4, k5, k6⟩
    · refine ⟨k1, k2, k3, ?_, Nat.le_add_right_of_le k5, k6⟩
      show readPtr (memset _ _ 0 _) SF = link
      rw [readPtr_memset _ _ _ _ _ (Or.inl k5)]
      exact k4
  | pop Size hp hge _ ih =>
    apply ih
    obtain ⟨k1, k2, k3, k4, k5, k6⟩ := hk
    rcases HeapPopStack_effect hp with ⟨_, rfl⟩ | ⟨_, t, rfl, _⟩
    · exact ⟨k1, k2, k3, k4, k5, k6⟩
    · refine ⟨k1, k2, k3, k4, ?_, k6⟩
      rw [← k3]
      exact hge
  | header vals Memory hm _ ih =>
    apply ih
    obtain ⟨k1, k2, k3, k4, k5, k6⟩ := hk
    refine ⟨k1, k2, k3, ?_, k5, k6⟩
    show readPtr Memory SF = link
    rw [← k4]
    apply readPtr_congr
    intro k hk8
    rw [← k3]
    exact hm k hk8
  | bind LocalTable hf _ ih =>
    apply ih
    obtain ⟨k1, ⟨f, k2, k2a, k2b⟩, k3, k4, k5, k6⟩ := hk
    refine ⟨k1, ?_, k3, k4, k5, k6⟩
    rw [k1] at hf
    rw [k2] at hf
    injection hf with hf
    subst hf
    refine ⟨{ f with LocalTable := LocalTable }, ?_, k2a, k2b⟩
    show (if T = _ then _ else _) = _
    rw [if_pos k1.symm]

/-- C3 (frame round trip): on an instance whose arena is reachable from `HeapInit`, after
a successful `VariableStackFrameAdd` and any activity of the function body (stack
allocations, pops that stay above the frame link, writes of values, bindings in the local
table of the frame), `VariableStackFramePop` returns, leaves `TopStackFrame`,
`HeapStackTop` and the arena frame base at their values before the add, and leaves in
the parser the state that the add saved. -/
theorem C3_frame_round_trip (pc : Picoc) (hr : HeapReachable pc.arena) (Parser : ParseState)
    (FuncName : Nat) (NumParams : Int) (pc1 pc2 : Picoc)
    (hadd : VariableStackFrameAdd pc Parser FuncName NumParams = some (Exit.ret (), pc1))
    (hact : FrameActivity pc1 pc2) (Parser2 : ParseState) :
    ∃ pc3, VariableStackFramePop pc2 Parser2 = some (Exit.ret Parser, pc3)
      ∧ pc3.TopStackFrame = pc.TopStackFrame
      ∧ pc3.arena.HeapStackTop = pc.arena.HeapStackTop
      ∧ pc3.arena.StackFrame = pc.arena.StackFrame := by
  obtain ⟨i0, i1, i2, i3, i4, i5⟩ := HeapReachable_inv hr
  unfold VariableStackFrameAdd at hadd
  split at hadd
  · cases hadd
  · rename_i arena1 hpush
    split at hadd
    · cases hadd
    · rename_i arena2 NewFrame halloc
      split at hadd
      · cases hadd
      · rename_i hne
        simp only [Option.some.injEq, Prod.mk.injEq, true_and] at hadd
        subst hadd
        unfold HeapPushStackFrame at hpush
        split at hpush
        · cases hpush
        · rename_i hin
          rw [not_not] at hin
          cases hpush
          have hkept : FrameKept NewFrame Parser pc.TopStackFrame pc.arena.HeapStackTop
              pc.arena.StackFrame
              { pc with
                arena := arena2
                frames := fun a => if a = NewFrame then some
                  { ReturnParser := ParserCopy Parser, FuncName := FuncName, ReturnValue := 0,
                    Parameter := if NumParams > 0 then NewFrame + sizeofStackFrame else 0,
                    NumParams := 0, LocalTable := TableInitTable LOCAL_TABLE_SIZE false,
                    PreviousStackFrame := pc.TopStackFrame } else pc.frames a
                TopStackFrame := NewFrame } := by
            rcases HeapAllocStack_effect halloc with ⟨h0, _⟩ | ⟨_, rfl, _, _⟩
            · exact absurd h0 hne
            · refine ⟨rfl, ⟨_, if_pos rfl, rfl, rfl⟩, rfl, ?_, ?_, hin⟩
              · show readPtr (memset (writePtr _ _ _) _ 0 _) _ = _
                rw [readPtr_memset _ _ _ _ _ (Or.inl (by rw [MEM_ALIGN_sizeofAlignType]))]
                exact readPtr_writePtr _ _ _ i4
              · show _ + 8 ≤ _ + MEM_ALIGN sizeofAlignType + _
                rw [MEM_ALIGN_sizeofAlignType]
                omega
          obtain ⟨k1, ⟨f, k2, k2a, k2b⟩, k3, k4, k5, k6⟩ := FrameActivity_kept hact _ _ _ _ _ hkept
          unfold VariableStackFramePop HeapPopStackFrame
          rw [k1, if_neg hne, k2]
          simp only [k3, k4]
          rw [if_neg (not_not.mpr k6), if_pos (by omega)]
          subst k2a
          refine ⟨_, rfl, ?_, ?_, ?_⟩
          · exact k2b
          · rfl
          · rfl

theorem exFrameActivity : FrameActivity exAfterFrameAdd exAfterFrameAlloc :=
  FrameActivity.alloc 12
    (show VariableAlloc exAfterFrameAdd 12 false = some (Exit.ret 4336, exAfterFrameAlloc) by rfl)
    (FrameActivity.refl _)

/-- C3 at a concrete input: a frame for a call with two parameters is added to `exPicoc`,
twelve bytes are allocated on the stack, and the frame is popped. -/
theorem C3_frame_round_trip_witness :
    ∃ pc3, VariableStackFramePop exAfterFrameAlloc { exParser with Line := 9 }
        = some (Exit.ret exParser, pc3)
      ∧ pc3.TopStackFrame = exPicoc.TopStackFrame
      ∧ pc3.arena.HeapStackTop = exPicoc.arena.HeapStackTop
      ∧ pc3.arena.StackFrame = exPicoc.arena.StackFrame :=
  C3_frame_round_trip exPicoc exArena_reachable exParser 24 2 exAfterFrameAdd exAfterFrameAlloc
    (by rfl) exFrameActivity { exParser with Line := 9 }

/-! ## C4 -/

theorem setType_same (types : TypePtr → Option ValueType) (p : TypePtr) (t : ValueType) :
    setType types p t p = some t := by
  unfold setType
  rw [if_pos rfl]

theorem setType_other (types : TypePtr → Option ValueType) (p q : TypePtr) (t : ValueType)
    (h : q ≠ p) : setType types p t q = types q := by
  unfold setType
  rw [if_neg h]

/-- Storing the record `r` at a node `n` that is in no chain, and putting `n` at the head
of the chain of `P`, keeps the invariant, when no node of that chain has the base, array
size and identifier of `r`. -/
theorem TypeInv_addNode (types : TypePtr → Option ValueType) (hI : TypeInv types)
    (n P : TypePtr) (r tp : ValueType) (hPn : P ≠ n)
    (hnc : ∀ p t, types p = some t → n ∉ t.DerivedTypeList) (hP : types P = some tp)
    (hr : r.DerivedTypeList = [])
    (hnew : ∀ c ∈ tp.DerivedTypeList, ∀ tc, types c = some tc → ¬ sameTriple r tc) :
    TypeInv (setType (setType types n r) P { tp with DerivedTypeList := n :: tp.DerivedTypeList }) := by
  obtain ⟨hE, hU⟩ := hI
  have hnewP : setType (setType types n r) P { tp with DerivedTypeList := n :: tp.DerivedTypeList } P
      = some { tp with DerivedTypeList := n :: tp.DerivedTypeList } := setType_same _ _ _
  have hnewn : setType (setType types n r) P { tp with DerivedTypeList := n :: tp.DerivedTypeList } n
      = some r := by
    rw [setType_other _ _ _ _ (Ne.symm hPn), setType_same]
  have hold : ∀ q, q ≠ P → q ≠ n →
      setType (setType types n r) P { tp with DerivedTypeList := n :: tp.DerivedTypeList } q
        = types q := by
    intro q h1 h2
    rw [setType_other _ _ _ _ h1, setType_other _ _ _ _ h2]
  generalize setType (setType types n r) P { tp with DerivedTypeList := n :: tp.DerivedTypeList }
    = types2 at hnewP hnewn hold
  -- a node of the old store other than `n` keeps its base, array size and identifier
  have hback : ∀ c tc, c ≠ n → types c = some tc → ∀ tc2, types2 c = some tc2 →
      tc2.Base = tc.Base ∧ tc2.ArraySize = tc.ArraySize ∧ tc2.Identifier = tc.Identifier := by
    intro c tc hcn hc tc2 hc2
    by_cases hcP : c = P
    · subst hcP
      rw [hnewP] at hc2
      rw [hP] at hc
      cases hc
      cases hc2
      exact ⟨rfl, rfl, rfl⟩
    · rw [hold c hcP hcn, hc] at hc2
      cases hc2
      exact ⟨rfl, rfl, rfl⟩
  have hexists : ∀ c tc, types c = some tc → ∃ tc2, types2 c = some tc2 := by
    intro c tc hc
    by_cases hcP : c = P
    · exact ⟨_, hcP ▸ hnewP⟩
    · by_cases hcn : c = n
      · exact ⟨_, hcn ▸ hnewn⟩
      · exact ⟨tc, by rw [hold c hcP hcn, hc]⟩
  -- an old chain stays free of duplicates
  have hchain : ∀ q t, types q = some t →
      t.DerivedTypeList.Pairwise
        (fun c1 c2 => ∀ t1 t2, types2 c1 = some t1 → types2 c2 = some t2 → ¬ sameTriple t1 t2) := by
    intro q t hq
    refine List.Pairwise.imp_of_mem ?_ (hU q t hq)
    intro c1 c2 h1 h2 hR t1 t2 ht1 ht2 hs
    obtain ⟨o1, ho1⟩ := hE q t hq c1 h1
    obtain ⟨o2, ho2⟩ := hE q t hq c2 h2
    have n1 : c1 ≠ n := fun h => hnc q t hq (h ▸ h1)
    have n2 : c2 ≠ n := fun h => hnc q t hq (h ▸ h2)
    obtain ⟨a1, a2, a3⟩ := hback c1 o1 n1 ho1 t1 ht1
    obtain ⟨b1, b2, b3⟩ := hback c2 o2 n2 ho2 t2 ht2
    apply hR o1 o2 ho1 ho2
    unfold sameTriple at hs ⊢
    rw [← a1, ← a2, ← a3, ← b1, ← b2, ← b3]
    exact hs
  constructor
  · intro q t hq c hc
    by_cases hqP : q = P
    · subst hqP
      rw [hnewP] at hq
      cases hq
      rcases List.mem_cons.mp hc with h | h
      · exact ⟨r, h ▸ hnewn⟩
      · obtain ⟨o, ho⟩ := hE q tp hP c h
        exact hexists c o ho
    · by_cases hqn : q = n
      · subst hqn
        rw [hnewn] at hq
        cases hq
        rw [hr] at hc
        cases hc
      · rw [hold q hqP hqn] at hq
        obtain ⟨o, ho⟩ := hE q t hq c hc
        exact hexists c o ho
  · intro q t hq
    by_cases hqP : q = P
    · subst hqP
      rw [hnewP] at hq
      cases hq
      refine List.pairwise_cons.mpr ⟨?_, hchain q tp hP⟩
      intro c hc t1 t2 ht1 ht2 hs
      rw [hnewn] at ht1
      cases ht1
      obtain ⟨o, ho⟩ := hE q tp hP c hc
      have n1 : c ≠ n := fun h => hnc q tp hP (h ▸ hc)
      obtain ⟨b1, b2, b3⟩ := hback c o n1 ho t2 ht2
      apply hnew c hc o ho
      unfold sameTriple at hs ⊢
      rw [← b1, ← b2, ← b3]
      exact hs
    · by_cases hqn : q = n
      · subst hqn
        rw [hnewn] at hq
        cases hq
        rw [hr]
        exact List.Pairwise.nil
      · rw [hold q hqP hqn] at hq
        exact hchain q t hq

/-- The case of `TypeInv_addNode` where `n` is a node that was not allocated. -/
theorem TypeInv_addChild (types : TypePtr → Option ValueType) (hI : TypeInv types)
    (n P : TypePtr) (r tp : ValueType) (hn : types n = none) (hP : types P = some tp)
    (hr : r.DerivedTypeList = [])
    (hnew : ∀ c ∈ tp.DerivedTypeList, ∀ tc, types c = some tc → ¬ sameTriple r tc) :
    TypeInv (setType (setType types n r) P { tp with DerivedTypeList := n :: tp.DerivedTypeList }) := by
  refine TypeInv_addNode types hI n P r tp ?_ ?_ hP hr hnew
  · intro h
    rw [h, hn] at hP
    cases hP
  · intro p t hp hmem
    obtain ⟨tc, htc⟩ := hI.1 p t hp n hmem
    rw [hn] at htc
    cases htc

theorem HeapAllocMem_state (pc : Picoc) (n : Int) :
    ∃ rest m, (HeapAllocMem pc n).2
      = { pc with calloc := rest, arena := { pc.arena with Memory := m } } := by
  unfold HeapAllocMem
  cases pc.calloc with
  | nil => exact ⟨pc.calloc, pc.arena.Memory, rfl⟩
  | cons a rest =>
    simp only
    split
    · exact ⟨rest, pc.arena.Memory, rfl⟩
    · exact ⟨rest, _, rfl⟩

theorem VariableAlloc_heap {pc pc1 : Picoc} {n : Int} {e : Exit Nat}
    (h : VariableAlloc pc n true = some (e, pc1)) :
    (∃ rest m, pc1 = { pc with calloc := rest, arena := { pc.arena with Memory := m } })
      ∧ ∀ a, e = Exit.ret a → a ≠ 0 ∧ pc.vals a = none ∧ pc.tables a = none
          ∧ pc.types (TypePtr.heap a) = none := by
  unfold VariableAlloc at h
  simp only [if_true] at h
  obtain ⟨rest, m, hr⟩ := HeapAllocMem_state pc n
  generalize HeapAllocMem pc n = res at h hr
  obtain ⟨NewValue, pc0⟩ := res
  simp only at h hr
  subst hr
  split at h
  · cases h
    exact ⟨⟨rest, m, rfl⟩, fun a ha => by cases ha⟩
  · rename_i hne
    split at h
    · cases h
    · rename_i hfresh
      cases h
      refine ⟨⟨rest, m, rfl⟩, fun a ha => ?_⟩
      cases ha
      simp only [not_or, Bool.not_eq_true, Option.not_isSome, Option.isNone_iff_eq_none] at hfresh
      exact ⟨hne, hfresh.1, hfresh.2.1, hfresh.2.2.1⟩

/-- The effect of `TypeAdd` on the store of types: none when it fails, otherwise a node
that was not allocated is stored and put at the head of the chain of the parent. -/
theorem TypeAdd_effect {pc pc2 : Picoc} {P : TypePtr} {B : BaseType} {A : Int} {I : Nat}
    {S Al : Int} {e : Exit TypePtr} (h : TypeAdd pc P B A I S Al = some (e, pc2)) :
    ((∃ f, e = Exit.fail f) ∧ pc2.types = pc.types) ∨
    (∃ a tp, e = Exit.ret (TypePtr.heap a) ∧ pc.types (TypePtr.heap a) = none
      ∧ pc.types P = some tp
      ∧ pc2.types = setType (setType pc.types (TypePtr.heap a)
          { Base := B, ArraySize := A, Sizeof := S, AlignBytes := Al, Identifier := I,
            FromType := P, DerivedTypeList := [], Members := TablePtr.null, OnHeap := true }) P
          { tp with DerivedTypeList := TypePtr.heap a :: tp.DerivedTypeList }) := by
  unfold TypeAdd at h
  split at h
  · cases h
  · rename_i f pc1 hal
    obtain ⟨⟨rest, m, rfl⟩, _⟩ := VariableAlloc_heap hal
    cases h
    exact Or.inl ⟨⟨f, rfl⟩, rfl⟩
  · rename_i a pc1 hal
    obtain ⟨⟨rest, m, rfl⟩, hfr⟩ := VariableAlloc_heap hal
    obtain ⟨_, _, _, hfresh⟩ := hfr a rfl
    simp only at h
    split at h
    · cases h
    · rename_i tp hP
      cases h
      exact Or.inr ⟨a, tp, rfl, hfresh, hP, rfl⟩

theorem findMatching_none {types : TypePtr → Option ValueType} {B : BaseType} {A : Int} {I : Nat}
    {l : List TypePtr} (h : findMatching types B A I l = some none) :
    ∀ c ∈ l, ∀ tc, types c = some tc → ¬ (tc.Base = B ∧ tc.ArraySize = A ∧ tc.Identifier = I) := by
  induction l with
  | nil => intro c hc; cases hc
  | cons x xs ih =>
    unfold findMatching at h
    split at h
    · cases h
    · rename_i t ht
      split at h
      · rename_i hne
        intro c hc tc htc
        rcases List.mem_cons.mp hc with hcx | hcx
        · subst hcx
          rw [ht] at htc
          cases htc
          intro ⟨e1, e2, e3⟩
          rcases hne with h1 | h1 | h1
          · exact h1 e1
          · exact h1 e2
          · exact h1 e3
        · exact ih h c hcx tc htc
      · cases h

/-- `TypeGetMatching` keeps the invariant of the store of types, however it ends. -/
theorem TypeGetMatching_inv {pc pc2 : Picoc} {P : TypePtr} {B : BaseType} {A : Int} {I : Nat}
    {dup : Bool} {e : Exit TypePtr} (hI : TypeInv pc.types)
    (h : TypeGetMatching pc P B A I dup = some (e, pc2)) : TypeInv pc2.types := by
  unfold TypeGetMatching at h
  split at h
  · cases h
  · rename_i parent hP
    split at h
    · cases h
    · split at h <;> · cases h; exact hI
    · rename_i hfind
      have hnone := findMatching_none hfind
      have key : ∀ (S Al : Int), TypeAdd pc P B A I S Al = some (e, pc2) → TypeInv pc2.types := by
        intro S Al hadd
        rcases TypeAdd_effect hadd with ⟨_, ht⟩ | ⟨a, tp, _, hfresh, hP2, ht⟩
        · rw [ht]; exact hI
        · rw [ht]
          rw [hP] at hP2
          cases hP2
          refine TypeInv_addChild pc.types hI _ P _ parent hfresh hP rfl ?_
          intro c hc tc htc hs
          apply hnone c hc tc htc
          unfold sameTriple at hs
          exact ⟨hs.1.symm, hs.2.1.symm, hs.2.2.symm⟩
      split at h
      · exact key _ _ h
      · exact key _ _ h
      · exact key _ _ h
      · exact key _ _ h

theorem BasePhase_init :
    BasePhase (setType blankTypes (TypePtr.field TypeField.UberType)
      { uberType blankTypes with DerivedTypeList := [] }) [] := by
  have hnil : ∀ p t, setType blankTypes (TypePtr.field TypeField.UberType)
      { uberType blankTypes with DerivedTypeList := [] } p = some t → t.DerivedTypeList = [] := by
    intro p t h
    by_cases hp : p = TypePtr.field TypeField.UberType
    · rw [hp, setType_same] at h
      cases h
      rfl
    · rw [setType_other _ _ _ _ hp] at h
      cases p with
      | null => cases h
      | heap a => cases h
      | field f =>
        simp only [blankTypes, Option.some.injEq] at h
        rw [← h]
        rfl
  refine ⟨⟨?_, ?_⟩, ?_, ?_, ?_, ?_, ?_, ?_⟩
  · intro p t h c hc
    rw [hnil p t h] at hc
    cases hc
  · intro p t h
    rw [hnil p t h]
    exact List.Pairwise.nil
  · intro p t h c hc
    rw [hnil p t h] at hc
    cases hc
  · intro c hc
    have hu : (uberType (setType blankTypes (TypePtr.field TypeField.UberType)
        { uberType blankTypes with DerivedTypeList := [] })).DerivedTypeList = [] := by
      unfold uberType
      rw [setType_same]
    rw [hu] at hc
    cases hc
  · intro p t _ h
    exact hnil p t h
  · intro a
    rw [setType_other _ _ _ _ (by simp)]
    rfl
  · exact ⟨_, setType_same _ _ _⟩
  · intro fb h
    cases h

theorem BasePhase_step {types : TypePtr → Option ValueType} {done : List (TypeField × BaseType)}
    (h : BasePhase types done) (StrEmpty : Nat) (f : TypeField) (B : BaseType) (S A : Int)
    (hf : f ≠ TypeField.UberType) (hdf : ∀ fb ∈ done, fb.1 ≠ f) (hdb : ∀ fb ∈ done, fb.2 ≠ B) :
    BasePhase (TypeAddBaseType StrEmpty types f B S A) ((f, B) :: done) := by
  obtain ⟨hI, h3, h4, h5, h6, ⟨u, hu⟩, h8⟩ := h
  have hne : TypePtr.field TypeField.UberType ≠ TypePtr.field f := by
    intro e
    injection e with e
    exact hf e.symm
  have hu1 : uberType (setType types (TypePtr.field f)
      { Base := B, ArraySize := 0, Sizeof := S, AlignBytes := A, Identifier := StrEmpty,
        FromType := TypePtr.null, DerivedTypeList := [], Members := TablePtr.null,
        OnHeap := false }) = u := by
    unfold uberType
    rw [setType_other _ _ _ _ hne, hu]
  have huo : uberType types = u := by
    unfold uberType
    rw [hu]
  unfold TypeAddBaseType
  simp only [hu1]
  have hnc : ∀ p t, types p = some t → TypePtr.field f ∉ t.DerivedTypeList := by
    intro p t hp hmem
    obtain ⟨fb, hfb, e⟩ := h3 p t hp _ hmem
    injection e with e
    exact hdf fb hfb e.symm
  have hInv := TypeInv_addNode types hI (TypePtr.field f) (TypePtr.field TypeField.UberType)
    { Base := B, ArraySize := 0, Sizeof := S, AlignBytes := A, Identifier := StrEmpty,
      FromType := TypePtr.null, DerivedTypeList := [], Members := TablePtr.null, OnHeap := false }
    u hne hnc hu rfl (by
      intro c hc tc htc hs
      rw [← huo] at hc
      obtain ⟨fb, hfb, e⟩ := h4 c hc tc htc
      exact hdb fb hfb (by rw [← e]; exact hs.1.symm))
  have hnewP := setType_same (setType types (TypePtr.field f)
    { Base := B, ArraySize := 0, Sizeof := S, AlignBytes := A, Identifier := StrEmpty,
      FromType := TypePtr.null, DerivedTypeList := [], Members := TablePtr.null, OnHeap := false })
    (TypePtr.field TypeField.UberType) { u with DerivedTypeList := TypePtr.field f :: u.DerivedTypeList }
  have hnewn : setType (setType types (TypePtr.field f)
    { Base := B, ArraySize := 0, Sizeof := S, AlignBytes := A, Identifier := StrEmpty,
      FromType := TypePtr.null, DerivedTypeList := [], Members := TablePtr.null, OnHeap := false })
    (TypePtr.field TypeField.UberType)
    { u with DerivedTypeList := TypePtr.field f :: u.DerivedTypeList } (TypePtr.field f) = some
    { Base := B, ArraySize := 0, Sizeof := S, AlignBytes := A, Identifier := StrEmpty,
      FromType := TypePtr.null, DerivedTypeList := [], Members := TablePtr.null, OnHeap := false } := by
    rw [setType_other _ _ _ _ (Ne.symm hne), setType_same]
  have hold : ∀ q, q ≠ TypePtr.field TypeField.UberType → q ≠ TypePtr.field f →
      setType (setType types (TypePtr.field f)
        { Base := B, ArraySize := 0, Sizeof := S, AlignBytes := A, Identifier := StrEmpty,
          FromType := TypePtr.null, DerivedTypeList := [], Members := TablePtr.null, OnHeap := false })
        (TypePtr.field TypeField.UberType)
        { u with DerivedTypeList := TypePtr.field f :: u.DerivedTypeList } q = types q := by
    intro q h1 h2
    rw [setType_other _ _ _ _ h1, setType_other _ _ _ _ h2]
  generalize setType (setType types (TypePtr.field f)
    { Base := B, ArraySize := 0, Sizeof := S, AlignBytes := A, Identifier := StrEmpty,
      FromType := TypePtr.null, DerivedTypeList := [], Members := TablePtr.null, OnHeap := false })
    (TypePtr.field TypeField.UberType)
    { u with DerivedTypeList := TypePtr.field f :: u.DerivedTypeList } = types2
    at hInv hnewP hnewn hold
  refine ⟨hInv, ?_, ?_, ?_, ?_, ⟨_, hnewP⟩, ?_⟩
  · intro p t hp c hc
    by_cases hpU : p = TypePtr.field TypeField.UberType
    · rw [hpU, hnewP] at hp
      cases hp
      rcases List.mem_cons.mp hc with e | e
      · exact ⟨(f, B), List.mem_cons_self _ _, e⟩
      · obtain ⟨fb, hfb, e2⟩ := h3 _ u hu c e
        exact ⟨fb, List.mem_cons_of_mem _ hfb, e2⟩
    · by_cases hpf : p = TypePtr.field f
      · rw [hpf, hnewn] at hp
        cases hp
        cases hc
      · rw [hold p hpU hpf] at hp
        obtain ⟨fb, hfb, e2⟩ := h3 p t hp c hc
        exact ⟨fb, List.mem_cons_of_mem _ hfb, e2⟩
  · intro c hc tc htc
    have hu2 : uberType types2 = { u with DerivedTypeList := TypePtr.field f :: u.DerivedTypeList } := by
      unfold uberType
      rw [hnewP]
    rw [hu2] at hc
    rcases List.mem_cons.mp hc with e | e
    · rw [e, hnewn] at htc
      cases htc
      exact ⟨(f, B), List.mem_cons_self _ _, rfl⟩
    · obtain ⟨fb, hfb, e2⟩ := h3 _ u hu c e
      have hcU : c ≠ TypePtr.field TypeField.UberType := by
        rw [e2]
        intro e3
        injection e3 with e3
        exact h8 fb hfb e3
      have hcf : c ≠ TypePtr.field f := fun e3 => hnc _ u hu (e3 ▸ e)
      rw [hold c hcU hcf] at htc
      rw [← huo] at e
      obtain ⟨fb2, hfb2, e4⟩ := h4 c e tc htc
      exact ⟨fb2, List.mem_cons_of_mem _ hfb2, e4⟩
  · intro p t hpU hp
    by_cases hpf : p = TypePtr.field f
    · rw [hpf, hnewn] at hp
      cases hp
      rfl
    · rw [hold p hpU hpf] at hp
      exact h5 p t hpU hp
  · intro a
    rw [hold _ (by simp) (by simp)]
    exact h6 a
  · intro fb hfb
    rcases List.mem_cons.mp hfb with e | e
    · rw [e]
      exact hf
    · exact h8 fb e

theorem BasePhase_fold (StrEmpty : Nat) (L : List (TypeField × BaseType × Int × Int)) :
    ∀ (types : TypePtr → Option ValueType) (done : List (TypeField × BaseType)),
    BasePhase types done →
    (∀ x ∈ L, x.1 ≠ TypeField.UberType) →
    (L.map (fun x => x.1)).Nodup → (L.map (fun x => x.2.1)).Nodup →
    (∀ x ∈ L, ∀ fb ∈ done, fb.1 ≠ x.1 ∧ fb.2 ≠ x.2.1) →
    ∃ done2, BasePhase
      (L.foldl (fun types c => TypeAddBaseType StrEmpty types c.1 c.2.1 c.2.2.1 c.2.2.2) types)
      done2 := by
  induction L with
  | nil => intro types done h _ _ _ _; exact ⟨done, h⟩
  | cons x xs ih =>
    intro types done h hU hN1 hN2 hD
    rw [List.foldl_cons]
    have hx := hD x (List.mem_cons_self _ _)
    refine ih _ ((x.1, x.2.1) :: done)
      (BasePhase_step h StrEmpty x.1 x.2.1 x.2.2.1 x.2.2.2 (hU x (List.mem_cons_self _ _))
        (fun fb hfb => (hx fb hfb).1) (fun fb hfb => (hx fb hfb).2))
      (fun y hy => hU y (List.mem_cons_of_mem _ hy))
      (List.Nodup.of_cons hN1) (List.Nodup.of_cons hN2) ?_
    intro y hy fb hfb
    rcases List.mem_cons.mp hfb with e | e
    · rw [e]
      rw [List.map_cons] at hN1 hN2
      constructor
      · intro e2
        have e3 : x.1 = y.1 := e2
        exact (List.nodup_cons.mp hN1).1 (e3 ▸ List.mem_map_of_mem (fun x => x.1) hy)
      · intro e2
        have e3 : x.2.1 = y.2.1 := e2
        exact (List.nodup_cons.mp hN2).1 (e3 ▸ List.mem_map_of_mem (fun x => x.2.1) hy)
    · exact hD y (List.mem_cons_of_mem _ hy) fb e

/-- `TypeAdd` keeps the invariant when the chain of the parent has no node with the new
base, array size and identifier. -/
theorem TypeAdd_inv {pc pc2 : Picoc} {P : TypePtr} {B : BaseType} {A : Int} {I : Nat}
    {S Al : Int} {e : Exit TypePtr} (h : TypeAdd pc P B A I S Al = some (e, pc2))
    (hI : TypeInv pc.types)
    (hnew : ∀ tp, pc.types P = some tp → ∀ c ∈ tp.DerivedTypeList, ∀ tc, pc.types c = some tc →
      ¬ (tc.Base = B ∧ tc.ArraySize = A ∧ tc.Identifier = I)) : TypeInv pc2.types := by
  rcases TypeAdd_effect h with ⟨_, ht⟩ | ⟨a, tp, _, hfresh, hP, ht⟩
  · rw [ht]; exact hI
  · rw [ht]
    refine TypeInv_addChild pc.types hI _ P _ tp hfresh hP rfl ?_
    intro c hc tc htc hs
    apply hnew tp hP c hc tc htc
    unfold sameTriple at hs
    exact ⟨hs.1.symm, hs.2.1.symm, hs.2.2.symm⟩

/-- `TypeAdd` leaves the chain of a node other than the parent empty if it was. -/
theorem TypeAdd_keeps_empty {pc pc2 : Picoc} {P : TypePtr} {B : BaseType} {A : Int} {I : Nat}
    {S Al : Int} {e : Exit TypePtr} (h : TypeAdd pc P B A I S Al = some (e, pc2)) (q : TypePtr)
    (hq : q ≠ P) (hE : ∀ t, pc.types q = some t → t.DerivedTypeList = []) :
    ∀ t, pc2.types q = some t → t.DerivedTypeList = [] := by
  rcases TypeAdd_effect h with ⟨_, ht⟩ | ⟨a, tp, _, hfresh, hP, ht⟩
  · rw [ht]; exact hE
  · rw [ht]
    intro t hqt
    rw [setType_other _ _ _ _ hq] at hqt
    by_cases hqn : q = TypePtr.heap a
    · rw [hqn, setType_same] at hqt
      cases hqt
      rfl
    · rw [setType_other _ _ _ _ hqn] at hqt
      exact hE t hqt

/-- `TypeInit`, run on an instance filled with zero bytes, establishes the invariant,
also when it runs out of memory on the way. -/
theorem TypeInit_inv {pc0 pc : Picoc} {e : Exit Unit} (h0 : pc0.types = blankTypes)
    (h : TypeInit pc0 = some (e, pc)) : TypeInv pc.types := by
  unfold TypeInit at h
  simp only [h0] at h
  obtain ⟨done2, hB⟩ := BasePhase_fold pc0.StrEmpty baseTypeCalls _ [] BasePhase_init
    (by decide) (by decide) (by decide) (by intro x _ fb hfb; cases hfb)
  generalize List.foldl (fun types c => TypeAddBaseType pc0.StrEmpty types c.1 c.2.1 c.2.2.1 c.2.2.2)
    (setType blankTypes (TypePtr.field TypeField.UberType)
      { uberType blankTypes with DerivedTypeList := [] }) baseTypeCalls = types2 at h hB
  obtain ⟨hI, _, _, h5, h6, _, _⟩ := hB
  have hChar : ∀ t, types2 (TypePtr.field TypeField.CharType) = some t → t.DerivedTypeList = [] :=
    fun t ht => h5 _ t (by simp) ht
  have hVoid : ∀ t, types2 (TypePtr.field TypeField.VoidType) = some t → t.DerivedTypeList = [] :=
    fun t ht => h5 _ t (by simp) ht
  split at h
  · cases h
  · rename_i f pc3 h1
    cases h
    exact TypeAdd_inv h1 hI (fun tp htp c hc => by rw [hChar tp htp] at hc; cases hc)
  · rename_i a1 pc3 h1
    have hI3 : TypeInv pc3.types :=
      TypeAdd_inv h1 hI (fun tp htp c hc => by rw [hChar tp htp] at hc; cases hc)
    have hVoid3 := TypeAdd_keeps_empty h1 (TypePtr.field TypeField.VoidType) (by simp) hVoid
    -- the chain of `char` now holds the array type alone
    have hChar3 : ∀ tp, pc3.types (TypePtr.field TypeField.CharType) = some tp →
        ∀ c ∈ tp.DerivedTypeList, ∀ tc, pc3.types c = some tc → tc.Base = BaseType.TypeArray := by
      rcases TypeAdd_effect h1 with ⟨⟨f, hf⟩, _⟩ | ⟨a, tp0, he, hfresh, hP, ht⟩
      · cases hf
      · rw [ht]
        intro tp htp c hc tc htc
        rw [setType_same] at htp
        cases htp
        have hl := hChar tp0 hP
        rw [hl] at hc
        rcases List.mem_cons.mp hc with e1 | e1
        · rw [e1, setType_other _ _ _ _ (by simp), setType_same] at htc
          cases htc
          rfl
        · cases e1
    try simp only at h
    split at h
    · cases h
    · rename_i f pc4 h2
      cases h
      exact TypeAdd_inv h2 hI3 (fun tp htp c hc tc htc hs => by
        have := hChar3 tp htp c hc tc htc
        rw [this] at hs
        exact absurd hs.1 (by decide))
    · rename_i a2 pc4 h2
      have hI4 : TypeInv pc4.types :=
        TypeAdd_inv h2 hI3 (fun tp htp c hc tc htc hs => by
          have := hChar3 tp htp c hc tc htc
          rw [this] at hs
          exact absurd hs.1 (by decide))
      have hVoid4 := TypeAdd_keeps_empty h2 (TypePtr.field TypeField.VoidType) (by simp) hVoid3
      have hNew4 : ∀ t, pc4.types a2 = some t → t.DerivedTypeList = [] := by
        rcases TypeAdd_effect h2 with ⟨⟨f, hf⟩, _⟩ | ⟨a, tp0, he, hfresh, hP, ht⟩
        · cases hf
        · cases he
          rw [ht]
          intro t hta
          rw [setType_other _ _ _ _ (by simp), setType_same] at hta
          cases hta
          rfl
      have hne4 : TypePtr.field TypeField.VoidType ≠ a2 := by
        rcases TypeAdd_effect h2 with ⟨⟨f, hf⟩, _⟩ | ⟨a, tp0, he, _⟩
        · cases hf
        · cases he
          simp
      try simp only at h
      split at h
      · cases h
      · rename_i f pc5 h3
        cases h
        exact TypeAdd_inv h3 hI4 (fun tp htp c hc => by rw [hNew4 tp htp] at hc; cases hc)
      · rename_i a3 pc5 h3
        have hI5 : TypeInv pc5.types :=
          TypeAdd_inv h3 hI4 (fun tp htp c hc => by rw [hNew4 tp htp] at hc; cases hc)
        have hVoid5 := TypeAdd_keeps_empty h3 (TypePtr.field TypeField.VoidType) hne4 hVoid4
        try simp only at h
        split at h
        · cases h
        · rename_i f pc6 h4
          cases h
          exact TypeAdd_inv h4 hI5 (fun tp htp c hc => by rw [hVoid5 tp htp] at hc; cases hc)
        · rename_i a4 pc6 h4
          cases h
          show TypeInv pc6.types
          exact TypeAdd_inv h4 hI5 (fun tp htp c hc => by rw [hVoid5 tp htp] at hc; cases hc)

theorem TypeReachable_inv {pc : Picoc} (h : TypeReachable pc) : TypeInv pc.types := by
  induction h with
  | init h0 hinit => exact TypeInit_inv h0 hinit
  | step ParentType Base ArraySize Identifier AllowDuplicates _ hstep ih =>
    exact TypeGetMatching_inv ih hstep

/-- C4 (type uniqueness): in every instance reachable from `TypeInit` by calls of
`TypeGetMatching`, the calls that fail included, no type node has two children with the
same base, array size and identifier. -/
theorem C4_type_uniqueness (pc : Picoc) (hr : TypeReachable pc) :
    ∀ p t, pc.types p = some t →
      t.DerivedTypeList.Pairwise
        (fun c1 c2 => ∀ t1 t2, pc.types c1 = some t1 → pc.types c2 = some t2 →
          ¬ (t1.Base = t2.Base ∧ t1.ArraySize = t2.ArraySize ∧ t1.Identifier = t2.Identifier)) :=
  (TypeReachable_inv hr).2

theorem exTypedPtr_reachable : TypeReachable exTypedPtr :=
  TypeReachable.step (TypePtr.field TypeField.IntType) BaseType.TypePointer 0 16 true
    (TypeReachable.init (show exBlank.types = blankTypes by rfl)
      (show TypeInit exBlank = some (Exit.ret (), exTyped) by rfl))
    (show TypeGetMatching exTyped (TypePtr.field TypeField.IntType) BaseType.TypePointer 0 16 true
      = some (Exit.ret (TypePtr.heap 10400), exTypedPtr) by rfl)

/-- C4 at a concrete input: in the instance after `TypeInit` and the making of `int *`, the
two types derived from `char`, the array and the pointer, differ in their triple. -/
theorem C4_type_uniqueness_witness :
    ∃ t, exTypedPtr.types (TypePtr.field TypeField.CharType) = some t
      ∧ t.DerivedTypeList = [TypePtr.heap 10100, TypePtr.heap 10000]
      ∧ t.DerivedTypeList.Pairwise
        (fun c1 c2 => ∀ t1 t2, exTypedPtr.types c1 = some t1 → exTypedPtr.types c2 = some t2 →
          ¬ (t1.Base = t2.Base ∧ t1.ArraySize = t2.ArraySize ∧ t1.Identifier = t2.Identifier)) := by
  cases h : exTypedPtr.types (TypePtr.field TypeField.CharType) with
  | none =>
    have h2 : (exTypedPtr.types (TypePtr.field TypeField.CharType)).isSome = true := by rfl
    rw [h] at h2
    cases h2
  | some t =>
    have h3 : (exTypedPtr.types (TypePtr.field TypeField.CharType)).map (fun t => t.DerivedTypeList)
        = some [TypePtr.heap 10100, TypePtr.heap 10000] := by rfl
    rw [h] at h3
    exact ⟨t, rfl, Option.some.inj h3, C4_type_uniqueness exTypedPtr exTypedPtr_reachable _ t h⟩

/-! ## C5, C6, C7: the code at inputs where the layout goes wrong -/

/-- C5, the code at `struct S { char c; struct S inner; int x; };`: the definition is
accepted; the member `inner`, whose type is `S` itself, is recorded at offset 1, and
after the definition `S` has `AlignBytes` 4 and `Sizeof` 8, so the offset of `inner` is
not a multiple of the alignment of its type. -/
theorem C5_self_member_misaligned :
    TypeParseStruct exS exParser 48 true ⟨TypePtr.field TypeField.CharType, 52, true⟩
        [⟨TypePtr.heap 20000, 56, true⟩, ⟨TypePtr.field TypeField.IntType, 60, true⟩] true
      = some (Exit.ret (TypePtr.heap 20000), exAfterSelfStruct)
    ∧ (exAfterSelfStruct.types (TypePtr.heap 20000)).map (fun t => (t.Sizeof, t.AlignBytes, t.Members))
      = some (8, 4, TablePtr.heap 20100)
    ∧ (exAfterSelfStruct.tables 20100).map (fun t => TableGet t 56)
      = some (some { DeclFileName := 32, DeclLine := 3, DeclColumn := 5, Key := 56, Val := 20400 })
    ∧ (exAfterSelfStruct.vals 20400).map (fun v => (v.Typ, v.Val)) = some (TypePtr.heap 20000, 20440)
    ∧ readInt exAfterSelfStruct.arena.Memory 20440 = 1
    ∧ ¬ ((4 : Int) ∣ 1) :=
  ⟨by rfl, by rfl, by rfl, by rfl, by rfl, by decide⟩

/-- C6, the code at `struct X { int a; struct tm t; };` with the opaque `struct tm` of
the time library (`AlignBytes` 0): `a` is at offset 0 with size 4, and `t` is recorded at
offset 0 too, below the end of `a`. -/
theorem C6_opaque_member_overlaps :
    TypeParseStruct exTm exParser 48 true ⟨TypePtr.field TypeField.IntType, 52, true⟩
        [⟨TypePtr.heap 20000, 56, true⟩] true
      = some (Exit.ret (TypePtr.heap 20200), exAfterTmStruct)
    ∧ (exTm.types (TypePtr.heap 20000)).map (fun t => (t.Base, t.Sizeof, t.AlignBytes))
      = some (BaseType.TypeStruct, 56, 0)
    ∧ (exAfterTmStruct.tables 20300).map (fun t => (TableGet t 52, TableGet t 56))
      = some (some { DeclFileName := 32, DeclLine := 3, DeclColumn := 5, Key := 52, Val := 20400 },
              some { DeclFileName := 32, DeclLine := 3, DeclColumn := 5, Key := 56, Val := 20600 })
    ∧ (exAfterTmStruct.vals 20400).map (fun v => (v.Typ, v.Val))
      = some (TypePtr.field TypeField.IntType, 20440)
    ∧ (exAfterTmStruct.vals 20600).map (fun v => (v.Typ, v.Val)) = some (TypePtr.heap 20000, 20640)
    ∧ (exAfterTmStruct.types (TypePtr.field TypeField.IntType)).map (fun t => t.Sizeof) = some 4
    ∧ readInt exAfterTmStruct.arena.Memory 20440 = 0
    ∧ readInt exAfterTmStruct.arena.Memory 20640 = 0
    ∧ ¬ (readInt exAfterTmStruct.arena.Memory 20640 ≥ readInt exAfterTmStruct.arena.Memory 20440 + 4) :=
  ⟨by rfl, by rfl, by rfl, by rfl, by rfl, by rfl, by rfl, by rfl, by decide⟩

/-- C7, the code at `union U { struct tm t; };` with the opaque `struct tm` of the time
library (`Sizeof` 56, `AlignBytes` 0): after the definition the `Sizeof` of `U` is 0, less
than the `Sizeof` of its member; and at `union V { char a[]; };` the `Sizeof` of `V` is 0
while that of the type `char []` made by `TypeInit` is 1. -/
theorem C7_union_smaller_than_member :
    (TypeParseStruct exTm exParser 48 true ⟨TypePtr.heap 20000, 56, true⟩ [] false
        = some (Exit.ret (TypePtr.heap 20200), exAfterTmUnion)
      ∧ (exAfterTmUnion.types (TypePtr.heap 20200)).map (fun t => (t.Base, t.Sizeof))
        = some (BaseType.TypeUnion, 0)
      ∧ (exAfterTmUnion.tables 20300).map (fun t => TableGet t 56)
        = some (some { DeclFileName := 32, DeclLine := 3, DeclColumn := 5, Key := 56, Val := 20400 })
      ∧ (exAfterTmUnion.vals 20400).map (fun v => v.Typ) = some (TypePtr.heap 20000)
      ∧ (exAfterTmUnion.types (TypePtr.heap 20000)).map (fun t => t.Sizeof) = some 56)
    ∧ (TypeParseStruct exS exParser 48 true ⟨TypePtr.heap 10000, 56, true⟩ [] false
        = some (Exit.ret (TypePtr.heap 20000), exAfterCharUnion)
      ∧ (exAfterCharUnion.types (TypePtr.heap 20000)).map (fun t => (t.Base, t.Sizeof))
        = some (BaseType.TypeUnion, 0)
      ∧ (exAfterCharUnion.vals 20200).map (fun v => v.Typ) = some (TypePtr.heap 10000)
      ∧ (exAfterCharUnion.types (TypePtr.heap 10000)).map (fun t => (t.Base, t.ArraySize, t.Sizeof))
        = some (BaseType.TypeArray, 0, 1)) :=
  ⟨⟨by rfl, by rfl, by rfl, by rfl, by rfl⟩, ⟨by rfl, by rfl, by rfl, by rfl⟩⟩

/-! ## C8, C9: the scope loops -/

theorem chainLoop_cons (body : (Nat → Option Value) → TableEntry → Option ((Nat → Option Value) × TableEntry))
    (vals : Nat → Option Value) (e : TableEntry) (rest : List TableEntry) :
    chainLoop body vals (e :: rest)
      = match body vals e with
        | none => none
        | some (vals1, Entry1) =>
          match chainLoop body vals1 rest with
          | none => none
          | some (vals2, Next1) => some (vals2, Entry1 :: Next1) := rfl

theorem condBody_hit (cond : Value → Bool) (f : Value → Value) (g : TableEntry → TableEntry)
    (vals : Nat → Option Value) (e : TableEntry) (v : Value) (hv : vals e.Val = some v)
    (hc : cond v = true) :
    condBody cond f g vals e = some (fun a => if a = e.Val then some (f v) else vals a, g e) := by
  unfold condBody
  rw [hv]
  simp only [hc, if_true]

theorem condBody_miss (cond : Value → Bool) (f : Value → Value) (g : TableEntry → TableEntry)
    (vals : Nat → Option Value) (e : TableEntry) (v : Value) (hv : vals e.Val = some v)
    (hc : ¬ cond v = true) :
    condBody cond f g vals e = some (vals, e) := by
  unfold condBody
  rw [hv]
  simp only [hc, if_false, Bool.false_eq_true]

theorem chainLoop_cond (cond : Value → Bool) (f : Value → Value) (g : TableEntry → TableEntry)
    (vals0 : Nat → Option Value) :
    ∀ (l : List TableEntry) (vals : Nat → Option Value),
    (∀ e ∈ l, vals e.Val = vals0 e.Val) → (l.map (fun e => e.Val)).Nodup →
    (∀ e ∈ l, (vals0 e.Val).isSome) →
    chainLoop (condBody cond f g) vals l
      = some (fun a => if hitAt cond vals0 l a then (vals0 a).map f else vals a,
          l.map (fun e => if hit cond vals0 e then g e else e)) := by
  intro l
  induction l with
  | nil =>
    intro vals _ _ _
    simp [chainLoop, hitAt]
  | cons e rest ih =>
    intro vals hag hnd hsome
    have he := hag e (List.mem_cons_self _ _)
    have hs := hsome e (List.mem_cons_self _ _)
    obtain ⟨v, hv⟩ := Option.isSome_iff_exists.mp hs
    rw [List.map_cons, List.nodup_cons] at hnd
    have hrest : ∀ e2 ∈ rest, e2.Val ≠ e.Val := by
      intro e2 h2 heq
      exact hnd.1 (heq ▸ List.mem_map_of_mem (fun e => e.Val) h2)
    rw [chainLoop_cons]
    by_cases hc : cond v = true
    · rw [condBody_hit cond f g vals e v (he.trans hv) hc]
      simp only
      rw [ih (fun a => if a = e.Val then some (f v) else vals a) (fun e2 h2 => by
        show (if e2.Val = e.Val then _ else _) = _
        rw [if_neg (hrest e2 h2)]
        exact hag e2 (List.mem_cons_of_mem _ h2)) hnd.2
        (fun e2 h2 => hsome e2 (List.mem_cons_of_mem _ h2))]
      have hh : hit cond vals0 e = true := by unfold hit; rw [hv]; exact hc
      simp only [List.map_cons, hh, if_true, Option.some.injEq, Prod.mk.injEq, and_true]
      funext a
      unfold hitAt
      rw [List.any_cons]
      by_cases ha : e.Val = a
      · subst ha
        have hno : rest.any (fun e2 => decide (e2.Val = e.Val) && hit cond vals0 e2) = false := by
          rw [List.any_eq_false]
          intro e2 h2
          simp [hrest e2 h2]
        simp [hno, hh, hv]
      · have ha2 : ¬ a = e.Val := fun h => ha h.symm
        simp [ha, ha2]
    · rw [condBody_miss cond f g vals e v (he.trans hv) hc]
      simp only
      rw [ih vals (fun e2 h2 => hag e2 (List.mem_cons_of_mem _ h2)) hnd.2
        (fun e2 h2 => hsome e2 (List.mem_cons_of_mem _ h2))]
      have hh : hit cond vals0 e = false := by
        unfold hit; rw [hv]; simpa using hc
      simp only [List.map_cons, hh, Option.some.injEq, Prod.mk.injEq]
      refine ⟨?_, by simp⟩
      funext a
      unfold hitAt
      rw [List.any_cons]
      simp [hh]

theorem tableLoop_cons (body : (Nat → Option Value) → TableEntry → Option ((Nat → Option Value) × TableEntry))
    (vals : Nat → Option Value) (chain : List TableEntry) (chains : List (List TableEntry)) :
    tableLoop body vals (chain :: chains)
      = match chainLoop body vals chain with
        | none => none
        | some (vals1, chain1) =>
          match tableLoop body vals1 chains with
          | none => none
          | some (vals2, chains1) => some (vals2, chain1 :: chains1) := rfl

theorem tableLoop_cond (cond : Value → Bool) (f : Value → Value) (g : TableEntry → TableEntry)
    (vals0 : Nat → Option Value) :
    ∀ (chains : List (List TableEntry)) (vals : Nat → Option Value),
    (∀ e ∈ chains.flatten, vals e.Val = vals0 e.Val) →
    (chains.flatten.map (fun e => e.Val)).Nodup →
    (∀ e ∈ chains.flatten, (vals0 e.Val).isSome) →
    tableLoop (condBody cond f g) vals chains
      = some (fun a => if hitAt cond vals0 chains.flatten a then (vals0 a).map f else vals a,
          chains.map (fun chain => chain.map (fun e => if hit cond vals0 e then g e else e))) := by
  intro chains
  induction chains with
  | nil =>
    intro vals _ _ _
    simp [tableLoop, hitAt]
  | cons chain chains ih =>
    intro vals hag hnd hsome
    rw [List.flatten_cons] at hag hnd hsome
    rw [List.map_append, List.nodup_append] at hnd
    obtain ⟨hnd1, hnd2, hdis⟩ := hnd
    rw [tableLoop_cons,
      chainLoop_cond cond f g vals0 chain vals
        (fun e he => hag e (List.mem_append_left _ he)) hnd1
        (fun e he => hsome e (List.mem_append_left _ he))]
    simp only
    have hnot : ∀ e ∈ chains.flatten, hitAt cond vals0 chain e.Val = false := by
      intro e he
      unfold hitAt
      rw [List.any_eq_false]
      intro e2 h2
      have hne : e2.Val ≠ e.Val := by
        intro heq
        exact hdis (List.mem_map_of_mem (fun e => e.Val) h2)
          (heq ▸ List.mem_map_of_mem (fun e => e.Val) he)
      simp [hne]
    rw [ih _ (fun e he => by
        show (if hitAt cond vals0 chain e.Val = true then _ else _) = _
        rw [hnot e he]
        simp only [Bool.false_eq_true, if_false]
        exact hag e (List.mem_append_right _ he)) hnd2
      (fun e he => hsome e (List.mem_append_right _ he))]
    simp only [List.map_cons, Option.some.injEq, Prod.mk.injEq, and_true]
    funext a
    have hany : hitAt cond vals0 (chain ++ chains.flatten) a
        = (hitAt cond vals0 chain a || hitAt cond vals0 chains.flatten a) := by
      unfold hitAt
      rw [List.any_append]
    rw [List.flatten_cons, hany]
    by_cases h1 : hitAt cond vals0 chains.flatten a = true
    · simp [h1]
    · simp [h1]

theorem scopeEndEntry_eq (ScopeID : Int) :
    scopeEndEntry ScopeID
      = condBody (endCond ScopeID) (fun v => { v with OutOfScope := true })
          (fun e => { e with Key := e.Key ||| 1 }) := by
  funext vals e
  unfold scopeEndEntry condBody endCond
  cases vals e.Val with
  | none => rfl
  | some v =>
    simp only
    by_cases h : v.ScopeID = ScopeID ∧ ¬ v.OutOfScope = true
    · rw [if_pos h, if_pos (by simp [h.1, h.2])]
    · rw [if_neg h, if_neg (by
        intro h2
        simp only [Bool.and_eq_true, decide_eq_true_eq, Bool.not_eq_true'] at h2
        exact h ⟨h2.1, by simp [h2.2]⟩)]

theorem scopeBeginEntry_eq (ScopeID : Int) :
    scopeBeginEntry ScopeID
      = condBody (beginCond ScopeID) (fun v => { v with OutOfScope := false })
          (fun e => { e with Key := e.Key &&& (addrLimit - 2) }) := by
  funext vals e
  unfold scopeBeginEntry condBody beginCond
  cases vals e.Val with
  | none => rfl
  | some v =>
    simp only
    by_cases h : v.ScopeID = ScopeID ∧ v.OutOfScope = true
    · rw [if_pos h, if_pos (by simp [h.1, h.2])]
    · rw [if_neg h, if_neg (by
        intro h2
        simp only [Bool.and_eq_true, decide_eq_true_eq] at h2
        exact h h2)]

theorem currentTable_setCurrentTable (pc : Picoc) (Tbl Tbl2 : Table)
    (hT : currentTable pc = some Tbl) (vals : Nat → Option Value) :
    currentTable (setCurrentTable { pc with vals := vals } Tbl2) = some Tbl2 := by
  unfold currentTable at hT ⊢
  unfold setCurrentTable
  by_cases h0 : pc.TopStackFrame = 0
  · simp only [h0, if_true]
  · simp only [h0, if_false] at hT ⊢
    cases hf : pc.frames pc.TopStackFrame with
    | none => rw [hf] at hT; cases hT
    | some f => simp [hf]

/-- The result of `VariableScopeEnd` in closed form. -/
theorem VariableScopeEnd_eq (pc : Picoc) (Parser : ParseState) (ScopeID PrevScopeID : Int)
    (Tbl : Table) (hid : ScopeID ≠ -1) (hT : currentTable pc = some Tbl)
    (hlen : Tbl.HashTable.length = Tbl.Size)
    (hsome : ∀ e ∈ Tbl.entries, (pc.vals e.Val).isSome)
    (hnd : (Tbl.entries.map (fun e => e.Val)).Nodup) :
    VariableScopeEnd pc Parser ScopeID PrevScopeID
      = some (Exit.ret { Parser with ScopeID := PrevScopeID },
          setCurrentTable
            { pc with vals := fun a =>
                if hitAt (endCond ScopeID) pc.vals Tbl.HashTable.flatten a then
                  (pc.vals a).map (fun v => { v with OutOfScope := true })
                else pc.vals a }
            { Tbl with HashTable := Tbl.HashTable.map (fun chain =>
                chain.map (fun e =>
                  if hit (endCond ScopeID) pc.vals e then { e with Key := e.Key ||| 1 } else e)) }) := by
  unfold VariableScopeEnd
  rw [if_neg hid, hT]
  simp only
  rw [if_neg (not_not.mpr hlen), scopeEndEntry_eq,
    tableLoop_cond _ _ _ pc.vals Tbl.HashTable pc.vals (fun _ _ => rfl) hnd hsome]

/-- The result of `VariableScopeBegin` in closed form. -/
theorem VariableScopeBegin_eq (pc : Picoc) (Parser : ParseState) (OldScopeID : Int)
    (Tbl : Table) (hid : Parser.ScopeID ≠ -1) (hT : currentTable pc = some Tbl)
    (hlen : Tbl.HashTable.length = Tbl.Size)
    (hsome : ∀ e ∈ Tbl.entries, (pc.vals e.Val).isSome)
    (hnd : (Tbl.entries.map (fun e => e.Val)).Nodup) :
    VariableScopeBegin pc Parser OldScopeID
      = some (Exit.ret (scopeHash Parser, { Parser with ScopeID := scopeHash Parser },
            Parser.ScopeID),
          setCurrentTable
            { pc with vals := fun a =>
                if hitAt (beginCond (scopeHash Parser)) pc.vals Tbl.HashTable.flatten a then
                  (pc.vals a).map (fun v => { v with OutOfScope := false })
                else pc.vals a }
            { Tbl with HashTable := Tbl.HashTable.map (fun chain =>
                chain.map (fun e =>
                  if hit (beginCond (scopeHash Parser)) pc.vals e then
                    { e with Key := e.Key &&& (addrLimit - 2) }
                  else e)) }) := by
  unfold VariableScopeBegin
  rw [if_neg hid, hT]
  simp only
  rw [if_neg (not_not.mpr hlen), scopeBeginEntry_eq,
    tableLoop_cond _ _ _ pc.vals Tbl.HashTable pc.vals (fun _ _ => rfl) hnd hsome]

theorem setCurrentTable_fields (pc : Picoc) (Tbl : Table) :
    (setCurrentTable pc Tbl).vals = pc.vals
      ∧ (pc.TopStackFrame ≠ 0 → (setCurrentTable pc Tbl).GlobalTable = pc.GlobalTable)
      ∧ (pc.TopStackFrame = 0 → (setCurrentTable pc Tbl).GlobalTable = Tbl)
      ∧ (setCurrentTable pc Tbl).StringLiteralTable = pc.StringLiteralTable
      ∧ (setCurrentTable pc Tbl).tables = pc.tables
      ∧ (∀ a, a ≠ pc.TopStackFrame → (setCurrentTable pc Tbl).frames a = pc.frames a)
      ∧ (setCurrentTable pc Tbl).TopStackFrame = pc.TopStackFrame := by
  unfold setCurrentTable
  by_cases h0 : pc.TopStackFrame = 0
  · rw [if_pos h0]
    exact ⟨rfl, fun h => absurd h0 h, fun _ => rfl, rfl, rfl, fun _ _ => rfl, rfl⟩
  · rw [if_neg h0]
    refine ⟨rfl, fun _ => rfl, fun h => absurd h h0, rfl, rfl, fun a ha => ?_, rfl⟩
    show (if a = pc.TopStackFrame then _ else _) = _
    rw [if_neg ha]

/-- C8 (scope exit): `VariableScopeEnd(id, prev)` with `id != -1`, on a current table whose
entries point to different value headers, returns; it tags the key of, and marks out of
scope the value of, exactly the entries of the current table whose value has
`ScopeID = id` and was in scope; the other entries and values, the other tables and the
frames below the top are unchanged; and the scope id of the parser is `prev`. -/
theorem C8_scope_end_hides_block (pc : Picoc) (Parser : ParseState) (ScopeID PrevScopeID : Int)
    (Tbl : Table) (hid : ScopeID ≠ -1) (hT : currentTable pc = some Tbl)
    (hlen : Tbl.HashTable.length = Tbl.Size)
    (hsome : ∀ e ∈ Tbl.entries, (pc.vals e.Val).isSome)
    (hnd : (Tbl.entries.map (fun e => e.Val)).Nodup) :
    ∃ pc2, VariableScopeEnd pc Parser ScopeID PrevScopeID
        = some (Exit.ret { Parser with ScopeID := PrevScopeID }, pc2)
      ∧ currentTable pc2 = some { Tbl with HashTable := Tbl.HashTable.map (fun chain =>
          chain.map (fun e =>
            if hit (endCond ScopeID) pc.vals e then { e with Key := e.Key ||| 1 } else e)) }
      ∧ (∀ a, pc2.vals a =
          if hitAt (endCond ScopeID) pc.vals Tbl.entries a then
            (pc.vals a).map (fun v => { v with OutOfScope := true })
          else pc.vals a)
      ∧ (pc.TopStackFrame ≠ 0 → pc2.GlobalTable = pc.GlobalTable)
      ∧ pc2.StringLiteralTable = pc.StringLiteralTable
      ∧ pc2.tables = pc.tables
      ∧ (∀ a, a ≠ pc.TopStackFrame → pc2.frames a = pc.frames a)
      ∧ pc2.TopStackFrame = pc.TopStackFrame := by
  rw [VariableScopeEnd_eq pc Parser ScopeID PrevScopeID Tbl hid hT hlen hsome hnd]
  obtain ⟨f1, f2, _, f4, f5, f6, f7⟩ := setCurrentTable_fields
    { pc with vals := fun a =>
        if hitAt (endCond ScopeID) pc.vals Tbl.HashTable.flatten a then
          (pc.vals a).map (fun v => { v with OutOfScope := true })
        else pc.vals a }
    { Tbl with HashTable := Tbl.HashTable.map (fun chain =>
        chain.map (fun e =>
          if hit (endCond ScopeID) pc.vals e then { e with Key := e.Key ||| 1 } else e)) }
  refine ⟨_, rfl, currentTable_setCurrentTable pc Tbl _ hT _, ?_, f2, f4, f5, f6, f7⟩
  intro a
  rw [f1]
  rfl

/-- C8 at a concrete input: the block 525000000 ends inside a function whose local table
holds two of its variables, one variable of another block and one hidden variable. -/
theorem C8_scope_end_hides_block_witness :
    ∃ pc2, VariableScopeEnd exScope exParser 525000000 3
        = some (Exit.ret { exParser with ScopeID := 3 }, pc2)
      ∧ currentTable pc2 = some exScopeHidden
      ∧ pc2.vals 30000 = some (exScopeValue 4200 525000000 true)
      ∧ pc2.vals 30100 = some (exScopeValue 4208 5 false)
      ∧ pc2.GlobalTable = exScope.GlobalTable := by
  obtain ⟨pc2, h1, h2, h3, h4, _⟩ := C8_scope_end_hides_block exScope exParser 525000000 3
    exScopeTable (by decide) rfl rfl (by decide) (by decide)
  exact ⟨pc2, h1, h2, h3 30000, h3 30100, h4 (by decide)⟩

/-- Clearing the low bit of a tagged even address gives the address back. -/
theorem untag_tag (k : Nat) (hk : k % 2 = 0) (hlt : k < addrLimit) :
    (k ||| 1) &&& (addrLimit - 2) = k := by
  apply Nat.eq_of_testBit_eq
  intro i
  have h1 : (addrLimit - 2 : Nat) = (2 ^ 63 - 1) <<< 1 := by decide
  rw [h1, Nat.testBit_and, Nat.testBit_or, Nat.testBit_shiftLeft, Nat.testBit_two_pow_sub_one]
  by_cases h0 : i = 0
  · subst h0
    simp [Nat.testBit_zero, hk]
  · have hi : i ≥ 1 := Nat.pos_of_ne_zero h0
    have h2 : Nat.testBit 1 i = false := by
      have : ¬ (Nat.testBit 1 i = true) := by
        rw [Nat.testBit_one_eq_true_iff_self_eq_zero]; exact h0
      simpa using this
    rw [h2]
    by_cases h3 : i - 1 < 63
    · simp [hi, h3]
    · have h6 : k < 2 ^ i := lt_of_lt_of_le hlt (by
        have h7 : addrLimit = 2 ^ 64 := by decide
        rw [h7]; exact Nat.pow_le_pow_right (by norm_num) (by omega))
      simp [hi, h3, Nat.testBit_lt_two_pow h6]

/-- Whether some entry pointing to the value of `e` passes the test is whether `e` does. -/
theorem hitAt_mem (cond : Value → Bool) (vals : Nat → Option Value) (l : List TableEntry)
    (e : TableEntry) (he : e ∈ l) : hitAt cond vals l e.Val = hit cond vals e := by
  unfold hitAt
  cases hh : hit cond vals e with
  | true =>
    rw [List.any_eq_true]
    exact ⟨e, he, by simp [hh]⟩
  | false =>
    rw [List.any_eq_false]
    intro e2 _
    by_cases heq : e2.Val = e.Val
    · have : hit cond vals e2 = hit cond vals e := by unfold hit; rw [heq]
      simp [this, hh]
    · simp [heq]

/-- A value that passes `hitAt` exists and passes the test. -/
theorem hitAt_true (cond : Value → Bool) (vals : Nat → Option Value) (l : List TableEntry)
    (a : Nat) (h : hitAt cond vals l a = true) : ∃ v, vals a = some v ∧ cond v = true := by
  unfold hitAt at h
  rw [List.any_eq_true] at h
  obtain ⟨e, _, he⟩ := h
  simp only [Bool.and_eq_true, decide_eq_true_eq] at he
  obtain ⟨rfl, hh⟩ := he
  unfold hit at hh
  cases hv : vals e.Val with
  | none => rw [hv] at hh; cases hh
  | some v => rw [hv] at hh; exact ⟨v, rfl, hh⟩


/-- Writing the old headers and the old table back gives the old state. -/
theorem setCurrentTable_round (pc : Picoc) (Tbl T1 : Table) (V1 : Nat → Option Value)
    (hT : currentTable pc = some Tbl) :
    setCurrentTable { (setCurrentTable { pc with vals := V1 } T1) with vals := pc.vals } Tbl
      = pc := by
  unfold currentTable at hT
  unfold setCurrentTable
  by_cases h0 : pc.TopStackFrame = 0
  · rw [if_pos h0] at hT
    simp only [h0, if_true]
    have hg : pc.GlobalTable = Tbl := Option.some.inj hT
    subst hg
    cases pc
    simp only at h0
    subst h0
    rfl
  · rw [if_neg h0] at hT
    simp only [h0, if_false]
    have hf : (fun a => if a = pc.TopStackFrame then
        Option.map (fun f => { f with LocalTable := Tbl })
          (if a = pc.TopStackFrame then
            Option.map (fun f => { f with LocalTable := T1 }) (pc.frames a)
          else pc.frames a)
        else if a = pc.TopStackFrame then
            Option.map (fun f => { f with LocalTable := T1 }) (pc.frames a)
          else pc.frames a) = pc.frames := by
      funext a
      by_cases ha : a = pc.TopStackFrame
      · subst ha
        simp only [if_true]
        cases hfa : pc.frames pc.TopStackFrame with
        | none => rfl
        | some f =>
          rw [hfa] at hT
          simp only [Option.map_some', Option.some.injEq] at hT ⊢
          subst hT
          rfl
      · simp only [ha, if_false]
    rw [hf]

/-- C9 (hide/revive round trip): on a current table whose entries point to different value
headers, whose keys are even addresses, and where no variable of the block `id` is hidden,
`VariableScopeEnd(id, prev)` followed by a `VariableScopeBegin` that computes the same id
both return, and the second call gives back the state before the first: the table with
its original keys, the value headers, and with them every result of `VariableGet`. -/
theorem C9_hide_revive_round_trip (pc : Picoc) (Parser : ParseState) (ScopeID PrevScopeID : Int)
    (Tbl : Table) (hid : ScopeID ≠ -1) (hT : currentTable pc = some Tbl)
    (hlen : Tbl.HashTable.length = Tbl.Size)
    (hsome : ∀ e ∈ Tbl.entries, (pc.vals e.Val).isSome)
    (hnd : (Tbl.entries.map (fun e => e.Val)).Nodup)
    (heven : ∀ e ∈ Tbl.entries, hit (endCond ScopeID) pc.vals e = true →
      e.Key % 2 = 0 ∧ e.Key < addrLimit)
    (hvis : ∀ e ∈ Tbl.entries, hit (beginCond ScopeID) pc.vals e = false)
    (Parser2 : ParseState) (OldScopeID : Int) (h2 : Parser2.ScopeID ≠ -1)
    (hhash : scopeHash Parser2 = ScopeID) :
    ∃ pc1 pc2, VariableScopeEnd pc Parser ScopeID PrevScopeID
        = some (Exit.ret { Parser with ScopeID := PrevScopeID }, pc1)
      ∧ VariableScopeBegin pc1 Parser2 OldScopeID
        = some (Exit.ret (ScopeID, { Parser2 with ScopeID := ScopeID }, Parser2.ScopeID), pc2)
      ∧ currentTable pc2 = some Tbl
      ∧ pc2.vals = pc.vals
      ∧ (∀ Ident, VariableGet pc2 Ident = VariableGet pc Ident)
      ∧ pc2 = pc := by
  rw [VariableScopeEnd_eq pc Parser ScopeID PrevScopeID Tbl hid hT hlen hsome hnd]
  refine ⟨_, pc, rfl, ?_, hT, rfl, fun _ => rfl, rfl⟩
  -- names for the state between the two calls
  generalize hV1 : (fun a =>
      if hitAt (endCond ScopeID) pc.vals Tbl.HashTable.flatten a then
        (pc.vals a).map (fun v => { v with OutOfScope := true })
      else pc.vals a : Nat → Option Value) = V1
  generalize hT1 : ({ Tbl with HashTable := Tbl.HashTable.map (fun chain =>
      chain.map (fun e =>
        if hit (endCond ScopeID) pc.vals e then { e with Key := e.Key ||| 1 } else e)) } : Table)
    = T1
  have hcur1 : currentTable (setCurrentTable { pc with vals := V1 } T1) = some T1 :=
    currentTable_setCurrentTable pc Tbl T1 hT V1
  have hvals1 : (setCurrentTable { pc with vals := V1 } T1).vals = V1 :=
    (setCurrentTable_fields { pc with vals := V1 } T1).1
  have hent1 : T1.entries = Tbl.entries.map (fun e =>
      if hit (endCond ScopeID) pc.vals e then { e with Key := e.Key ||| 1 } else e) := by
    rw [← hT1]
    unfold Table.entries
    simp only
    rw [List.map_flatten]
  have hval1 : ∀ e : TableEntry,
      (if hit (endCond ScopeID) pc.vals e then { e with Key := e.Key ||| 1 } else e).Val = e.Val := by
    intro e
    split <;> rfl
  have hmapval : T1.entries.map (fun e => e.Val) = Tbl.entries.map (fun e => e.Val) := by
    rw [hent1, List.map_map]
    apply List.map_congr_left
    intro e _
    exact hval1 e
  -- the value of an entry between the calls
  have hV1e : ∀ e ∈ Tbl.entries, ∀ v, pc.vals e.Val = some v →
      V1 e.Val = if endCond ScopeID v then some { v with OutOfScope := true } else some v := by
    intro e he v hv
    rw [← hV1]
    simp only
    have := hitAt_mem (endCond ScopeID) pc.vals Tbl.entries e he
    unfold Table.entries at this
    rw [this]
    unfold hit
    rw [hv]
    simp only [Option.map_some']
  -- the second test passes exactly where the first did
  have hhit : ∀ e ∈ Tbl.entries,
      hit (beginCond ScopeID) V1
        (if hit (endCond ScopeID) pc.vals e then { e with Key := e.Key ||| 1 } else e)
      = hit (endCond ScopeID) pc.vals e := by
    intro e he
    obtain ⟨v, hv⟩ := Option.isSome_iff_exists.mp (hsome e he)
    have hh : ∀ e2 : TableEntry, e2.Val = e.Val →
        hit (beginCond ScopeID) V1 e2 = hit (endCond ScopeID) pc.vals e := by
      intro e2 h2
      unfold hit
      rw [h2, hV1e e he v hv, hv]
      simp only
      by_cases hc : endCond ScopeID v = true
      · rw [if_pos hc]
        simp only
        rw [hc]
        unfold endCond at hc
        unfold beginCond
        simp only [Bool.and_eq_true, decide_eq_true_eq] at hc
        simp [hc.1]
      · rw [if_neg hc]
        simp only
        have hc2 : endCond ScopeID v = false := by simpa using hc
        rw [hc2]
        have hb := hvis e he
        unfold hit at hb
        rw [hv] at hb
        exact hb
    exact hh _ (hval1 e)
  have hsome1 : ∀ e ∈ T1.entries, ((setCurrentTable { pc with vals := V1 } T1).vals e.Val).isSome := by
    intro e he
    rw [hent1] at he
    obtain ⟨e0, he0, rfl⟩ := List.mem_map.mp he
    rw [hvals1, hval1 e0]
    obtain ⟨v, hv⟩ := Option.isSome_iff_exists.mp (hsome e0 he0)
    rw [hV1e e0 he0 v hv]
    split <;> rfl
  have hlen1 : T1.HashTable.length = T1.Size := by
    rw [← hT1]; simp only [List.length_map]; exact hlen
  rw [VariableScopeBegin_eq _ Parser2 OldScopeID T1 h2 hcur1 hlen1 hsome1
    (by rw [hmapval]; exact hnd), hhash, hvals1]
  -- the headers after the second call
  have hHit : ∀ a, hitAt (beginCond ScopeID) V1 T1.HashTable.flatten a
      = hitAt (endCond ScopeID) pc.vals Tbl.HashTable.flatten a := by
    intro a
    have e1 : T1.HashTable.flatten = T1.entries := rfl
    have e2 : Tbl.HashTable.flatten = Tbl.entries := rfl
    rw [e1, e2, hent1, Bool.eq_iff_iff]
    unfold hitAt
    rw [List.any_eq_true, List.any_eq_true]
    constructor
    · rintro ⟨x, hx, hxa⟩
      obtain ⟨e0, he0, rfl⟩ := List.mem_map.mp hx
      rw [hval1 e0, hhit e0 he0] at hxa
      exact ⟨e0, he0, hxa⟩
    · rintro ⟨e0, he0, hxa⟩
      refine ⟨_, List.mem_map.mpr ⟨e0, he0, rfl⟩, ?_⟩
      rw [hval1 e0, hhit e0 he0]
      exact hxa
  have hV2 : (fun a =>
      if hitAt (beginCond ScopeID) V1 T1.HashTable.flatten a then
        (V1 a).map (fun v => { v with OutOfScope := false })
      else V1 a : Nat → Option Value) = pc.vals := by
    funext a
    rw [hHit a, ← hV1]
    simp only
    cases hh : hitAt (endCond ScopeID) pc.vals Tbl.HashTable.flatten a with
    | false => simp
    | true =>
      obtain ⟨v, hv, hc⟩ := hitAt_true _ _ _ _ hh
      rw [hv]
      unfold endCond at hc
      simp only [Bool.and_eq_true, decide_eq_true_eq, Bool.not_eq_true'] at hc
      simp only [if_true, Option.map_some', Option.some.injEq]
      cases v
      simp only at hc
      simp only [Value.mk.injEq, true_and]
      exact hc.2.symm
  have hT2 : ({ T1 with HashTable := T1.HashTable.map (fun chain =>
      chain.map (fun e =>
        if hit (beginCond ScopeID) V1 e then { e with Key := e.Key &&& (addrLimit - 2) }
        else e)) } : Table) = Tbl := by
    rw [← hT1]
    simp only [List.map_map]
    have : Tbl.HashTable.map ((fun chain : List TableEntry => chain.map (fun e =>
          if hit (beginCond ScopeID) V1 e then { e with Key := e.Key &&& (addrLimit - 2) }
          else e)) ∘ (fun chain => chain.map (fun e =>
          if hit (endCond ScopeID) pc.vals e then { e with Key := e.Key ||| 1 } else e)))
        = Tbl.HashTable := by
      conv => rhs; rw [← List.map_id Tbl.HashTable]
      apply List.map_congr_left
      intro chain hchain
      simp only [Function.comp, List.map_map, id]
      conv => rhs; rw [← List.map_id chain]
      apply List.map_congr_left
      intro e he
      have hmem : e ∈ Tbl.entries := List.mem_flatten.mpr ⟨chain, hchain, he⟩
      simp only [Function.comp, id]
      rw [hhit e hmem]
      cases hh : hit (endCond ScopeID) pc.vals e with
      | false => simp
      | true =>
        simp only [if_true]
        rw [untag_tag e.Key (heven e hmem hh).1 (heven e hmem hh).2]
    rw [this]
  rw [hV2, hT2, setCurrentTable_round pc Tbl T1 V1 hT]

/-- C9 at a concrete input: the block 525000000 of `exScope` ends and is entered again by
the parser state `exParser`, whose position gives that id. -/
theorem C9_hide_revive_round_trip_witness :
    ∃ pc1 pc2, VariableScopeEnd exScope exParser 525000000 3
        = some (Exit.ret { exParser with ScopeID := 3 }, pc1)
      ∧ VariableScopeBegin pc1 { exParser with ScopeID := 3 } 0
        = some (Exit.ret (525000000, { exParser with ScopeID := 525000000 }, 3), pc2)
      ∧ currentTable pc2 = some exScopeTable
      ∧ (∀ Ident, VariableGet pc2 Ident = VariableGet exScope Ident) := by
  obtain ⟨pc1, pc2, h1, h2, h3, _, h5, _⟩ := C9_hide_revive_round_trip exScope exParser
    525000000 3 exScopeTable (by decide) rfl rfl (by decide) (by decide) (by decide) (by decide)
    { exParser with ScopeID := 3 } 0 (by decide) (by decide)
  exact ⟨pc1, pc2, h1, h2, h3, h5⟩

/-! ## C10: static declarations -/

theorem SameBindings_refl (pc : Picoc) : SameBindings pc pc := ⟨rfl, rfl, rfl, rfl, rfl, rfl⟩

theorem VariableAlloc_fields {pc pc1 : Picoc} {n : Int} {b : Bool} {e : Exit Nat}
    (h : VariableAlloc pc n b = some (e, pc1)) : SameBindings pc pc1 ∧ pc1.vals = pc.vals := by
  cases b with
  | true =>
    obtain ⟨⟨rest, m, rfl⟩, _⟩ := VariableAlloc_heap h
    exact ⟨⟨rfl, rfl, rfl, rfl, rfl, rfl⟩, rfl⟩
  | false =>
    unfold VariableAlloc at h
    simp only [Bool.false_eq_true, if_false] at h
    split at h
    · cases h
    · split at h
      · simp only [Option.some.injEq, Prod.mk.injEq] at h
        obtain ⟨_, rfl⟩ := h
        exact ⟨⟨rfl, rfl, rfl, rfl, rfl, rfl⟩, rfl⟩
      · simp only [Option.some.injEq, Prod.mk.injEq] at h
        obtain ⟨_, rfl⟩ := h
        exact ⟨⟨rfl, rfl, rfl, rfl, rfl, rfl⟩, rfl⟩

theorem VariableAllocValueAndData_fields {pc pc1 : Picoc} {Parser : Option ParseState}
    {DataSize : Int} {IsLValue : Bool} {LValueFrom : Nat} {OnHeap : Bool} {p : Nat}
    (h : VariableAllocValueAndData pc Parser DataSize IsLValue LValueFrom OnHeap
      = some (Exit.ret p, pc1)) :
    SameBindings pc pc1 ∧ (pc1.vals p).isSome ∧ (∀ a, (pc.vals a).isSome → (pc1.vals a).isSome) := by
  unfold VariableAllocValueAndData at h
  split at h
  · cases h
  · cases h
  · rename_i NewValue pc0 hal
    obtain ⟨hs, hv⟩ := VariableAlloc_fields hal
    simp only [Option.some.injEq, Prod.mk.injEq, Exit.ret.injEq] at h
    obtain ⟨rfl, rfl⟩ := h
    refine ⟨hs, ?_, ?_⟩
    · show (if NewValue = NewValue then _ else _ : Option Value).isSome = true
      rw [if_pos rfl]; rfl
    · intro a ha
      show (if a = NewValue then _ else _ : Option Value).isSome = true
      split
      · rfl
      · rw [hv]; exact ha

theorem VariableAllocValueFromType_fields {pc pc1 : Picoc} {Parser : Option ParseState}
    {Typ : TypePtr} {IsLValue : Bool} {LValueFrom : Nat} {OnHeap : Bool} {p : Nat}
    (h : VariableAllocValueFromType pc Parser Typ IsLValue LValueFrom OnHeap
      = some (Exit.ret p, pc1)) :
    SameBindings pc pc1 ∧ (pc1.vals p).isSome ∧ (∀ a, (pc.vals a).isSome → (pc1.vals a).isSome) := by
  unfold VariableAllocValueFromType at h
  split at h
  · cases h
  · split at h
    · cases h
    · split at h
      · cases h
      · cases h
      · rename_i NewValue pc0 hal
        obtain ⟨hs, hp, hv⟩ := VariableAllocValueAndData_fields hal
        split at h
        · cases h
        · split at h
          · cases h
          · simp only [Option.some.injEq, Prod.mk.injEq, Exit.ret.injEq] at h
            obtain ⟨rfl, rfl⟩ := h
            refine ⟨hs, ?_, ?_⟩
            · show (if NewValue = NewValue then _ else _ : Option Value).isSome = true
              rw [if_pos rfl]; rfl
            · intro a ha
              show (if a = NewValue then _ else _ : Option Value).isSome = true
              split
              · rfl
              · exact hv a ha

theorem getD_set (l : List (List TableEntry)) (i j : Nat) (c : List TableEntry) :
    (List.set l i c).getD j [] = if i = j ∧ i < l.length then c else l.getD j [] := by
  rw [List.getD_eq_getElem?_getD, List.getD_eq_getElem?_getD, List.getElem?_set]
  by_cases hij : i = j
  · subst hij
    by_cases hl : i < l.length
    · simp [hl]
    · simp [hl]
      have : l[i]? = none := by simp; omega
      rw [this]; rfl
  · simp [hij]

theorem TableSearch_set_other (Tbl : Table) (New : TableEntry) (m : Nat) (hm : m ≠ New.Key)
    (i : Nat) :
    TableSearch { Tbl with HashTable := List.set Tbl.HashTable i (New :: Tbl.HashTable.getD i []) } m
      = TableSearch Tbl m := by
  unfold TableSearch
  simp only
  rw [getD_set]
  split
  · rename_i h
    rw [← h.1, List.find?_cons_of_neg]
    simp [Ne.symm hm]
  · rfl

theorem TableSearch_set_same (Tbl : Table) (New : TableEntry)
    (hlt : New.Key % Tbl.Size < Tbl.HashTable.length) :
    TableSearch { Tbl with HashTable :=
        (List.set Tbl.HashTable (New.Key % Tbl.Size)
          (New :: Tbl.HashTable.getD (New.Key % Tbl.Size) [])) } New.Key
      = some New := by
  unfold TableSearch
  simp only
  rw [getD_set, if_pos ⟨rfl, hlt⟩, List.find?_cons_of_pos]
  simp

theorem TableSet_effect {pc pc1 : Picoc} {Tbl Tbl1 : Table} {Key Val F : Nat} {L C : Int}
    {ok : Bool} (h : TableSet pc Tbl Key Val F L C = some (Exit.ret (ok, Tbl1), pc1)) :
    SameBindings pc pc1 ∧ pc1.vals = pc.vals
      ∧ (ok = true → TableSearch Tbl Key = none)
      ∧ (TableSearch Tbl Key = none → ok = true
          ∧ Tbl1 = { Tbl with HashTable :=
              (List.set Tbl.HashTable (Key % Tbl.Size)
                ({ DeclFileName := F, DeclLine := L % 65536, DeclColumn := C % 65536, Key := Key,
                   Val := Val } :: Tbl.HashTable.getD (Key % Tbl.Size) [])) }) := by
  unfold TableSet at h
  split at h
  · rename_i e hs
    simp only [Option.some.injEq, Prod.mk.injEq, Exit.ret.injEq] at h
    obtain ⟨⟨rfl, rfl⟩, rfl⟩ := h
    refine ⟨SameBindings_refl _, rfl, ?_, ?_⟩
    · intro h
      cases h
    · intro h
      rw [hs] at h
      cases h
  · rename_i hs
    split at h
    · cases h
    · cases h
    · rename_i p pc0 hal
      obtain ⟨hb, hv⟩ := VariableAlloc_fields hal
      simp only [Option.some.injEq, Prod.mk.injEq, Exit.ret.injEq] at h
      obtain ⟨⟨rfl, rfl⟩, rfl⟩ := h
      exact ⟨hb, hv, fun _ => hs, fun _ => ⟨rfl, rfl⟩⟩

theorem TableStrRegister_effect {pc pc1 : Picoc} {Str : List Char} {k : Nat}
    (h : TableStrRegister pc Str = some (Exit.ret k, pc1)) :
    pc1.GlobalTable = pc.GlobalTable ∧ pc1.TopStackFrame = pc.TopStackFrame
      ∧ pc1.frames = pc.frames ∧ pc1.types = pc.types ∧ pc1.vals = pc.vals
      ∧ TableSearchIdentifier pc1 Str = some k
      ∧ (∀ name m, TableSearchIdentifier pc name = some m → TableSearchIdentifier pc1 name = some m)
      ∧ (∀ a, (pc.strings a).isSome → pc1.strings a = pc.strings a) := by
  unfold TableStrRegister at h
  split at h
  · rename_i a ha
    simp only [Option.some.injEq, Prod.mk.injEq, Exit.ret.injEq] at h
    obtain ⟨rfl, rfl⟩ := h
    exact ⟨rfl, rfl, rfl, rfl, rfl, ha, fun _ _ h => h, fun _ _ => rfl⟩
  · rename_i hnone
    split at h
    · cases h
    · cases h
    · rename_i N pc0 hal
      obtain ⟨⟨b1, b2, b3, b4, b5, b6⟩, hv⟩ := VariableAlloc_fields hal
      split at h
      · cases h
      · rename_i hfree
        simp only [Option.some.injEq, Prod.mk.injEq, Exit.ret.injEq] at h
        obtain ⟨rfl, rfl⟩ := h
        have hfree2 : pc.strings (N + 24) = none := by
          rw [b4] at hfree
          simpa using hfree
        refine ⟨b1, b2, b3, b6, hv, ?_, ?_, ?_⟩
        · unfold TableSearchIdentifier
          simp only
          rw [List.find?_cons_of_pos]
          simp
        · intro name m hm
          have hne : name ≠ Str := by
            intro he
            subst he
            rw [hm] at hnone
            cases hnone
          unfold TableSearchIdentifier at hm ⊢
          simp only
          rw [List.find?_cons_of_neg _ (by simp [Ne.symm hne]), b5]
          have hp : (fun a => decide ((if a = N + 24 then some Str else pc0.strings a) = some name))
              = (fun a => decide (pc.strings a = some name)) := by
            funext a
            by_cases ha : a = N + 24
            · subst ha
              simp [hfree2, Ne.symm hne]
            · simp [ha, b4]
          rw [hp]
          exact hm
        · intro a ha
          show (if a = N + 24 then _ else _) = _
          rw [if_neg (by
            intro he
            subst he
            rw [hfree2] at ha
            cases ha), b4]

theorem setCurrentTable_strings (pc : Picoc) (Tbl : Table) :
    (setCurrentTable pc Tbl).strings = pc.strings
      ∧ (setCurrentTable pc Tbl).StringTable = pc.StringTable
      ∧ (setCurrentTable pc Tbl).types = pc.types := by
  unfold setCurrentTable
  split <;> exact ⟨rfl, rfl, rfl⟩

theorem TableSearchIdentifier_congr {pc pc1 : Picoc} (h1 : pc1.strings = pc.strings)
    (h2 : pc1.StringTable = pc.StringTable) (Str : List Char) :
    TableSearchIdentifier pc1 Str = TableSearchIdentifier pc Str := by
  unfold TableSearchIdentifier
  rw [h1, h2]

/-- What the definition of a platform variable leaves of the bindings: inside a function
the global table, and in every case each global binding but that of the registered name
of the variable, each registered string and each value header. -/
theorem VariableDefinePlatformVar_effect {pc pc5 : Picoc} {Parser : Option ParseState}
    {Ident : Nat} {Typ : TypePtr} {FromValue : Nat} {IsWritable : Bool}
    (h : VariableDefinePlatformVar pc Parser Ident Typ FromValue IsWritable
      = some (Exit.ret (), pc5)) :
    pc5.TopStackFrame = pc.TopStackFrame
      ∧ (pc.TopStackFrame ≠ 0 → pc5.GlobalTable = pc.GlobalTable)
      ∧ (∃ k Str, pc.strings Ident = some Str ∧ TableSearchIdentifier pc5 Str = some k
          ∧ (pc.TopStackFrame = 0 → TableGet pc.GlobalTable k = none)
          ∧ ∀ m, m ≠ k → TableGet pc5.GlobalTable m = TableGet pc.GlobalTable m)
      ∧ (∀ name m, TableSearchIdentifier pc name = some m → TableSearchIdentifier pc5 name = some m)
      ∧ (∀ a, (pc.vals a).isSome → (pc5.vals a).isSome) := by
  unfold VariableDefinePlatformVar at h
  split at h
  · cases h
  · cases h
  · rename_i SomeValue pc1 hal
    obtain ⟨⟨a1, a2, a3, a4, a5, a6⟩, _, hv1⟩ := VariableAllocValueAndData_fields hal
    split at h
    · rename_i v Str hv hstr
      simp only at h
      split at h
      · cases h
      · cases h
      · rename_i Key pc3 hreg
        obtain ⟨r1, r2, r3, r4, r5, r6, r7, r8⟩ := TableStrRegister_effect hreg
        simp only at r1 r2 r3 r4 r5 r7 r8
        split at h
        · cases h
        · rename_i Tbl hcur
          split at h
          · cases h
          · cases h
          · rename_i ok Tbl1 pc4 hset
            obtain ⟨⟨s1, s2, s3, s4, s5, s6⟩, sv, sok⟩ := TableSet_effect hset
            split at h
            · cases h
            · rename_i hok
              have hok2 : ok = true := by simpa using hok
              have hnone := sok.1 hok2
              have hT1 := (sok.2 hnone).2
              simp only [Option.some.injEq, Prod.mk.injEq, Exit.ret.injEq, true_and] at h
              subst h
              obtain ⟨f1, f2, f3, _, _, _, f7⟩ := setCurrentTable_fields pc4 Tbl1
              obtain ⟨g1, g2, _⟩ := setCurrentTable_strings pc4 Tbl1
              have hT : pc4.TopStackFrame = pc.TopStackFrame := s2.trans (r2.trans a2)
              have hG : pc4.GlobalTable = pc.GlobalTable := s1.trans (r1.trans a1)
              refine ⟨f7.trans hT, ?_, ⟨Key, Str, ?_, ?_, ?_, ?_⟩, ?_, ?_⟩
              · intro h0
                rw [f2 (by rw [hT]; exact h0), hG]
              · rw [← a4]; exact hstr
              · rw [TableSearchIdentifier_congr g1 g2, TableSearchIdentifier_congr s4 s5]
                exact r6
              · intro h0
                have hc : currentTable pc3 = some pc.GlobalTable := by
                  unfold currentTable
                  rw [if_pos (by rw [r2]; exact a2.trans h0), r1]
                  exact congrArg some a1
                rw [hcur] at hc
                have : Tbl = pc.GlobalTable := Option.some.inj hc
                rw [← this]
                exact hnone
              · intro m hm
                by_cases h0 : pc.TopStackFrame = 0
                · have hc : currentTable pc3 = some pc.GlobalTable := by
                    unfold currentTable
                    rw [if_pos (by rw [r2]; exact a2.trans h0), r1]
                    exact congrArg some a1
                  rw [hcur] at hc
                  have hTbl : Tbl = pc.GlobalTable := Option.some.inj hc
                  rw [f3 (by rw [hT]; exact h0), hT1, ← hTbl]
                  exact TableSearch_set_other Tbl _ m hm _
                · rw [f2 (by rw [hT]; exact h0), hG]
              · intro name m hm
                rw [TableSearchIdentifier_congr g1 g2, TableSearchIdentifier_congr s4 s5]
                apply r7
                refine Eq.trans ?_ hm
                unfold TableSearchIdentifier
                simp only [a4, a5]
              · intro a ha
                rw [f1, sv, r5]
                show (if a = SomeValue then _ else _ : Option Value).isSome = true
                split
                · rfl
                · exact hv1 a ha
    · cases h

/-- The definition of a platform variable keeps every global binding. -/
theorem VariableDefinePlatformVar_keeps {pc pc5 : Picoc} {Parser : Option ParseState}
    {Ident : Nat} {Typ : TypePtr} {FromValue : Nat} {IsWritable : Bool}
    (h : VariableDefinePlatformVar pc Parser Ident Typ FromValue IsWritable
      = some (Exit.ret (), pc5)) (m : Nat) (e : TableEntry)
    (hm : TableGet pc.GlobalTable m = some e) : TableGet pc5.GlobalTable m = some e := by
  obtain ⟨_, h2, ⟨k, _, _, _, hk0, hk⟩, _, _⟩ := VariableDefinePlatformVar_effect h
  by_cases h0 : pc.TopStackFrame = 0
  · have hne : m ≠ k := by
      intro he
      subst he
      rw [hk0 h0] at hm
      cases hm
    rw [hk m hne]
    exact hm
  · rw [h2 h0]
    exact hm

/-- A static declaration that returns leaves its mangled name registered and bound in the
global table to the value it returns. -/
theorem VariableDefineButIgnoreIdentical_static {fuel : Nat} {pc pc1 : Picoc}
    {Parser : ParseState} {Ident : Nat} {Typ : TypePtr} {FirstVisit FirstVisit1 : Bool} {v : Nat}
    {FileName IdentStr : List Char} {FuncName : Option (List Char)}
    (hwf : pc.GlobalTable.HashTable.length = pc.GlobalTable.Size) (hsz : 0 < pc.GlobalTable.Size)
    (hF : pc.strings Parser.FileName = some FileName) (hI : pc.strings Ident = some IdentStr)
    (hFn : enclosingFuncName pc = some FuncName)
    (h : VariableDefineButIgnoreIdentical fuel pc Parser Ident Typ true FirstVisit
      = some (Exit.ret (v, FirstVisit1), pc1)) :
    ∃ m e, TableSearchIdentifier pc1 (mangledName FileName FuncName IdentStr) = some m
      ∧ TableGet pc1.GlobalTable m = some e ∧ e.Val = v ∧ (pc1.vals v).isSome := by
  unfold VariableDefineButIgnoreIdentical at h
  split at h
  · cases h
  · cases h
  · simp only [if_true] at h
    rw [hF, hI, hFn] at h
    simp only at h
    split at h
    · cases h
    · cases h
    · rename_i m pcA hreg
      obtain ⟨r1, r2, r3, r4, r5, r6, r7, r8⟩ := TableStrRegister_effect hreg
      split at h
      · cases h
      · cases h
      · rename_i EV FV2 pc4 hfound
        split at h
        · cases h
        · rename_i ev hev
          split at h
          · cases h
          · cases h
          · rename_i pc5 hdef
            simp only [Option.some.injEq, Prod.mk.injEq, Exit.ret.injEq] at h
            obtain ⟨⟨rfl, rfl⟩, rfl⟩ := h
            obtain ⟨_, _, _, d4, d5⟩ := VariableDefinePlatformVar_effect hdef
            -- the state before the alias is defined binds the name to the value
            have hb : TableSearchIdentifier pc4 (mangledName FileName FuncName IdentStr) = some m
                ∧ ∃ e, TableGet pc4.GlobalTable m = some e ∧ e.Val = EV := by
              split at hfound
              · rename_i e he
                simp only [Option.some.injEq, Prod.mk.injEq, Exit.ret.injEq] at hfound
                obtain ⟨⟨rfl, rfl⟩, rfl⟩ := hfound
                exact ⟨r6, e, he, rfl⟩
              · rename_i hnone
                split at hfound
                · cases hfound
                · cases hfound
                · rename_i EV2 pcB halloc
                  obtain ⟨⟨b1, b2, b3, b4, b5, b6⟩, _, _⟩ := VariableAllocValueFromType_fields halloc
                  split at hfound
                  · cases hfound
                  · cases hfound
                  · rename_i ok Tbl1 pcC hset
                    obtain ⟨⟨s1, s2, s3, s4, s5, s6⟩, sv, _, sok⟩ := TableSet_effect hset
                    simp only [Option.some.injEq, Prod.mk.injEq, Exit.ret.injEq] at hfound
                    obtain ⟨⟨rfl, rfl⟩, rfl⟩ := hfound
                    have hG : pcB.GlobalTable = pc.GlobalTable := b1.trans r1
                    have hn : TableSearch pcB.GlobalTable m = none := by
                      rw [b1]; exact hnone
                    obtain ⟨_, hT1⟩ := sok hn
                    have hE : TableSearch Tbl1 m = some (TableEntry.mk Parser.FileName
                        (Parser.Line % 65536) (Parser.CharacterPos % 65536) m EV2) := by
                      rw [hT1]
                      exact TableSearch_set_same pcB.GlobalTable (TableEntry.mk Parser.FileName
                        (Parser.Line % 65536) (Parser.CharacterPos % 65536) m EV2)
                        (by
                          rw [hG, hwf]
                          exact Nat.mod_lt _ hsz)
                    refine ⟨?_, _, hE, rfl⟩
                    refine Eq.trans ?_ r6
                    unfold TableSearchIdentifier
                    simp only [s4, s5, b4, b5]
            obtain ⟨hs, e, he, hv⟩ := hb
            exact ⟨m, e, d4 _ _ hs, VariableDefinePlatformVar_keeps hdef m e he, hv,
              d5 _ (by rw [hev]; rfl)⟩

/-- A static declaration executed again: when an execution of a static declaration has
returned the value `v`, an execution of a declaration with the same file name, enclosing
function name and identifier, in a state that kept the registration and the global binding
of the mangled name and the header of `v`, and in which the definition of the short-name
alias returns, returns `v` too and leaves `*FirstVisit` as it was.  It keeps the global
binding of the mangled name; inside a function it leaves the global table unchanged, and
in every case the only key whose global binding it may change is the registered short
name. -/
theorem VariableDefineButIgnoreIdentical_again (fuel : Nat) (pc : Picoc) (Parser : ParseState) (Ident : Nat)
    (Typ : TypePtr) (FirstVisit FirstVisit1 : Bool) (v : Nat) (pc1 : Picoc)
    (FileName IdentStr : List Char) (FuncName : Option (List Char))
    (hwf : pc.GlobalTable.HashTable.length = pc.GlobalTable.Size) (hsz : 0 < pc.GlobalTable.Size)
    (hF : pc.strings Parser.FileName = some FileName) (hI : pc.strings Ident = some IdentStr)
    (hFn : enclosingFuncName pc = some FuncName)
    (h1 : VariableDefineButIgnoreIdentical fuel pc Parser Ident Typ true FirstVisit
      = some (Exit.ret (v, FirstVisit1), pc1))
    (fuel2 : Nat) (pc2 : Picoc) (Parser2 : ParseState) (Ident2 : Nat) (Typ2 : TypePtr)
    (FirstVisit2 : Bool) (m : Nat) (ev : Value) (pc3 : Picoc)
    (hF2 : pc2.strings Parser2.FileName = some FileName)
    (hI2 : pc2.strings Ident2 = some IdentStr)
    (hFn2 : enclosingFuncName pc2 = some FuncName)
    (hm1 : TableSearchIdentifier pc1 (mangledName FileName FuncName IdentStr) = some m)
    (hm2 : TableSearchIdentifier pc2 (mangledName FileName FuncName IdentStr) = some m)
    (hglob : TableGet pc2.GlobalTable m = TableGet pc1.GlobalTable m)
    (hev : pc2.vals v = some ev)
    (hfwd : TypeIsForwardDeclared pc2.types fuel2 Typ2 = some false)
    (hdef : VariableDefinePlatformVar pc2 (some Parser2) Ident2 ev.Typ ev.Val true
      = some (Exit.ret (), pc3)) :
    VariableDefineButIgnoreIdentical fuel2 pc2 Parser2 Ident2 Typ2 true FirstVisit2
        = some (Exit.ret (v, FirstVisit2), pc3)
      ∧ TableGet pc3.GlobalTable m = TableGet pc2.GlobalTable m
      ∧ (TableGet pc3.GlobalTable m).map (fun e => e.Val) = some v
      ∧ (pc2.TopStackFrame ≠ 0 → pc3.GlobalTable = pc2.GlobalTable)
      ∧ (∃ k, TableSearchIdentifier pc3 IdentStr = some k
          ∧ ∀ j, j ≠ k → TableGet pc3.GlobalTable j = TableGet pc2.GlobalTable j) := by
  obtain ⟨m0, e, hs, hg, hval, _⟩ :=
    VariableDefineButIgnoreIdentical_static hwf hsz hF hI hFn h1
  rw [hm1] at hs
  obtain rfl : m = m0 := Option.some.inj hs
  have hg2 : TableGet pc2.GlobalTable m = some e := hglob.trans hg
  obtain ⟨_, d2, ⟨k, Str, dk1, dk2, _, dk4⟩, _, _⟩ := VariableDefinePlatformVar_effect hdef
  have hkeep := VariableDefinePlatformVar_keeps hdef m e hg2
  rw [hI2] at dk1
  obtain rfl : IdentStr = Str := Option.some.inj dk1
  refine ⟨?_, hkeep.trans hg2.symm, ?_, d2, k, dk2, dk4⟩
  · unfold VariableDefineButIgnoreIdentical
    rw [hfwd]
    simp only [if_true]
    rw [hF2, hI2, hFn2]
    simp only
    have hreg : TableStrRegister pc2 (mangledName FileName FuncName IdentStr)
        = some (Exit.ret m, pc2) := by
      unfold TableStrRegister
      rw [hm2]
    rw [hreg]
    simp only
    rw [hg2]
    simp only
    rw [hval, hev]
    simp only
    rw [hdef]
  · rw [hkeep]
    exact congrArg some hval

/-- A static declaration at file scope, where no function encloses it: `static int x;` is
executed in `exStatic`, the short name is taken out of the global table, and the
declaration is executed again.  The second execution runs in a table where `x` is not
bound and returns the same value, and it binds the alias `x` in the current table, which
is the global table there. -/
theorem static_alias_at_file_scope :
    VariableDefineButIgnoreIdentical 2 exStatic exParser 52 (TypePtr.field TypeField.IntType)
        true false = some (Exit.ret (10100, true), exStatic1)
      ∧ exStaticDeleted.TopStackFrame = 0
      ∧ (currentTable exStaticDeleted).map (fun t => TableGet t 52) = some none
      ∧ VariableDefineButIgnoreIdentical 2 exStaticDeleted exParser 52
          (TypePtr.field TypeField.IntType) true false
        = some (Exit.ret (10100, false), exStaticDeleted2)
      ∧ TableGet exStaticDeleted.GlobalTable 52 = none
      ∧ TableGet exStaticDeleted2.GlobalTable 52
        = some { DeclFileName := 32, DeclLine := 3, DeclColumn := 5, Key := 52, Val := 10500 }
      ∧ exStaticDeleted2.GlobalTable ≠ exStaticDeleted.GlobalTable :=
  ⟨by rfl, by rfl, by rfl, by rfl, by rfl, by rfl, by decide⟩

/-! ## C11: forward-declared types -/

/-- With more fuel than array derivations `TypeIsForwardDeclared` returns, and it returns
true exactly for the forward-declared types. -/
theorem TypeIsForwardDeclared_spec {types : TypePtr → Option ValueType} {Typ : TypePtr}
    {Depth : Nat} (hd : ArrayDepth types Typ Depth) (fuel : Nat) (hf : Depth < fuel) :
    ∃ b, TypeIsForwardDeclared types fuel Typ = some b ∧ (b = true ↔ ForwardDeclared types Typ) := by
  induction hd generalizing fuel with
  | @element Typ t ht hb =>
    cases fuel with
    | zero => omega
    | succ f =>
      unfold TypeIsForwardDeclared
      rw [ht]
      simp only [if_neg hb]
      by_cases hm : (t.Base = BaseType.TypeStruct ∨ t.Base = BaseType.TypeUnion)
          ∧ t.Members = TablePtr.null
      · rw [if_pos hm]
        exact ⟨true, rfl, ⟨fun _ => ForwardDeclared.aggregate ht hm.1 hm.2, fun _ => rfl⟩⟩
      · rw [if_neg hm]
        refine ⟨false, rfl, ⟨?_, ?_⟩⟩
        · intro h
          cases h
        · intro h
          cases h with
          | aggregate ht2 hb2 hm2 =>
            rw [ht] at ht2
            cases ht2
            exact absurd ⟨hb2, hm2⟩ hm
          | array ht2 hb2 _ =>
            rw [ht] at ht2
            cases ht2
            exact absurd hb2 hb
  | @array Typ t Depth ht hb _ ih =>
    cases fuel with
    | zero => omega
    | succ f =>
      obtain ⟨b, h1, h2⟩ := ih f (by omega)
      unfold TypeIsForwardDeclared
      rw [ht]
      simp only [if_pos hb]
      refine ⟨b, h1, ⟨fun h => ForwardDeclared.array ht hb (h2.mp h), ?_⟩⟩
      intro h
      cases h with
      | aggregate ht2 hb2 hm2 =>
        rw [ht] at ht2
        cases ht2
        rw [hb] at hb2
        rcases hb2 with hb2 | hb2 <;> cases hb2
      | array ht2 hb2 hfd =>
        rw [ht] at ht2
        cases ht2
        exact h2.mpr hfd

/-- An allocation fails only with "out of memory"; so do the functions built on it. -/
theorem VariableAlloc_fail {pc pc1 : Picoc} {n : Int} {b : Bool} {f : Failure}
    (h : VariableAlloc pc n b = some (Exit.fail f, pc1)) : f = Failure.OutOfMemory := by
  unfold VariableAlloc at h
  split at h
  · split at h
    split at h
    · cases h; rfl
    · split at h <;> cases h
  · split at h
    · cases h
    · split at h
      · cases h; rfl
      · cases h

theorem VariableAllocValueAndData_fail {pc pc1 : Picoc} {Parser : Option ParseState}
    {DataSize : Int} {IsLValue : Bool} {LValueFrom : Nat} {OnHeap : Bool} {f : Failure}
    (h : VariableAllocValueAndData pc Parser DataSize IsLValue LValueFrom OnHeap
      = some (Exit.fail f, pc1)) : f = Failure.OutOfMemory := by
  unfold VariableAllocValueAndData at h
  split at h
  · cases h
  · rename_i f2 pc2 hal
    cases h
    exact VariableAlloc_fail hal
  · cases h

theorem VariableAllocValueFromType_fail {pc pc1 : Picoc} {Parser : Option ParseState}
    {Typ : TypePtr} {IsLValue : Bool} {LValueFrom : Nat} {OnHeap : Bool} {f : Failure}
    (h : VariableAllocValueFromType pc Parser Typ IsLValue LValueFrom OnHeap
      = some (Exit.fail f, pc1)) : f = Failure.OutOfMemory := by
  unfold VariableAllocValueFromType at h
  split at h
  · cases h
  · split at h
    · cases h
    · split at h
      · cases h
      · rename_i f2 pc2 hal
        cases h
        exact VariableAllocValueAndData_fail hal
      · split at h
        · cases h
        · split at h <;> cases h

theorem VariableAllocValueAndCopy_fail {pc pc1 : Picoc} {Parser : Option ParseState}
    {FromValue : Nat} {OnHeap : Bool} {f : Failure}
    (h : VariableAllocValueAndCopy pc Parser FromValue OnHeap = some (Exit.fail f, pc1)) :
    f = Failure.OutOfMemory := by
  unfold VariableAllocValueAndCopy at h
  split at h
  · cases h
  · split at h
    · cases h
    · split at h
      · cases h
      · simp only at h
        split at h
        · cases h
        · rename_i f2 pc2 hal
          cases h
          exact VariableAllocValueAndData_fail hal
        · split at h <;> cases h

theorem TableSet_fail {pc pc1 : Picoc} {Tbl : Table} {Key Val F : Nat} {L C : Int} {f : Failure}
    (h : TableSet pc Tbl Key Val F L C = some (Exit.fail f, pc1)) : f = Failure.OutOfMemory := by
  unfold TableSet at h
  split at h
  · cases h
  · split at h
    · cases h
    · rename_i f2 pc2 hal
      cases h
      exact VariableAlloc_fail hal
    · cases h

theorem TableStrRegister_fail {pc pc1 : Picoc} {Str : List Char} {f : Failure}
    (h : TableStrRegister pc Str = some (Exit.fail f, pc1)) : f = Failure.OutOfMemory := by
  unfold TableStrRegister at h
  split at h
  · cases h
  · split at h
    · cases h
    · rename_i f2 pc2 hal
      cases h
      exact VariableAlloc_fail hal
    · split at h <;> cases h

theorem VariableDefine_fail {pc pc1 : Picoc} {Parser : Option ParseState} {Ident InitValue : Nat}
    {Typ : TypePtr} {MakeWritable : Bool} {f : Failure}
    (h : VariableDefine pc Parser Ident InitValue Typ MakeWritable = some (Exit.fail f, pc1)) :
    f = Failure.OutOfMemory ∨ f = Failure.AlreadyDefined := by
  unfold VariableDefine at h
  simp only at h
  split at h
  · cases h
  · rename_i f2 pc2 hal
    cases h
    left
    split at hal
    · exact VariableAllocValueAndCopy_fail hal
    · exact VariableAllocValueFromType_fail hal
  · split at h
    · split at h
      · cases h
      · rename_i f2 pc2 hset
        cases h
        exact Or.inl (TableSet_fail hset)
      · split at h
        · cases h; exact Or.inr rfl
        · cases h
    · cases h

theorem VariableDefinePlatformVar_fail {pc pc1 : Picoc} {Parser : Option ParseState}
    {Ident : Nat} {Typ : TypePtr} {FromValue : Nat} {IsWritable : Bool} {f : Failure}
    (h : VariableDefinePlatformVar pc Parser Ident Typ FromValue IsWritable
      = some (Exit.fail f, pc1)) :
    f = Failure.OutOfMemory ∨ f = Failure.AlreadyDefined := by
  unfold VariableDefinePlatformVar at h
  split at h
  · cases h
  · rename_i f2 pc2 hal
    cases h
    exact Or.inl (VariableAllocValueAndData_fail hal)
  · split at h
    · simp only at h
      split at h
      · cases h
      · rename_i f2 pc2 hreg
        cases h
        exact Or.inl (TableStrRegister_fail hreg)
      · split at h
        · cases h
        · split at h
          · cases h
          · rename_i f2 pc2 hset
            cases h
            exact Or.inl (TableSet_fail hset)
          · split at h
            · cases h; exact Or.inr rfl
            · cases h
    · cases h

/-- The only place where a declaration raises "type isn't defined" is the test of
`TypeIsForwardDeclared` at its start. -/
theorem VariableDefineButIgnoreIdentical_typeError {fuel : Nat} {pc pc1 : Picoc}
    {Parser : ParseState} {Ident : Nat} {Typ : TypePtr} {IsStatic FirstVisit : Bool}
    (h : VariableDefineButIgnoreIdentical fuel pc Parser Ident Typ IsStatic FirstVisit
      = some (Exit.fail Failure.TypeNotDefined, pc1)) :
    TypeIsForwardDeclared pc.types fuel Typ = some true := by
  unfold VariableDefineButIgnoreIdentical at h
  split at h
  · cases h
  · assumption
  · exfalso
    split at h
    · split at h
      · simp only at h
        split at h
        · cases h
        · rename_i f pc2 hreg
          have := TableStrRegister_fail hreg
          cases h
          cases this
        · rename_i m pcA hreg
          split at h
          · cases h
          · rename_i f pc4 hfound
            cases h
            split at hfound
            · cases hfound
            · split at hfound
              · cases hfound
              · rename_i f2 pc5 hal
                have := VariableAllocValueFromType_fail hal
                cases hfound
                cases this
              · split at hfound
                · cases hfound
                · rename_i f2 pc5 hset
                  have := TableSet_fail hset
                  cases hfound
                  cases this
                · cases hfound
          · split at h
            · cases h
            · split at h
              · cases h
              · rename_i f pc5 hdef
                have := VariableDefinePlatformVar_fail hdef
                cases h
                rcases this with h1 | h1 <;> cases h1
              · cases h
      · cases h
    · split at h
      · cases h
      · split at h
        · split at h
          · cases h
          · split at h
            · cases h
            · rename_i f pc2 hdef
              have := VariableDefine_fail hdef
              cases h
              rcases this with h1 | h1 <;> cases h1
            · cases h
        · split at h
          · cases h
          · rename_i f pc2 hdef
            have := VariableDefine_fail hdef
            cases h
            rcases this with h1 | h1 <;> cases h1
          · cases h

/-- C11 (forward-declared types): for a type that is `Depth` array derivations above a
node that is not an array, and with more fuel than that, `VariableDefineButIgnoreIdentical`
raises "type isn't defined" and leaves the state as it is when the type is forward-declared
in the words of the specification, and does not raise that error when it is not; a pointer
type is not forward-declared, whatever it points to. -/
theorem C11_forward_declared_rejected (fuel : Nat) (pc : Picoc) (Parser : ParseState)
    (Ident : Nat) (Typ : TypePtr) (IsStatic FirstVisit : Bool) (Depth : Nat)
    (hd : ArrayDepth pc.types Typ Depth) (hf : Depth < fuel) :
    (ForwardDeclared pc.types Typ →
        VariableDefineButIgnoreIdentical fuel pc Parser Ident Typ IsStatic FirstVisit
          = some (Exit.fail Failure.TypeNotDefined, pc))
      ∧ (¬ ForwardDeclared pc.types Typ → ∀ pc1,
          VariableDefineButIgnoreIdentical fuel pc Parser Ident Typ IsStatic FirstVisit
            ≠ some (Exit.fail Failure.TypeNotDefined, pc1))
      ∧ (∀ t, pc.types Typ = some t → t.Base = BaseType.TypePointer →
          ¬ ForwardDeclared pc.types Typ) := by
  obtain ⟨b, hb, hiff⟩ := TypeIsForwardDeclared_spec hd fuel hf
  refine ⟨?_, ?_, ?_⟩
  · intro hfd
    have hb2 : b = true := hiff.mpr hfd
    subst hb2
    unfold VariableDefineButIgnoreIdentical
    rw [hb]
  · intro hn pc1 h
    have := VariableDefineButIgnoreIdentical_typeError h
    rw [hb] at this
    exact hn (hiff.mp (Option.some.inj this))
  · intro t ht hp hfd
    cases hfd with
    | aggregate ht2 hb2 _ =>
      rw [ht] at ht2
      cases ht2
      rw [hp] at hb2
      rcases hb2 with hb2 | hb2 <;> cases hb2
    | array ht2 hb2 _ =>
      rw [ht] at ht2
      cases ht2
      rw [hp] at hb2
      cases hb2

/-- C11 at concrete inputs: a declaration of the type `struct T [3]`, with the
forward-declared `struct T`, is rejected; a declaration of the type `struct T *` is not. -/
theorem C11_forward_declared_rejected_witness :
    VariableDefineButIgnoreIdentical 2 exFwd exParser 52 (TypePtr.heap 900) false false
        = some (Exit.fail Failure.TypeNotDefined, exFwd)
      ∧ (∀ pc1, VariableDefineButIgnoreIdentical 2 exFwd exParser 52 (TypePtr.heap 1000) false false
          ≠ some (Exit.fail Failure.TypeNotDefined, pc1)) := by
  have e8 : exFwd.types (TypePtr.heap 800) = some exStructT := rfl
  have e9 : exFwd.types (TypePtr.heap 900) = some exArrayT := rfl
  have e10 : exFwd.types (TypePtr.heap 1000) = some exPtrT := rfl
  have h1 := C11_forward_declared_rejected 2 exFwd exParser 52 (TypePtr.heap 900) false false 1
    (ArrayDepth.array e9 rfl (ArrayDepth.element e8 (by decide))) (by decide)
  have h2 := C11_forward_declared_rejected 2 exFwd exParser 52 (TypePtr.heap 1000) false false 0
    (ArrayDepth.element e10 (by decide)) (by decide)
  exact ⟨h1.1 (ForwardDeclared.array e9 rfl (ForwardDeclared.aggregate e8 (Or.inl rfl) rfl)),
    h2.2.1 (h2.2.2 _ e10 rfl)⟩

/-! ## C12, C13: re-declaration -/

/-- Storing the current table in its own place changes nothing. -/
theorem setCurrentTable_self (pc : Picoc) (Tbl : Table) (hT : currentTable pc = some Tbl) :
    setCurrentTable pc Tbl = pc := by
  unfold currentTable at hT
  unfold setCurrentTable
  by_cases h0 : pc.TopStackFrame = 0
  · rw [if_pos h0] at hT ⊢
    have hg : pc.GlobalTable = Tbl := Option.some.inj hT
    subst hg
    rfl
  · rw [if_neg h0] at hT ⊢
    have hf : (fun a => if a = pc.TopStackFrame then
        Option.map (fun f => { f with LocalTable := Tbl }) (pc.frames a)
        else pc.frames a) = pc.frames := by
      funext a
      by_cases ha : a = pc.TopStackFrame
      · subst ha
        rw [if_pos rfl]
        cases hfa : pc.frames pc.TopStackFrame with
        | none => rfl
        | some f =>
          rw [hfa] at hT
          simp only [Option.map_some', Option.some.injEq] at hT ⊢
          subst hT
          rfl
      · rw [if_neg ha]
    rw [hf]

/-- The value headers after an allocation of a value: only the new header differs. -/
theorem VariableAllocValueAndData_vals {pc pc1 : Picoc} {Parser : Option ParseState}
    {DataSize : Int} {IsLValue : Bool} {LValueFrom : Nat} {OnHeap : Bool} {p : Nat}
    (h : VariableAllocValueAndData pc Parser DataSize IsLValue LValueFrom OnHeap
      = some (Exit.ret p, pc1)) :
    (∀ a, a ≠ p → pc1.vals a = pc.vals a)
      ∧ ∃ v, pc1.vals p = some v ∧ v.OutOfScope = false := by
  unfold VariableAllocValueAndData at h
  split at h
  · cases h
  · cases h
  · rename_i NewValue pc0 hal
    obtain ⟨_, hv⟩ := VariableAlloc_fields hal
    simp only [Option.some.injEq, Prod.mk.injEq, Exit.ret.injEq] at h
    obtain ⟨rfl, rfl⟩ := h
    refine ⟨fun a ha => ?_, _, if_pos rfl, rfl⟩
    show (if a = NewValue then _ else _) = _
    rw [if_neg ha, hv]

theorem VariableAllocValueFromType_vals {pc pc1 : Picoc} {Parser : Option ParseState}
    {Typ : TypePtr} {IsLValue : Bool} {LValueFrom : Nat} {OnHeap : Bool} {p : Nat}
    (h : VariableAllocValueFromType pc Parser Typ IsLValue LValueFrom OnHeap
      = some (Exit.ret p, pc1)) :
    (∀ a, a ≠ p → pc1.vals a = pc.vals a)
      ∧ ∃ v, pc1.vals p = some v ∧ v.OutOfScope = false := by
  unfold VariableAllocValueFromType at h
  split at h
  · cases h
  · split at h
    · cases h
    · split at h
      · cases h
      · cases h
      · rename_i NewValue pc0 hal
        obtain ⟨hv, v0, hv0, ho⟩ := VariableAllocValueAndData_vals hal
        split at h
        · cases h
        · split at h
          · cases h
          · rename_i v hv1
            simp only [Option.some.injEq, Prod.mk.injEq, Exit.ret.injEq] at h
            obtain ⟨rfl, rfl⟩ := h
            rw [hv0] at hv1
            cases hv1
            refine ⟨fun a ha => ?_, _, if_pos rfl, ho⟩
            show (if a = NewValue then _ else _) = _
            rw [if_neg ha, hv a ha]

theorem VariableAllocValueAndCopy_fields {pc pc1 : Picoc} {Parser : Option ParseState}
    {FromValue : Nat} {OnHeap : Bool} {p : Nat}
    (h : VariableAllocValueAndCopy pc Parser FromValue OnHeap = some (Exit.ret p, pc1)) :
    SameBindings pc pc1 ∧ (∀ a, a ≠ p → pc1.vals a = pc.vals a)
      ∧ ∃ v, pc1.vals p = some v ∧ v.OutOfScope = false := by
  unfold VariableAllocValueAndCopy at h
  split at h
  · cases h
  · split at h
    · cases h
    · split at h
      · cases h
      · simp only at h
        split at h
        · cases h
        · cases h
        · rename_i NewValue pc0 hal
          obtain ⟨hs, _, _⟩ := VariableAllocValueAndData_fields hal
          obtain ⟨hv, v0, hv0, ho⟩ := VariableAllocValueAndData_vals hal
          split at h
          · cases h
          · rename_i v hv1
            simp only [Option.some.injEq, Prod.mk.injEq, Exit.ret.injEq] at h
            obtain ⟨rfl, rfl⟩ := h
            rw [hv0] at hv1
            cases hv1
            refine ⟨hs, fun a ha => ?_, _, if_pos rfl, ho⟩
            show (if a = NewValue then _ else _) = _
            rw [if_neg ha, hv a ha]

theorem VariableDefineValue_fields {pc pc1 : Picoc} {Parser : Option ParseState}
    {InitValue : Nat} {Typ : TypePtr} {MakeWritable : Bool} {v : Nat}
    (h : VariableDefineValue pc Parser InitValue Typ MakeWritable = some (Exit.ret v, pc1)) :
    SameBindings pc pc1 ∧ (∀ a, a ≠ v → pc1.vals a = pc.vals a)
      ∧ ∃ x, pc1.vals v = some x ∧ x.OutOfScope = false := by
  unfold VariableDefineValue at h
  split at h
  · exact VariableAllocValueAndCopy_fields h
  · exact ⟨(VariableAllocValueFromType_fields h).1, VariableAllocValueFromType_vals h⟩

theorem currentTable_congr {pc pc1 : Picoc} (h : SameBindings pc pc1) :
    currentTable pc1 = currentTable pc := by
  obtain ⟨h1, h2, h3, _⟩ := h
  unfold currentTable
  rw [h1, h2, h3]

/-- What a `VariableDefine` that returns did: it allocated the value, found the identifier
unbound in the current table, and put a new entry at the head of the chain of the
identifier. -/
theorem VariableDefine_ret {pc pc2 : Picoc} {Parser : Option ParseState}
    {Ident InitValue : Nat} {Typ : TypePtr} {MakeWritable : Bool} {Tbl : Table} {v : Nat}
    (hT : currentTable pc = some Tbl)
    (h : VariableDefine pc Parser Ident InitValue Typ MakeWritable = some (Exit.ret v, pc2)) :
    ∃ (pc3 : Picoc) (New : TableEntry),
      pc2 = setCurrentTable pc3
          { Tbl with HashTable :=
              (List.set Tbl.HashTable (Ident % Tbl.Size)
                (New :: Tbl.HashTable.getD (Ident % Tbl.Size) [])) }
      ∧ New.Key = Ident ∧ New.Val = v ∧ TableSearch Tbl Ident = none
      ∧ SameBindings pc pc3 ∧ (∀ a, a ≠ v → pc3.vals a = pc.vals a)
      ∧ ∃ x, pc3.vals v = some x ∧ x.OutOfScope = false := by
  unfold VariableDefine at h
  simp only at h
  split at h
  · cases h
  · cases h
  · rename_i AssignValue pc1 halloc
    have halloc2 : VariableDefineValue pc Parser InitValue Typ MakeWritable
        = some (Exit.ret AssignValue, pc1) := halloc
    obtain ⟨hs, hv, x, hx, _⟩ := VariableDefineValue_fields halloc2
    have hT1 : currentTable pc1 = some Tbl := (currentTable_congr hs).trans hT
    rw [hx, hT1] at h
    simp only at h
    split at h
    · cases h
    · cases h
    · rename_i ok Tbl1 pc3 hset
      obtain ⟨hs3, hv3, _, hok⟩ := TableSet_effect hset
      split at h
      · cases h
      · rename_i hok2
        have hok3 : ok = true := by simpa using hok2
        subst hok3
        simp only [Option.some.injEq, Prod.mk.injEq, Exit.ret.injEq] at h
        obtain ⟨rfl, rfl⟩ := h
        have hnone : TableSearch Tbl Ident = none := by
          cases hh : TableSearch Tbl Ident with
          | none => rfl
          | some e0 =>
            exfalso
            unfold TableSet at hset
            rw [hh] at hset
            cases hset
        obtain ⟨_, hT1eq⟩ := hok hnone
        have hEq := congrArg (setCurrentTable pc3) hT1eq
        refine ⟨pc3, _, hEq, rfl, rfl, hnone, ?_, ?_, ?_⟩
        · exact ⟨hs3.1.trans hs.1, hs3.2.1.trans hs.2.1, hs3.2.2.1.trans hs.2.2.1,
            hs3.2.2.2.1.trans hs.2.2.2.1, hs3.2.2.2.2.1.trans hs.2.2.2.2.1,
            hs3.2.2.2.2.2.trans hs.2.2.2.2.2⟩
        · intro a ha
          rw [hv3]
          show (if a = AssignValue then _ else _) = _
          rw [if_neg ha, hv a ha]
        · rw [hv3]
          exact ⟨_, if_pos rfl, rfl⟩

theorem definedAndOutOfScope_vals {vals vals2 : Nat → Option Value} {Ident : Nat}
    {L : List TableEntry} (h : ∀ e ∈ L, vals2 e.Val = vals e.Val) :
    definedAndOutOfScope vals2 Ident L = definedAndOutOfScope vals Ident L := by
  induction L with
  | nil => rfl
  | cons e L ih =>
    unfold definedAndOutOfScope
    rw [h e (List.mem_cons_self _ _), ih (fun e2 h2 => h e2 (List.mem_cons_of_mem _ h2))]

theorem definedAndOutOfScope_append {vals : Nat → Option Value} {Ident : Nat}
    (A : List TableEntry) {B B2 : List TableEntry}
    (h : definedAndOutOfScope vals Ident B2 = definedAndOutOfScope vals Ident B) :
    definedAndOutOfScope vals Ident (A ++ B2) = definedAndOutOfScope vals Ident (A ++ B) := by
  induction A with
  | nil => exact h
  | cons e A ih =>
    simp only [List.cons_append]
    unfold definedAndOutOfScope
    rw [ih]

/-- A new entry whose value is in scope does not change the answer of the search for a
hidden entry. -/
theorem definedAndOutOfScope_set {vals : Nat → Option Value} {Ident : Nat} (New : TableEntry)
    {x : Value} (hx : vals New.Val = some x) (ho : x.OutOfScope = false)
    (l : List (List TableEntry)) (i : Nat) :
    definedAndOutOfScope vals Ident (List.set l i (New :: l.getD i [])).flatten
      = definedAndOutOfScope vals Ident l.flatten := by
  induction l generalizing i with
  | nil => rfl
  | cons c l ih =>
    cases i with
    | zero =>
      simp only [List.set_cons_zero, List.flatten_cons, List.getD_cons_zero, List.cons_append]
      conv => lhs; unfold definedAndOutOfScope
      rw [hx]
      simp only [ho, Bool.false_eq_true, false_and, if_false]
    | succ j =>
      simp only [List.set_cons_succ, List.flatten_cons, List.getD_cons_succ]
      exact definedAndOutOfScope_append c (ih j)

/-- The lookups of an identifier give the same results in two states whose top frame, table
lookups of the identifier and search for a hidden entry agree. -/
theorem VariableGet_same {pc pc2 : Picoc} {T T2 : Table} {Ident : Nat}
    (hT : currentTable pc = some T) (hT2 : currentTable pc2 = some T2)
    (htop : pc2.TopStackFrame = pc.TopStackFrame)
    (hloc : TableGet T2 Ident = TableGet T Ident)
    (hglob : TableGet pc2.GlobalTable Ident = TableGet pc.GlobalTable Ident)
    (hoos : VariableDefinedAndOutOfScope pc2 Ident = VariableDefinedAndOutOfScope pc Ident) :
    (VariableGet pc2 Ident).map Prod.fst = (VariableGet pc Ident).map Prod.fst
      ∧ VariableDefined pc2 Ident = VariableDefined pc Ident := by
  constructor
  · unfold VariableGet
    rw [hT, hT2, htop]
    simp only
    rw [hloc, hglob, hoos]
    split
    · rfl
    · split
      · rfl
      · split <;> rfl
  · unfold VariableDefined
    rw [hT, hT2, htop]
    simp only
    rw [hloc, hglob]

/-- C14 (define then get): after a `VariableDefine` that returned the value `v`, on a
well-formed current table none of whose entries points to the new header, `VariableGet`
of the identifier returns `v` and `VariableDefined` is true; the new binding is in the
current table, that is in the local table of the top frame if there is one and in the
global table otherwise, and inside a function the global table is unchanged; the results
of `VariableGet` and `VariableDefined` for every other identifier are as before. -/
theorem C14_define_then_get (pc : Picoc) (Parser : Option ParseState) (Ident InitValue : Nat)
    (Typ : TypePtr) (MakeWritable : Bool) (Tbl : Table) (v : Nat) (pc2 : Picoc)
    (hT : currentTable pc = some Tbl) (hwf : Tbl.HashTable.length = Tbl.Size)
    (hsz : 0 < Tbl.Size) (hfresh : ∀ e ∈ Tbl.entries, e.Val ≠ v)
    (hdef : VariableDefine pc Parser Ident InitValue Typ MakeWritable
      = some (Exit.ret v, pc2)) :
    VariableGet pc2 Ident = some (Exit.ret v, pc2)
      ∧ VariableDefined pc2 Ident = some true
      ∧ (∃ Tbl2 New, currentTable pc2 = some Tbl2 ∧ TableGet Tbl2 Ident = some New
          ∧ New.Val = v)
      ∧ pc2.TopStackFrame = pc.TopStackFrame
      ∧ (pc.TopStackFrame ≠ 0 → pc2.GlobalTable = pc.GlobalTable)
      ∧ (∀ Ident2, Ident2 ≠ Ident →
          (VariableGet pc2 Ident2).map Prod.fst = (VariableGet pc Ident2).map Prod.fst
            ∧ VariableDefined pc2 Ident2 = VariableDefined pc Ident2) := by
  obtain ⟨pc3, New, hpc2, hk, hval, hnone, hs, hv, x, hx, ho⟩ := VariableDefine_ret hT hdef
  subst hk hval
  have hT3 : currentTable pc3 = some Tbl := (currentTable_congr hs).trans hT
  generalize hT1 : ({ Tbl with HashTable :=
      (List.set Tbl.HashTable (New.Key % Tbl.Size)
        (New :: Tbl.HashTable.getD (New.Key % Tbl.Size) [])) } : Table) = Tbl1 at hpc2
  have hcur2 : currentTable pc2 = some Tbl1 := by
    rw [hpc2]
    exact currentTable_setCurrentTable pc3 Tbl Tbl1 hT3 pc3.vals
  obtain ⟨f1, f2, f3, _, _, _, f7⟩ := setCurrentTable_fields pc3 Tbl1
  rw [← hpc2] at f1 f2 f3 f7
  obtain ⟨s1, s2, s3, _⟩ := hs
  have htop : pc2.TopStackFrame = pc.TopStackFrame := f7.trans s2
  have hget1 : TableGet Tbl1 New.Key = some New := by
    rw [← hT1]
    exact TableSearch_set_same Tbl New (by rw [hwf]; exact Nat.mod_lt _ hsz)
  have hother : ∀ m, m ≠ New.Key → TableGet Tbl1 m = TableGet Tbl m := by
    intro m hm
    rw [← hT1]
    exact TableSearch_set_other Tbl New m hm _
  have hglob0 : pc.TopStackFrame = 0 → pc2.GlobalTable = Tbl1 ∧ pc.GlobalTable = Tbl := by
    intro h0
    refine ⟨f3 (s2.trans h0), ?_⟩
    unfold currentTable at hT
    rw [if_pos h0] at hT
    exact Option.some.inj hT
  have hglob1 : pc.TopStackFrame ≠ 0 → pc2.GlobalTable = pc.GlobalTable := by
    intro h0
    rw [f2 (fun h => h0 (s2.symm.trans h)), s1]
  refine ⟨?_, ?_, ⟨Tbl1, New, hcur2, hget1, rfl⟩, htop, hglob1, ?_⟩
  · unfold VariableGet
    rw [hcur2, htop]
    simp only
    by_cases h0 : pc.TopStackFrame = 0
    · rw [if_pos h0, (hglob0 h0).1, hget1]
    · rw [if_neg h0, hget1]
  · unfold VariableDefined
    rw [hcur2, htop]
    simp only
    by_cases h0 : pc.TopStackFrame = 0
    · rw [if_pos (Or.inl h0), (hglob0 h0).1, hget1]
      rfl
    · rw [hget1, if_neg (by simp [h0])]
  · intro Ident2 hne
    apply VariableGet_same hT hcur2 htop (hother Ident2 hne)
    · by_cases h0 : pc.TopStackFrame = 0
      · rw [(hglob0 h0).1, (hglob0 h0).2]
        exact hother Ident2 hne
      · rw [hglob1 h0]
    · unfold VariableDefinedAndOutOfScope
      rw [hcur2, hT]
      simp only
      have hlen : Tbl1.HashTable.length = Tbl1.Size := by
        rw [← hT1]
        simp only [List.length_set]
        exact hwf
      rw [if_neg (not_not.mpr hlen), if_neg (not_not.mpr hwf)]
      have hx2 : pc2.vals New.Val = some x := by rw [f1]; exact hx
      have e1 : definedAndOutOfScope pc2.vals Ident2 Tbl1.entries
          = definedAndOutOfScope pc2.vals Ident2 Tbl.entries := by
        rw [← hT1]
        exact definedAndOutOfScope_set New hx2 ho Tbl.HashTable _
      rw [e1]
      apply definedAndOutOfScope_vals
      intro e he
      rw [f1]
      exact hv e.Val (hfresh e he)

/-- C14 at a concrete input: `int x;` in the function `f`. -/
theorem C14_define_then_get_witness :
    VariableGet exDefinedF 52 = some (Exit.ret 4096, exDefinedF)
      ∧ VariableDefined exDefinedF 52 = some true
      ∧ exDefinedF.GlobalTable = exStaticF.GlobalTable := by
  obtain ⟨h1, h2, _, _, h5, _⟩ := C14_define_then_get exStaticF (some exParser) 52 0
    (TypePtr.field TypeField.IntType) true (emptyTable LOCAL_TABLE_SIZE false) 4096 exDefinedF
    (by rfl) (by rfl) (by decide) (by decide) (by rfl)
  exact ⟨h1, h2, h5 (by decide)⟩

/-- C15 (lookup order): without a frame `VariableGet` and `VariableDefined` answer from the
global table.  With a frame they answer from the local table of the top frame when it
binds the identifier, whatever the global table holds, and from the global table
otherwise.  States that agree on the top frame, the global table and the value headers
give the same answers, whatever the frames below the top frame hold. -/
theorem C15_lookup_order (pc : Picoc) (Ident : Nat) (Tbl : Table)
    (hT : currentTable pc = some Tbl) :
    (pc.TopStackFrame = 0 →
        (∀ e, TableGet pc.GlobalTable Ident = some e →
          VariableGet pc Ident = some (Exit.ret e.Val, pc) ∧ VariableDefined pc Ident = some true)
        ∧ (TableGet pc.GlobalTable Ident = none →
          VariableDefined pc Ident = some false
            ∧ ∀ v pc1, VariableGet pc Ident ≠ some (Exit.ret v, pc1)))
      ∧ (pc.TopStackFrame ≠ 0 →
        (∀ e, TableGet Tbl Ident = some e →
          VariableGet pc Ident = some (Exit.ret e.Val, pc) ∧ VariableDefined pc Ident = some true)
        ∧ (TableGet Tbl Ident = none → ∀ e, TableGet pc.GlobalTable Ident = some e →
          VariableGet pc Ident = some (Exit.ret e.Val, pc) ∧ VariableDefined pc Ident = some true)
        ∧ (TableGet Tbl Ident = none → TableGet pc.GlobalTable Ident = none →
          VariableDefined pc Ident = some false
            ∧ ∀ v pc1, VariableGet pc Ident ≠ some (Exit.ret v, pc1)))
      ∧ (∀ pc2 : Picoc, pc2.TopStackFrame = pc.TopStackFrame →
          pc2.frames pc.TopStackFrame = pc.frames pc.TopStackFrame →
          pc2.GlobalTable = pc.GlobalTable → pc2.vals = pc.vals →
          (VariableGet pc2 Ident).map Prod.fst = (VariableGet pc Ident).map Prod.fst
            ∧ VariableDefined pc2 Ident = VariableDefined pc Ident) := by
  have hfail : ∀ (v : Nat) (pc1 : Picoc), (match VariableDefinedAndOutOfScope pc Ident with
      | none => none
      | some true => some (Exit.fail Failure.OutOfScope, pc)
      | some false => some (Exit.fail Failure.Undefined, pc) : Call Nat)
        ≠ some (Exit.ret v, pc1) := by
    intro v pc1 h
    split at h <;> cases h
  refine ⟨?_, ?_, ?_⟩
  · intro h0
    constructor
    · intro e he
      constructor
      · unfold VariableGet
        rw [hT]
        simp only
        rw [if_pos h0, he]
      · unfold VariableDefined
        rw [hT]
        simp only
        rw [if_pos (Or.inl h0), he]
        rfl
    · intro hn
      constructor
      · unfold VariableDefined
        rw [hT]
        simp only
        rw [if_pos (Or.inl h0), hn]
        rfl
      · intro v pc1
        unfold VariableGet
        rw [hT]
        simp only
        rw [if_pos h0, hn]
        exact hfail v pc1
  · intro h0
    refine ⟨?_, ?_, ?_⟩
    · intro e he
      constructor
      · unfold VariableGet
        rw [hT]
        simp only
        rw [if_neg h0, he]
      · unfold VariableDefined
        rw [hT]
        simp only
        rw [he, if_neg (by simp [h0])]
    · intro hl e he
      constructor
      · unfold VariableGet
        rw [hT]
        simp only
        rw [if_neg h0, hl]
        simp only
        rw [he]
      · unfold VariableDefined
        rw [hT]
        simp only
        rw [hl, if_pos (Or.inr (by rfl)), he]
        rfl
    · intro hl hn
      constructor
      · unfold VariableDefined
        rw [hT]
        simp only
        rw [hl, if_pos (Or.inr (by rfl)), hn]
        rfl
      · intro v pc1
        unfold VariableGet
        rw [hT]
        simp only
        rw [if_neg h0, hl]
        simp only
        rw [hn]
        exact hfail v pc1
  · intro pc2 h1 h2 h3 h4
    have hT2 : currentTable pc2 = some Tbl := by
      rw [← hT]
      unfold currentTable
      rw [h1, h2, h3]
    refine VariableGet_same hT hT2 h1 rfl (by rw [h3]) ?_
    unfold VariableDefinedAndOutOfScope
    rw [hT, hT2, h4]

/-- C15 at a concrete input: the local variable of the key 52 shadows the global one. -/
theorem C15_lookup_order_witness :
    VariableGet exShadow 52 = some (Exit.ret 30000, exShadow)
      ∧ TableGet exShadow.GlobalTable 52 = some (exScopeEntry 52 30500) :=
  ⟨(((C15_lookup_order exShadow 52 exScopeTable (by rfl)).2.1 (by decide)).1
      (exScopeEntry 52 30000) (by rfl)).1, by rfl⟩

/-- The search for a hidden entry over entries that all point to value headers. -/
theorem definedAndOutOfScope_any {vals : Nat → Option Value} {Ident : Nat}
    {L : List TableEntry} (h : ∀ e ∈ L, (vals e.Val).isSome) :
    definedAndOutOfScope vals Ident L
      = some (L.any (fun e => hit (fun v => v.OutOfScope) vals e
          && decide (e.Key &&& (addrLimit - 2) = Ident))) := by
  induction L with
  | nil => rfl
  | cons e L ih =>
    obtain ⟨v, hv⟩ := Option.isSome_iff_exists.mp (h e (List.mem_cons_self _ _))
    unfold definedAndOutOfScope
    rw [hv, ih (fun e2 h2 => h e2 (List.mem_cons_of_mem _ h2)), List.any_cons]
    unfold hit
    rw [hv]
    simp only
    by_cases hc : v.OutOfScope = true ∧ e.Key &&& (addrLimit - 2) = Ident
    · rw [if_pos hc]
      simp [hc.1, hc.2]
    · rw [if_neg hc]
      have : (v.OutOfScope && decide (e.Key &&& (addrLimit - 2) = Ident)) = false := by
        simpa using hc
      rw [this, Bool.false_or]

/-- `VariableGet` on an identifier that no visible entry matches: the failure is "out of
scope" exactly when the current table has a hidden entry of the identifier. -/
theorem VariableGet_unbound (pc : Picoc) (Ident : Nat) (Tbl : Table)
    (hT : currentTable pc = some Tbl) (hlen : Tbl.HashTable.length = Tbl.Size)
    (hsome : ∀ e ∈ Tbl.entries, (pc.vals e.Val).isSome)
    (hloc : pc.TopStackFrame ≠ 0 → TableGet Tbl Ident = none)
    (hglob : TableGet pc.GlobalTable Ident = none) :
    VariableGet pc Ident
      = some (Exit.fail
          (if Tbl.entries.any (fun e => hit (fun v => v.OutOfScope) pc.vals e
              && decide (e.Key &&& (addrLimit - 2) = Ident))
            then Failure.OutOfScope else Failure.Undefined), pc) := by
  have hl : (if pc.TopStackFrame = 0 then none else TableGet Tbl Ident) = none := by
    by_cases h0 : pc.TopStackFrame = 0
    · rw [if_pos h0]
    · rw [if_neg h0, hloc h0]
  unfold VariableGet VariableDefinedAndOutOfScope
  rw [hT]
  simp only
  rw [hl]
  simp only
  rw [hglob]
  simp only
  rw [if_neg (not_not.mpr hlen), definedAndOutOfScope_any hsome]
  cases Tbl.entries.any (fun e => hit (fun v => v.OutOfScope) pc.vals e
      && decide (e.Key &&& (addrLimit - 2) = Ident)) <;> rfl

/-- C16, the code at the program `{ int y; } void f() { y; } f();`: at the end of the
file-scope block the global entry of `y` (key 72) is hidden, and at file scope
`VariableGet` reports "out of scope"; inside the call of `f` the hidden entry is still in
the global table, and `VariableGet` reports "undefined". -/
theorem C16_hidden_global_reported_undefined :
    VariableScopeEnd exBlock exParser 525000000 3
        = some (Exit.ret { exParser with ScopeID := 3 }, exBlockEnded)
      ∧ VariableGet exBlockEnded 72 = some (Exit.fail Failure.OutOfScope, exBlockEnded)
      ∧ VariableStackFrameAdd exBlockEnded exParser 24 0 = some (Exit.ret (), exBlockCall)
      ∧ exBlockCall.GlobalTable.HashTable.getD 72 [] = [exScopeEntry 73 30400]
      ∧ (exBlockCall.vals 30400).map (fun v => v.OutOfScope) = some true
      ∧ (73 : Nat) &&& (addrLimit - 2) = 72
      ∧ VariableGet exBlockCall 72 = some (Exit.fail Failure.Undefined, exBlockCall) :=
  ⟨by rfl, by rfl, by rfl, by rfl, by rfl, by rfl, by rfl⟩

/-! ## C17, C18: the contracts of `HeapAllocStack` and `HeapPopStack` -/

/-- The loop of `HeapInit` stops at the first aligned address. -/
theorem alignLoop_stop (HeapMemory fuel AlignOffset k : Nat) (hk : k < fuel)
    (h : (HeapMemory + AlignOffset + k) % 8 = 0) :
    alignLoop HeapMemory fuel AlignOffset ≤ AlignOffset + k
      ∧ (HeapMemory + alignLoop HeapMemory fuel AlignOffset) % 8 = 0 := by
  induction fuel generalizing AlignOffset k with
  | zero => omega
  | succ f ih =>
    unfold alignLoop
    have hand : (HeapMemory + AlignOffset) &&& (sizeofAlignType - 1) = (HeapMemory + AlignOffset) % 8 := by
      have := Nat.and_pow_two_sub_one_eq_mod (HeapMemory + AlignOffset) 3
      simpa [sizeofAlignType] using this
    rw [hand]
    split
    · rename_i hne
      cases k with
      | zero => exact absurd h hne
      | succ j =>
        have := ih (AlignOffset + 1) j (by omega) (by rw [← h]; congr 1; omega)
        omega
    · rename_i he
      simp only [ne_eq, not_not] at he
      exact ⟨by omega, he⟩

/-- The offset found by `HeapInit` is less than eight and gives an aligned address. -/
theorem alignLoop_aligned (HeapMemory : Nat) :
    alignLoop HeapMemory sizeofAlignType 0 ≤ 7
      ∧ (HeapMemory + alignLoop HeapMemory sizeofAlignType 0) % 8 = 0 := by
  have := alignLoop_stop HeapMemory sizeofAlignType 0 ((8 - HeapMemory % 8) % 8)
    (by unfold sizeofAlignType; omega) (by omega)
  omega

/-- A stack operation changes neither the block nor the heap frontier. -/
theorem HeapStep_block {pc pc2 : Arena} (h : HeapStep pc pc2) :
    pc2.HeapMemory = pc.HeapMemory ∧ pc2.HeapSize = pc.HeapSize
      ∧ pc2.HeapBottom = pc.HeapBottom := by
  cases h with
  | alloc Size ha =>
    rcases HeapAllocStack_effect ha with ⟨_, rfl⟩ | ⟨_, rfl, _, _⟩ <;> exact ⟨rfl, rfl, rfl⟩
  | unpop Size ha =>
    unfold HeapUnpopStack at ha
    simp only at ha
    split at ha
    · cases ha
    · cases ha; exact ⟨rfl, rfl, rfl⟩
  | pop Size ha =>
    rcases HeapPopStack_effect ha with ⟨_, rfl⟩ | ⟨_, t, rfl, _⟩ <;> exact ⟨rfl, rfl, rfl⟩
  | pushFrame ha =>
    unfold HeapPushStackFrame at ha
    split at ha
    · cases ha
    · cases ha; exact ⟨rfl, rfl, rfl⟩
  | popFrame ha =>
    unfold HeapPopStackFrame at ha
    split at ha
    · cases ha
    · split at ha <;> (cases ha; exact ⟨rfl, rfl, rfl⟩)
  | store a v hb => exact ⟨rfl, rfl, rfl⟩

/-- In a reachable arena the heap frontier lies inside the block. -/
theorem HeapReachable_bottom {pc : Arena} (h : HeapReachable pc) :
    pc.HeapBottom < pc.HeapMemory + pc.HeapSize := by
  induction h with
  | init HeapMemory contents StackOrHeapSize hs hi =>
    unfold HeapInit at hi
    have hoff := (alignLoop_aligned HeapMemory).1
    generalize alignLoop HeapMemory sizeofAlignType 0 = off at hi hoff
    simp only [Arena.inBlock] at hi
    split at hi
    · cases hi
    · split at hi
      · cases hi
      · rename_i h1 h2
        cases hi
        have h3 : (toSizeT StackOrHeapSize : Int) = StackOrHeapSize :=
          toSizeT_of_nonneg _ (by omega) hs
        unfold INT_MAX at hs
        simp only [sizeofAlignType, addrLimit, not_or, not_lt, not_not] at *
        omega
  | step _ hstep ih =>
    obtain ⟨e1, e2, e3⟩ := HeapStep_block hstep
    rw [e1, e2, e3]
    exact ih

/-- The aligned size of an `int` size is the size rounded up by less than eight. -/
theorem le_MEM_ALIGN (x : Nat) (hx : x ≤ 2147483647) : x ≤ MEM_ALIGN x ∧ MEM_ALIGN x ≤ x + 7 := by
  rw [MEM_ALIGN_eq]
  omega

/-- C17 (stack push contract): in an arena reachable from `HeapInit`, for every `int`
size `>= 0` for which `HeapStackTop + MEM_ALIGN(size)` is an address, `HeapAllocStack`
returns; the pointer it returns is not null exactly when `HeapStackTop + MEM_ALIGN(size)`
does not exceed `HeapBottom`; then it is the old `HeapStackTop`, the top is advanced by
exactly `MEM_ALIGN(size)` and `size` bytes are cleared, and nothing else changes; when the
pointer is null the arena is unchanged. -/
theorem C17_stack_push_contract (pc : Arena) (hr : HeapReachable pc) (Size : Int)
    (h0 : 0 ≤ Size) (h1 : Size ≤ INT_MAX)
    (hwrap : pc.HeapStackTop + MEM_ALIGN (toSizeT Size) < addrLimit) :
    ∃ pc2 p, HeapAllocStack pc Size = some (pc2, p)
      ∧ (p ≠ 0 ↔ pc.HeapStackTop + MEM_ALIGN (toSizeT Size) ≤ pc.HeapBottom)
      ∧ (p ≠ 0 → p = pc.HeapStackTop
          ∧ pc2 = { pc with HeapStackTop := pc.HeapStackTop + MEM_ALIGN (toSizeT Size),
                            Memory := memset pc.Memory pc.HeapStackTop 0 (toSizeT Size) })
      ∧ (p = 0 → pc2 = pc) := by
  obtain ⟨i0, i1, i2, i3, i4, i5⟩ := HeapReachable_inv hr
  have hb := HeapReachable_bottom hr
  have hs : (toSizeT Size : Int) = Size := toSizeT_of_nonneg _ h0 h1
  have hs2 : toSizeT Size ≤ 2147483647 := by unfold INT_MAX at h1; omega
  obtain ⟨m1, m2⟩ := le_MEM_ALIGN _ hs2
  unfold HeapAllocStack
  simp only
  rw [if_neg (by omega)]
  by_cases hfit : pc.HeapStackTop + MEM_ALIGN (toSizeT Size) ≤ pc.HeapBottom
  · rw [if_neg (by omega), if_neg (by
      simp only [Arena.inBlock, not_and, not_not]
      intro _
      omega)]
    refine ⟨_, _, rfl, ?_, ?_, ?_⟩
    · exact ⟨fun _ => hfit, fun _ => by omega⟩
    · intro _
      exact ⟨rfl, rfl⟩
    · intro h
      omega
  · rw [if_pos (by omega)]
    refine ⟨_, _, rfl, ?_, ?_, ?_⟩
    · exact ⟨fun h => absurd rfl h, fun h => absurd h hfit⟩
    · intro h
      exact absurd rfl h
    · intro _
      rfl

/-- C17 at a concrete input: five bytes on the fresh arena `exArena`. -/
theorem C17_stack_push_contract_witness :
    ∃ pc2 p, HeapAllocStack exArena 5 = some (pc2, p)
      ∧ (p ≠ 0 ↔ exArena.HeapStackTop + MEM_ALIGN (toSizeT 5) ≤ exArena.HeapBottom)
      ∧ p = 4096 ∧ pc2.HeapStackTop = 4104 := by
  obtain ⟨pc2, p, h1, h2, h3, _⟩ := C17_stack_push_contract exArena exArena_reachable 5
    (by decide) (by decide) (by decide)
  have hp : p ≠ 0 := h2.mpr (by decide)
  obtain ⟨e1, e2⟩ := h3 hp
  exact ⟨pc2, p, h1, h2, e1, by rw [e2]; rfl⟩

theorem MEM_ALIGN_mod (x : Nat) : MEM_ALIGN x % 8 = 0 := by
  rw [MEM_ALIGN_eq]
  omega

/-- `HeapPopStack` for sizes whose aligned size fits an `int`, on a stack whose top is at a
multiple of eight bytes above the stack base and not above the heap frontier: the call
fails, changing nothing, exactly when the aligned size exceeds the bytes above the stack
base; otherwise it lowers the top by the aligned size. -/
theorem HeapPopStack_in_range (pc : Arena) (hr : HeapReachable pc) (Size : Int) (h0 : 0 ≤ Size)
    (h1 : Size ≤ INT_MAX - 7) (hb2 : stackBase pc ≤ pc.HeapStackTop)
    (hal : (pc.HeapStackTop - stackBase pc) % 8 = 0) (hin : pc.HeapStackTop ≤ pc.HeapBottom) :
    HeapPopStack pc Size =
      if MEM_ALIGN (toSizeT Size) > pc.HeapStackTop - stackBase pc then some (pc, false)
      else some ({ pc with HeapStackTop := pc.HeapStackTop - MEM_ALIGN (toSizeT Size) }, true) := by
  have hb1 := (alignLoop_aligned pc.HeapMemory).1
  unfold stackBase at hb2 hal ⊢
  generalize alignLoop pc.HeapMemory sizeofAlignType 0 = off at hb1 hb2 hal
  have hs : (toSizeT Size : Int) = Size := toSizeT_of_nonneg _ h0 (by unfold INT_MAX at *; omega)
  have hs2 : toSizeT Size ≤ 2147483640 := by unfold INT_MAX at h1; omega
  have hm := MEM_ALIGN_mod (toSizeT Size)
  have hm2 : MEM_ALIGN (toSizeT Size) ≤ toSizeT Size + 7 := by
    rw [MEM_ALIGN_eq]; omega
  have hA : MEM_ALIGN (toSizeT Size) < 2147483648 := by omega
  obtain ⟨i0, i1, i2, i3, i4, i5⟩ := HeapReachable_inv hr
  have hbot := HeapReachable_bottom hr
  unfold HeapPopStack
  simp only [toInt_of_lt _ hA, addrLimit] at *
  rw [if_neg (by omega)]
  by_cases hgt : MEM_ALIGN (toSizeT Size) > pc.HeapStackTop - (pc.HeapMemory + off)
  · rw [if_pos hgt, if_pos (by omega)]
  · rw [if_neg hgt, if_neg (by omega), if_neg (by omega)]
    congr 3
    omega

/-- C18, the code at `HeapPopStack(pc, 2147483647)` on the fresh arena `exArena`, where no
byte is allocated above the stack base: `MEM_ALIGN(size)` is `2^31`, the `int ToLose` that
holds it is `-2^31`, and the call returns true and raises `HeapStackTop` by `2^31`; at
the size `-8` it returns true and raises the top by eight. -/
theorem C18_pop_of_large_size_raises_top :
    HeapInit 4096 (fun _ => 0) 1024 = some exArena
      ∧ MEM_ALIGN (toSizeT 2147483647) = 2147483648
      ∧ exArena.HeapStackTop - exArena.StackFrame = 0
      ∧ HeapPopStack exArena 2147483647
        = some ({ exArena with HeapStackTop := 2147487744 }, true)
      ∧ HeapPopStack exArena (-8) = some ({ exArena with HeapStackTop := 4104 }, true) :=
  ⟨by rfl, by decide, by decide, by rfl, by rfl⟩

/-! ## C19, C20: arena frames -/

/-- Balanced activity keeps the frame base, the links of the open frames and their place
below the stack top. -/
theorem BalancedActivity_kept {Fs : List Nat} {pc pc2 : Arena} (h : BalancedActivity Fs pc pc2)
    (hi : ArenaInv pc) (htop : ∀ F ∈ Fs, F + 8 ≤ pc.HeapStackTop) :
    pc2.StackFrame = pc.StackFrame ∧ (∀ F ∈ Fs, F + 8 ≤ pc2.HeapStackTop)
      ∧ (∀ F ∈ Fs, readPtr pc2.Memory F = readPtr pc.Memory F) ∧ ArenaInv pc2
      ∧ pc2.HeapMemory = pc.HeapMemory ∧ pc2.HeapSize = pc.HeapSize := by
  induction h with
  | refl Fs pc => exact ⟨rfl, htop, fun _ _ => rfl, hi, rfl, rfl⟩
  | alloc Size ha _ ih =>
    have hi1 := HeapStep_inv hi (HeapStep.alloc Size ha)
    rcases HeapAllocStack_effect ha with ⟨_, rfl⟩ | ⟨_, rfl, _, _⟩
    · exact ih hi htop
    · obtain ⟨k1, k2, k3, k4, k5, k6⟩ := ih hi1 (fun F hF => Nat.le_add_right_of_le (htop F hF))
      refine ⟨k1, k2, fun F hF => ?_, k4, k5, k6⟩
      rw [k3 F hF]
      exact readPtr_memset _ _ _ _ _ (Or.inl (htop F hF))
  | unpop Size ha _ ih =>
    have hi1 := HeapStep_inv hi (HeapStep.unpop Size ha)
    unfold HeapUnpopStack at ha
    simp only at ha
    split at ha
    · cases ha
    · cases ha
      exact ih hi1 (fun F hF => Nat.le_add_right_of_le (htop F hF))
  | pop Size ha hge _ ih =>
    have hi1 := HeapStep_inv hi (HeapStep.pop Size ha)
    rcases HeapPopStack_effect ha with ⟨_, rfl⟩ | ⟨_, t, rfl, _⟩
    · exact ih hi htop
    · exact ih hi1 hge
  | store a v hb hout _ ih =>
    have hi1 := HeapStep_inv hi (HeapStep.store a v hb)
    obtain ⟨k1, k2, k3, k4, k5, k6⟩ := ih hi1 htop
    refine ⟨k1, k2, fun F hF => ?_, k4, k5, k6⟩
    rw [k3 F hF]
    apply readPtr_congr
    intro k hk
    show (if F + k = a then _ else _) = _
    rw [if_neg (by have := hout F hF; omega)]
  | @frame Fs pc pc1 pc2 pc3 pc4 hpush _ hpop _ ih1 ih2 =>
    have hi1 := HeapStep_inv hi (HeapStep.pushFrame hpush)
    have hi3 := fun h2 => HeapStep_inv h2 (HeapStep.popFrame hpop)
    unfold HeapPushStackFrame at hpush
    split at hpush
    · cases hpush
    · cases hpush
      obtain ⟨j1, j2, j3, j4, j5, j6⟩ := ih1 hi1 (by
        intro F hF
        rcases List.mem_cons.mp hF with rfl | hF
        · show pc.HeapStackTop + 8 ≤ pc.HeapStackTop + MEM_ALIGN sizeofAlignType
          rw [MEM_ALIGN_sizeofAlignType]
        · exact Nat.le_add_right_of_le (htop F hF))
      simp only at j1 j3 j5 j6
      have hlink : readPtr pc2.Memory pc.HeapStackTop = pc.StackFrame := by
        rw [j3 _ (List.mem_cons_self _ _)]
        exact readPtr_writePtr _ _ _ (by have := hi.2.2.2.2.1; unfold addrLimit at this; exact this)
      unfold HeapPopStackFrame at hpop
      split at hpop
      · cases hpop
      · split at hpop
        · simp only [Option.some.injEq, Prod.mk.injEq, and_true] at hpop
          subst hpop
          rw [j1, hlink] at hi3
          obtain ⟨k1, k2, k3, k4, k5, k6⟩ := ih2 (by rw [j1, hlink]; exact hi3 j4) (by
            intro F hF
            show F + 8 ≤ pc2.StackFrame
            rw [j1]
            exact htop F hF)
          simp only at k1 k3 k5 k6
          refine ⟨by rw [k1, j1, hlink], k2, fun F hF => ?_, k4, k5.trans j5, k6.trans j6⟩
          rw [k3 F hF, j3 F (List.mem_cons_of_mem _ hF)]
          apply readPtr_congr
          intro k hk
          unfold writePtr
          rw [if_neg (by have := htop F hF; omega)]
        · cases hpop

/-- C19 (arena frame round trip): in an arena reachable from `HeapInit`, after
`HeapPushStackFrame` and any balanced stack activity above the new frame,
`HeapPopStackFrame` returns true and restores `HeapStackTop` and the frame base to their
values before the push. -/
theorem C19_arena_frame_round_trip (pc : Arena) (hr : HeapReachable pc) (pc1 : Arena)
    (hpush : HeapPushStackFrame pc = some pc1) (pc2 : Arena)
    (hact : BalancedActivity [pc1.StackFrame] pc1 pc2) :
    ∃ pc3, HeapPopStackFrame pc2 = some (pc3, true)
      ∧ pc3.HeapStackTop = pc.HeapStackTop ∧ pc3.StackFrame = pc.StackFrame := by
  have hi := HeapReachable_inv hr
  have hi1 := HeapStep_inv hi (HeapStep.pushFrame hpush)
  unfold HeapPushStackFrame at hpush
  split at hpush
  · cases hpush
  · rename_i hb
    cases hpush
    obtain ⟨j1, j2, j3, j4, j5, j6⟩ := BalancedActivity_kept hact hi1 (by
      intro F hF
      rcases List.mem_cons.mp hF with rfl | hF
      · show pc.HeapStackTop + 8 ≤ pc.HeapStackTop + MEM_ALIGN sizeofAlignType
        rw [MEM_ALIGN_sizeofAlignType]
      · cases hF)
    simp only at j1 j3 j5 j6
    have hlink : readPtr pc2.Memory pc.HeapStackTop = pc.StackFrame := by
      rw [j3 _ (List.mem_cons_self _ _)]
      exact readPtr_writePtr _ _ _ (by have := hi.2.2.2.2.1; unfold addrLimit at this; exact this)
    unfold HeapPopStackFrame
    rw [if_neg (by
      simp only [Arena.inBlock, not_not] at hb ⊢
      rw [j1, j5, j6]
      exact hb), j1, hlink, if_pos (Nat.pos_iff_ne_zero.mp hi.2.2.2.1)]
    exact ⟨_, rfl, rfl, rfl⟩

/-- C19 at a concrete input: a frame is pushed on `exArena`, twelve bytes are
allocated, and the frame is popped. -/
theorem C19_arena_frame_round_trip_witness :
    ∃ pc3, HeapPopStackFrame exFrameAlloc = some (pc3, true)
      ∧ pc3.HeapStackTop = exArena.HeapStackTop ∧ pc3.StackFrame = exArena.StackFrame :=
  C19_arena_frame_round_trip exArena exArena_reachable exFramePushed (by rfl) exFrameAlloc
    (BalancedActivity.alloc 12
      (show HeapAllocStack exFramePushed 12 = some (exFrameAlloc, 4104) by rfl)
      (BalancedActivity.refl _ _))

/-- C20, the code on the fresh arena `exArena`: `HeapInit` leaves `HeapStackTop` at the
address of the null link, so `HeapPushStackFrame` stores the frame base over it; after the
matching `HeapPopStackFrame` has returned true and restored both pointers, a further
`HeapPopStackFrame` returns true again.  Likewise after an allocation of eight bytes, a
store of the program into them and the matching pop, `HeapPopStackFrame` returns true and
makes the stored bytes the frame base. -/
theorem C20_unmatched_pop_frame_returns_true :
    HeapInit 4096 (fun _ => 0) 1024 = some exArena
      ∧ HeapPushStackFrame exArena = some exFramePushed
      ∧ HeapPopStackFrame exFramePushed = some (exFramePopped, true)
      ∧ exFramePopped.HeapStackTop = exArena.HeapStackTop
      ∧ exFramePopped.StackFrame = exArena.StackFrame
      ∧ HeapPopStackFrame exFramePopped = some (exFramePopped, true)
      ∧ HeapAllocStack exArena 8 = some (exArenaAlloc8, 4096)
      ∧ HeapPopStack (exArenaStore5 exArenaAlloc8) 8 = some (exArenaStored, true)
      ∧ HeapPopStackFrame exArenaStored
        = some ({ exArenaStored with HeapStackTop := 4096, StackFrame := 5 }, true) :=
  ⟨by rfl, by rfl, by rfl, by rfl, by rfl, by rfl, by rfl, by rfl, by rfl⟩

/-! ## C21, C22: derived types -/

/-- A heap allocation succeeds when the allocator has a fresh block to return. -/
theorem VariableAlloc_fresh {pc : Picoc} {n : Int} {a : Nat} {rest : List Nat}
    (hc : pc.calloc = a :: rest) (hn : 0 ≤ n) (hf : FreshBlock pc a (toSizeT n)) :
    VariableAlloc pc n true = some (Exit.ret a,
      { pc with calloc := rest,
                arena := { pc.arena with Memory := memset pc.arena.Memory a 0 (toSizeT n) } }) := by
  obtain ⟨h1, h2, h3, h4, h5⟩ := hf
  have e : HeapAllocMem pc n = (a,
      { pc with calloc := rest,
                arena := { pc.arena with Memory := memset pc.arena.Memory a 0 (toSizeT n) } }) := by
    unfold HeapAllocMem
    rw [hc]
    simp only
    have hcond : ¬ (n < 0 ∨ a = 0) := by
      intro h
      rcases h with h | h
      · omega
      · exact h1 h
    rw [if_neg hcond]
  unfold VariableAlloc
  simp only [if_true]
  rw [e]
  simp only
  have hcond2 : ¬ ((pc.vals a).isSome = true ∨ (pc.tables a).isSome = true
      ∨ (pc.types (TypePtr.heap a)).isSome = true
      ∨ ¬ (a + toSizeT n ≤ pc.arena.HeapMemory
            ∨ pc.arena.HeapMemory + pc.arena.HeapSize ≤ a)) := by
    rw [h2, h3, h4]
    simp only [Option.isSome_none, Bool.false_eq_true, false_or, not_not]
    exact h5
  rw [if_neg h1, if_neg hcond2]

/-- The search of a chain whose links point to types, none with the triple, ends without
a node. -/
theorem findMatching_absent {types : TypePtr → Option ValueType} {B : BaseType} {A : Int}
    {I : Nat} {l : List TypePtr}
    (h : ∀ c ∈ l, ∃ tc, types c = some tc ∧ ¬ (tc.Base = B ∧ tc.ArraySize = A ∧ tc.Identifier = I)) :
    findMatching types B A I l = some none := by
  induction l with
  | nil => rfl
  | cons x xs ih =>
    obtain ⟨tx, htx, hne⟩ := h x (List.mem_cons_self _ _)
    unfold findMatching
    rw [htx]
    simp only
    rw [if_pos (by
      by_contra hc
      simp only [not_or, not_not] at hc
      exact hne hc)]
    exact ih (fun c hc => h c (List.mem_cons_of_mem _ hc))

/-- The search of a chain whose links point to types with pairwise different triples
finds the node with the triple. -/
theorem findMatching_found {types : TypePtr → Option ValueType} {B : BaseType} {A : Int}
    {I : Nat} {l : List TypePtr} (hex : ∀ c ∈ l, ∃ tc, types c = some tc)
    (hu : l.Pairwise
      (fun c1 c2 => ∀ t1 t2, types c1 = some t1 → types c2 = some t2 → ¬ sameTriple t1 t2))
    {c : TypePtr} {tc : ValueType} (hc : c ∈ l) (htc : types c = some tc)
    (hB : tc.Base = B) (hA : tc.ArraySize = A) (hId : tc.Identifier = I) :
    findMatching types B A I l = some (some c) := by
  induction l with
  | nil => cases hc
  | cons x xs ih =>
    obtain ⟨tx, htx⟩ := hex x (List.mem_cons_self _ _)
    rw [List.pairwise_cons] at hu
    unfold findMatching
    rw [htx]
    simp only
    by_cases hm : tx.Base ≠ B ∨ tx.ArraySize ≠ A ∨ tx.Identifier ≠ I
    · rw [if_pos hm]
      rcases List.mem_cons.mp hc with hcx | hcx
      · subst hcx
        rw [htx] at htc
        cases htc
        rcases hm with h | h | h
        · exact absurd hB h
        · exact absurd hA h
        · exact absurd hId h
      · exact ih (fun c2 h2 => hex c2 (List.mem_cons_of_mem _ h2)) hu.2 hcx
    · rw [if_neg hm]
      simp only [not_or, not_not] at hm
      rcases List.mem_cons.mp hc with hcx | hcx
      · rw [hcx]
      · exfalso
        exact hu.1 c hcx tx tc htx htc
          ⟨hm.1.trans hB.symm, hm.2.1.trans hA.symm, hm.2.2.trans hId.symm⟩

/-- `TypeAdd` with a fresh block from the allocator: the result and the state it leaves. -/
theorem TypeAdd_fresh {pc : Picoc} {P : TypePtr} {B : BaseType} {A : Int} {I : Nat} {S Al : Int}
    {parent : ValueType} {a : Nat} {rest : List Nat} (hP : pc.types P = some parent)
    (hc : pc.calloc = a :: rest) (hf : FreshBlock pc a 64) :
    TypeAdd pc P B A I S Al = some (Exit.ret (TypePtr.heap a),
      { pc with
        calloc := rest,
        arena := { pc.arena with Memory := memset pc.arena.Memory a 0 64 },
        types := (setType (setType pc.types (TypePtr.heap a)
          { Base := B, ArraySize := A, Sizeof := S, AlignBytes := Al, Identifier := I,
            FromType := P, DerivedTypeList := [], Members := TablePtr.null, OnHeap := true }) P
          { parent with DerivedTypeList := TypePtr.heap a :: parent.DerivedTypeList }) }) := by
  have hal := VariableAlloc_fresh (n := toInt sizeofValueType) hc (by decide) hf
  unfold TypeAdd
  rw [hal]
  simp only
  rw [hP]
  rfl

/-- Without a node with the triple in the chain, `TypeGetMatching` is the call of `TypeAdd`
with the size and alignment chosen by the `switch`. -/
theorem TypeGetMatching_none {pc : Picoc} {P : TypePtr} {B : BaseType} {A : Int} {I : Nat}
    {dup : Bool} {parent : ValueType} (hP : pc.types P = some parent)
    (hfind : findMatching pc.types B A I parent.DerivedTypeList = some none) :
    ∃ S Al, TypeGetMatching pc P B A I dup = TypeAdd pc P B A I S Al
      ∧ (B = BaseType.TypePointer → S = 8 ∧ Al = pc.PointerAlignBytes)
      ∧ (B = BaseType.TypeArray → S = wrapInt (A * parent.Sizeof) ∧ Al = parent.AlignBytes)
      ∧ (B = BaseType.TypeEnum → S = 4 ∧ Al = pc.IntAlignBytes)
      ∧ (B = BaseType.TypeStruct ∨ B = BaseType.TypeUnion → S = 0 ∧ Al = 0) := by
  unfold TypeGetMatching
  rw [hP]
  simp only
  rw [hfind]
  cases B <;> simp

/-- `TypeAdd` leaves the file-scope variables of type.cpp as they are. -/
theorem TypeAdd_align {pc pc2 : Picoc} {P : TypePtr} {B : BaseType} {A : Int} {I : Nat}
    {S Al : Int} {e : Exit TypePtr} (h : TypeAdd pc P B A I S Al = some (e, pc2)) :
    pc2.PointerAlignBytes = pc.PointerAlignBytes ∧ pc2.IntAlignBytes = pc.IntAlignBytes := by
  unfold TypeAdd at h
  split at h
  · cases h
  · rename_i f pc1 hal
    obtain ⟨⟨rest, m, rfl⟩, _⟩ := VariableAlloc_heap hal
    cases h
    exact ⟨rfl, rfl⟩
  · rename_i a pc1 hal
    obtain ⟨⟨rest, m, rfl⟩, _⟩ := VariableAlloc_heap hal
    simp only at h
    split at h
    · cases h
    · cases h
      exact ⟨rfl, rfl⟩

theorem TypeGetMatching_align {pc pc2 : Picoc} {P : TypePtr} {B : BaseType} {A : Int} {I : Nat}
    {dup : Bool} {e : Exit TypePtr} (h : TypeGetMatching pc P B A I dup = some (e, pc2)) :
    pc2.PointerAlignBytes = pc.PointerAlignBytes ∧ pc2.IntAlignBytes = pc.IntAlignBytes := by
  unfold TypeGetMatching at h
  split at h
  · cases h
  · split at h
    · cases h
    · split at h <;> · cases h; exact ⟨rfl, rfl⟩
    · split at h <;> exact TypeAdd_align h

theorem TypeInit_align {pc0 pc : Picoc} {e : Exit Unit} (h : TypeInit pc0 = some (e, pc)) :
    pc.PointerAlignBytes = 8 ∧ pc.IntAlignBytes = 4 := by
  unfold TypeInit at h
  simp only at h
  split at h
  · cases h
  · rename_i f pc3 h1
    cases h
    exact TypeAdd_align h1
  · rename_i a1 pc3 h1
    have e3 := TypeAdd_align h1
    split at h
    · cases h
    · rename_i f pc4 h2
      cases h
      have e4 := TypeAdd_align h2
      exact ⟨e4.1.trans e3.1, e4.2.trans e3.2⟩
    · rename_i a2 pc4 h2
      have e4 := TypeAdd_align h2
      split at h
      · cases h
      · rename_i f pc5 h3
        cases h
        have e5 := TypeAdd_align h3
        exact ⟨e5.1.trans (e4.1.trans e3.1), e5.2.trans (e4.2.trans e3.2)⟩
      · rename_i a3 pc5 h3
        have e5 := TypeAdd_align h3
        split at h
        · cases h
        · rename_i f pc6 h4
          cases h
          have e6 := TypeAdd_align h4
          exact ⟨e6.1.trans (e5.1.trans (e4.1.trans e3.1)), e6.2.trans (e5.2.trans (e4.2.trans e3.2))⟩
        · rename_i a4 pc6 h4
          cases h
          have e6 := TypeAdd_align h4
          exact ⟨e6.1.trans (e5.1.trans (e4.1.trans e3.1)), e6.2.trans (e5.2.trans (e4.2.trans e3.2))⟩

/-- In an instance reachable from `TypeInit` the alignments kept in the file-scope
variables of type.cpp are those of the host. -/
theorem TypeReachable_align {pc : Picoc} (h : TypeReachable pc) :
    pc.PointerAlignBytes = 8 ∧ pc.IntAlignBytes = 4 := by
  induction h with
  | init h0 hinit => exact TypeInit_align hinit
  | step ParentType Base ArraySize Identifier AllowDuplicates _ hstep ih =>
    obtain ⟨e1, e2⟩ := TypeGetMatching_align hstep
    exact ⟨e1.trans ih.1, e2.trans ih.2⟩

theorem wrapInt_of_range (x : Int) (h0 : -2147483648 ≤ x) (h1 : x ≤ 2147483647) :
    wrapInt x = x := by
  unfold wrapInt
  omega

/-- C21 (derived-type deduplication): on a store of types that satisfies the invariant,
`TypeGetMatching` with `AllowDuplicates` true returns the child of the parent that has the
base, array size and identifier, and leaves the instance as it is, when there is one.
When there is none and the allocator has a block for the node, it returns a node that was
not in the store, with `FromType` the parent and the base, array size and identifier asked
for, and puts it at the head of the chain of the parent; no other type node changes; and
the same call made again returns that node and changes nothing. -/
theorem C21_derived_type_deduplication (pc : Picoc) (P : TypePtr) (B : BaseType) (A : Int)
    (I : Nat) (parent : ValueType) (hI : TypeInv pc.types) (hP : pc.types P = some parent) :
    (∀ c tc, c ∈ parent.DerivedTypeList → pc.types c = some tc → tc.Base = B →
        tc.ArraySize = A → tc.Identifier = I →
        TypeGetMatching pc P B A I true = some (Exit.ret c, pc))
    ∧ ((∀ c tc, c ∈ parent.DerivedTypeList → pc.types c = some tc →
          ¬ (tc.Base = B ∧ tc.ArraySize = A ∧ tc.Identifier = I)) →
        ∀ a rest, pc.calloc = a :: rest → FreshBlock pc a 64 →
        ∃ pc2 node, TypeGetMatching pc P B A I true = some (Exit.ret (TypePtr.heap a), pc2)
          ∧ pc.types (TypePtr.heap a) = none
          ∧ pc2.types (TypePtr.heap a) = some node
          ∧ node.FromType = P ∧ node.Base = B ∧ node.ArraySize = A ∧ node.Identifier = I
          ∧ node.DerivedTypeList = []
          ∧ pc2.types P
            = some { parent with DerivedTypeList := TypePtr.heap a :: parent.DerivedTypeList }
          ∧ (∀ q, q ≠ TypePtr.heap a → q ≠ P → pc2.types q = pc.types q)
          ∧ TypeGetMatching pc2 P B A I true = some (Exit.ret (TypePtr.heap a), pc2)) := by
  obtain ⟨hex, hu⟩ := hI
  constructor
  · intro c tc hc htc hB hA hId
    have hfind := findMatching_found (hex P parent hP) (hu P parent hP) hc htc hB hA hId
    unfold TypeGetMatching
    rw [hP]
    simp only
    rw [hfind]
    rfl
  · intro hnone a rest hc hf
    have hfind : findMatching pc.types B A I parent.DerivedTypeList = some none :=
      findMatching_absent (fun c hcl => by
        obtain ⟨tc, htc⟩ := hex P parent hP c hcl
        exact ⟨tc, htc, hnone c tc hcl htc⟩)
    obtain ⟨S, Al, hE, _⟩ := @TypeGetMatching_none pc P B A I true parent hP hfind
    have hadd := @TypeAdd_fresh pc P B A I S Al parent a rest hP hc hf
    have hfresh : pc.types (TypePtr.heap a) = none := hf.2.2.2.1
    have hne : TypePtr.heap a ≠ P := by
      intro he
      rw [he, hP] at hfresh
      cases hfresh
    rw [hE, hadd]
    refine ⟨_, ValueType.mk B A S Al I P [] TablePtr.null true, rfl, hfresh, ?_, rfl, rfl, rfl,
      rfl, rfl, ?_, ?_, ?_⟩
    · show setType _ P _ (TypePtr.heap a) = _
      rw [setType_other _ _ _ _ hne, setType_same]
    · show setType _ P _ P = _
      rw [setType_same]
    · intro q hq1 hq2
      show setType _ P _ q = _
      rw [setType_other _ _ _ _ hq2, setType_other _ _ _ _ hq1]
    · unfold TypeGetMatching
      simp only
      rw [setType_same]
      simp only
      unfold findMatching
      rw [setType_other _ _ _ _ hne, setType_same]
      simp

theorem exTyped_reachable : TypeReachable exTyped :=
  TypeReachable.init (show exBlank.types = blankTypes by rfl)
    (show TypeInit exBlank = some (Exit.ret (), exTyped) by rfl)

/-- C21 at a concrete input, the instance after `TypeInit`: the type `char *` exists and is
returned; the type `int *` does not exist, is made at the address 10400 that the allocator
returns, and is returned by the same call made again. -/
theorem C21_derived_type_deduplication_witness :
    TypeGetMatching exTyped (TypePtr.field TypeField.CharType) BaseType.TypePointer 0 16 true
        = some (Exit.ret (TypePtr.heap 10100), exTyped)
      ∧ ∃ pc2, TypeGetMatching exTyped (TypePtr.field TypeField.IntType) BaseType.TypePointer 0
            16 true = some (Exit.ret (TypePtr.heap 10400), pc2)
          ∧ TypeGetMatching pc2 (TypePtr.field TypeField.IntType) BaseType.TypePointer 0 16 true
            = some (Exit.ret (TypePtr.heap 10400), pc2) := by
  have hI : TypeInv exTyped.types := TypeReachable_inv exTyped_reachable
  have c1 : (exTyped.types (TypePtr.field TypeField.CharType)).map (fun t => t.DerivedTypeList)
      = some [TypePtr.heap 10100, TypePtr.heap 10000] := by rfl
  have c2 : (exTyped.types (TypePtr.heap 10100)).map (fun t => (t.Base, t.ArraySize, t.Identifier))
      = some (BaseType.TypePointer, 0, 16) := by rfl
  have c3 : (exTyped.types (TypePtr.field TypeField.IntType)).map (fun t => t.DerivedTypeList)
      = some [] := by rfl
  cases hc : exTyped.types (TypePtr.field TypeField.CharType) with
  | none => rw [hc] at c1; cases c1
  | some tchar =>
    cases hp : exTyped.types (TypePtr.heap 10100) with
    | none => rw [hp] at c2; cases c2
    | some tptr =>
      cases hi : exTyped.types (TypePtr.field TypeField.IntType) with
      | none => rw [hi] at c3; cases c3
      | some tint =>
        rw [hc] at c1
        rw [hp] at c2
        rw [hi] at c3
        simp only [Option.map_some', Option.some.injEq, Prod.mk.injEq] at c1 c2 c3
        obtain ⟨h1, _⟩ := C21_derived_type_deduplication exTyped (TypePtr.field TypeField.CharType)
          BaseType.TypePointer 0 16 tchar hI hc
        obtain ⟨_, h2⟩ := C21_derived_type_deduplication exTyped (TypePtr.field TypeField.IntType)
          BaseType.TypePointer 0 16 tint hI hi
        refine ⟨h1 (TypePtr.heap 10100) tptr (by rw [c1]; simp) hp c2.1 c2.2.1 c2.2.2, ?_⟩
        obtain ⟨pc2, _, g1, _, _, _, _, _, _, _, _, _, g2⟩ :=
          h2 (fun c tc hcl => by rw [c3] at hcl; cases hcl) 10400 [] (by rfl)
            ⟨by decide, by rfl, by rfl, by rfl, Or.inr (by decide)⟩
        exact ⟨pc2, g1, g2⟩

/-- C22 (derived-type sizes): when the chain of the parent has no node with the base, array
size and identifier and the allocator has a block for the node, `TypeGetMatching` makes a
node that was not in the store.  For a pointer its `Sizeof` is 8, the size of a pointer of
the host, and its `AlignBytes` is `PointerAlignBytes`; for an array its `Sizeof` is
`ArraySize` times the `Sizeof` of the parent, where that product is an `int`, and its
`AlignBytes` is that of the parent; for an enum they are 4, the size of an `int`, and
`IntAlignBytes`; for a struct or union both are zero.  `PointerAlignBytes` and
`IntAlignBytes` are the alignments 8 and 4 of the host in every instance reachable from
`TypeInit`. -/
theorem C22_derived_type_sizes (pc : Picoc) (P : TypePtr) (B : BaseType) (A : Int) (I : Nat)
    (dup : Bool) (parent : ValueType) (hP : pc.types P = some parent)
    (hnone : ∀ c ∈ parent.DerivedTypeList, ∃ tc, pc.types c = some tc
      ∧ ¬ (tc.Base = B ∧ tc.ArraySize = A ∧ tc.Identifier = I))
    (a : Nat) (rest : List Nat) (hc : pc.calloc = a :: rest) (hf : FreshBlock pc a 64) :
    ∃ pc2 node, TypeGetMatching pc P B A I dup = some (Exit.ret (TypePtr.heap a), pc2)
      ∧ pc.types (TypePtr.heap a) = none ∧ pc2.types (TypePtr.heap a) = some node
      ∧ (B = BaseType.TypePointer → node.Sizeof = 8 ∧ node.AlignBytes = pc.PointerAlignBytes)
      ∧ (B = BaseType.TypeArray → node.AlignBytes = parent.AlignBytes
          ∧ (-2147483648 ≤ A * parent.Sizeof → A * parent.Sizeof ≤ 2147483647 →
              node.Sizeof = A * parent.Sizeof))
      ∧ (B = BaseType.TypeEnum → node.Sizeof = 4 ∧ node.AlignBytes = pc.IntAlignBytes)
      ∧ (B = BaseType.TypeStruct ∨ B = BaseType.TypeUnion → node.Sizeof = 0 ∧ node.AlignBytes = 0)
      ∧ (TypeReachable pc → pc.PointerAlignBytes = 8 ∧ pc.IntAlignBytes = 4) := by
  obtain ⟨S, Al, hE, s1, s2, s3, s4⟩ :=
    @TypeGetMatching_none pc P B A I dup parent hP (findMatching_absent hnone)
  have hadd := @TypeAdd_fresh pc P B A I S Al parent a rest hP hc hf
  have hfresh : pc.types (TypePtr.heap a) = none := hf.2.2.2.1
  have hne : TypePtr.heap a ≠ P := by
    intro he
    rw [he, hP] at hfresh
    cases hfresh
  rw [hE, hadd]
  refine ⟨_, ValueType.mk B A S Al I P [] TablePtr.null true, rfl, hfresh, ?_, s1, ?_, s3, s4,
    TypeReachable_align⟩
  · show setType _ P _ (TypePtr.heap a) = _
    rw [setType_other _ _ _ _ hne, setType_same]
  · intro hB
    obtain ⟨e1, e2⟩ := s2 hB
    refine ⟨e2, fun h0 h1 => ?_⟩
    show S = _
    rw [e1]
    exact wrapInt_of_range _ h0 h1

/-- C22 at a concrete input, the instance after `TypeInit`: the type `int [3]` is made with
`Sizeof` 12 and `AlignBytes` 4, the type `int *` with `Sizeof` 8 and `AlignBytes` 8. -/
theorem C22_derived_type_sizes_witness :
    (∃ pc2 node, TypeGetMatching exTyped (TypePtr.field TypeField.IntType) BaseType.TypeArray 3
          16 true = some (Exit.ret (TypePtr.heap 10400), pc2)
        ∧ pc2.types (TypePtr.heap 10400) = some node ∧ node.Sizeof = 12 ∧ node.AlignBytes = 4)
      ∧ (∃ pc2 node, TypeGetMatching exTyped (TypePtr.field TypeField.IntType)
          BaseType.TypePointer 0 16 true = some (Exit.ret (TypePtr.heap 10400), pc2)
        ∧ pc2.types (TypePtr.heap 10400) = some node ∧ node.Sizeof = 8 ∧ node.AlignBytes = 8) := by
  have c3 : (exTyped.types (TypePtr.field TypeField.IntType)).map
      (fun t => (t.DerivedTypeList, t.Sizeof, t.AlignBytes)) = some ([], 4, 4) := by rfl
  cases hi : exTyped.types (TypePtr.field TypeField.IntType) with
  | none => rw [hi] at c3; cases c3
  | some tint =>
    rw [hi] at c3
    simp only [Option.map_some', Option.some.injEq, Prod.mk.injEq] at c3
    obtain ⟨l1, l2, l3⟩ := c3
    constructor
    · obtain ⟨pc2, node, g1, _, g2, _, g3, _, _, _⟩ := C22_derived_type_sizes exTyped
        (TypePtr.field TypeField.IntType) BaseType.TypeArray 3 16 true tint hi
        (fun c hcl => by rw [l1] at hcl; cases hcl) 10400 [] (by rfl)
        ⟨by decide, by rfl, by rfl, by rfl, Or.inr (by decide)⟩
      obtain ⟨g4, g5⟩ := g3 rfl
      rw [l2] at g5
      rw [l3] at g4
      exact ⟨pc2, node, g1, g2, g5 (by decide) (by decide), g4⟩
    · obtain ⟨pc2, node, g1, _, g2, g3, _, _, _, g6⟩ := C22_derived_type_sizes exTyped
        (TypePtr.field TypeField.IntType) BaseType.TypePointer 0 16 true tint hi
        (fun c hcl => by rw [l1] at hcl; cases hcl) 10400 [] (by rfl)
        ⟨by decide, by rfl, by rfl, by rfl, Or.inr (by decide)⟩
      obtain ⟨g4, g5⟩ := g3 rfl
      rw [(g6 exTyped_reachable).1] at g5
      exact ⟨pc2, node, g1, g2, g4, g5⟩

/-! ## Memory written by the allocations -/

/-- What a call of `VariableAlloc` does to the arena and to the supply of the allocator:
the block of the arena stays, the stack top does not go down, the allocator has consumed
addresses from the front of its supply, and memory changes only when the call returns a
block, which is then zero-filled. -/
theorem VariableAlloc_cases {pc pc1 : Picoc} {n : Int} {b : Bool} {e : Exit Nat}
    (h : VariableAlloc pc n b = some (e, pc1)) :
    pc1.arena.HeapMemory = pc.arena.HeapMemory ∧ pc1.arena.HeapSize = pc.arena.HeapSize
      ∧ pc.arena.HeapStackTop ≤ pc1.arena.HeapStackTop
      ∧ (∃ used, pc.calloc = used ++ pc1.calloc)
      ∧ ((∃ f, e = Exit.fail f) → pc1.arena.Memory = pc.arena.Memory
          ∨ (pc.arena.HeapStackTop = 0
              ∧ pc1.arena.Memory = memset pc.arena.Memory 0 0 (toSizeT n)
              ∧ (toSizeT n = 0 ∨ pc.arena.inBlock 0 (toSizeT n))))
      ∧ ∀ p, e = Exit.ret p →
          pc1.arena.Memory = memset pc.arena.Memory p 0 (toSizeT n)
          ∧ (b = true → pc.calloc = p :: pc1.calloc
              ∧ pc1.arena.HeapStackTop = pc.arena.HeapStackTop ∧ 0 ≤ n
              ∧ (p + toSizeT n ≤ pc.arena.HeapMemory
                  ∨ pc.arena.HeapMemory + pc.arena.HeapSize ≤ p))
          ∧ (b = false → pc1.calloc = pc.calloc ∧ p = pc.arena.HeapStackTop
              ∧ pc1.arena.HeapStackTop = p + MEM_ALIGN (toSizeT n)
              ∧ (toSizeT n = 0 ∨ pc.arena.inBlock p (toSizeT n))) := by
  cases b with
  | true =>
    unfold VariableAlloc HeapAllocMem at h
    simp only [if_true] at h
    cases hc : pc.calloc with
    | nil =>
      rw [hc] at h
      simp only [if_true] at h
      cases h
      exact ⟨rfl, rfl, le_refl _, ⟨[], by rw [hc]; rfl⟩, fun _ => Or.inl rfl,
        fun p hp => by cases hp⟩
    | cons a rest =>
      rw [hc] at h
      simp only at h
      by_cases hcond : n < 0 ∨ a = 0
      · rw [if_pos hcond] at h
        simp only [if_true] at h
        cases h
        exact ⟨rfl, rfl, le_refl _, ⟨[a], rfl⟩, fun _ => Or.inl rfl, fun p hp => by cases hp⟩
      · rw [if_neg hcond] at h
        simp only at h
        have ha : a ≠ 0 := fun h0 => hcond (Or.inr h0)
        rw [if_neg ha] at h
        split at h
        · cases h
        · rename_i hfresh
          simp only [not_or, not_not] at hfresh
          cases h
          refine ⟨rfl, rfl, le_refl _, ⟨[a], rfl⟩, fun hf => ?_, fun p hp => ?_⟩
          · obtain ⟨f, hf⟩ := hf
            cases hf
          · cases hp
            refine ⟨rfl, fun _ => ⟨rfl, rfl, ?_, ?_⟩, fun hb => by cases hb⟩
            · omega
            · have h4 := hfresh.2.2.2
              omega
  | false =>
    unfold VariableAlloc at h
    simp only [Bool.false_eq_true, if_false] at h
    split at h
    · cases h
    · rename_i a1 q hq
      rcases HeapAllocStack_effect hq with ⟨rfl, rfl⟩ | ⟨rfl, rfl, _, hin⟩
      · simp only [if_true] at h
        cases h
        exact ⟨rfl, rfl, le_refl _, ⟨[], rfl⟩, fun _ => Or.inl rfl, fun p hp => by cases hp⟩
      · split at h
        · rename_i h0
          cases h
          refine ⟨rfl, rfl, Nat.le_add_right _ _, ⟨[], rfl⟩, fun _ => Or.inr ⟨h0, ?_, ?_⟩,
            fun p hp => by cases hp⟩
          · show memset _ _ _ _ = _
            rw [h0]
          · rw [h0] at hin
            exact hin
        · cases h
          refine ⟨rfl, rfl, Nat.le_add_right _ _, ⟨[], rfl⟩, fun hf => ?_, fun p hp => ?_⟩
          · obtain ⟨f, hf⟩ := hf
            cases hf
          · cases hp
            exact ⟨rfl, (fun hb => by cases hb), fun _ => ⟨rfl, rfl, rfl, hin⟩⟩

/-- A byte that is live storage stays live through a call of `VariableAlloc` for at most
`N` bytes, and the call does not write it. -/
theorem VariableAlloc_frame {pc pc1 : Picoc} {n : Int} {b : Bool} {e : Exit Nat} {N : Nat}
    (h : VariableAlloc pc n b = some (e, pc1)) (hn : toSizeT n ≤ N) {x : Nat}
    (hx : LiveByte pc N x) : pc1.arena.Memory x = pc.arena.Memory x ∧ LiveByte pc1 N x := by
  obtain ⟨c1, c2, c3, ⟨used, c4⟩, c5, c6⟩ := VariableAlloc_cases h
  constructor
  · cases e with
    | fail f =>
      rcases c5 ⟨f, rfl⟩ with c5 | ⟨t0, c5, hin⟩
      · rw [c5]
      · rw [c5]
        unfold memset
        rw [if_neg]
        intro hmem
        rcases hx with ⟨_, x2, _⟩ | ⟨x1, _⟩
        · omega
        · rcases hin with hin | hin
          · omega
          · unfold Arena.inBlock at hin
            omega
    | ret p =>
      obtain ⟨m1, m2, m3⟩ := c6 p rfl
      rw [m1]
      unfold memset
      rw [if_neg]
      intro hin
      cases b with
      | true =>
        obtain ⟨k1, _, _, k4⟩ := m2 rfl
        rcases hx with ⟨x1, _, x3⟩ | ⟨_, x2⟩
        · omega
        · have := x2 p (by rw [k1]; exact List.mem_cons_self _ _)
          omega
      | false =>
        obtain ⟨_, k2, _, k4⟩ := m3 rfl
        rcases hx with ⟨_, x2, _⟩ | ⟨x1, _⟩
        · omega
        · rcases k4 with k4 | k4
          · omega
          · unfold Arena.inBlock at k4
            omega
  · rcases hx with ⟨x1, x2, x3⟩ | ⟨x1, x2⟩
    · left
      rw [c1, c2]
      exact ⟨x1, lt_of_lt_of_le x2 c3, x3⟩
    · right
      rw [c1, c2]
      refine ⟨x1, fun a ha => x2 a ?_⟩
      rw [c4]
      exact List.mem_append_right _ ha

theorem toSizeT_natCast (n : Nat) (h : n < 18446744073709551616) : toSizeT (n : Int) = n := by
  unfold toSizeT addrLimit
  omega

/-- The size of the block that `VariableAllocValueAndData` asks for. -/
theorem valueBlockSize (n : Nat) (h : n < 2147483608) :
    toInt ((MEM_ALIGN sizeofValue + toSizeT (n : Int)) % addrLimit) = ((40 + n : Nat) : Int)
      ∧ toSizeT ((40 + n : Nat) : Int) = 40 + n := by
  rw [MEM_ALIGN_sizeofValue, toSizeT_natCast n (by omega), toSizeT_natCast (40 + n) (by omega)]
  refine ⟨?_, rfl⟩
  have e : (sizeofValue + n) % addrLimit = 40 + n := by
    unfold sizeofValue addrLimit
    omega
  rw [e]
  exact toInt_of_lt _ (by omega)

/-- The parts of the state on which `LiveByte` depends. -/
theorem LiveByte_congr {pc pc1 : Picoc} (h1 : pc1.arena.HeapMemory = pc.arena.HeapMemory)
    (h2 : pc1.arena.HeapSize = pc.arena.HeapSize)
    (h3 : pc1.arena.HeapStackTop = pc.arena.HeapStackTop) (h4 : pc1.calloc = pc.calloc)
    (N x : Nat) : LiveByte pc1 N x ↔ LiveByte pc N x := by
  unfold LiveByte
  rw [h1, h2, h3, h4]

theorem setCurrentTable_arena (pc : Picoc) (Tbl : Table) :
    (setCurrentTable pc Tbl).arena = pc.arena ∧ (setCurrentTable pc Tbl).calloc = pc.calloc := by
  unfold setCurrentTable
  split <;> exact ⟨rfl, rfl⟩

/-- A byte is live for blocks of `M` bytes when it is live for blocks of `N ≥ M` bytes. -/
theorem LiveByte_mono {pc : Picoc} {N M x : Nat} (hNM : M ≤ N) (h : LiveByte pc N x) :
    LiveByte pc M x := by
  rcases h with h | ⟨h1, h2⟩
  · exact Or.inl h
  · refine Or.inr ⟨h1, fun a ha => ?_⟩
    have := h2 a ha
    omega

/-- The allocation that `VariableAllocValueAndData` makes for a payload of `n` bytes. -/
theorem VariableAllocValueAndData_alloc {pc pc1 : Picoc} {Parser : Option ParseState} {n : Nat}
    {IsLValue : Bool} {LValueFrom : Nat} {OnHeap : Bool} {e : Exit Nat} (hn : n < 2147483608)
    (h : VariableAllocValueAndData pc Parser (n : Int) IsLValue LValueFrom OnHeap
      = some (e, pc1)) :
    ∃ pc0, VariableAlloc pc ((40 + n : Nat) : Int) OnHeap = some (e, pc0)
      ∧ pc1.arena = pc0.arena ∧ pc1.calloc = pc0.calloc := by
  unfold VariableAllocValueAndData at h
  rw [(valueBlockSize n hn).1] at h
  split at h
  · cases h
  · rename_i f pc0 hal
    cases h
    exact ⟨_, hal, rfl, rfl⟩
  · rename_i p pc0 hal
    cases h
    exact ⟨_, hal, rfl, rfl⟩

/-- A byte that is live storage stays live through `VariableAllocValueAndData`, which does
not write it. -/
theorem VariableAllocValueAndData_frame {pc pc1 : Picoc} {Parser : Option ParseState} {n : Nat}
    {IsLValue : Bool} {LValueFrom : Nat} {OnHeap : Bool} {e : Exit Nat} {N : Nat}
    (hn : 40 + n ≤ N) (hn2 : n < 2147483608)
    (h : VariableAllocValueAndData pc Parser (n : Int) IsLValue LValueFrom OnHeap
      = some (e, pc1)) {x : Nat} (hx : LiveByte pc N x) :
    pc1.arena.Memory x = pc.arena.Memory x ∧ LiveByte pc1 N x := by
  obtain ⟨pc0, hal, e1, e2⟩ := VariableAllocValueAndData_alloc hn2 h
  obtain ⟨f1, f2⟩ := VariableAlloc_frame hal
    (by rw [(valueBlockSize n hn2).2]; exact hn) hx
  rw [e1]
  exact ⟨f1, (LiveByte_congr (by rw [e1]) (by rw [e1]) (by rw [e1]) e2 N x).mpr f2⟩

/-- A byte that is live storage stays live through `TableSet`, which does not write it. -/
theorem TableSet_frame {pc pc1 : Picoc} {Tbl : Table} {Key Val F : Nat} {L C : Int}
    {e : Exit (Bool × Table)} {N : Nat} (hN : 40 ≤ N)
    (h : TableSet pc Tbl Key Val F L C = some (e, pc1)) {x : Nat} (hx : LiveByte pc N x) :
    pc1.arena.Memory x = pc.arena.Memory x ∧ LiveByte pc1 N x := by
  have h40 : toSizeT (toInt sizeofTableEntry) ≤ N := by
    have : toSizeT (toInt sizeofTableEntry) = 40 := by decide
    omega
  unfold TableSet at h
  split at h
  · cases h
    exact ⟨rfl, hx⟩
  · split at h
    · cases h
    · rename_i f pc0 hal
      cases h
      exact VariableAlloc_frame hal h40 hx
    · rename_i p pc0 hal
      cases h
      exact VariableAlloc_frame hal h40 hx

/-- The header that `VariableAllocValueAndData` makes. -/
theorem VariableAllocValueAndData_header {pc pc1 : Picoc} {Parser : Option ParseState}
    {DataSize : Int} {IsLValue : Bool} {LValueFrom : Nat} {OnHeap : Bool} {p : Nat}
    (h : VariableAllocValueAndData pc Parser DataSize IsLValue LValueFrom OnHeap
      = some (Exit.ret p, pc1)) :
    pc1.vals p = some
        { Typ := TypePtr.null, Val := p + MEM_ALIGN sizeofValue, LValueFrom := LValueFrom,
          ValOnHeap := OnHeap, ValOnStack := !OnHeap, AnyValOnHeap := false, IsLValue := IsLValue,
          ScopeID := (Parser.map (fun ps => ps.ScopeID)).getD 0, OutOfScope := false }
      ∧ (OnHeap = true → p ≠ 0 ∧ pc.vals p = none) := by
  unfold VariableAllocValueAndData at h
  split at h
  · cases h
  · cases h
  · rename_i NewValue pc0 hal
    simp only [Option.some.injEq, Prod.mk.injEq, Exit.ret.injEq] at h
    obtain ⟨rfl, rfl⟩ := h
    refine ⟨?_, fun hh => ?_⟩
    · show (if NewValue = NewValue then _ else _) = _
      rw [if_pos rfl]
      cases Parser <;> rfl
    subst hh
    obtain ⟨_, hf⟩ := VariableAlloc_heap hal
    obtain ⟨f1, f2, _⟩ := hf NewValue rfl
    exact ⟨f1, f2⟩

/-- What `VariableAllocValueAndCopy` does for a source value with a compact size of `n`
bytes, at most 256: it allocates a block of `40 + n` bytes, makes in it a header with the
type of the source whose payload follows the header, and copies the `n` bytes of the
payload of the source. -/
theorem VariableAllocValueAndCopy_copy {pc pc1 : Picoc} {Parser : Option ParseState}
    {FromValue : Nat} {OnHeap : Bool} {p : Nat} {fv : Value} {n : Nat}
    (hfv : pc.vals FromValue = some fv)
    (hsz : TypeSizeValue pc.types fv true = some (n : Int)) (h256 : n ≤ 256)
    (h : VariableAllocValueAndCopy pc Parser FromValue OnHeap = some (Exit.ret p, pc1)) :
    ∃ pc0, VariableAlloc pc ((40 + n : Nat) : Int) OnHeap = some (Exit.ret p, pc0)
      ∧ pc1.vals p = some
          { Typ := fv.Typ, Val := p + 40, LValueFrom := fv.LValueFrom, ValOnHeap := OnHeap,
            ValOnStack := !OnHeap, AnyValOnHeap := false, IsLValue := fv.IsLValue,
            ScopeID := (Parser.map (fun ps => ps.ScopeID)).getD 0, OutOfScope := false }
      ∧ (∀ a, pc1.arena.Memory a
          = if p + 40 ≤ a ∧ a < p + 40 + n then pc.arena.Memory (fv.Val + (a - (p + 40)))
            else pc0.arena.Memory a)
      ∧ pc1.arena.HeapMemory = pc0.arena.HeapMemory ∧ pc1.arena.HeapSize = pc0.arena.HeapSize
      ∧ pc1.arena.HeapStackTop = pc0.arena.HeapStackTop ∧ pc1.calloc = pc0.calloc := by
  unfold VariableAllocValueAndCopy at h
  rw [hfv] at h
  simp only at h
  rw [hsz] at h
  simp only at h
  have hle : ((n : Int) ≤ MAX_TMP_COPY_BUF) := by
    unfold MAX_TMP_COPY_BUF
    omega
  rw [if_neg (not_not.mpr hle)] at h
  split at h
  · cases h
  · cases h
  · rename_i NewValue pcA hal
    obtain ⟨pc0, hal0, e1, e2⟩ := VariableAllocValueAndData_alloc (by omega) hal
    obtain ⟨hhdr, _⟩ := VariableAllocValueAndData_header hal
    rw [hhdr] at h
    simp only [Option.some.injEq, Prod.mk.injEq, Exit.ret.injEq] at h
    obtain ⟨rfl, rfl⟩ := h
    refine ⟨pc0, hal0, ?_, ?_, ?_, ?_, ?_, e2⟩
    · show (if NewValue = NewValue then _ else _) = _
      rw [if_pos rfl, MEM_ALIGN_sizeofValue]
      rfl
    · intro a
      show (if _ then _ else _) = _
      rw [MEM_ALIGN_sizeofValue, toSizeT_natCast n (by omega), e1]
      rfl
    · show pcA.arena.HeapMemory = _
      rw [e1]
    · show pcA.arena.HeapSize = _
      rw [e1]
    · show pcA.arena.HeapStackTop = _
      rw [e1]

/-- The bytes of a block that `VariableAlloc` returns were not live storage before the
call, and they are live storage after it when the allocator returns blocks that do not
overlap one another. -/
theorem VariableAlloc_block {pc pc0 : Picoc} {n : Int} {b : Bool} {p N : Nat}
    (h : VariableAlloc pc n b = some (Exit.ret p, pc0)) (hN : toSizeT n ≤ N)
    (hsmall : toSizeT n ≤ 2147483647) {y : Nat} (hy1 : p ≤ y) (hy2 : y < p + toSizeT n) :
    ¬ LiveByte pc N y ∧ (DisjointBlocks N pc.calloc → LiveByte pc0 N y) := by
  obtain ⟨c1, c2, c3, _, _, c6⟩ := VariableAlloc_cases h
  obtain ⟨_, m2, m3⟩ := c6 p rfl
  cases b with
  | true =>
    obtain ⟨k1, k2, k3, k4⟩ := m2 rfl
    constructor
    · intro hl
      rcases hl with ⟨x1, _, x3⟩ | ⟨_, x2⟩
      · omega
      · have := x2 p (by rw [k1]; exact List.mem_cons_self _ _)
        omega
    · intro hd
      unfold DisjointBlocks at hd
      rw [k1, List.pairwise_cons] at hd
      right
      rw [c1, c2]
      refine ⟨by omega, fun a ha => ?_⟩
      have := hd.1 a ha
      omega
  | false =>
    obtain ⟨k1, k2, k3, k4⟩ := m3 rfl
    have k5 : pc.arena.inBlock p (toSizeT n) := by
      rcases k4 with k4 | k4
      · omega
      · exact k4
    unfold Arena.inBlock at k5
    constructor
    · intro hl
      rcases hl with ⟨_, x2, _⟩ | ⟨x1, _⟩
      · omega
      · omega
    · intro _
      left
      rw [c1, c2, k3]
      have := (le_MEM_ALIGN (toSizeT n) hsmall).1
      omega

/-- The supply of the allocator after a call of `VariableAlloc` still holds blocks that do
not overlap one another. -/
theorem VariableAlloc_disjoint {pc pc1 : Picoc} {n : Int} {b : Bool} {e : Exit Nat} {N : Nat}
    (h : VariableAlloc pc n b = some (e, pc1)) (hd : DisjointBlocks N pc.calloc) :
    DisjointBlocks N pc1.calloc := by
  obtain ⟨_, _, _, ⟨used, c4⟩, _⟩ := VariableAlloc_cases h
  unfold DisjointBlocks at hd ⊢
  rw [c4] at hd
  exact (List.pairwise_append.mp hd).2.1

theorem TableSet_disjoint {pc pc1 : Picoc} {Tbl : Table} {Key Val F : Nat} {L C : Int}
    {e : Exit (Bool × Table)} {N : Nat}
    (h : TableSet pc Tbl Key Val F L C = some (e, pc1)) (hd : DisjointBlocks N pc.calloc) :
    DisjointBlocks N pc1.calloc := by
  unfold TableSet at h
  split at h
  · cases h
    exact hd
  · split at h
    · cases h
    · rename_i f pc0 hal
      cases h
      exact VariableAlloc_disjoint hal hd
    · rename_i p pc0 hal
      cases h
      exact VariableAlloc_disjoint hal hd

/-- What a `VariableDefine` with an initial value that returns does to memory, for a source
value with a compact size of `n` bytes, at most 256, when the allocator returns blocks
that do not overlap one another: the payload of the new value, which follows its header,
holds the `n` bytes of the payload of the source and is live storage; it was not live
storage before; and every byte that was live storage is still live and unchanged. -/
theorem VariableDefine_copy {pc pc2 : Picoc} {Parser : Option ParseState}
    {Ident InitValue : Nat} {Typ : TypePtr} {MakeWritable : Bool} {fv : Value} {n nv : Nat}
    (hI : InitValue ≠ 0) (hfv : pc.vals InitValue = some fv)
    (hsz : TypeSizeValue pc.types fv true = some (n : Int)) (h256 : n ≤ 256)
    (hapart : DisjointBlocks (40 + n) pc.calloc)
    (hdef : VariableDefine pc Parser Ident InitValue Typ MakeWritable
      = some (Exit.ret nv, pc2)) :
    pc2.vals nv = some
        { Typ := fv.Typ, Val := nv + 40, LValueFrom := fv.LValueFrom,
          ValOnHeap := decide (pc.TopStackFrame = 0),
          ValOnStack := !decide (pc.TopStackFrame = 0), AnyValOnHeap := false,
          IsLValue := MakeWritable, ScopeID := (Parser.map (fun ps => ps.ScopeID)).getD (-1),
          OutOfScope := false }
      ∧ (∀ k, k < n → pc2.arena.Memory (nv + 40 + k) = pc.arena.Memory (fv.Val + k))
      ∧ (∀ k, k < n → LiveByte pc2 (40 + n) (nv + 40 + k) ∧ ¬ LiveByte pc (40 + n) (nv + 40 + k))
      ∧ (∀ x, LiveByte pc (40 + n) x →
          pc2.arena.Memory x = pc.arena.Memory x ∧ LiveByte pc2 (40 + n) x)
      ∧ DisjointBlocks (40 + n) pc2.calloc
      ∧ (pc.TopStackFrame = 0 → pc.vals nv = none) := by
  unfold VariableDefine at hdef
  simp only at hdef
  rw [if_pos hI] at hdef
  split at hdef
  · cases hdef
  · cases hdef
  · rename_i AssignValue pc1 hcopy
    obtain ⟨pc0, hal, hhdr, hmem, e1, e2, e3, e4⟩ :=
      VariableAllocValueAndCopy_copy hfv hsz h256 hcopy
    obtain ⟨hs, _, _⟩ := VariableAllocValueAndCopy_fields hcopy
    have hsize := (valueBlockSize n (by omega)).2
    rw [hhdr] at hdef
    split at hdef
    · rename_i v Tbl hv hT1
      cases hv
      simp only at hdef
      split at hdef
      · cases hdef
      · cases hdef
      · rename_i ok Tbl1 pc3 hset
        obtain ⟨_, sv, _⟩ := TableSet_effect hset
        split at hdef
        · cases hdef
        · simp only [Option.some.injEq, Prod.mk.injEq, Exit.ret.injEq] at hdef
          obtain ⟨rfl, rfl⟩ := hdef
          obtain ⟨g1, g2⟩ := setCurrentTable_arena pc3 Tbl1
          obtain ⟨f1, _⟩ := setCurrentTable_fields pc3 Tbl1
          -- the bytes of the new block
          have hblock : ∀ y, AssignValue ≤ y → y < AssignValue + (40 + n) →
              ¬ LiveByte pc (40 + n) y ∧ LiveByte pc1 (40 + n) y := by
            intro y hy1 hy2
            obtain ⟨b1, b2⟩ := VariableAlloc_block hal (N := 40 + n) (by rw [hsize])
              (by rw [hsize]; omega) hy1 (by rw [hsize]; exact hy2)
            exact ⟨b1, (LiveByte_congr e1 e2 e3 e4 _ _).mpr (b2 hapart)⟩
          have hd1 : DisjointBlocks (40 + n) pc1.calloc := by
            rw [e4]
            exact VariableAlloc_disjoint hal hapart
          refine ⟨?_, ?_, ?_, ?_, ?_, ?_⟩
          · rw [f1, sv]
            show (if AssignValue = AssignValue then _ else _) = _
            rw [if_pos rfl]
            cases Parser <;> rfl
          · intro k hk
            obtain ⟨_, hl⟩ := hblock (AssignValue + 40 + k) (by omega) (by omega)
            obtain ⟨t1, _⟩ := TableSet_frame (N := 40 + n) (by omega) hset hl
            rw [g1, t1]
            show pc1.arena.Memory _ = _
            rw [hmem, if_pos (by omega)]
            congr 2
            omega
          · intro k hk
            obtain ⟨hn, hl⟩ := hblock (AssignValue + 40 + k) (by omega) (by omega)
            obtain ⟨_, t2⟩ := TableSet_frame (N := 40 + n) (by omega) hset hl
            exact ⟨(LiveByte_congr (by rw [g1]) (by rw [g1]) (by rw [g1]) g2 _ _).mpr t2, hn⟩
          · intro x hx
            obtain ⟨a1, a2⟩ := VariableAlloc_frame hal (by rw [hsize]) hx
            have hl1 : LiveByte pc1 (40 + n) x := (LiveByte_congr e1 e2 e3 e4 _ _).mpr a2
            obtain ⟨t1, t2⟩ := TableSet_frame (N := 40 + n) (by omega) hset hl1
            refine ⟨?_, (LiveByte_congr (by rw [g1]) (by rw [g1]) (by rw [g1]) g2 _ _).mpr t2⟩
            rw [g1, t1]
            show pc1.arena.Memory _ = _
            rw [hmem, if_neg, a1]
            intro hin
            exact (hblock x (by omega) (by omega)).1 hx
          · rw [g2]
            exact TableSet_disjoint hset hd1
          · intro h0
            have hb : decide (pc.TopStackFrame = 0) = true := by simp [h0]
            rw [hb] at hal
            exact ((VariableAlloc_heap hal).2 AssignValue rfl).2.1
    · cases hdef

/-! ## Stores and loads of an `int` -/

theorem writeInt_at (m : Memory) (a : Nat) (v : Int) (k : Nat) (hk : k < 4) :
    writeInt m a v (a + k) = ((v % 4294967296).toNat / 256 ^ k) % 256 := by
  unfold writeInt
  rw [if_pos (by omega), Nat.add_sub_cancel_left]

theorem writeInt_other (m : Memory) (a : Nat) (v : Int) (x : Nat) (hx : x < a ∨ a + 4 ≤ x) :
    writeInt m a v x = m x := by
  unfold writeInt
  rw [if_neg (by omega)]

theorem readInt_congr (m m2 : Memory) (a b : Nat) (h : ∀ k, k < 4 → m2 (b + k) = m (a + k)) :
    readInt m2 b = readInt m a := by
  unfold readInt
  have h0 := h 0 (by omega)
  rw [Nat.add_zero, Nat.add_zero] at h0
  rw [h0, h 1 (by omega), h 2 (by omega), h 3 (by omega)]

/-- An `int` stored at an address is the `int` loaded from it. -/
theorem readInt_writeInt (m : Memory) (a : Nat) (v : Int) (h0 : -2147483648 ≤ v)
    (h1 : v ≤ 2147483647) : readInt (writeInt m a v) a = v := by
  unfold readInt
  have w0 := writeInt_at m a v 0 (by omega)
  rw [Nat.add_zero] at w0
  rw [w0, writeInt_at m a v 1 (by omega), writeInt_at m a v 2 (by omega),
    writeInt_at m a v 3 (by omega)]
  have hu : (v % 4294967296).toNat < 4294967296 := by omega
  generalize hU : (v % 4294967296).toNat = u at hu
  have e : u / 256 ^ 0 % 256 % 256 + 256 * (u / 256 ^ 1 % 256 % 256
      + 256 * (u / 256 ^ 2 % 256 % 256 + 256 * (u / 256 ^ 3 % 256 % 256))) = u := by
    norm_num
    omega
  rw [e]
  unfold toInt
  have e2 : u % 4294967296 = u := by omega
  rw [e2]
  split <;> omega

/-! ## C24: enum definitions -/

theorem DisjointBlocks_mono {N M : Nat} {l : List Nat} (hNM : M ≤ N)
    (h : DisjointBlocks N l) : DisjointBlocks M l := by
  unfold DisjointBlocks at h ⊢
  exact h.imp (fun hab => by omega)

/-- The compact size of the local variable `InitValue` of `TypeParseEnum`. -/
theorem enumInitValue_size {types : TypePtr → Option ValueType} {it : ValueType}
    (hit : types (TypePtr.field TypeField.IntType) = some it) (hB : it.Base = BaseType.TypeInt)
    (hS : it.Sizeof = 4) (pEnumValue : Nat) :
    TypeSizeValue types (enumInitValue pEnumValue) true = some ((4 : Nat) : Int) := by
  unfold TypeSizeValue enumInitValue
  simp only
  rw [hit]
  simp only [Bool.not_true, Bool.and_false, Bool.false_eq_true, if_false]
  rw [if_pos (by rw [hB]; decide), hS]
  rfl

/-- One enumerator: the definition of its identifier with the value `x`, an `int`, by the
loop of `TypeParseEnum` keeps the state of the loop, binds the identifier to `x`, and
keeps the bindings of the enumerators defined before. -/
theorem enumLoop_step {InitValue pEnumValue : Nat} {pc pc2 : Picoc} {Parser : ParseState}
    {Ident nv : Nat} {x : Int} (hinv : EnumInv InitValue pEnumValue pc)
    (hI : InitValue ≠ 0) (h0 : -2147483648 ≤ x) (h1 : x ≤ 2147483647)
    (hdef : VariableDefine
      { pc with arena := { pc.arena with Memory := writeInt pc.arena.Memory pEnumValue x } }
      (some Parser) Ident InitValue TypePtr.null false = some (Exit.ret nv, pc2)) :
    EnumInv InitValue pEnumValue pc2 ∧ EnumKept InitValue pEnumValue pc2 Ident x
      ∧ ∀ Ident0 x0, EnumKept InitValue pEnumValue pc Ident0 x0 →
          EnumKept InitValue pEnumValue pc2 Ident0 x0 := by
  obtain ⟨i1, i2, i3, i4, ⟨it, i5, i6, i7⟩, i8, i9⟩ := hinv
  have hfv : ({ pc with arena := { pc.arena with
      Memory := writeInt pc.arena.Memory pEnumValue x } } : Picoc).vals InitValue
      = some (enumInitValue pEnumValue) := i4
  obtain ⟨c1, c2, c3, c4, c5, c6⟩ := VariableDefine_copy (n := 4) hI hfv
    (enumInitValue_size i5 i6 i7 pEnumValue) (by omega) i8 hdef
  have hT : currentTable
      { pc with arena := { pc.arena with Memory := writeInt pc.arena.Memory pEnumValue x } }
      = some pc.GlobalTable := by
    unfold currentTable
    rw [if_pos i1]
  obtain ⟨pc3, New, hpc2, hk, hval, hnone, hs, hv, _⟩ := VariableDefine_ret hT hdef
  obtain ⟨s1, s2, s3, s4, s5, s6⟩ := hs
  generalize hT1 : ({ pc.GlobalTable with HashTable :=
      (List.set pc.GlobalTable.HashTable (Ident % pc.GlobalTable.Size)
        (New :: pc.GlobalTable.HashTable.getD (Ident % pc.GlobalTable.Size) [])) } : Table)
      = Tbl1 at hpc2
  obtain ⟨f1, _, f3, _, _, _, f7⟩ := setCurrentTable_fields pc3 Tbl1
  obtain ⟨_, _, f9⟩ := setCurrentTable_strings pc3 Tbl1
  rw [← hpc2] at f1 f3 f7 f9
  have htop : pc2.TopStackFrame = 0 := f7.trans (s2.trans i1)
  have hG : pc2.GlobalTable = Tbl1 := f3 (s2.trans i1)
  have hfresh : pc.vals nv = none := c6 i1
  have hvals : ∀ a, a ≠ nv → pc2.vals a = pc.vals a := fun a ha => by
    rw [f1]
    exact hv a ha
  have hneI : InitValue ≠ nv := by
    intro he
    rw [he, hfresh] at i4
    cases i4
  have hget1 : TableGet Tbl1 Ident = some New := by
    rw [← hT1, ← hk]
    exact TableSearch_set_same pc.GlobalTable New (by rw [i2]; exact Nat.mod_lt _ i3)
  have hother : ∀ m, m ≠ Ident → TableGet Tbl1 m = TableGet pc.GlobalTable m := by
    intro m hm
    rw [← hT1]
    exact TableSearch_set_other pc.GlobalTable New m (by rw [hk]; exact hm) _
  have hliveW : ∀ y, LiveByte pc 44 y → LiveByte
      { pc with arena := { pc.arena with Memory := writeInt pc.arena.Memory pEnumValue x } }
      44 y := fun y hy => hy
  refine ⟨⟨htop, ?_, ?_, ?_, ⟨it, ?_, i6, i7⟩, c5, ?_⟩, ?_, ?_⟩
  · rw [hG, ← hT1]
    simp only [List.length_set]
    exact i2
  · rw [hG, ← hT1]
    exact i3
  · rw [hvals _ hneI]
    exact i4
  · rw [f9, s6]
    exact i5
  · intro k hk4
    exact (c4 _ (hliveW _ (i9 k hk4))).2
  · refine ⟨New, _, by rw [hG]; exact hget1, ?_, by rw [hval]; exact c1, rfl, rfl, ?_, ?_⟩
    · rw [hval]
      exact fun he => hneI he.symm
    · show readInt pc2.arena.Memory (nv + 40) = x
      rw [← readInt_writeInt pc.arena.Memory pEnumValue x h0 h1]
      exact readInt_congr _ _ _ _ (fun k hk4 => c2 k hk4)
    · intro k hk4
      refine ⟨(c3 k hk4).1, fun j hj he => ?_⟩
      have hnl := (c3 k hk4).2
      have : nv + 40 + k = pEnumValue + j := he
      rw [this] at hnl
      exact hnl (hliveW _ (i9 j hj))
  · intro Ident0 x0 hk0
    obtain ⟨e, hdr, k1, k2, k3, k4, k5, k6, k7⟩ := hk0
    have hne : Ident0 ≠ Ident := by
      intro he
      rw [he] at k1
      have : TableSearch pc.GlobalTable Ident = some e := k1
      rw [hnone] at this
      cases this
    have hnev : e.Val ≠ nv := by
      intro he
      rw [he, hfresh] at k3
      cases k3
    refine ⟨e, hdr, by rw [hG, hother _ hne]; exact k1, k2, by rw [hvals _ hnev]; exact k3, k4, k5,
      ?_, ?_⟩
    · rw [← k6]
      apply readInt_congr
      intro k hk4
      rw [(c4 _ (hliveW _ (k7 k hk4).1)).1]
      show writeInt pc.arena.Memory pEnumValue x (hdr.Val + k) = _
      apply writeInt_other
      by_contra hc
      simp only [not_or, not_lt, not_le] at hc
      exact (k7 k hk4).2 (hdr.Val + k - pEnumValue) (by omega) (by omega)
    · intro k hk4
      exact ⟨(c4 _ (hliveW _ (k7 k hk4).1)).2, (k7 k hk4).2⟩

/-- The loop of `TypeParseEnum`, when it returns, has bound the enumerators in order to the
values of the numbering and has kept the bindings made before. -/
theorem enumLoop_bound {InitValue pEnumValue : Nat} (hI : InitValue ≠ 0) (decls : List EnumDecl) :
    ∀ (pc pc2 : Picoc) (cnt next : Int), EnumInv InitValue pEnumValue pc → cnt = wrapInt next →
      (∀ x ∈ enumValues next (decls.map (fun d => d.Assign)),
        -2147483648 ≤ x ∧ x ≤ 2147483647) →
      (∀ d ∈ decls.dropLast, d.Token = EnumToken.TokenComma) →
      enumLoop InitValue pEnumValue pc cnt decls = some (Exit.ret (), pc2) →
      EnumInv InitValue pEnumValue pc2
        ∧ List.Forall₂ (fun d x => EnumKept InitValue pEnumValue pc2 d.EnumIdentifier x) decls
            (enumValues next (decls.map (fun d => d.Assign)))
        ∧ ∀ Ident0 x0, EnumKept InitValue pEnumValue pc Ident0 x0 →
            EnumKept InitValue pEnumValue pc2 Ident0 x0 := by
  induction decls with
  | nil =>
    intro pc pc2 cnt next _ _ _ _ h
    unfold enumLoop at h
    cases h
  | cons d rest ih =>
    intro pc pc2 cnt next hinv hcnt hrange hshape h
    -- the value of this enumerator, in the loop and in the numbering
    obtain ⟨x, hx1, hx2, hx3⟩ : ∃ x : Int,
        d.Assign.getD cnt = x
        ∧ enumValues next ((d :: rest).map (fun d => d.Assign))
          = x :: enumValues (x + 1) (rest.map (fun d => d.Assign))
        ∧ -2147483648 ≤ x ∧ x ≤ 2147483647 := by
      cases hA : d.Assign with
      | some c =>
        have e : enumValues next ((d :: rest).map (fun d => d.Assign))
            = c :: enumValues (c + 1) (rest.map (fun d => d.Assign)) := by
          simp only [List.map_cons, hA, enumValues]
        refine ⟨c, rfl, e, hrange c ?_⟩
        rw [e]
        exact List.mem_cons_self _ _
      | none =>
        have e : enumValues next ((d :: rest).map (fun d => d.Assign))
            = next :: enumValues (next + 1) (rest.map (fun d => d.Assign)) := by
          simp only [List.map_cons, hA, enumValues]
        have hr := hrange next (by rw [e]; exact List.mem_cons_self _ _)
        refine ⟨next, ?_, e, hr⟩
        show cnt = next
        rw [hcnt]
        exact wrapInt_of_range _ hr.1 hr.2
    unfold enumLoop at h
    simp only at h
    rw [hx1] at h
    split at h
    · cases h
    · cases h
    · rename_i nv pcA hdef
      obtain ⟨s1, s2, s3⟩ := enumLoop_step hinv hI hx3.1 hx3.2 hdef
      rw [hx2]
      split at h
      · cases h
      · rename_i hTok
        simp only [Option.some.injEq, Prod.mk.injEq, true_and] at h
        subst h
        have hrest : rest = [] := by
          cases rest with
          | nil => rfl
          | cons r rs =>
            have := hshape d (by simp [List.dropLast])
            rw [hTok] at this
            cases this
        subst hrest
        exact ⟨s1, List.Forall₂.cons s2 (by simp only [List.map_nil, enumValues]; exact List.Forall₂.nil), s3⟩
      · rename_i hTok
        have hshape2 : ∀ d2 ∈ rest.dropLast, d2.Token = EnumToken.TokenComma := by
          intro d2 hd2
          apply hshape
          cases rest with
          | nil => simp at hd2
          | cons r rs =>
            simp only [List.dropLast]
            exact List.mem_cons_of_mem _ hd2
        obtain ⟨t1, t2, t3⟩ := ih pcA pc2 (wrapInt (x + 1)) (x + 1) s1 rfl
          (fun y hy => hrange y (by rw [hx2]; exact List.mem_cons_of_mem _ hy)) hshape2 h
        exact ⟨t1, List.Forall₂.cons (t3 _ _ s2) t2, fun Ident0 x0 hk => t3 _ _ (s3 _ _ hk)⟩

/-- What `TypeAdd` leaves alone: the values, the tables and the top frame, the type nodes
but the parent and the new node, and every byte of live storage; the supply of the
allocator still holds blocks that do not overlap. -/
theorem TypeAdd_state {pc pc2 : Picoc} {P : TypePtr} {B : BaseType} {A : Int} {I : Nat}
    {S Al : Int} {e : Exit TypePtr} (h : TypeAdd pc P B A I S Al = some (e, pc2)) :
    pc2.vals = pc.vals ∧ pc2.GlobalTable = pc.GlobalTable
      ∧ pc2.TopStackFrame = pc.TopStackFrame
      ∧ (∀ q t, q ≠ P → pc.types q = some t → pc2.types q = some t)
      ∧ (∀ N x, 64 ≤ N → LiveByte pc N x →
          pc2.arena.Memory x = pc.arena.Memory x ∧ LiveByte pc2 N x)
      ∧ (∀ N, DisjointBlocks N pc.calloc → DisjointBlocks N pc2.calloc) := by
  have h64 : toSizeT (toInt sizeofValueType) = 64 := by decide
  have htypes : ∀ q t, q ≠ P → pc.types q = some t → pc2.types q = some t := by
    intro q t hq hqt
    rcases TypeAdd_effect h with ⟨_, ht⟩ | ⟨a, tp, _, hfresh, hP, ht⟩
    · rw [ht]; exact hqt
    · rw [ht, setType_other _ _ _ _ hq, setType_other _ _ _ _ (by
        intro he
        rw [he, hfresh] at hqt
        cases hqt)]
      exact hqt
  unfold TypeAdd at h
  split at h
  · cases h
  · rename_i f pc1 hal
    obtain ⟨f1, f2⟩ := VariableAlloc_fields hal
    cases h
    exact ⟨f2, f1.1, f1.2.1, htypes,
      fun N x hN hx => VariableAlloc_frame hal (by rw [h64]; exact hN) hx,
      fun N hd => VariableAlloc_disjoint hal hd⟩
  · rename_i a pc1 hal
    obtain ⟨f1, f2⟩ := VariableAlloc_fields hal
    simp only at h
    split at h
    · cases h
    · cases h
      refine ⟨f2, f1.1, f1.2.1, htypes, fun N x hN hx => ?_, fun N hd => ?_⟩
      · have hfr := VariableAlloc_frame hal (by rw [h64]; exact hN) hx
        exact hfr
      · have hdj := VariableAlloc_disjoint hal hd
        exact hdj

theorem TypeGetMatching_state {pc pc2 : Picoc} {P : TypePtr} {B : BaseType} {A : Int} {I : Nat}
    {dup : Bool} {e : Exit TypePtr} (h : TypeGetMatching pc P B A I dup = some (e, pc2)) :
    pc2.vals = pc.vals ∧ pc2.GlobalTable = pc.GlobalTable
      ∧ pc2.TopStackFrame = pc.TopStackFrame
      ∧ (∀ q t, q ≠ P → pc.types q = some t → pc2.types q = some t)
      ∧ (∀ N x, 64 ≤ N → LiveByte pc N x →
          pc2.arena.Memory x = pc.arena.Memory x ∧ LiveByte pc2 N x)
      ∧ (∀ N, DisjointBlocks N pc.calloc → DisjointBlocks N pc2.calloc) := by
  unfold TypeGetMatching at h
  split at h
  · cases h
  · split at h
    · cases h
    · split at h <;>
      · cases h
        exact ⟨rfl, rfl, rfl, fun _ _ _ hq => hq, fun _ _ _ hx => ⟨rfl, hx⟩, fun _ hd => hd⟩
    · split at h <;> exact TypeAdd_state h

/-- C24 (enum numbering): let `TypeParseEnum` parse an enum with a body, with the type
`int` of four bytes, a well-formed global table, an allocator whose blocks do not overlap
and the local variable `EnumValue` in live storage, and let the values of the numbering be
`int`s.  When the call returns, the type it gives is `int`, and the global table binds
each enumerator of the body, in order, to a value that is not writable, has the type `int`
and holds the value of the numbering: 0 for the first enumerator unless it is written with
`= c`, `c` for an enumerator written `X = c`, and the previous value plus one for an
enumerator without `=`. -/
theorem C24_enum_numbering (pc : Picoc) (EnumIdentifier : Nat) (decls : List EnumDecl)
    (InitValue pEnumValue : Nat) (it : ValueType) (Typ : TypePtr) (pc2 : Picoc)
    (hit : pc.types (TypePtr.field TypeField.IntType) = some it)
    (hB : it.Base = BaseType.TypeInt) (hS : it.Sizeof = 4)
    (hwf : pc.GlobalTable.HashTable.length = pc.GlobalTable.Size) (hsz : 0 < pc.GlobalTable.Size)
    (hapart : DisjointBlocks 64 pc.calloc)
    (hlive : ∀ k, k < 4 → LiveByte pc 64 (pEnumValue + k))
    (hrange : ∀ x ∈ enumValues 0 (decls.map (fun d => d.Assign)),
      -2147483648 ≤ x ∧ x ≤ 2147483647)
    (hshape : ∀ d ∈ decls.dropLast, d.Token = EnumToken.TokenComma)
    (h : TypeParseEnum pc EnumIdentifier true decls InitValue pEnumValue
      = some (Exit.ret Typ, pc2)) :
    Typ = TypePtr.field TypeField.IntType ∧ pc2.TopStackFrame = 0
      ∧ List.Forall₂ (fun d x => EnumBound pc2 d.EnumIdentifier x) decls
          (enumValues 0 (decls.map (fun d => d.Assign))) := by
  unfold TypeParseEnum at h
  split at h
  · cases h
  · cases h
  · rename_i T0 pc1 htgm
    obtain ⟨g1, g2, g3, g4, g5, g6⟩ := TypeGetMatching_state htgm
    have hit1 : pc1.types (TypePtr.field TypeField.IntType) = some it :=
      g4 _ it (by simp) hit
    simp only at h
    rw [hit1] at h
    simp only [not_true_eq_false, if_false] at h
    split at h
    · cases h
    · rename_i htop
      split at h
      · cases h
      · rename_i hloc
        simp only [not_or, Bool.not_eq_true, Option.not_isSome, Option.isNone_iff_eq_none] at hloc
        split at h
        · cases h
        · cases h
        · rename_i u pc3 hloop
          simp only [Option.some.injEq, Prod.mk.injEq, Exit.ret.injEq] at h
          obtain ⟨rfl, rfl⟩ := h
          have hinv : EnumInv InitValue pEnumValue
              { pc1 with
                types := (setType pc1.types (TypePtr.field TypeField.IntType)
                  { it with Members := TablePtr.GlobalTable })
                vals := (fun a =>
                  if a = InitValue then some (enumInitValue pEnumValue) else pc1.vals a) } := by
            refine ⟨by simpa using htop, by rw [g2]; exact hwf, by rw [g2]; exact hsz, if_pos rfl,
              ⟨{ it with Members := TablePtr.GlobalTable }, by
                simp only
                exact setType_same _ _ _, hB, hS⟩, ?_, ?_⟩
            · exact DisjointBlocks_mono (by omega) (g6 _ hapart)
            · intro k hk
              exact LiveByte_mono (by omega) (g5 64 _ (le_refl _) (hlive k hk)).2
          obtain ⟨t1, t2, _⟩ := enumLoop_bound hloc.1 decls _ _ 0 0 hinv (by decide) hrange
            hshape hloop
          refine ⟨rfl, t1.1, t2.imp (fun {d x} hk => ?_)⟩
          obtain ⟨e, hdr, k1, k2, k3, k4, k5, k6, _⟩ := hk
          refine ⟨e, hdr, k1, ?_, k4, k5, k6⟩
          show (if e.Val = InitValue then none else pc3.vals e.Val) = _
          rw [if_neg k2]
          exact k3

/-- C24 at a concrete input: `enum E { A, B = 5, C };` at file scope binds `A`, `B` and `C`
in the global table to the constants 0, 5 and 6. -/
theorem C24_enum_numbering_witness :
    exAfterEnum.TopStackFrame = 0
      ∧ List.Forall₂ (fun d x => EnumBound exAfterEnum d.EnumIdentifier x) exEnumerators
          [0, 5, 6] := by
  have c : (exE.types (TypePtr.field TypeField.IntType)).map (fun t => (t.Base, t.Sizeof))
      = some (BaseType.TypeInt, 4) := by rfl
  cases hi : exE.types (TypePtr.field TypeField.IntType) with
  | none => rw [hi] at c; cases c
  | some it =>
    rw [hi] at c
    simp only [Option.map_some', Option.some.injEq, Prod.mk.injEq] at c
    obtain ⟨_, h2, h3⟩ := C24_enum_numbering exE 48 exEnumerators 900000 900100 it
      (TypePtr.field TypeField.IntType) exAfterEnum hi c.1 c.2 (by rfl) (by decide) (by decide)
      (by decide) (by decide) (by decide) (by rfl)
    exact ⟨h2, h3⟩

/-! ## C23: the layout of a struct -/

/-- The rounding of the reference layout gives the least multiple of the alignment that is
at least the size. -/
theorem roundUpTo_least (x a : Int) (ha : 0 < a) :
    a ∣ roundUpTo x a ∧ x ≤ roundUpTo x a ∧ ∀ o, a ∣ o → x ≤ o → roundUpTo x a ≤ o := by
  unfold roundUpTo
  have h1 := Int.emod_nonneg x (ne_of_gt ha)
  have h2 := Int.emod_lt_of_pos x ha
  have h3 := Int.emod_add_ediv x a
  split
  · rename_i h0
    exact ⟨Int.dvd_of_emod_eq_zero h0, le_refl _, fun o _ ho => ho⟩
  · rename_i h0
    refine ⟨?_, by omega, ?_⟩
    · refine ⟨x / a + 1, ?_⟩
      rw [mul_add, mul_one]
      omega
    · rintro o ⟨c, rfl⟩ ho
      have hc : x / a + 1 ≤ c := by
        by_contra hlt
        have hle : c ≤ x / a := by omega
        have := Int.mul_le_mul_of_nonneg_left hle (le_of_lt ha)
        omega
      have := Int.mul_le_mul_of_nonneg_left hc (le_of_lt ha)
      rw [mul_add, mul_one] at this
      omega

/-- The mask of the alignment code: `x & (2^j - 1)` is `x % 2^j` for a non-negative `int`. -/
theorem intAnd_mask (x : Int) (j : Nat) (hx0 : 0 ≤ x) (hx1 : x ≤ 2147483647) (hj : j ≤ 30) :
    intAnd x ((2 : Int) ^ j - 1) = x % (2 : Int) ^ j := by
  obtain ⟨n, rfl⟩ := Int.eq_ofNat_of_zero_le hx0
  have hp : (2 : Int) ^ j = ((2 ^ j : Nat) : Int) := by push_cast; rfl
  have hpos : 0 < 2 ^ j := Nat.pow_pos (by decide)
  have hle : 2 ^ j ≤ 2 ^ 30 := Nat.pow_le_pow_right (by decide) hj
  have hm : ((2 : Int) ^ j - 1) = ((2 ^ j - 1 : Nat) : Int) := by
    rw [hp]
    omega
  unfold intAnd
  rw [hm]
  have e1 : ((n : Int) % 4294967296).toNat = n := by omega
  have e2 : (((2 ^ j - 1 : Nat) : Int) % 4294967296).toNat = 2 ^ j - 1 := by omega
  rw [e1, e2, Nat.and_pow_two_sub_one_eq_mod, hp]
  have hlt : n % 2 ^ j < 2 ^ j := Nat.mod_lt _ hpos
  rw [toInt_of_lt _ (by omega)]
  push_cast
  rfl

/-- The alignment code of `TypeParseStruct` rounds a non-negative size up to a power of two
as the reference layout does, when the result is an `int`. -/
theorem alignUp_roundUpTo (x : Int) (j : Nat) (hx0 : 0 ≤ x) (hj : j ≤ 30)
    (hr : roundUpTo x ((2 : Int) ^ j) ≤ 2147483647) :
    alignUp x ((2 : Int) ^ j) = roundUpTo x ((2 : Int) ^ j) := by
  have hpos : (0 : Int) < (2 : Int) ^ j := by positivity
  have hle : (2 : Int) ^ j ≤ 2 ^ 30 := pow_le_pow_right₀ (by norm_num) hj
  have hxr := (roundUpTo_least x _ hpos).2.1
  have hx1 : x ≤ 2147483647 := le_trans hxr hr
  have h1 := Int.emod_nonneg x (ne_of_gt hpos)
  have h2 := Int.emod_lt_of_pos x hpos
  unfold alignUp
  rw [wrapInt_of_range ((2 : Int) ^ j - 1) (by omega) (by omega), intAnd_mask x j hx0 hx1 hj]
  unfold roundUpTo at hr ⊢
  by_cases h0 : x % (2 : Int) ^ j = 0
  · rw [if_pos h0, if_neg (by simpa using h0)]
  · rw [if_neg h0] at hr ⊢
    rw [if_pos h0, wrapInt_of_range ((2 : Int) ^ j - x % (2 : Int) ^ j) (by omega) (by omega),
      wrapInt_of_range _ (by omega) hr]

/-- The allocations leave the tables alone. -/
theorem VariableAlloc_tables {pc pc1 : Picoc} {n : Int} {b : Bool} {e : Exit Nat}
    (h : VariableAlloc pc n b = some (e, pc1)) : pc1.tables = pc.tables := by
  cases b with
  | true =>
    obtain ⟨⟨rest, m, rfl⟩, _⟩ := VariableAlloc_heap h
    rfl
  | false =>
    unfold VariableAlloc at h
    simp only [Bool.false_eq_true, if_false] at h
    split at h
    · cases h
    · split at h <;> cases h <;> rfl

theorem VariableAllocValueAndData_tables {pc pc1 : Picoc} {Parser : Option ParseState}
    {DataSize : Int} {IsLValue : Bool} {LValueFrom : Nat} {OnHeap : Bool} {e : Exit Nat}
    (h : VariableAllocValueAndData pc Parser DataSize IsLValue LValueFrom OnHeap
      = some (e, pc1)) : pc1.tables = pc.tables := by
  unfold VariableAllocValueAndData at h
  split at h
  · cases h
  · rename_i f pc0 hal
    cases h
    exact VariableAlloc_tables hal
  · rename_i p pc0 hal
    cases h
    have := VariableAlloc_tables hal
    exact this

theorem TableSet_tables {pc pc1 : Picoc} {Tbl : Table} {Key Val F : Nat} {L C : Int}
    {e : Exit (Bool × Table)} (h : TableSet pc Tbl Key Val F L C = some (e, pc1)) :
    pc1.tables = pc.tables := by
  unfold TableSet at h
  split at h
  · cases h
    rfl
  · split at h
    · cases h
    · rename_i f pc0 hal
      cases h
      exact VariableAlloc_tables hal
    · rename_i p pc0 hal
      cases h
      exact VariableAlloc_tables hal

/-- The size of a value depends on its type only. -/
theorem TypeSizeValue_typ (types : TypePtr → Option ValueType) (v w : Value) (c : Bool)
    (h : v.Typ = w.Typ) : TypeSizeValue types v c = TypeSizeValue types w c := by
  unfold TypeSizeValue
  rw [h]

/-- The size of a value reads the node of its type and, for an array, the node of the
element type. -/
theorem TypeSizeValue_congr (types types1 : TypePtr → Option ValueType) (v : Value) (c : Bool)
    (h1 : types1 v.Typ = types v.Typ)
    (h2 : ∀ t, types v.Typ = some t → t.Base = BaseType.TypeArray →
      types1 t.FromType = types t.FromType) :
    TypeSizeValue types1 v c = TypeSizeValue types v c := by
  unfold TypeSizeValue
  rw [h1]
  cases ht : types v.Typ with
  | none => rfl
  | some t =>
    simp only
    by_cases hb : t.Base = BaseType.TypeArray
    · rw [h2 t ht hb]
    · rw [if_pos hb, if_pos hb]

/-- One member of a struct: the iteration of the loop of `TypeParseStruct` for a member
whose type is not the struct itself and has a power of two as its alignment records the
size so far, rounded up to the alignment, as the offset of the member, adds the size of
the member, raises the alignment of the struct to that of the member, and keeps the offsets
recorded before. -/
theorem structMember_step {pc pc2 : Picoc} {Parser : ParseState} {Typ : TypePtr} {Members : Nat}
    {m : MemberDecl} {st : ValueType} {tbl : Table} {j : Nat}
    (hT : pc.types Typ = some st) (htbl : pc.tables Members = some tbl)
    (hwf : tbl.HashTable.length = tbl.Size) (hsz : 0 < tbl.Size)
    (hd : DisjointBlocks 44 pc.calloc) (hne : m.MemberType ≠ Typ)
    (harr : ∀ mt, pc.types m.MemberType = some mt → mt.Base = BaseType.TypeArray →
      mt.FromType ≠ Typ)
    (ha : memberAlign pc m = 2 ^ j) (hj : j ≤ 30) (hs : 0 ≤ memberSize pc m)
    (h0 : 0 ≤ st.Sizeof) (hr : roundUpTo st.Sizeof (2 ^ j) + memberSize pc m ≤ 2147483647)
    (h : structMember pc Parser Typ Members true m = some (Exit.ret (), pc2)) :
    (∃ st2 tbl2, pc2.types Typ = some st2
        ∧ st2.Sizeof = roundUpTo st.Sizeof (2 ^ j) + memberSize pc m
        ∧ st2.AlignBytes = max st.AlignBytes (2 ^ j) ∧ st2.Members = st.Members
        ∧ pc2.tables Members = some tbl2 ∧ tbl2.HashTable.length = tbl2.Size ∧ 0 < tbl2.Size)
      ∧ (∀ q, q ≠ Typ → pc2.types q = pc.types q)
      ∧ DisjointBlocks 44 pc2.calloc
      ∧ MemberKept Members pc2 m (roundUpTo st.Sizeof (2 ^ j))
      ∧ ∀ m0 off0, MemberKept Members pc m0 off0 → MemberKept Members pc2 m0 off0 := by
  unfold structMember at h
  split at h
  · cases h
  split at h
  · cases h
  · cases h
  rename_i MemberValue pc1 hal
  obtain ⟨hb1, hb2⟩ := VariableAllocValueAndData_header hal
  obtain ⟨hb3, hb4⟩ := hb2 rfl
  obtain ⟨⟨-, -, -, -, -, hty⟩, -, -⟩ := VariableAllocValueAndData_fields hal
  have htb := VariableAllocValueAndData_tables hal
  obtain ⟨hv1, -⟩ := VariableAllocValueAndData_vals hal
  rw [hb1, hty, hT] at h
  cases hmt : pc.types m.MemberType with
  | none =>
    rw [hmt] at h
    simp only at h
    cases h
  | some mt =>
    rw [hmt] at h
    simp only [if_true] at h
    have hmtA : mt.AlignBytes = 2 ^ j := by
      unfold memberAlign at ha
      rw [hmt] at ha
      exact ha
    have hsize : ∀ v : Value, v.Typ = m.MemberType →
        TypeSizeValue (setType pc.types Typ
          { st with Sizeof := alignUp st.Sizeof mt.AlignBytes }) v true
        = TypeSizeValue pc.types
            { Typ := m.MemberType, Val := 0, LValueFrom := 0, ValOnHeap := true,
              ValOnStack := false, AnyValOnHeap := false, IsLValue := false, ScopeID := 0,
              OutOfScope := false } true := by
      intro v hv
      rw [TypeSizeValue_congr pc.types _ v true]
      · exact TypeSizeValue_typ _ _ _ _ hv
      · rw [hv]
        exact setType_other _ _ _ _ hne
      · intro t ht hb
        rw [hv] at ht
        exact setType_other _ _ _ _ (harr t ht hb)
    rw [hsize _ rfl] at h
    cases hsv : TypeSizeValue pc.types
        { Typ := m.MemberType, Val := 0, LValueFrom := 0, ValOnHeap := true,
          ValOnStack := false, AnyValOnHeap := false, IsLValue := false, ScopeID := 0,
          OutOfScope := false } true with
    | none =>
      rw [hsv] at h
      simp only at h
      cases h
    | some sz =>
      have hms : memberSize pc m = sz := by
        unfold memberSize
        rw [hsv]
        rfl
      rw [hsv] at h
      simp only at h
      rw [setType_same, setType_other _ _ _ _ hne, setType_other _ _ _ _ hne, hmt, htb, htbl] at h
      simp only at h
      split at h
      · cases h
      · cases h
      rename_i ok Tbl1 pc3 hts
      split at h
      · cases h
      split at h
      · cases h
      simp only [Option.some.injEq, Prod.mk.injEq, true_and] at h
      subst h
      rename_i hok _
      have hok : ok = true := by simpa using hok
      obtain ⟨⟨-, -, -, -, -, hty3⟩, hv3, hnone, hform⟩ := TableSet_effect hts
      have htb3 := TableSet_tables hts
      have hnone := hnone hok
      obtain ⟨_, hT1⟩ := hform hnone
      have h40 : MEM_ALIGN sizeofValue = 40 := by decide
      rw [h40] at hts hv3
      simp only at hty3 hv3 htb3
      -- the block of the member value
      have hal4 : VariableAllocValueAndData pc (some Parser) ((4 : Nat) : Int) false 0 true
          = some (Exit.ret MemberValue, pc1) := hal
      obtain ⟨pc0, halloc, ha1, ha2⟩ := VariableAllocValueAndData_alloc (by omega) hal4
      have hfr1 : ∀ x, LiveByte pc 44 x → pc1.arena.Memory x = pc.arena.Memory x
          ∧ LiveByte pc1 44 x := fun x hx =>
        VariableAllocValueAndData_frame (N := 44) (by omega) (by omega) hal4 hx
      have hsz44 : toSizeT ((40 + 4 : Nat) : Int) = 44 := (valueBlockSize 4 (by omega)).2
      have hblock : ∀ k, k < 4 → ¬ LiveByte pc 44 (MemberValue + 40 + k)
          ∧ LiveByte pc1 44 (MemberValue + 40 + k) := by
        intro k hk
        obtain ⟨b1, b2⟩ := VariableAlloc_block (N := 44) halloc (by rw [hsz44])
          (by rw [hsz44]; omega) (y := MemberValue + 40 + k) (by omega) (by rw [hsz44]; omega)
        exact ⟨b1, (LiveByte_congr (by rw [ha1]) (by rw [ha1]) (by rw [ha1]) ha2 _ _).2 (b2 hd)⟩
      have hd1 : DisjointBlocks 44 pc1.calloc := by
        rw [ha2]
        exact VariableAlloc_disjoint halloc hd
      -- the offset and the new size
      have hpos : (0 : Int) < 2 ^ j := by positivity
      have hoff0 := (roundUpTo_least st.Sizeof _ hpos).2.1
      have hoff : alignUp st.Sizeof mt.AlignBytes = roundUpTo st.Sizeof (2 ^ j) := by
        rw [hmtA]
        exact alignUp_roundUpTo _ _ h0 hj (by omega)
      rw [hoff] at hts hty3
      rw [hms] at hs hr
      rw [wrapInt_of_range _ (by omega) hr] at hts hty3
      have hfr3 := fun x hx => TableSet_frame (N := 44) (x := x) (by omega) hts hx
      have hd3 := TableSet_disjoint hts hd1
      rw [hms]
      have hlt : m.MemberIdentifier % tbl.Size < tbl.HashTable.length := by
        rw [hwf]
        exact Nat.mod_lt _ hsz
      have hget : TableGet Tbl1 m.MemberIdentifier
          = some { DeclFileName := Parser.FileName, DeclLine := Parser.Line % 65536,
                   DeclColumn := Parser.CharacterPos % 65536, Key := m.MemberIdentifier,
                   Val := MemberValue } := by
        rw [hT1]
        exact TableSearch_set_same tbl
          { DeclFileName := Parser.FileName, DeclLine := Parser.Line % 65536,
            DeclColumn := Parser.CharacterPos % 65536, Key := m.MemberIdentifier,
            Val := MemberValue } hlt
      have hother : ∀ k, k ≠ m.MemberIdentifier → TableGet Tbl1 k = TableGet tbl k := by
        intro k hk
        rw [hT1]
        exact TableSearch_set_other tbl _ k hk _
      refine ⟨?_, ?_, hd3, ?_, ?_⟩
      · by_cases hlt2 : st.AlignBytes < mt.AlignBytes
        · rw [if_pos hlt2] at hty3
          have e1 : pc3.types Typ = some { st with
              Sizeof := roundUpTo st.Sizeof (2 ^ j) + sz, AlignBytes := mt.AlignBytes } := by
            rw [hty3]
            exact setType_same _ _ _
          refine ⟨_, Tbl1, e1, rfl, ?_, rfl, ?_, ?_, ?_⟩
          · show mt.AlignBytes = max st.AlignBytes (2 ^ j)
            rw [← hmtA]
            exact (max_eq_right (le_of_lt hlt2)).symm
          · show (if Members = Members then some Tbl1 else pc3.tables Members) = some Tbl1
            rw [if_pos rfl]
          · rw [hT1]
            simp only [List.length_set]
            exact hwf
          · rw [hT1]
            exact hsz
        · rw [if_neg hlt2] at hty3
          have e1 : pc3.types Typ = some { st with
              Sizeof := roundUpTo st.Sizeof (2 ^ j) + sz } := by
            rw [hty3]
            exact setType_same _ _ _
          refine ⟨_, Tbl1, e1, rfl, ?_, rfl, ?_, ?_, ?_⟩
          · show st.AlignBytes = max st.AlignBytes (2 ^ j)
            rw [← hmtA]
            exact (max_eq_left (not_lt.mp hlt2)).symm
          · show (if Members = Members then some Tbl1 else pc3.tables Members) = some Tbl1
            rw [if_pos rfl]
          · rw [hT1]
            simp only [List.length_set]
            exact hwf
          · rw [hT1]
            exact hsz
      · intro q hq
        show pc3.types q = pc.types q
        rw [hty3]
        split
        · rw [setType_other _ _ _ _ hq, setType_other _ _ _ _ hq, setType_other _ _ _ _ hq]
        · rw [setType_other _ _ _ _ hq, setType_other _ _ _ _ hq]
      · have hliveW : ∀ k, k < 4 → LiveByte
            ({ pc1 with arena := { pc1.arena with
                Memory := writeInt pc1.arena.Memory (MemberValue + 40)
                  (roundUpTo st.Sizeof (2 ^ j)) } } : Picoc) 44 (MemberValue + 40 + k) :=
          fun k hk => (hblock k hk).2
        have hval : pc3.vals MemberValue = some
            { Typ := m.MemberType, Val := MemberValue + 40, LValueFrom := 0, ValOnHeap := true,
              ValOnStack := !true, AnyValOnHeap := false, IsLValue := false,
              ScopeID := (Option.map (fun ps => ps.ScopeID) (some Parser)).getD 0,
              OutOfScope := false } := by
          rw [hv3]
          exact if_pos rfl
        refine ⟨Tbl1, _, _, ?_, hget, hval, rfl, ?_, ?_⟩
        · show (if Members = Members then some Tbl1 else pc3.tables Members) = some Tbl1
          rw [if_pos rfl]
        · show readInt pc3.arena.Memory (MemberValue + 40) = _
          rw [← readInt_writeInt pc1.arena.Memory (MemberValue + 40) (roundUpTo st.Sizeof (2 ^ j))
            (by omega) (by omega)]
          exact readInt_congr _ _ _ _ (fun k hk => (hfr3 _ (hliveW k hk)).1)
        · intro k hk
          exact (hfr3 _ (hliveW k hk)).2
      · intro m0 off0 hk0
        obtain ⟨tbl0, e, hdr, k1, k2, k3, k4, k5, k6⟩ := hk0
        rw [htbl] at k1
        cases k1
        have hneI : m0.MemberIdentifier ≠ m.MemberIdentifier := by
          intro he
          rw [he] at k2
          have : TableSearch tbl m.MemberIdentifier = some e := k2
          rw [hnone] at this
          cases this
        have hnev : e.Val ≠ MemberValue := by
          intro he
          rw [he, hb4] at k3
          cases k3
        have hliveW : ∀ k, k < 4 → LiveByte
            ({ pc1 with arena := { pc1.arena with
                Memory := writeInt pc1.arena.Memory (MemberValue + 40)
                  (roundUpTo st.Sizeof (2 ^ j)) } } : Picoc) 44 (hdr.Val + k) :=
          fun k hk => (hfr1 _ (k6 k hk)).2
        refine ⟨Tbl1, e, hdr, ?_, by rw [hother _ hneI]; exact k2, ?_, k4, ?_, ?_⟩
        · show (if Members = Members then some Tbl1 else pc3.tables Members) = some Tbl1
          rw [if_pos rfl]
        · show pc3.vals e.Val = _
          rw [hv3]
          show (if e.Val = MemberValue then _ else pc1.vals e.Val) = _
          rw [if_neg hnev, hv1 _ hnev]
          exact k3
        · rw [← k5]
          apply readInt_congr
          intro k hk
          show pc3.arena.Memory (hdr.Val + k) = _
          rw [(hfr3 _ (hliveW k hk)).1, ← (hfr1 _ (k6 k hk)).1]
          show writeInt pc1.arena.Memory (MemberValue + 40) _ (hdr.Val + k) = _
          apply writeInt_other
          by_contra hc
          simp only [not_or, not_lt, not_le] at hc
          have hb := (hblock (hdr.Val + k - (MemberValue + 40)) (by omega)).1
          rw [show MemberValue + 40 + (hdr.Val + k - (MemberValue + 40)) = hdr.Val + k by omega]
            at hb
          exact hb (k6 k hk)
        · intro k hk
          exact (hfr3 _ (hliveW k hk)).2

/-- The size of the reference layout does not go down from member to member, for positive
alignments and sizes that are not negative. -/
theorem referenceEnd_ge (L : List (Int × Int)) :
    ∀ cur : Int, (∀ p ∈ L, 0 < p.1 ∧ 0 ≤ p.2) → cur ≤ referenceEnd cur L := by
  induction L with
  | nil =>
    intro cur _
    exact le_refl _
  | cons p rest ih =>
    intro cur hp
    obtain ⟨a, s⟩ := p
    have h1 := hp (a, s) (List.mem_cons_self _ _)
    have h2 := (roundUpTo_least cur a h1.1).2.1
    have h3 := ih (roundUpTo cur a + s) (fun q hq => hp q (List.mem_cons_of_mem _ hq))
    show cur ≤ referenceEnd (roundUpTo cur a + s) rest
    have : (0 : Int) ≤ s := h1.2
    omega

/-- The maximum alignment of the reference layout is a power of two when the alignments
are. -/
theorem referenceAlign_pow (L : List (Int × Int)) :
    ∀ al : Int, (∀ p ∈ L, ∃ j : Nat, j ≤ 30 ∧ p.1 = 2 ^ j) → (∃ j : Nat, j ≤ 30 ∧ al = 2 ^ j) →
      ∃ j : Nat, j ≤ 30 ∧ referenceAlign al L = 2 ^ j := by
  induction L with
  | nil =>
    intro al _ h
    exact h
  | cons p rest ih =>
    intro al hp hal
    obtain ⟨a, s⟩ := p
    refine ih (max al a) (fun q hq => hp q (List.mem_cons_of_mem _ hq)) ?_
    obtain ⟨j1, hj1, e1⟩ := hp (a, s) (List.mem_cons_self _ _)
    rcases le_total al a with hle | hle
    · rw [max_eq_right hle]
      exact ⟨j1, hj1, e1⟩
    · rw [max_eq_left hle]
      exact hal

/-- The alignment and the size of a member read the node of the type of the member and,
for an array, the node of the element type. -/
theorem memberLayout_congr {pc pc1 : Picoc} {Typ : TypePtr}
    (hq : ∀ q, q ≠ Typ → pc1.types q = pc.types q) {m : MemberDecl}
    (hne : m.MemberType ≠ Typ)
    (harr : ∀ mt, pc.types m.MemberType = some mt → mt.Base = BaseType.TypeArray →
      mt.FromType ≠ Typ) :
    memberAlign pc1 m = memberAlign pc m ∧ memberSize pc1 m = memberSize pc m := by
  constructor
  · unfold memberAlign
    rw [hq _ hne]
  · unfold memberSize
    rw [TypeSizeValue_congr pc.types _ _ true (hq _ hne)
      (fun t ht hb => hq _ (harr t ht hb))]

/-- The members of a struct: the loop of `TypeParseStruct`, when it returns, has recorded
for the members the offsets of the reference layout, has given the struct the size after
the last member and the maximum alignment, and has kept the offsets recorded before. -/
theorem structMembers_layout (Parser : ParseState) (Typ : TypePtr) (Members : Nat)
    (ms : List MemberDecl) :
    ∀ (pc pc2 : Picoc) (st : ValueType) (tbl : Table),
      pc.types Typ = some st → pc.tables Members = some tbl →
      tbl.HashTable.length = tbl.Size → 0 < tbl.Size → DisjointBlocks 44 pc.calloc →
      (∀ m ∈ ms, m.MemberType ≠ Typ
        ∧ (∀ mt, pc.types m.MemberType = some mt → mt.Base = BaseType.TypeArray →
            mt.FromType ≠ Typ)
        ∧ (∃ j : Nat, j ≤ 30 ∧ memberAlign pc m = 2 ^ j) ∧ 0 ≤ memberSize pc m) →
      0 ≤ st.Sizeof → referenceEnd st.Sizeof (memberLayout pc ms) ≤ 2147483647 →
      structMembers pc Parser Typ Members true ms = some (Exit.ret (), pc2) →
      (∃ st2, pc2.types Typ = some st2
          ∧ st2.Sizeof = referenceEnd st.Sizeof (memberLayout pc ms)
          ∧ st2.AlignBytes = referenceAlign st.AlignBytes (memberLayout pc ms)
          ∧ st2.Members = st.Members)
        ∧ (∀ q, q ≠ Typ → pc2.types q = pc.types q)
        ∧ List.Forall₂ (MemberKept Members pc2) ms
            (referenceOffsets st.Sizeof (memberLayout pc ms))
        ∧ ∀ m0 off0, MemberKept Members pc m0 off0 → MemberKept Members pc2 m0 off0 := by
  induction ms with
  | nil =>
    intro pc pc2 st tbl hT _ _ _ _ _ _ _ h
    unfold structMembers at h
    cases h
    exact ⟨⟨st, hT, rfl, rfl, rfl⟩, fun _ _ => rfl, List.Forall₂.nil, fun _ _ hk => hk⟩
  | cons m rest ih =>
    intro pc pc2 st tbl hT htbl hwf hsz hd hms h0 hr h
    obtain ⟨hne, harr, ⟨j, hj, ha⟩, hs⟩ := hms m (List.mem_cons_self _ _)
    have hpos : ∀ p ∈ memberLayout pc rest, 0 < p.1 ∧ 0 ≤ p.2 := by
      intro p hp
      unfold memberLayout at hp
      obtain ⟨m1, hm1, rfl⟩ := List.mem_map.mp hp
      obtain ⟨_, _, ⟨j1, _, ha1⟩, hs1⟩ := hms m1 (List.mem_cons_of_mem _ hm1)
      refine ⟨?_, hs1⟩
      show 0 < memberAlign pc m1
      rw [ha1]
      positivity
    have hL : memberLayout pc (m :: rest)
        = (2 ^ j, memberSize pc m) :: memberLayout pc rest := by
      unfold memberLayout
      rw [List.map_cons, ha]
    rw [hL] at hr ⊢
    have hr1 : roundUpTo st.Sizeof (2 ^ j) + memberSize pc m ≤ 2147483647 :=
      le_trans (referenceEnd_ge _ _ hpos) hr
    unfold structMembers at h
    split at h
    · cases h
    · cases h
    rename_i u pc1 hstep
    cases u
    obtain ⟨⟨st1, tbl1, c1, c2, c3, c4, c5, c6, c7⟩, hq, hd1, hkept, hold⟩ :=
      structMember_step hT htbl hwf hsz hd hne harr ha hj hs h0 hr1 hstep
    have hcongr : ∀ m1 ∈ rest, memberAlign pc1 m1 = memberAlign pc m1
        ∧ memberSize pc1 m1 = memberSize pc m1 := fun m1 hm1 =>
      memberLayout_congr hq (hms m1 (List.mem_cons_of_mem _ hm1)).1
        (hms m1 (List.mem_cons_of_mem _ hm1)).2.1
    have hL1 : memberLayout pc1 rest = memberLayout pc rest := by
      unfold memberLayout
      apply List.map_congr_left
      intro m1 hm1
      rw [(hcongr m1 hm1).1, (hcongr m1 hm1).2]
    have hpos0 := (roundUpTo_least st.Sizeof ((2 : Int) ^ j) (by positivity)).2.1
    obtain ⟨⟨st2, t1, t2, t3, t4⟩, tq, tall, told⟩ := ih pc1 pc2 st1 tbl1 c1 c5 c6 c7 hd1
      (fun m1 hm1 => by
        obtain ⟨k1, k2, k3, k4⟩ := hms m1 (List.mem_cons_of_mem _ hm1)
        refine ⟨k1, ?_, ?_, ?_⟩
        · intro mt hmt
          rw [hq _ k1] at hmt
          exact k2 mt hmt
        · rw [(hcongr m1 hm1).1]
          exact k3
        · rw [(hcongr m1 hm1).2]
          exact k4)
      (by rw [c2]; omega) (by rw [c2, hL1]; exact hr) h
    rw [c2, hL1] at t2 tall
    rw [c3, hL1] at t3
    refine ⟨⟨st2, t1, t2, t3, t4.trans c4⟩, fun q hq1 => (tq q hq1).trans (hq q hq1), ?_,
      fun m0 off0 hk => told _ _ (hold _ _ hk)⟩
    exact List.Forall₂.cons (told _ _ hkept) tall

/-- An iteration of the loop of `TypeParseStruct` writes no type node but the one of the
struct or union. -/
theorem structMember_types {pc pc2 : Picoc} {Parser : ParseState} {Typ : TypePtr}
    {Members : Nat} {IsStruct : Bool} {m : MemberDecl}
    (h : structMember pc Parser Typ Members IsStruct m = some (Exit.ret (), pc2)) :
    ∀ q, q ≠ Typ → pc2.types q = pc.types q := by
  intro q hq
  have tail : ∀ (types2 : TypePtr → Option ValueType) (Integer1 : Memory) (pc1 : Picoc)
      (v : Value) (MV : Nat) (ht : types2 q = pc.types q),
      (match types2 Typ, types2 m.MemberType with
        | some st2, some mt2 =>
          let types3 :=
            if st2.AlignBytes < mt2.AlignBytes then
              setType types2 Typ { st2 with AlignBytes := mt2.AlignBytes }
            else types2
          let pc2 : Picoc :=
            { pc1 with
              vals := fun a => if a = MV then some v else pc1.vals a,
              arena := { pc1.arena with Memory := Integer1 }, types := types3 }
          match pc2.tables Members with
          | none => none
          | some Tbl =>
            match TableSet pc2 Tbl m.MemberIdentifier MV Parser.FileName Parser.Line
                Parser.CharacterPos with
            | none => none
            | some (Exit.fail f, pc3) => some (Exit.fail f, pc3)
            | some (Exit.ret (ok, Tbl1), pc3) =>
              let pc4 : Picoc :=
                { pc3 with tables := fun a => if a = Members then some Tbl1 else pc3.tables a }
              if ¬ ok then some (Exit.fail Failure.MemberAlreadyDefined, pc4)
              else if ¬ m.Semicolon then some (Exit.fail Failure.SemicolonExpected, pc4)
              else some (Exit.ret (), pc4)
        | _, _ => none) = some (Exit.ret (), pc2) → pc2.types q = pc.types q := by
    intro types2 Integer1 pc1 v MV ht h
    split at h
    swap
    · cases h
    simp only at h
    split at h
    · cases h
    split at h
    · cases h
    · cases h
    rename_i ok Tbl1 pc3 hts
    obtain ⟨⟨-, -, -, -, -, hty3⟩, -, -, -⟩ := TableSet_effect hts
    split at h
    · cases h
    split at h
    · cases h
    simp only [Option.some.injEq, Prod.mk.injEq, true_and] at h
    subst h
    show pc3.types q = _
    rw [hty3]
    simp only
    split
    · rw [setType_other _ _ _ _ hq, ht]
    · exact ht
  unfold structMember at h
  split at h
  · cases h
  split at h
  · cases h
  · cases h
  rename_i MemberValue pc1 hal
  obtain ⟨⟨-, -, -, -, -, hty⟩, -, -⟩ := VariableAllocValueAndData_fields hal
  obtain ⟨hb1, -⟩ := VariableAllocValueAndData_header hal
  rw [hb1] at h
  cases hst : pc1.types Typ with
  | none =>
    rw [hst] at h
    cases h
  | some st =>
    cases hmt : pc1.types m.MemberType with
    | none =>
      rw [hst, hmt] at h
      cases h
    | some mt =>
      rw [hst, hmt] at h
      simp only at h
      cases IsStruct with
      | true =>
        simp only [if_true] at h
        generalize TypeSizeValue _ _ _ = r at h
        cases r with
        | none => cases h
        | some sz =>
          simp only at h
          refine tail _ _ pc1 _ MemberValue ?_ h
          rw [setType_other _ _ _ _ hq, setType_other _ _ _ _ hq, hty]
      | false =>
        simp only [Bool.false_eq_true, if_false] at h
        by_cases hgt : mt.Sizeof > st.Sizeof
        · rw [if_pos hgt] at h
          generalize TypeSizeValue _ _ _ = r at h
          cases r with
          | none => cases h
          | some sz =>
            simp only at h
            refine tail _ _ pc1 _ MemberValue ?_ h
            rw [setType_other _ _ _ _ hq, hty]
        · rw [if_neg hgt] at h
          simp only at h
          refine tail _ _ pc1 _ MemberValue ?_ h
          rw [hty]

/-- The loop of `TypeParseStruct` writes no type node but the one of the struct or
union. -/
theorem structMembers_types (Parser : ParseState) (Typ : TypePtr) (Members : Nat)
    (IsStruct : Bool) (ms : List MemberDecl) :
    ∀ (pc pc2 : Picoc), structMembers pc Parser Typ Members IsStruct ms = some (Exit.ret (), pc2) →
      ∀ q, q ≠ Typ → pc2.types q = pc.types q := by
  induction ms with
  | nil =>
    intro pc pc2 h q _
    unfold structMembers at h
    cases h
    rfl
  | cons m rest ih =>
    intro pc pc2 h q hq
    unfold structMembers at h
    split at h
    · cases h
    · cases h
    rename_i u pc1 hstep
    cases u
    rw [ih pc1 pc2 h q hq]
    exact structMember_types hstep q hq

/-- A node that the search of `TypeGetMatching` finds is a type. -/
theorem findMatching_some {types : TypePtr → Option ValueType} {B : BaseType} {A : Int}
    {I : Nat} {c : TypePtr} (l : List TypePtr)
    (h : findMatching types B A I l = some (some c)) : ∃ t, types c = some t := by
  induction l with
  | nil =>
    unfold findMatching at h
    cases h
  | cons x rest ih =>
    unfold findMatching at h
    split at h
    · cases h
    · rename_i t ht
      split at h
      · exact ih h
      · simp only [Option.some.injEq] at h
        subst h
        exact ⟨t, ht⟩

/-- The node that `TypeGetMatching` returns for a struct or union: a node that was there,
with the state unchanged, or a new node with the size 0 and the alignment 0. -/
theorem TypeGetMatching_node {pc pc1 : Picoc} {B : BaseType} {I : Nat} {Typ : TypePtr}
    (hB : B = BaseType.TypeStruct ∨ B = BaseType.TypeUnion)
    (h : TypeGetMatching pc (TypePtr.field TypeField.UberType) B 0 I true
      = some (Exit.ret Typ, pc1)) :
    ∃ st, pc1.types Typ = some st
      ∧ (pc.types Typ = some st ∨ (st.Sizeof = 0 ∧ st.AlignBytes = 0)) := by
  cases hP : pc.types (TypePtr.field TypeField.UberType) with
  | none =>
    unfold TypeGetMatching at h
    rw [hP] at h
    cases h
  | some parent =>
    cases hf : findMatching pc.types B 0 I parent.DerivedTypeList with
    | none =>
      unfold TypeGetMatching at h
      rw [hP] at h
      simp only at h
      rw [hf] at h
      cases h
    | some r =>
      cases r with
      | some c =>
        unfold TypeGetMatching at h
        rw [hP] at h
        simp only at h
        rw [hf] at h
        simp only [if_true, Option.some.injEq, Prod.mk.injEq, Exit.ret.injEq] at h
        obtain ⟨rfl, rfl⟩ := h
        obtain ⟨t, ht⟩ := findMatching_some _ hf
        exact ⟨t, ht, Or.inl ht⟩
      | none =>
        obtain ⟨S, Al, hEq, -, -, -, hz⟩ :=
          @TypeGetMatching_none pc (TypePtr.field TypeField.UberType) B 0 I true parent hP hf
        rw [hEq] at h
        obtain ⟨rfl, rfl⟩ := hz hB
        rcases TypeAdd_effect h with ⟨⟨f, hfail⟩, -⟩ | ⟨a, tp, he, -, -, hty⟩
        · cases hfail
        · cases he
          have e1 : pc1.types (TypePtr.heap a) = some
              { Base := B, ArraySize := 0, Sizeof := 0, AlignBytes := 0, Identifier := I,
                FromType := TypePtr.field TypeField.UberType, DerivedTypeList := [],
                Members := TablePtr.null, OnHeap := true } := by
            rw [hty, setType_other _ _ _ _ (by intro hc; cases hc)]
            exact setType_same _ _ _
          exact ⟨_, e1, Or.inr ⟨rfl, rfl⟩⟩

/-- The reference layout for bodies whose member types are given before the body: a struct
definition that `TypeParseStruct` parses to the end, for members whose types are not the
struct itself (nor arrays of it) and have powers of two as alignments and sizes that are
not negative, records for the members the offsets of the reference layout: the first
member is at offset 0, every later member at the least multiple of its alignment that is
at least the offset of the member before plus the size of that member, and the size of the
struct is the least multiple of the largest alignment that is at least the offset of the
last member plus its size, when that size is an `int`. -/
theorem TypeParseStruct_reference_layout (pc : Picoc) (Parser : ParseState)
    (StructIdentifier : Nat) (first : MemberDecl) (rest : List MemberDecl) (Typ : TypePtr)
    (pc2 : Picoc)
    (hnew : ∀ t, pc.types Typ = some t → t.Sizeof = 0 ∧ t.AlignBytes = 0)
    (hapart : DisjointBlocks 44 pc.calloc)
    (hmem : ∀ m ∈ first :: rest, m.MemberType ≠ Typ
      ∧ (∀ mt, pc2.types m.MemberType = some mt → mt.Base = BaseType.TypeArray →
          mt.FromType ≠ Typ)
      ∧ (∃ j : Nat, j ≤ 30 ∧ memberAlign pc2 m = 2 ^ j) ∧ 0 ≤ memberSize pc2 m)
    (hrange : referenceSizeof (memberLayout pc2 (first :: rest)) ≤ 2147483647)
    (h : TypeParseStruct pc Parser StructIdentifier true first rest true
      = some (Exit.ret Typ, pc2)) :
    List.Forall₂ (MemberAt pc2 Typ) (first :: rest)
        (referenceOffsets 0 (memberLayout pc2 (first :: rest)))
      ∧ (referenceOffsets 0 (memberLayout pc2 (first :: rest))).head? = some 0
      ∧ (∃ st, pc2.types Typ = some st
          ∧ st.Sizeof = referenceSizeof (memberLayout pc2 (first :: rest))
          ∧ st.AlignBytes = referenceAlign 0 (memberLayout pc2 (first :: rest)))
      ∧ ∀ x a : Int, 0 < a →
          a ∣ roundUpTo x a ∧ x ≤ roundUpTo x a ∧ ∀ o, a ∣ o → x ≤ o → roundUpTo x a ≤ o := by
  unfold TypeParseStruct at h
  simp only [if_true] at h
  split at h
  · cases h
  · cases h
  rename_i Typ1 pc1 htgm
  obtain ⟨stn, hstn, hor⟩ := TypeGetMatching_node (Or.inl rfl) htgm
  obtain ⟨-, -, -, -, -, hdj1⟩ := TypeGetMatching_state htgm
  rw [hstn] at h
  simp only at h
  split at h
  · cases h
  rw [if_neg (by simp)] at h
  split at h
  · cases h
  split at h
  · cases h
  · cases h
  rename_i M pcA halloc
  split at h
  · cases h
  · cases h
  rename_i u pc4 hloop
  cases u
  split at h
  · cases h
  rename_i st4 hst4
  simp only [Option.some.injEq, Prod.mk.injEq, Exit.ret.injEq] at h
  obtain ⟨rfl, hpc2⟩ := h
  have ty2 : pc2.types = setType pc4.types Typ1
      { st4 with Sizeof := alignUp st4.Sizeof st4.AlignBytes } := by rw [← hpc2]
  have tb2 : pc2.tables = pc4.tables := by rw [← hpc2]
  have vl2 : pc2.vals = pc4.vals := by rw [← hpc2]
  have ar2 : pc2.arena = pc4.arena := by rw [← hpc2]
  clear hpc2
  -- the state at the start of the loop
  obtain ⟨⟨-, -, -, -, -, htyA⟩, -⟩ := VariableAlloc_fields halloc
  have hdjA : DisjointBlocks 44 pcA.calloc := VariableAlloc_disjoint halloc (hdj1 44 hapart)
  generalize hpc3 : ({ pcA with
      types := (setType pcA.types Typ1 { stn with Members := TablePtr.heap M })
      tables := (fun a =>
        if a = M then some (TableInitTable STRUCT_TABLE_SIZE true) else pcA.tables a) } : Picoc)
    = pc3 at hloop
  have ty3 : pc3.types Typ1 = some { stn with Members := TablePtr.heap M } := by
    rw [← hpc3]
    exact setType_same _ _ _
  have tb3 : pc3.tables M = some (TableInitTable STRUCT_TABLE_SIZE true) := by
    rw [← hpc3]
    exact if_pos rfl
  have dj3 : DisjointBlocks 44 pc3.calloc := by
    rw [← hpc3]
    exact hdjA
  have hz : stn.Sizeof = 0 ∧ stn.AlignBytes = 0 := by
    rcases hor with hor | hor
    · exact hnew _ hor
    · exact hor
  -- the types of the members
  have hq42 : ∀ q, q ≠ Typ1 → pc2.types q = pc3.types q := by
    intro q hq
    rw [ty2, setType_other _ _ _ _ hq]
    exact structMembers_types _ _ _ _ _ _ _ hloop q hq
  have hmem3 : ∀ m ∈ first :: rest, m.MemberType ≠ Typ1
      ∧ (∀ mt, pc3.types m.MemberType = some mt → mt.Base = BaseType.TypeArray →
          mt.FromType ≠ Typ1)
      ∧ memberAlign pc2 m = memberAlign pc3 m ∧ memberSize pc2 m = memberSize pc3 m := by
    intro m hm
    obtain ⟨k1, k2, -, -⟩ := hmem m hm
    have k2a : ∀ mt, pc3.types m.MemberType = some mt → mt.Base = BaseType.TypeArray →
        mt.FromType ≠ Typ1 := by
      intro mt hmt
      rw [← hq42 _ k1] at hmt
      exact k2 mt hmt
    exact ⟨k1, k2a, memberLayout_congr hq42 k1 k2a⟩
  have hL : memberLayout pc2 (first :: rest) = memberLayout pc3 (first :: rest) := by
    unfold memberLayout
    apply List.map_congr_left
    intro m hm
    rw [(hmem3 m hm).2.2.1, (hmem3 m hm).2.2.2]
  have hms3 : ∀ m ∈ first :: rest, m.MemberType ≠ Typ1
      ∧ (∀ mt, pc3.types m.MemberType = some mt → mt.Base = BaseType.TypeArray →
          mt.FromType ≠ Typ1)
      ∧ (∃ j : Nat, j ≤ 30 ∧ memberAlign pc3 m = 2 ^ j) ∧ 0 ≤ memberSize pc3 m := by
    intro m hm
    obtain ⟨k1, k2, k3, k4⟩ := hmem3 m hm
    obtain ⟨-, -, k5, k6⟩ := hmem m hm
    rw [k3] at k5
    rw [k4] at k6
    exact ⟨k1, k2, k5, k6⟩
  rw [hL] at hrange ⊢
  -- the alignments and sizes
  have hpow : ∀ p ∈ memberLayout pc3 (first :: rest), ∃ j : Nat, j ≤ 30 ∧ p.1 = 2 ^ j := by
    intro p hp
    unfold memberLayout at hp
    obtain ⟨m1, hm1, rfl⟩ := List.mem_map.mp hp
    exact (hms3 m1 hm1).2.2.1
  have hpos : ∀ p ∈ memberLayout pc3 (first :: rest), 0 < p.1 ∧ 0 ≤ p.2 := by
    intro p hp
    obtain ⟨j1, -, e1⟩ := hpow p hp
    refine ⟨by rw [e1]; positivity, ?_⟩
    unfold memberLayout at hp
    obtain ⟨m1, hm1, rfl⟩ := List.mem_map.mp hp
    exact (hms3 m1 hm1).2.2.2
  obtain ⟨jA, hjA, eA⟩ : ∃ j : Nat, j ≤ 30
      ∧ referenceAlign 0 (memberLayout pc3 (first :: rest)) = 2 ^ j := by
    obtain ⟨j1, hj1, e1⟩ := (hms3 first (List.mem_cons_self _ _)).2.2.1
    have hrest : ∀ p ∈ memberLayout pc3 rest, ∃ j : Nat, j ≤ 30 ∧ p.1 = 2 ^ j := fun p hp =>
      hpow p (by
        unfold memberLayout at hp ⊢
        rw [List.map_cons]
        exact List.mem_cons_of_mem _ hp)
    have := referenceAlign_pow (memberLayout pc3 rest) (max 0 (memberAlign pc3 first)) hrest
      ⟨j1, hj1, by rw [e1]; exact max_eq_right (by positivity)⟩
    exact this
  have hend0 : 0 ≤ referenceEnd 0 (memberLayout pc3 (first :: rest)) :=
    referenceEnd_ge _ _ hpos
  have hendle : referenceEnd 0 (memberLayout pc3 (first :: rest))
      ≤ referenceSizeof (memberLayout pc3 (first :: rest)) := by
    unfold referenceSizeof
    rw [eA]
    exact (roundUpTo_least _ _ (by positivity)).2.1
  obtain ⟨⟨st5, t1, t2, t3, t4⟩, -, tall, -⟩ := structMembers_layout Parser Typ1 M (first :: rest)
    pc3 pc4 _ _ ty3 tb3 (by simp [TableInitTable]) (by decide) dj3 hms3
    (by show (0 : Int) ≤ stn.Sizeof; rw [hz.1]) (by
      show referenceEnd stn.Sizeof _ ≤ _
      rw [hz.1]
      omega) hloop
  rw [hst4] at t1
  cases t1
  have t2a : st4.Sizeof = referenceEnd 0 (memberLayout pc3 (first :: rest)) := by
    rw [t2]
    show referenceEnd stn.Sizeof _ = _
    rw [hz.1]
  have t3a : st4.AlignBytes = referenceAlign 0 (memberLayout pc3 (first :: rest)) := by
    rw [t3]
    show referenceAlign stn.AlignBytes _ = _
    rw [hz.2]
  have t4a : st4.Members = TablePtr.heap M := t4
  have tall2 : List.Forall₂ (MemberKept M pc4) (first :: rest)
      (referenceOffsets 0 (memberLayout pc3 (first :: rest))) := by
    have := tall
    rw [show ({ stn with Members := TablePtr.heap M } : ValueType).Sizeof = 0 from hz.1] at this
    exact this
  have hfin : alignUp st4.Sizeof st4.AlignBytes
      = referenceSizeof (memberLayout pc3 (first :: rest)) := by
    rw [t2a, t3a, eA]
    unfold referenceSizeof at hrange ⊢
    rw [eA] at hrange ⊢
    exact alignUp_roundUpTo _ _ hend0 hjA hrange
  have ty2T : pc2.types Typ1 = some { st4 with Sizeof := alignUp st4.Sizeof st4.AlignBytes } := by
    rw [ty2]
    exact setType_same _ _ _
  refine ⟨?_, ?_, ⟨_, ty2T, hfin, t3a⟩, fun x a ha => roundUpTo_least x a ha⟩
  · refine tall2.imp ?_
    rintro m off ⟨tbl, e, hdr, k1, k2, k3, k4, k5, -⟩
    exact ⟨_, M, tbl, e, hdr, ty2T, t4a, by rw [tb2]; exact k1, k2, by rw [vl2]; exact k3, k4,
      by rw [ar2]; exact k5⟩
  · unfold memberLayout
    rw [List.map_cons]
    show some (roundUpTo 0 _) = some 0
    unfold roundUpTo
    rw [if_pos (Int.zero_emod _)]

/-- The reference layout at a concrete input: `struct P { char a; int b; };` with a 4-byte
`int` gives the offsets 0 and 4 and the size 8. -/
theorem TypeParseStruct_reference_layout_pair :
    List.Forall₂ (MemberAt exAfterPair (TypePtr.heap 20000)) exPairMembers [0, 4]
      ∧ ∃ st, exAfterPair.types (TypePtr.heap 20000) = some st ∧ st.Sizeof = 8
          ∧ st.AlignBytes = 4 := by
  have hc : (exAfterPair.types (TypePtr.field TypeField.CharType)).map (fun t => t.Base)
      = some BaseType.TypeChar := by rfl
  have hi : (exAfterPair.types (TypePtr.field TypeField.IntType)).map (fun t => t.Base)
      = some BaseType.TypeInt := by rfl
  have hs : referenceSizeof (memberLayout exAfterPair exPairMembers) = 8 := by rfl
  obtain ⟨h1, -, ⟨st, h3, h4, h5⟩, -⟩ := TypeParseStruct_reference_layout exS exParser 48
    ⟨TypePtr.field TypeField.CharType, 52, true⟩ [⟨TypePtr.field TypeField.IntType, 56, true⟩]
    (TypePtr.heap 20000) exAfterPair
    (fun t ht => by
      have e : exS.types (TypePtr.heap 20000) = none := by rfl
      rw [e] at ht
      cases ht)
    (by decide)
    (fun m hm => by
      simp only [List.mem_cons, List.mem_singleton, List.not_mem_nil, or_false] at hm
      rcases hm with rfl | rfl
      · refine ⟨by decide, fun mt hmt hb => ?_, ⟨0, by decide, by rfl⟩, ?_⟩
        · rw [hmt] at hc
          simp only [Option.map_some', Option.some.injEq] at hc
          rw [hb] at hc
          cases hc
        · have e : memberSize exAfterPair ⟨TypePtr.field TypeField.CharType, 52, true⟩ = 1 := by
            rfl
          rw [e]
          decide
      · refine ⟨by decide, fun mt hmt hb => ?_, ⟨2, by decide, by rfl⟩, ?_⟩
        · rw [hmt] at hi
          simp only [Option.map_some', Option.some.injEq] at hi
          rw [hb] at hi
          cases hi
        · have e : memberSize exAfterPair ⟨TypePtr.field TypeField.IntType, 56, true⟩ = 4 := by
            rfl
          rw [e]
          decide)
    (by
      show referenceSizeof (memberLayout exAfterPair exPairMembers) ≤ 2147483647
      rw [hs]
      decide)
    (by rfl)
  exact ⟨h1, st, h3, h4.trans hs, h5⟩

/-! ## C25: definition with an initial value -/

/-- C25 (deep copy on definition): let `VariableDefine` be called with an initial value
whose compact size is `n` bytes, at most 256, and whose payload is live storage, on an
allocator whose blocks do not overlap one another.  When the call returns, the new value
has the type of the initial value; the `n` bytes of its payload are those of the payload
of the initial value, which is unchanged; the two payloads do not overlap; and a store of
a byte into either payload leaves the bytes of the other as they are. -/
theorem C25_deep_copy_on_definition (pc : Picoc) (Parser : Option ParseState)
    (Ident InitValue : Nat) (Typ : TypePtr) (MakeWritable : Bool) (fv : Value) (n nv : Nat)
    (pc2 : Picoc) (hI : InitValue ≠ 0) (hfv : pc.vals InitValue = some fv)
    (hsz : TypeSizeValue pc.types fv true = some (n : Int)) (h256 : n ≤ 256)
    (hlive : ∀ k, k < n → LiveByte pc (40 + n) (fv.Val + k))
    (hapart : DisjointBlocks (40 + n) pc.calloc)
    (hdef : VariableDefine pc Parser Ident InitValue Typ MakeWritable
      = some (Exit.ret nv, pc2)) :
    ∃ hdr, pc2.vals nv = some hdr ∧ hdr.Typ = fv.Typ
      ∧ (∀ k, k < n → pc2.arena.Memory (hdr.Val + k) = pc.arena.Memory (fv.Val + k))
      ∧ (∀ k, k < n → pc2.arena.Memory (fv.Val + k) = pc.arena.Memory (fv.Val + k))
      ∧ (hdr.Val + n ≤ fv.Val ∨ fv.Val + n ≤ hdr.Val)
      ∧ (∀ x b k, k < n → hdr.Val ≤ x → x < hdr.Val + n →
          (fun a => if a = x then b else pc2.arena.Memory a) (fv.Val + k)
            = pc2.arena.Memory (fv.Val + k))
      ∧ (∀ x b k, k < n → fv.Val ≤ x → x < fv.Val + n →
          (fun a => if a = x then b else pc2.arena.Memory a) (hdr.Val + k)
            = pc2.arena.Memory (hdr.Val + k)) := by
  obtain ⟨h1, h2, h3, h4, _, _⟩ := VariableDefine_copy hI hfv hsz h256 hapart hdef
  have hne : ∀ j k, j < n → k < n → fv.Val + j ≠ nv + 40 + k := by
    intro j k hj hk he
    have := (h3 k hk).2
    rw [← he] at this
    exact this (hlive j hj)
  have hdis : nv + 40 + n ≤ fv.Val ∨ fv.Val + n ≤ nv + 40 := by
    by_contra hc
    simp only [not_or, not_le] at hc
    by_cases hle : fv.Val ≤ nv + 40
    · exact hne (nv + 40 - fv.Val) 0 (by omega) (by omega) (by omega)
    · exact hne 0 (fv.Val - (nv + 40)) (by omega) (by omega) (by omega)
  refine ⟨_, h1, rfl, h2, fun k hk => (h4 _ (hlive k hk)).1, hdis, ?_, ?_⟩
  · intro x b k hk hx1 hx2
    have hx3 : nv + 40 ≤ x := hx1
    have hx4 : x < nv + 40 + n := hx2
    show (if fv.Val + k = x then b else _) = _
    rw [if_neg]
    intro he
    exact hne k (x - (nv + 40)) hk (by omega) (by omega)
  · intro x b k hk hx1 hx2
    show (if nv + 40 + k = x then b else _) = _
    rw [if_neg]
    intro he
    exact hne (x - fv.Val) k (by omega) hk (by omega)

/-- C25 at a concrete input: the identifier at 52 is defined at file scope with the `int`
value at 30000, whose payload at 30040 holds the bytes 7, 0, 0, 0. -/
theorem C25_deep_copy_on_definition_witness :
    ∃ hdr, exNoisyDefined.vals 10000 = some hdr
      ∧ hdr.Typ = TypePtr.field TypeField.IntType
      ∧ (∀ k, k < 4 → exNoisyDefined.arena.Memory (hdr.Val + k) = exNoisy.arena.Memory (30040 + k))
      ∧ (hdr.Val + 4 ≤ 30040 ∨ 30040 + 4 ≤ hdr.Val) := by
  obtain ⟨hdr, h1, h2, h3, _, h5, _⟩ := C25_deep_copy_on_definition exNoisy (some exParser) 52
    30000 TypePtr.null false (exScopeValue 30040 77 false) 4 10000 exNoisyDefined (by decide)
    (by rfl) (by rfl) (by decide) (by decide) (by decide) (by rfl)
  exact ⟨hdr, h1, h2, h3, h5⟩

/-! ## Definition of platform variables -/

/-- What a definition of a platform variable that returns did: it registered the name,
found it unbound in the current table, and bound it there to a new header with the type,
the payload pointer and the lvalue flag of the call; the scope id of the header is zero. -/
theorem VariableDefinePlatformVar_binds {pc pc5 : Picoc} {Parser : Option ParseState}
    {Ident : Nat} {Typ : TypePtr} {FromValue : Nat} {IsWritable : Bool} {Tbl : Table}
    (hT : currentTable pc = some Tbl) (hwf : Tbl.HashTable.length = Tbl.Size)
    (hsz : 0 < Tbl.Size)
    (h : VariableDefinePlatformVar pc Parser Ident Typ FromValue IsWritable
      = some (Exit.ret (), pc5)) :
    ∃ (k v : Nat) (Str : List Char) (Tbl1 : Table) (e : TableEntry),
      pc.strings Ident = some Str ∧ TableSearchIdentifier pc5 Str = some k
      ∧ currentTable pc5 = some Tbl1 ∧ TableGet Tbl1 k = some e ∧ e.Val = v
      ∧ TableGet Tbl k = none ∧ pc.vals v = none
      ∧ pc5.vals v = some
          { Typ := Typ, Val := FromValue, LValueFrom := 0, ValOnHeap := true, ValOnStack := false,
            AnyValOnHeap := false, IsLValue := IsWritable, ScopeID := 0, OutOfScope := false }
      ∧ pc5.TopStackFrame = pc.TopStackFrame
      ∧ (pc.TopStackFrame = 0 → pc5.GlobalTable = Tbl1)
      ∧ (∀ a, (pc.strings a).isSome → pc5.strings a = pc.strings a)
      ∧ (∀ a, a ≠ v → pc5.vals a = pc.vals a) := by
  unfold VariableDefinePlatformVar at h
  split at h
  · cases h
  · cases h
  · rename_i SomeValue pc1 hal
    obtain ⟨ha, _, _⟩ := VariableAllocValueAndData_fields hal
    obtain ⟨hhdr, hnew⟩ := VariableAllocValueAndData_header hal
    obtain ⟨hvo, _⟩ := VariableAllocValueAndData_vals hal
    obtain ⟨_, hfresh⟩ := hnew rfl
    have hT1 : currentTable pc1 = some Tbl := (currentTable_congr ha).trans hT
    obtain ⟨a1, a2, a3, a4, a5, a6⟩ := ha
    split at h
    · rename_i v Str hv hstr
      rw [hhdr] at hv
      cases hv
      simp only at h
      split at h
      · cases h
      · cases h
      · rename_i Key pc3 hreg
        obtain ⟨r1, r2, r3, r4, r5, r6, r7, r8⟩ := TableStrRegister_effect hreg
        simp only at r1 r2 r3 r4 r5 r7 r8
        have hT3 : currentTable pc3 = some Tbl := by
          refine Eq.trans ?_ hT1
          unfold currentTable
          rw [r1, r2, r3]
        rw [hT3] at h
        simp only at h
        split at h
        · cases h
        · cases h
        · rename_i ok Tbl1 pc4 hset
          obtain ⟨⟨s1, s2, s3, s4, s5, s6⟩, sv, sok⟩ := TableSet_effect hset
          split at h
          · cases h
          · rename_i hok
            have hok2 : ok = true := by simpa using hok
            have hnone := sok.1 hok2
            have hT1eq := (sok.2 hnone).2
            simp only [Option.some.injEq, Prod.mk.injEq, Exit.ret.injEq, true_and] at h
            subst h
            obtain ⟨f1, f2, f3, _, _, _, f7⟩ := setCurrentTable_fields pc4 Tbl1
            obtain ⟨g1, g2, _⟩ := setCurrentTable_strings pc4 Tbl1
            have hT4 : currentTable pc4 = some Tbl := by
              refine Eq.trans ?_ hT3
              unfold currentTable
              rw [s1, s2, s3]
            have htop : pc4.TopStackFrame = pc.TopStackFrame := s2.trans (r2.trans a2)
            obtain ⟨New, hT1eq, hNK, hNV⟩ : ∃ New : TableEntry,
                Tbl1 = { Tbl with HashTable :=
                  (List.set Tbl.HashTable (Key % Tbl.Size)
                    (New :: Tbl.HashTable.getD (Key % Tbl.Size) [])) }
                ∧ New.Key = Key ∧ New.Val = SomeValue := ⟨_, hT1eq, rfl, rfl⟩
            refine ⟨Key, SomeValue, Str, Tbl1, New, ?_, ?_, ?_, ?_,
              hNV, hnone, hfresh, ?_, f7.trans htop, ?_, ?_, ?_⟩
            · rw [← a4]; exact hstr
            · rw [TableSearchIdentifier_congr g1 g2, TableSearchIdentifier_congr s4 s5]
              exact r6
            · exact currentTable_setCurrentTable pc4 Tbl Tbl1 hT4 pc4.vals
            · rw [hT1eq, ← hNK]
              exact TableSearch_set_same Tbl New (by rw [hwf]; exact Nat.mod_lt _ hsz)
            · rw [f1, sv, r5]
              exact if_pos rfl
            · intro h0
              exact f3 (htop.trans h0)
            · intro a hsome
              rw [g1, s4, r8 a (by rw [a4]; exact hsome), a4]
            · intro a hne
              rw [f1, sv, r5]
              show (if a = SomeValue then _ else _) = _
              rw [if_neg hne, hvo a hne]
    · cases h

/-- A definition of a platform variable whose name the current table binds: after the
allocation of the header the call fails with "already defined", and the bindings are as
before. -/
theorem VariableDefinePlatformVar_bound {pc pcA : Picoc} {Parser : Option ParseState}
    {Ident : Nat} {Typ : TypePtr} {FromValue : Nat} {IsWritable : Bool} {Tbl : Table}
    {Str : List Char} {k a : Nat} {e : TableEntry}
    (hS : pc.strings Ident = some Str) (hk : TableSearchIdentifier pc Str = some k)
    (hT : currentTable pc = some Tbl) (hget : TableGet Tbl k = some e)
    (halloc : VariableAllocValueAndData pc none 0 IsWritable 0 true = some (Exit.ret a, pcA)) :
    ∃ pc6, VariableDefinePlatformVar pc Parser Ident Typ FromValue IsWritable
        = some (Exit.fail Failure.AlreadyDefined, pc6)
      ∧ currentTable pc6 = some Tbl ∧ SameBindings pc pc6
      ∧ (∀ x, x ≠ a → pc6.vals x = pc.vals x) := by
  obtain ⟨hs, _, _⟩ := VariableAllocValueAndData_fields halloc
  obtain ⟨hhdr, _⟩ := VariableAllocValueAndData_header halloc
  obtain ⟨hv, _⟩ := VariableAllocValueAndData_vals halloc
  have hT1 : currentTable pcA = some Tbl := (currentTable_congr hs).trans hT
  obtain ⟨a1, a2, a3, a4, a5, a6⟩ := hs
  unfold VariableDefinePlatformVar
  rw [halloc]
  simp only
  have hS1 : pcA.strings Ident = some Str := by rw [a4]; exact hS
  rw [hhdr, hS1]
  simp only
  have hreg : ∀ (vals : Nat → Option Value),
      TableStrRegister { pcA with vals := vals } Str = some (Exit.ret k, { pcA with vals := vals }) := by
    intro vals
    unfold TableStrRegister
    have : TableSearchIdentifier { pcA with vals := vals } Str = some k := by
      refine Eq.trans ?_ hk
      unfold TableSearchIdentifier
      simp only [a4, a5]
    rw [this]
  rw [hreg]
  simp only
  have hcur : ∀ (vals : Nat → Option Value), currentTable { pcA with vals := vals } = some Tbl := by
    intro vals
    refine Eq.trans ?_ hT1
    unfold currentTable
    rfl
  rw [hcur]
  simp only
  have hset : ∀ (pcx : Picoc) (F : Nat) (L C : Int),
      TableSet pcx Tbl k a F L C = some (Exit.ret (false, Tbl), pcx) := by
    intro pcx F L C
    unfold TableSet
    have : TableSearch Tbl k = some e := hget
    rw [this]
  rw [hset]
  simp only [Bool.false_eq_true, not_false_eq_true, if_true]
  rw [setCurrentTable_self _ _ (hcur _)]
  refine ⟨_, rfl, hcur _, ⟨a1, a2, a3, a4, a5, a6⟩, ?_⟩
  intro x hx
  show (if x = a then _ else _) = _
  rw [if_neg hx, hv x hx]

/-! ## C26: the bindings of a static declaration -/

/-- The mangled name of a static whose parts fit the buffer: `/`, the file name, inside a
function `/` and the function name, `/` and the identifier. -/
theorem mangledName_fits (FileName : List Char) (FuncName : Option (List Char))
    (Ident : List Char)
    (hfit : 1 + FileName.length + (FuncName.map (fun fn => 1 + fn.length)).getD 0 + 1
      + Ident.length ≤ 255) :
    mangledName FileName FuncName Ident
      = ['/'] ++ FileName ++ (FuncName.map (fun fn => '/' :: fn)).getD [] ++ ['/'] ++ Ident := by
  unfold mangledName LINEBUFFER_MAX
  cases FuncName with
  | none =>
    simp only [Option.map_none', Option.getD_none, Nat.add_zero] at hfit
    have h1 : List.take (256 - 1 - 1) FileName = FileName :=
      List.take_of_length_le (by omega)
    simp only [h1, Option.map_none', Option.getD_none, List.append_nil]
    have h2 : 256 - 1 - (['/'] ++ FileName).length > 0 := by
      simp only [List.length_append, List.length_singleton]
      omega
    rw [if_pos h2]
    have h3 : List.take (256 - 1 - (['/'] ++ FileName ++ ['/']).length) Ident = Ident :=
      List.take_of_length_le (by
        simp only [List.length_append, List.length_singleton]
        omega)
    rw [h3]
  | some fn =>
    simp only [Option.map_some', Option.getD_some] at hfit
    have h1 : List.take (256 - 1 - 1) FileName = FileName :=
      List.take_of_length_le (by omega)
    simp only [h1, Option.map_some', Option.getD_some]
    have h2 : 256 - 1 - (['/'] ++ FileName).length > 0 := by
      simp only [List.length_append, List.length_singleton]
      omega
    rw [if_pos h2]
    have h3 : List.take (256 - 1 - (['/'] ++ FileName ++ ['/']).length) fn = fn :=
      List.take_of_length_le (by
        simp only [List.length_append, List.length_singleton]
        omega)
    rw [h3]
    have h4 : 256 - 1 - (['/'] ++ FileName ++ ['/'] ++ fn).length > 0 := by
      simp only [List.length_append, List.length_singleton]
      omega
    rw [if_pos h4]
    have h5 : List.take (256 - 1 - (['/'] ++ FileName ++ ['/'] ++ fn ++ ['/']).length) Ident
        = Ident :=
      List.take_of_length_le (by
        simp only [List.length_append, List.length_singleton]
        omega)
    rw [h5]
    simp

/-- The header that `VariableAllocValueFromType` makes. -/
theorem VariableAllocValueFromType_header {pc pc1 : Picoc} {Parser : Option ParseState}
    {Typ : TypePtr} {IsLValue : Bool} {LValueFrom : Nat} {OnHeap : Bool} {p : Nat}
    (h : VariableAllocValueFromType pc Parser Typ IsLValue LValueFrom OnHeap
      = some (Exit.ret p, pc1)) :
    ∃ v, pc1.vals p = some v ∧ v.Typ = Typ ∧ v.Val = p + 40 ∧ v.IsLValue = IsLValue
      ∧ v.ValOnHeap = OnHeap ∧ (OnHeap = true → pc.vals p = none) := by
  unfold VariableAllocValueFromType at h
  split at h
  · cases h
  · split at h
    · cases h
    · split at h
      · cases h
      · cases h
      · rename_i NewValue pc0 hal
        obtain ⟨hhdr, hnew⟩ := VariableAllocValueAndData_header hal
        split at h
        · cases h
        · rw [hhdr] at h
          simp only [Option.some.injEq, Prod.mk.injEq, Exit.ret.injEq] at h
          obtain ⟨rfl, rfl⟩ := h
          refine ⟨_, if_pos rfl, rfl, ?_, rfl, rfl, fun hb => (hnew hb).2⟩
          show NewValue + MEM_ALIGN sizeofValue = _
          rw [MEM_ALIGN_sizeofValue]
          rfl

/-- C26 (static declaration binding): let `VariableDefineButIgnoreIdentical` be called for
a static declaration with `*FirstVisit` false, with names that fit the buffer, and let it
return with `*FirstVisit` true.  Then the name `/` file `/` function `/` identifier
(inside a function) or `/` file `/` identifier (at file scope) is registered; the global
table, which did not bind it before, binds it to the returned value, whose type is the
declared type; and the current table binds the registered short identifier to a value
whose type and payload pointer are those of the returned value. -/
theorem C26_static_declaration_binding (fuel : Nat) (pc : Picoc) (Parser : ParseState)
    (Ident : Nat) (Typ : TypePtr) (v : Nat) (pc1 : Picoc) (FileName IdentStr : List Char)
    (FuncName : Option (List Char)) (Tbl : Table)
    (hwf : pc.GlobalTable.HashTable.length = pc.GlobalTable.Size) (hsz : 0 < pc.GlobalTable.Size)
    (hT : currentTable pc = some Tbl) (hwfT : Tbl.HashTable.length = Tbl.Size)
    (hszT : 0 < Tbl.Size)
    (hF : pc.strings Parser.FileName = some FileName) (hI : pc.strings Ident = some IdentStr)
    (hFn : enclosingFuncName pc = some FuncName)
    (hfit : 1 + FileName.length + (FuncName.map (fun fn => 1 + fn.length)).getD 0 + 1
      + IdentStr.length ≤ 255)
    (h : VariableDefineButIgnoreIdentical fuel pc Parser Ident Typ true false
      = some (Exit.ret (v, true), pc1)) :
    ∃ (m k : Nat) (e e2 : TableEntry) (ev av : Value) (Tbl1 : Table),
      TableSearchIdentifier pc1
          (['/'] ++ FileName ++ (FuncName.map (fun fn => '/' :: fn)).getD [] ++ ['/'] ++ IdentStr)
        = some m
      ∧ TableGet pc.GlobalTable m = none
      ∧ TableGet pc1.GlobalTable m = some e ∧ e.Val = v
      ∧ pc1.vals v = some ev ∧ ev.Typ = Typ
      ∧ TableSearchIdentifier pc1 IdentStr = some k
      ∧ currentTable pc1 = some Tbl1 ∧ TableGet Tbl1 k = some e2
      ∧ pc1.vals e2.Val = some av ∧ av.Typ = ev.Typ ∧ av.Val = ev.Val := by
  rw [← mangledName_fits FileName FuncName IdentStr hfit]
  unfold VariableDefineButIgnoreIdentical at h
  split at h
  · cases h
  · cases h
  · simp only [if_true] at h
    rw [hF, hI, hFn] at h
    simp only at h
    split at h
    · cases h
    · cases h
    · rename_i m pcA hreg
      obtain ⟨r1, r2, r3, r4, r5, r6, r7, r8⟩ := TableStrRegister_effect hreg
      split at h
      · cases h
      · cases h
      · rename_i EV FV2 pc4 hfound
        split at h
        · cases h
        · rename_i ev hev
          split at h
          · cases h
          · cases h
          · rename_i pc5 hdef
            simp only [Option.some.injEq, Prod.mk.injEq, Exit.ret.injEq] at h
            obtain ⟨⟨rfl, rfl⟩, rfl⟩ := h
            -- the branch taken is the one of the first visit
            split at hfound
            · rename_i e he
              simp only [Option.some.injEq, Prod.mk.injEq, Exit.ret.injEq] at hfound
              obtain ⟨⟨_, hff⟩, _⟩ := hfound
              cases hff
            · rename_i hnone
              split at hfound
              · cases hfound
              · cases hfound
              · rename_i EV2 pcB halloc
                obtain ⟨⟨b1, b2, b3, b4, b5, b6⟩, _, _⟩ :=
                  VariableAllocValueFromType_fields halloc
                obtain ⟨hdr, hh1, hh2, _, _, _, _⟩ := VariableAllocValueFromType_header halloc
                split at hfound
                · cases hfound
                · cases hfound
                · rename_i ok TblG pcC hset
                  obtain ⟨⟨s1, s2, s3, s4, s5, s6⟩, sv, _, sok⟩ := TableSet_effect hset
                  simp only [Option.some.injEq, Prod.mk.injEq, Exit.ret.injEq] at hfound
                  obtain ⟨⟨rfl, _⟩, rfl⟩ := hfound
                  have hG : pcB.GlobalTable = pc.GlobalTable := b1.trans r1
                  have hn : TableSearch pcB.GlobalTable m = none := by
                    rw [b1]; exact hnone
                  obtain ⟨_, hTG⟩ := sok hn
                  obtain ⟨NewG, hTG, hNK, hNV⟩ : ∃ New : TableEntry,
                      TblG = { pcB.GlobalTable with HashTable :=
                        (List.set pcB.GlobalTable.HashTable (m % pcB.GlobalTable.Size)
                          (New :: pcB.GlobalTable.HashTable.getD (m % pcB.GlobalTable.Size) [])) }
                      ∧ New.Key = m ∧ New.Val = EV2 := ⟨_, hTG, rfl, rfl⟩
                  have hE : TableSearch TblG m = some NewG := by
                    rw [hTG, ← hNK]
                    exact TableSearch_set_same pcB.GlobalTable NewG (by
                      rw [hG, hwf]
                      exact Nat.mod_lt _ hsz)
                  have hev2 : ev = hdr := by
                    have : pcC.vals EV2 = some hdr := by rw [sv]; exact hh1
                    have hev3 : pcC.vals EV2 = some ev := hev
                    rw [this] at hev3
                    exact (Option.some.inj hev3).symm
                  subst hev2
                  have htop : pcC.TopStackFrame = pc.TopStackFrame :=
                    s2.trans (b2.trans r2)
                  -- the current table before the alias is defined
                  have hcur : ∃ T4, currentTable { pcC with GlobalTable := TblG } = some T4
                      ∧ T4.HashTable.length = T4.Size ∧ 0 < T4.Size := by
                    by_cases h0 : pc.TopStackFrame = 0
                    · refine ⟨TblG, ?_, ?_, ?_⟩
                      · unfold currentTable
                        rw [if_pos (htop.trans h0)]
                      · rw [hTG]
                        simp only [List.length_set]
                        rw [hG]
                        exact hwf
                      · rw [hTG]
                        show 0 < pcB.GlobalTable.Size
                        rw [hG]
                        exact hsz
                    · refine ⟨Tbl, ?_, hwfT, hszT⟩
                      refine Eq.trans ?_ hT
                      unfold currentTable
                      rw [if_neg (fun h => h0 (htop.symm.trans h)), if_neg h0]
                      show (pcC.frames pcC.TopStackFrame).map _ = _
                      rw [htop, s3, b3, r3]
                  obtain ⟨T4, hT4, hwf4, hsz4⟩ := hcur
                  obtain ⟨k, v2, Str, Tbl1, e2, d1, d2, d3, d4, d5, _, d7, d8, _, _, _, d12⟩ :=
                    VariableDefinePlatformVar_binds hT4 hwf4 hsz4 hdef
                  obtain ⟨_, _, _, d4k, _⟩ := VariableDefinePlatformVar_effect hdef
                  have hkeep := VariableDefinePlatformVar_keeps hdef m NewG hE
                  have hStr : Str = IdentStr := by
                    have : pc.strings Ident = some Str := by
                      rw [← r8 Ident (by rw [hI]; rfl)]
                      rw [← b4, ← s4]
                      exact d1
                    rw [hI] at this
                    exact (Option.some.inj this).symm
                  subst hStr
                  have hne : EV2 ≠ v2 := by
                    intro he
                    rw [← he] at d7
                    have : pcC.vals EV2 = some ev := hev
                    rw [this] at d7
                    cases d7
                  have hsearch : TableSearchIdentifier { pcC with GlobalTable := TblG }
                      (mangledName FileName FuncName Str) = some m := by
                    refine Eq.trans ?_ r6
                    unfold TableSearchIdentifier
                    simp only [s4, s5, b4, b5]
                  refine ⟨m, k, NewG, e2, ev, Value.mk ev.Typ ev.Val 0 true false false true 0 false, Tbl1,
                    d4k _ _ hsearch, ?_, hkeep, hNV, ?_, hh2,
                    d2, d3, d4, ?_, rfl, rfl⟩
                  · rw [← r1]; exact hnone
                  · rw [d12 EV2 hne]
                    exact hev
                  · rw [d5]
                    exact d8

/-- C26 at a concrete input: `static int x;` of the file `a.c` is executed for the first
time in the function `f`.  The name `/a.c/f/x` is bound in the global table to the
returned value, and `x` is bound in the local table to a value with its type and payload
pointer. -/
theorem C26_static_declaration_binding_witness :
    ∃ (m k : Nat) (e e2 : TableEntry) (ev av : Value) (Tbl1 : Table),
      TableSearchIdentifier exStaticF1 ['/', 'a', '.', 'c', '/', 'f', '/', 'x'] = some m
      ∧ TableGet exStaticF1.GlobalTable m = some e ∧ e.Val = 10100
      ∧ exStaticF1.vals 10100 = some ev ∧ ev.Typ = TypePtr.field TypeField.IntType
      ∧ TableSearchIdentifier exStaticF1 ['x'] = some k
      ∧ currentTable exStaticF1 = some Tbl1 ∧ TableGet Tbl1 k = some e2
      ∧ exStaticF1.vals e2.Val = some av ∧ av.Typ = ev.Typ ∧ av.Val = ev.Val := by
  obtain ⟨m, k, e, e2, ev, av, Tbl1, h1, _, h3, h4, h5, h6, h7, h8, h9, h10, h11, h12⟩ :=
    C26_static_declaration_binding 2 exStaticF exParser 52 (TypePtr.field TypeField.IntType)
      10100 exStaticF1 ['a', '.', 'c'] ['x'] (some ['f']) (emptyTable LOCAL_TABLE_SIZE false)
      (by rfl) (by decide) (by rfl) (by rfl) (by decide) (by rfl) (by rfl) (by rfl) (by decide)
      (by rfl)
  exact ⟨m, k, e, e2, ev, av, Tbl1, h1, h3, h4, h5, h6, h7, h8, h9, h10, h11, h12⟩

/-! ## C27: platform variables alias host memory -/

/-- The lookup of an identifier that the current table binds returns the value of the
entry. -/
theorem VariableGet_bound {pc : Picoc} {Tbl : Table} {k : Nat} {e : TableEntry}
    (hT : currentTable pc = some Tbl) (hget : TableGet Tbl k = some e) :
    VariableGet pc k = some (Exit.ret e.Val, pc) := by
  unfold VariableGet
  rw [hT]
  simp only
  by_cases h0 : pc.TopStackFrame = 0
  · rw [if_pos h0]
    simp only
    unfold currentTable at hT
    rw [if_pos h0] at hT
    rw [Option.some.inj hT, hget]
  · rw [if_neg h0, hget]

/-- C27 (platform variables alias host memory): after a `VariableDefinePlatformVar` that
returned, on a well-formed current table, `VariableGet` of the registered identifier
returns a value whose type is the type of the call, whose payload pointer is the cell of
the call and whose lvalue flag is the flag of the call.  A further definition of the same
name in that table, once its header has been allocated, fails with "already defined" and
leaves the binding and the value as they are. -/
theorem C27_platform_var_aliases (pc : Picoc) (Parser : Option ParseState) (Ident : Nat)
    (Typ : TypePtr) (FromValue : Nat) (IsWritable : Bool) (Tbl : Table) (pc5 : Picoc)
    (hT : currentTable pc = some Tbl) (hwf : Tbl.HashTable.length = Tbl.Size)
    (hsz : 0 < Tbl.Size)
    (h : VariableDefinePlatformVar pc Parser Ident Typ FromValue IsWritable
      = some (Exit.ret (), pc5)) :
    ∃ (k v : Nat) (Str : List Char) (hdr : Value),
      pc.strings Ident = some Str ∧ TableSearchIdentifier pc5 Str = some k
      ∧ VariableGet pc5 k = some (Exit.ret v, pc5)
      ∧ pc5.vals v = some hdr ∧ hdr.Typ = Typ ∧ hdr.Val = FromValue ∧ hdr.IsLValue = IsWritable
      ∧ ∀ (Parser2 : Option ParseState) (Ident2 : Nat) (Typ2 : TypePtr) (FromValue2 : Nat)
          (IsWritable2 : Bool) (a : Nat) (pcA : Picoc),
          pc5.strings Ident2 = some Str →
          VariableAllocValueAndData pc5 none 0 IsWritable2 0 true = some (Exit.ret a, pcA) →
          ∃ pc6, VariableDefinePlatformVar pc5 Parser2 Ident2 Typ2 FromValue2 IsWritable2
              = some (Exit.fail Failure.AlreadyDefined, pc6)
            ∧ VariableGet pc6 k = some (Exit.ret v, pc6) ∧ pc6.vals v = some hdr := by
  obtain ⟨k, v, Str, Tbl1, e, b1, b2, b3, b4, b5, _, _, b8, _, _, _, _⟩ :=
    VariableDefinePlatformVar_binds hT hwf hsz h
  subst b5
  refine ⟨k, e.Val, Str, _, b1, b2, VariableGet_bound b3 b4, b8, rfl, rfl, rfl, ?_⟩
  intro Parser2 Ident2 Typ2 FromValue2 IsWritable2 a pcA hS2 halloc
  obtain ⟨pc6, c1, c2, _, c4⟩ := @VariableDefinePlatformVar_bound pc5 pcA Parser2 Ident2 Typ2
    FromValue2 IsWritable2 Tbl1 Str k a e hS2 b2 b3 b4 halloc
  obtain ⟨_, hnew⟩ := VariableAllocValueAndData_header halloc
  have hne : e.Val ≠ a := by
    intro he
    rw [he, (hnew rfl).2] at b8
    cases b8
  exact ⟨pc6, c1, VariableGet_bound c2 b4, (c4 _ hne).trans b8⟩

/-- C27 at a concrete input: the platform variable `x` on the host cell at 9000 is defined
at file scope and looked up, and a second definition of `x` fails. -/
theorem C27_platform_var_aliases_witness :
    VariableGet exPlatform 52 = some (Exit.ret 10000, exPlatform)
      ∧ (exPlatform.vals 10000).map (fun v => (v.Typ, v.Val, v.IsLValue))
        = some (TypePtr.field TypeField.IntType, 9000, true)
      ∧ ∃ pc6, VariableDefinePlatformVar exPlatform none 52 (TypePtr.field TypeField.IntType)
          9008 false = some (Exit.fail Failure.AlreadyDefined, pc6)
        ∧ VariableGet pc6 52 = some (Exit.ret 10000, pc6) := by
  obtain ⟨k, v, Str, hdr, w1, w2, w3, w4, w5, w6, w7, w8⟩ := C27_platform_var_aliases exStatic none
    52 (TypePtr.field TypeField.IntType) 9000 true exStatic.GlobalTable exPlatform (by rfl)
    (by rfl) (by decide) (by rfl)
  have hS : Str = ['x'] := by
    have : exStatic.strings 52 = some ['x'] := by rfl
    rw [this] at w1
    exact (Option.some.inj w1).symm
  subst hS
  have hk : k = 52 := by
    have : TableSearchIdentifier exPlatform ['x'] = some 52 := by rfl
    rw [this] at w2
    exact (Option.some.inj w2).symm
  subst hk
  have hv : v = 10000 := by
    have : VariableGet exPlatform 52 = some (Exit.ret 10000, exPlatform) := by rfl
    rw [this] at w3
    simp only [Option.some.injEq, Prod.mk.injEq, Exit.ret.injEq, and_true] at w3
    exact w3.symm
  subst hv
  refine ⟨w3, ?_, ?_⟩
  · rw [w4, Option.map_some', w5, w6, w7]
  · obtain ⟨pc6, g1, g2, _⟩ := w8 none 52 (TypePtr.field TypeField.IntType) 9008 false 10200
      exPlatformAlloc (by rfl) (by rfl)
    exact ⟨pc6, g1, g2⟩

/-! ## C28: the scope id of a platform variable -/

/-- C28 at a concrete input: the platform variable `x`, defined with a null parser on the
host cell at 9000, gets a header with the scope id 0, where `VariableDefine` with a null
parser gives the scope id -1; the end of a block whose scope id is 0, the id which
`VariableScopeBegin` computes for a parser without source text, marks the header out of
scope, and the lookup of `x`, which returned the header before, then fails. -/
theorem C28_platform_var_has_scope_zero :
    VariableDefinePlatformVar exStatic none 52 (TypePtr.field TypeField.IntType) 9000 true
        = some (Exit.ret (), exPlatform)
      ∧ TableGet exPlatform.GlobalTable 52
        = some { DeclFileName := 0, DeclLine := 0, DeclColumn := 0, Key := 52, Val := 10000 }
      ∧ (exPlatform.vals 10000).map (fun v => (v.Val, v.ScopeID, v.OutOfScope))
        = some (9000, 0, false)
      ∧ VariableDefine exStatic none 52 0 (TypePtr.field TypeField.IntType) true
        = some (Exit.ret 10000, exDefinedNoParser)
      ∧ (exDefinedNoParser.vals 10000).map (fun v => v.ScopeID) = some (-1)
      ∧ VariableScopeBegin exPlatform exParserNoText 0
        = some (Exit.ret (0, { exParserNoText with ScopeID := 0 }, 77), exPlatform)
      ∧ VariableScopeEnd exPlatform { exParserNoText with ScopeID := 0 } 0 77
        = some (Exit.ret exParserNoText, exPlatformHidden)
      ∧ (exPlatformHidden.vals 10000).map (fun v => (v.Val, v.ScopeID, v.OutOfScope))
        = some (9000, 0, true)
      ∧ VariableGet exPlatform 52 = some (Exit.ret 10000, exPlatform)
      ∧ VariableGet exPlatformHidden 52 = some (Exit.fail Failure.OutOfScope, exPlatformHidden) :=
  ⟨by rfl, by rfl, by rfl, by rfl, by rfl, by rfl, by rfl, by rfl, by rfl, by rfl⟩

/-! ## C29: the room of a copied scalar -/

/-- C29 at a concrete input: the copy of an `int` value made on the heap by
`VariableAllocValueAndCopy` gets a block of 44 bytes, the 40 of the header and the 4 of the
compact size, so that its payload, at offset 40, has 4 bytes of room and not the 8 of one
alignment unit: the allocator clears only the bytes up to offset 44, and a block which ends
where the arena starts, 4 bytes after the payload starts, is taken. The value made from the
type `int` by `VariableAllocValueFromType` gets 48 bytes, and so does the copy made on the
stack, where the size of the block is rounded up. -/
theorem C29_copy_on_heap_has_compact_room :
    TypeSizeValue exNoisy.types (exScopeValue 30040 77 false) true = some 4
      ∧ TypeSize exNoisy.types (TypePtr.field TypeField.IntType) 0 false = some 8
      ∧ VariableAllocValueAndCopy exNoisy none 30000 true = some (Exit.ret 10000, exNoisyCopy)
      ∧ (exNoisyCopy.vals 10000).map (fun v => v.Val) = some 10040
      ∧ (List.range 8).map (fun k => exNoisyCopy.arena.Memory (10040 + k))
        = [7, 0, 0, 0, 255, 255, 255, 255]
      ∧ VariableAllocValueFromType exNoisy none (TypePtr.field TypeField.IntType) true 0 true
        = some (Exit.ret 10000, exNoisyFromType)
      ∧ (exNoisyFromType.vals 10000).map (fun v => v.Val) = some 10040
      ∧ (List.range 9).map (fun k => exNoisyFromType.arena.Memory (10040 + k))
        = [0, 0, 0, 0, 0, 0, 0, 0, 255]
      ∧ VariableAllocValueAndCopy exTight none 30000 true = some (Exit.ret 4052, exTightCopy)
      ∧ (exTightCopy.vals 4052).map (fun v => v.Val) = some 4092
      ∧ exTightCopy.arena.HeapMemory = 4096
      ∧ VariableAllocValueAndCopy exNoisy none 30000 false = some (Exit.ret 4096, exNoisyStack)
      ∧ (exNoisyStack.vals 4096).map (fun v => v.Val) = some 4136
      ∧ exNoisyStack.arena.HeapStackTop = 4144 :=
  ⟨by rfl, by rfl, by rfl, by rfl, by rfl, by rfl, by rfl, by rfl, by rfl, by rfl, by rfl,
    by rfl, by rfl, by rfl⟩

/-! ## C30: members of a forward-declared type -/

/-- C30 at a concrete input: after `struct A;`, for which `TypeIsForwardDeclared` answers
true, `TypeParseStruct` returns for `struct B { struct A a; struct A *p; };` without a type
error and binds both `a`, of the type `struct A`, and `p`, of the type `struct A *`, as
members, while the definition of a variable of the type `struct A` fails with "type not
defined". -/
theorem C30_forward_declared_member_accepted :
    TypeParseStruct exS exParser 44 false ⟨TypePtr.null, 0, false⟩ [] true
        = some (Exit.ret (TypePtr.heap 20000), exFwdA)
      ∧ (exFwdAPtr.types (TypePtr.heap 20000)).map (fun t => (t.Base, t.Members))
        = some (BaseType.TypeStruct, TablePtr.null)
      ∧ TypeIsForwardDeclared exFwdAPtr.types 2 (TypePtr.heap 20000) = some true
      ∧ TypeParseStruct exFwdAPtr exParser 48 true ⟨TypePtr.heap 20000, 52, true⟩
          [⟨TypePtr.heap 20100, 56, true⟩] true
        = some (Exit.ret (TypePtr.heap 20200), exAfterFwdMember)
      ∧ (exAfterFwdMember.tables 20300).map (fun t => (TableGet t 52, TableGet t 56))
        = some (some { DeclFileName := 32, DeclLine := 3, DeclColumn := 5, Key := 52, Val := 20400 },
                some { DeclFileName := 32, DeclLine := 3, DeclColumn := 5, Key := 56, Val := 20600 })
      ∧ (exAfterFwdMember.vals 20400).map (fun v => v.Typ) = some (TypePtr.heap 20000)
      ∧ (exAfterFwdMember.vals 20600).map (fun v => v.Typ) = some (TypePtr.heap 20100)
      ∧ (exAfterFwdMember.types (TypePtr.heap 20000)).map (fun t => t.Members)
        = some TablePtr.null
      ∧ VariableDefineButIgnoreIdentical 2 exFwdAPtr exParser 52 (TypePtr.heap 20000) false false
        = some (Exit.fail Failure.TypeNotDefined, exFwdAPtr) :=
  ⟨by rfl, by rfl, by rfl, by rfl, by rfl, by rfl, by rfl, by rfl, by rfl⟩

/-! ## C31: a static declaration executed again in place -/

/-- A static declaration that is executed again (its mangled name is registered and bound
in the global table) while the current table binds its registered short name does not
return a value: every result of the call is a failure. -/
theorem VariableDefineButIgnoreIdentical_alias_bound {fuel : Nat} {pc pc1 : Picoc}
    {Parser : ParseState} {Ident : Nat} {Typ : TypePtr} {FirstVisit : Bool}
    {r : Exit (Nat × Bool)} {FileName IdentStr : List Char} {FuncName : Option (List Char)}
    {Tbl : Table} {m : Nat} {e e0 : TableEntry}
    (hT : currentTable pc = some Tbl) (hwf : Tbl.HashTable.length = Tbl.Size)
    (hsz : 0 < Tbl.Size)
    (hF : pc.strings Parser.FileName = some FileName) (hI : pc.strings Ident = some IdentStr)
    (hFn : enclosingFuncName pc = some FuncName)
    (hm : TableSearchIdentifier pc (mangledName FileName FuncName IdentStr) = some m)
    (hglob : TableGet pc.GlobalTable m = some e)
    (hcanon : TableSearchIdentifier pc IdentStr = some Ident)
    (hbound : TableGet Tbl Ident = some e0)
    (h : VariableDefineButIgnoreIdentical fuel pc Parser Ident Typ true FirstVisit
      = some (r, pc1)) : ∃ f, r = Exit.fail f := by
  unfold VariableDefineButIgnoreIdentical at h
  split at h
  · cases h
  · cases h
    exact ⟨_, rfl⟩
  simp only [if_true] at h
  rw [hF, hI, hFn] at h
  simp only at h
  have hreg : TableStrRegister pc (mangledName FileName FuncName IdentStr)
      = some (Exit.ret m, pc) := by
    unfold TableStrRegister
    rw [hm]
  rw [hreg] at h
  simp only at h
  rw [hglob] at h
  simp only at h
  split at h
  · cases h
  rename_i ev hev
  split at h
  · cases h
  · cases h
    exact ⟨_, rfl⟩
  · rename_i u pc5 hdef
    cases u
    obtain ⟨k, v, Str, Tbl1, e1, b1, b2, -, -, -, b6, -⟩ :=
      VariableDefinePlatformVar_binds hT hwf hsz hdef
    rw [hI] at b1
    cases b1
    obtain ⟨-, -, -, b4, -⟩ := VariableDefinePlatformVar_effect hdef
    have := b4 _ _ hcanon
    rw [b2] at this
    cases this
    rw [hbound] at b6
    cases b6

/-- C31 at a concrete input: `static int x;` is executed in the function `f`, which binds
the mangled name in the global table and the alias `x` in the local table; executed again
at the same site while the alias is bound, as in the second round of a loop, the call
finds the mangled name and then fails in `VariableDefinePlatformVar` with "already
defined".  The same happens at file scope.  The declaration `int x;` without `static`,
executed again at the same site, returns the existing value. -/
theorem C31_static_reexecuted_in_place_fails :
    VariableDefineButIgnoreIdentical 2 exStaticF exParser 52 (TypePtr.field TypeField.IntType)
        true false = some (Exit.ret (10100, true), exStaticF1)
      ∧ (exStaticF1.frames 20000).map (fun f => TableGet f.LocalTable 52)
        = some (some { DeclFileName := 32, DeclLine := 3, DeclColumn := 5, Key := 52,
                       Val := 10300 })
      ∧ TableGet exStaticF1.GlobalTable 10024
        = some { DeclFileName := 32, DeclLine := 3, DeclColumn := 5, Key := 10024,
                 Val := 10100 }
      ∧ (VariableDefineButIgnoreIdentical 2 exStaticF1 exParser 52
          (TypePtr.field TypeField.IntType) true false).map (fun r => r.1)
        = some (Exit.fail Failure.AlreadyDefined)
      ∧ VariableDefineButIgnoreIdentical 2 exStatic exParser 52 (TypePtr.field TypeField.IntType)
          true false = some (Exit.ret (10100, true), exStatic1)
      ∧ (VariableDefineButIgnoreIdentical 2 exStatic1 exParser 52
          (TypePtr.field TypeField.IntType) true false).map (fun r => r.1)
        = some (Exit.fail Failure.AlreadyDefined)
      ∧ VariableDefineButIgnoreIdentical 2 exStaticF exParser 52 (TypePtr.field TypeField.IntType)
          false false = some (Exit.ret (4096, false), exDefinedF)
      ∧ VariableDefineButIgnoreIdentical 2 exDefinedF exParser 52
          (TypePtr.field TypeField.IntType) false false
        = some (Exit.ret (4096, false), exDefinedF) :=
  ⟨by rfl, by rfl, by rfl, by rfl, by rfl, by rfl, by rfl, by rfl⟩

/-! ## C32: the report of the first visit -/

/-- C32, the counterexample: the static `x` of the function `f` is bound under its mangled
name `/a.c/f/x`; the declaration is executed in a later call of `f` with `*FirstVisit`
true on entry, and `*FirstVisit` is true on return although the mangled name was bound
before the call. -/
theorem C32_first_visit_flag_is_not_cleared :
    TableSearchIdentifier exStaticF2 ['/', 'a', '.', 'c', '/', 'f', '/', 'x'] = some 10024
      ∧ TableGet exStaticF2.GlobalTable 10024
        = some { DeclFileName := 32, DeclLine := 3, DeclColumn := 5, Key := 10024,
                 Val := 10100 }
      ∧ VariableDefineButIgnoreIdentical 2 exStaticF2 exParser 52
          (TypePtr.field TypeField.IntType) true true
        = some (Exit.ret (10100, true), exStaticF3)
      ∧ VariableDefineButIgnoreIdentical 2 exStaticF2 exParser 52
          (TypePtr.field TypeField.IntType) true false
        = some (Exit.ret (10100, false), exStaticF3) :=
  ⟨by rfl, by rfl, by rfl, by rfl⟩

/-- C32, amended: on return from `VariableDefineButIgnoreIdentical` for a static
declaration, `*FirstVisit` is true if and only if it was true on entry or the mangled name,
which the call has registered, was not bound in the global table before the call. -/
theorem C32_first_visit_report (fuel : Nat) (pc : Picoc) (Parser : ParseState) (Ident : Nat)
    (Typ : TypePtr) (FirstVisit FirstVisit1 : Bool) (v : Nat) (pc1 : Picoc)
    (FileName IdentStr : List Char) (FuncName : Option (List Char))
    (hF : pc.strings Parser.FileName = some FileName) (hI : pc.strings Ident = some IdentStr)
    (hFn : enclosingFuncName pc = some FuncName)
    (h : VariableDefineButIgnoreIdentical fuel pc Parser Ident Typ true FirstVisit
      = some (Exit.ret (v, FirstVisit1), pc1)) :
    ∃ m pc0, TableStrRegister pc (mangledName FileName FuncName IdentStr)
        = some (Exit.ret m, pc0)
      ∧ (FirstVisit1 = true ↔ FirstVisit = true ∨ TableGet pc.GlobalTable m = none) := by
  unfold VariableDefineButIgnoreIdentical at h
  split at h
  · cases h
  · cases h
  simp only [if_true] at h
  rw [hF, hI, hFn] at h
  simp only at h
  split at h
  · cases h
  · cases h
  rename_i m pc0 hreg
  obtain ⟨hG, -⟩ := TableStrRegister_effect hreg
  refine ⟨m, pc0, hreg, ?_⟩
  rw [← hG]
  cases hg : TableGet pc0.GlobalTable m with
  | some e =>
    rw [hg] at h
    simp only at h
    split at h
    · cases h
    split at h
    · cases h
    · cases h
    · simp only [Option.some.injEq, Prod.mk.injEq, Exit.ret.injEq] at h
      obtain ⟨⟨-, rfl⟩, -⟩ := h
      simp
  | none =>
    rw [hg] at h
    simp only at h
    split at h
    · cases h
    · cases h
    rename_i EV FV1 pc4 hfound
    have hFV : FV1 = true := by
      split at hfound
      · cases hfound
      · cases hfound
      split at hfound
      · cases hfound
      · cases hfound
      simp only [Option.some.injEq, Prod.mk.injEq, Exit.ret.injEq] at hfound
      exact hfound.1.2.symm
    split at h
    · cases h
    split at h
    · cases h
    · cases h
    simp only [Option.some.injEq, Prod.mk.injEq, Exit.ret.injEq] at h
    obtain ⟨⟨-, rfl⟩, -⟩ := h
    simp [hFV]

/-- C32, amended, at a concrete input: the first execution of `static int x;` in `f`, with
`*FirstVisit` false on entry, returns with `*FirstVisit` true, and the mangled name was not
bound before. -/
theorem C32_first_visit_report_witness :
    ∃ m pc0, TableStrRegister exStaticF (mangledName ['a', '.', 'c'] (some ['f']) ['x'])
        = some (Exit.ret m, pc0)
      ∧ (true = true ↔ false = true ∨ TableGet exStaticF.GlobalTable m = none) :=
  C32_first_visit_report 2 exStaticF exParser 52 (TypePtr.field TypeField.IntType) false true
    10100 exStaticF1 ['a', '.', 'c'] ['x'] (some ['f']) (by rfl) (by rfl) (by rfl) (by rfl)

/-! ## C33: the bytes that `HeapAllocStack` clears -/

/-- C33, the counterexample: a block of eight bytes is allocated, filled with the byte 255
by the program and popped; `HeapAllocStack(3)` then reserves the same eight bytes,
`MEM_ALIGN(3)`, and clears the first three only: the five bytes of padding still hold
255. -/
theorem C33_padding_is_not_cleared :
    HeapAllocStack exArena 8 = some (exArenaAlloc8, 4096)
      ∧ HeapPopStack exArenaUsed 8 = some (exArenaUsedPopped, true)
      ∧ exArenaUsedPopped.HeapStackTop = 4096
      ∧ HeapAllocStack exArenaUsedPopped 3 = some (exArenaReused, 4096)
      ∧ exArenaReused.HeapStackTop = 4096 + MEM_ALIGN 3 ∧ MEM_ALIGN 3 = 8
      ∧ (List.range 8).map (fun k => exArenaReused.Memory (4096 + k))
        = [0, 0, 0, 255, 255, 255, 255, 255] :=
  ⟨by rfl, by rfl, by rfl, by rfl, by rfl, by rfl, by rfl⟩

/-- C33, amended: after a successful `HeapAllocStack(Size)` the `Size` bytes at the returned
address are zero, the stack top is `MEM_ALIGN(Size)` bytes above it, and every other byte
of memory, the padding up to `MEM_ALIGN(Size)` among them, holds what it held before. -/
theorem C33_requested_bytes_are_cleared (pc pc2 : Arena) (Size : Int) (p : Nat)
    (hS : 0 ≤ Size) (hI : Size ≤ INT_MAX) (h : HeapAllocStack pc Size = some (pc2, p))
    (hp : p ≠ 0) :
    p = pc.HeapStackTop ∧ pc2.HeapStackTop = p + MEM_ALIGN Size.toNat
      ∧ (∀ k, k < Size.toNat → pc2.Memory (p + k) = 0)
      ∧ ∀ x, x < p ∨ p + Size.toNat ≤ x → pc2.Memory x = pc.Memory x := by
  have hsz : toSizeT Size = Size.toNat := by
    have := toSizeT_of_nonneg Size hS hI
    omega
  unfold HeapAllocStack at h
  simp only at h
  split at h
  · cases h
  split at h
  · simp only [Option.some.injEq, Prod.mk.injEq] at h
    exact absurd h.2.symm hp
  split at h
  · cases h
  simp only [Option.some.injEq, Prod.mk.injEq] at h
  obtain ⟨rfl, rfl⟩ := h
  rw [hsz]
  refine ⟨rfl, rfl, fun k hk => ?_, fun x hx => ?_⟩
  · show memset pc.Memory pc.HeapStackTop 0 Size.toNat (pc.HeapStackTop + k) = 0
    unfold memset
    rw [if_pos ⟨Nat.le_add_right _ _, by omega⟩]
  · show memset pc.Memory pc.HeapStackTop 0 Size.toNat x = pc.Memory x
    unfold memset
    rw [if_neg (by omega)]

/-- C33, amended, at a concrete input: `HeapAllocStack(3)` on the arena whose first block
was used and popped returns 4096 with the three bytes from 4096 cleared and the byte at
4099 as it was. -/
theorem C33_requested_bytes_are_cleared_witness :
    HeapAllocStack exArenaUsedPopped 3 = some (exArenaReused, 4096)
      ∧ (∀ k, k < 3 → exArenaReused.Memory (4096 + k) = 0)
      ∧ exArenaReused.Memory 4099 = exArenaUsedPopped.Memory 4099 := by
  have h : HeapAllocStack exArenaUsedPopped 3 = some (exArenaReused, 4096) := by rfl
  obtain ⟨-, -, h3, h4⟩ :=
    C33_requested_bytes_are_cleared exArenaUsedPopped exArenaReused 3 4096 (by decide)
      (by decide) h
      (by decide)
  exact ⟨h, h3, h4 4099 (Or.inr (by decide))⟩

/-! ## C34: array suffixes -/

/-- Without a `[` at the cursor `TypeParseBack` returns the type it was given and leaves
the parser and the instance as they were. -/
theorem TypeParseBack_no_bracket (buf : TokenBuffer) (fuel : Nat) (pc : Picoc)
    (Parser : ParseState) (FromType : TypePtr)
    (h : (buf Parser.Pos).Token ≠ LexToken.TokenLeftSquareBracket) :
    TypeParseBack buf (fuel + 1) pc Parser FromType = some (Exit.ret (FromType, Parser), pc) := by
  unfold TypeParseBack
  simp only
  rw [if_neg (by exact h)]
  rfl

/-- C34 at a concrete input, the instance after `TypeInit`: for the base type `char` and
the suffix `[]` (as in `char s[];`) `TypeParseBack` returns the node `char []` that
`TypeInit` made, `pc->CharArrayType`, whose array size is 0 and whose `Sizeof` is 1, not 0
times the size of `char`.  For the base type `int` the same suffix gives a new node with
the array size 0 and the size 0, and the suffix `[2][3]` gives array-of-2 of array-of-3 of
`int` with the sizes 24 and 12.  Without a `[` the type is returned and the parser is
where it was. -/
theorem C34_unsized_char_array_has_size_one :
    TypeInit exBlank = some (Exit.ret (), exTyped)
      ∧ exS.types = exTyped.types ∧ exS.CharArrayType = TypePtr.heap 10000
      ∧ TypeParseBack exUnsized 3 exS exParser (TypePtr.field TypeField.CharType)
        = some (Exit.ret (TypePtr.heap 10000,
            { exParser with Pos := 70004, CharacterPos := 7 }), exS)
      ∧ (exS.types (TypePtr.heap 10000)).map
          (fun t => (t.Base, t.ArraySize, t.Sizeof, t.FromType))
        = some (BaseType.TypeArray, 0, 1, TypePtr.field TypeField.CharType)
      ∧ (exS.types (TypePtr.field TypeField.CharType)).map (fun t => t.Sizeof) = some 1
      ∧ TypeParseBack exUnsized 3 exS exParser (TypePtr.field TypeField.IntType)
        = some (Exit.ret (TypePtr.heap 20000,
            { exParser with Pos := 70004, CharacterPos := 7 }), exAfterIntUnsized)
      ∧ (exAfterIntUnsized.types (TypePtr.heap 20000)).map
          (fun t => (t.Base, t.ArraySize, t.Sizeof, t.FromType))
        = some (BaseType.TypeArray, 0, 0, TypePtr.field TypeField.IntType)
      ∧ TypeParseBack exTwoByThree 3 exS exParser (TypePtr.field TypeField.IntType)
        = some (Exit.ret (TypePtr.heap 20100,
            { exParser with Pos := 70012, CharacterPos := 11 }), exAfterTwoByThree)
      ∧ (exAfterTwoByThree.types (TypePtr.heap 20100)).map
          (fun t => (t.Base, t.ArraySize, t.Sizeof, t.FromType))
        = some (BaseType.TypeArray, 2, 24, TypePtr.heap 20000)
      ∧ (exAfterTwoByThree.types (TypePtr.heap 20000)).map
          (fun t => (t.Base, t.ArraySize, t.Sizeof, t.FromType))
        = some (BaseType.TypeArray, 3, 12, TypePtr.field TypeField.IntType)
      ∧ TypeParseBack exNoSuffix 3 exS exParser (TypePtr.field TypeField.IntType)
        = some (Exit.ret (TypePtr.field TypeField.IntType, exParser), exS) :=
  ⟨by rfl, by rfl, by rfl, by rfl, by rfl, by rfl, by rfl, by rfl, by rfl, by rfl, by rfl,
    by rfl⟩

/-! ## C35: nested declarators -/

/-- With a base type, `TypeParseIdentPart` fails at an open bracket that starts the
declarator with "bad type declaration", whatever follows and whatever the nested call of
`TypeParse` would do. -/
theorem identPart_open_bracket (Rec : Picoc → ParseState → Call (TypePtr × Nat × ParseState))
    (buf : TokenBuffer) (fuel : Nat) (pc : Picoc) (Parser : ParseState) (BasicTyp : TypePtr)
    (hT : BasicTyp ≠ TypePtr.null)
    (hB : (buf Parser.Pos).Token = LexToken.TokenOpenBracket) :
    identPart Rec buf (fuel + 1) pc Parser BasicTyp
      = some (Exit.fail Failure.BadTypeDeclaration, pc) := by
  unfold identPart identLoop
  simp only
  rw [if_pos (by exact hB), if_pos hT]

/-- C35 as stated, at a concrete input, the instance after `TypeInit`: for the tokens `int (*p);`
`TypeParseFront` returns the base type `int`, and `TypeParseIdentPart`, and with it
`TypeParse`, then fails at the open bracket with "bad type declaration"; so does
`TypeParse` for `int (*a)[3];`.  The declaration `int *p;` is parsed and gives the type
`int *` and the identifier `p`. -/
theorem C35_parenthesized_declarator_rejected :
    TypeParseFront exNoNamed exNested 3 exS exParser
        = some (Exit.ret (true, TypePtr.field TypeField.IntType, false,
            { exParser with Pos := 70002, CharacterPos := 6 }), exS)
      ∧ TypeParseIdentPart exNoNamed exNested 3 exS
          { exParser with Pos := 70002, CharacterPos := 6 } (TypePtr.field TypeField.IntType)
        = some (Exit.fail Failure.BadTypeDeclaration, exS)
      ∧ TypeParse exNoNamed exNested 3 exS exParser
        = some (Exit.fail Failure.BadTypeDeclaration, exS)
      ∧ TypeParse exNoNamed exNestedArray 3 exS exParser
        = some (Exit.fail Failure.BadTypeDeclaration, exS)
      ∧ TypeParse exNoNamed exPlain 3 exS exParser
        = some (Exit.ret (TypePtr.heap 20000, 52, false,
            { exParser with Pos := 70006, CharacterPos := 8 }), exAfterPlain)
      ∧ (exAfterPlain.types (TypePtr.heap 20000)).map (fun t => (t.Base, t.FromType))
        = some (BaseType.TypePointer, TypePtr.field TypeField.IntType) :=
  ⟨by rfl, by rfl, by rfl, by rfl, by rfl, by rfl⟩

/-! ## C36: visible entries of one identifier -/

/-- C36 at a concrete input: the calls that the loop `for (...) { { int x; } int x; }` makes
at file scope.  In the first round the inner `x` is defined and hidden at the end of the
inner block, then the outer `x` is defined and hidden at the end of the body.  In the
second round the `VariableScopeBegin` of the body brings the outer `x` back and the
`VariableScopeBegin` of the inner block brings the inner `x` back beside it: the chain of
the global table then holds two entries with the key of `x`, both in scope.  The inner
declaration, executed again, fails with "already defined". -/
theorem C36_two_visible_entries_of_one_name :
    VariableScopeBegin exStatic exOuterBrace 0
        = some (Exit.ret (525000000, { exOuterBrace with ScopeID := 525000000 }, 77), exLoop1)
      ∧ VariableScopeBegin exLoop1 exInnerBrace 0
        = some (Exit.ret (525060000, { exInnerBrace with ScopeID := 525060000 }, 525000000),
            exLoop2)
      ∧ VariableDefineButIgnoreIdentical 2 exLoop2 exInnerDecl 52
          (TypePtr.field TypeField.IntType) false false
        = some (Exit.ret (10000, false), exLoop3)
      ∧ VariableScopeEnd exLoop3 exInnerDecl 525060000 525000000
        = some (Exit.ret { exInnerDecl with ScopeID := 525000000 }, exLoop4)
      ∧ VariableDefineButIgnoreIdentical 2 exLoop4 exOuterDecl 52
          (TypePtr.field TypeField.IntType) false false
        = some (Exit.ret (10200, false), exLoop5)
      ∧ VariableScopeEnd exLoop5 exOuterDecl 525000000 77
        = some (Exit.ret { exOuterDecl with ScopeID := 77 }, exLoop6)
      ∧ exLoop6.GlobalTable.HashTable.getD 52 []
        = [{ DeclFileName := 32, DeclLine := 3, DeclColumn := 30, Key := 53, Val := 10200 },
           { DeclFileName := 32, DeclLine := 3, DeclColumn := 20, Key := 53, Val := 10000 }]
      ∧ VariableScopeBegin exLoop6 exOuterBrace 0
        = some (Exit.ret (525000000, { exOuterBrace with ScopeID := 525000000 }, 77), exLoop7)
      ∧ VariableScopeBegin exLoop7 exInnerBrace 0
        = some (Exit.ret (525060000, { exInnerBrace with ScopeID := 525060000 }, 525000000),
            exLoop8)
      ∧ exLoop8.GlobalTable.HashTable.getD 52 []
        = [{ DeclFileName := 32, DeclLine := 3, DeclColumn := 30, Key := 52, Val := 10200 },
           { DeclFileName := 32, DeclLine := 3, DeclColumn := 20, Key := 52, Val := 10000 }]
      ∧ (exLoop8.vals 10200).map (fun v => v.OutOfScope) = some false
      ∧ (exLoop8.vals 10000).map (fun v => v.OutOfScope) = some false
      ∧ (VariableDefineButIgnoreIdentical 2 exLoop8 exInnerDecl 52
          (TypePtr.field TypeField.IntType) false false).map (fun r => r.1)
        = some (Exit.fail Failure.AlreadyDefined) :=
  ⟨by rfl, by rfl, by rfl, by rfl, by rfl, by rfl, by rfl, by rfl, by rfl, by rfl, by rfl,
    by rfl, by rfl⟩

/-! ## C37: the key tag and the flag -/

theorem Grown_refl (pc : Picoc) : Grown pc pc :=
  ⟨rfl, rfl, rfl, rfl, rfl, Nat.le_refl _, fun _ h => h, fun h _ => h⟩

theorem Grown_trans {pc pc1 pc2 : Picoc} (h1 : Grown pc pc1) (h2 : Grown pc1 pc2) :
    Grown pc pc2 := by
  obtain ⟨a0, a1, a2, a3, a4, a5, a6, a7⟩ := h1
  obtain ⟨b0, b1, b2, b3, b4, b5, b6, b7⟩ := h2
  exact ⟨b0.trans a0, b1.trans a1, b2.trans a2, b3.trans a3, b4.trans a4, Nat.le_trans a5 b5,
    fun a h => a6 a (b6 a h), fun hs hc => b7 (a7 hs hc) (fun a h => hc a (a6 a h))⟩

theorem Grown_vals {pc pc1 : Picoc} (h : Grown pc pc1) (V : Nat → Option Value) :
    Grown pc { pc1 with vals := V } := h

theorem Grown_of_SameBindings {pc pc1 : Picoc} (hb : SameBindings pc pc1)
    (hM : pc1.arena.HeapMemory = pc.arena.HeapMemory)
    (hS : pc1.arena.HeapSize = pc.arena.HeapSize)
    (hB : pc1.arena.HeapBottom = pc.arena.HeapBottom)
    (hT : pc.arena.HeapStackTop ≤ pc1.arena.HeapStackTop)
    (hc : ∀ a ∈ pc1.calloc, a ∈ pc.calloc) : Grown pc pc1 :=
  ⟨currentTable_congr hb, hb.2.1, hM, hS, hB, hT, hc, fun hs _ => by
    rw [hb.2.2.2.2.1]
    exact hs⟩

/-- What `VariableAlloc` does to the state, whichever way it ends, and where the block is:
a heap block held no value header before, a stack block starts at the old stack top. -/
theorem VariableAlloc_grown {pc pc1 : Picoc} {n : Int} {b : Bool} {e : Exit Nat}
    (h : VariableAlloc pc n b = some (e, pc1)) :
    Grown pc pc1 ∧ pc1.vals = pc.vals
      ∧ ∀ p, e = Exit.ret p →
          (b = true → pc.vals p = none
              ∧ (p + toSizeT n ≤ pc.arena.HeapMemory
                  ∨ pc.arena.HeapMemory + pc.arena.HeapSize ≤ p))
          ∧ (b = false → p = pc.arena.HeapStackTop
              ∧ pc1.arena.HeapStackTop = p + MEM_ALIGN (toSizeT n)
              ∧ pc1.arena.HeapStackTop ≤ pc.arena.HeapBottom) := by
  obtain ⟨hb, hv⟩ := VariableAlloc_fields h
  obtain ⟨c1, c2, c3, ⟨used, c4⟩, _, c6⟩ := VariableAlloc_cases h
  have hbot : pc1.arena.HeapBottom = pc.arena.HeapBottom
      ∧ ∀ p, e = Exit.ret p → b = false → pc1.arena.HeapStackTop ≤ pc.arena.HeapBottom := by
    cases b with
    | true =>
      obtain ⟨⟨rest, m, rfl⟩, _⟩ := VariableAlloc_heap h
      exact ⟨rfl, fun _ _ hf => by cases hf⟩
    | false =>
      unfold VariableAlloc at h
      simp only [Bool.false_eq_true, if_false] at h
      split at h
      · cases h
      · rename_i a1 q hq
        rcases HeapAllocStack_effect hq with ⟨h0, rfl⟩ | ⟨_, rfl, hle, _⟩
        · rw [if_pos h0] at h
          simp only [Option.some.injEq, Prod.mk.injEq] at h
          obtain ⟨rfl, rfl⟩ := h
          exact ⟨rfl, fun p hp _ => by cases hp⟩
        · split at h
          · simp only [Option.some.injEq, Prod.mk.injEq] at h
            obtain ⟨rfl, rfl⟩ := h
            exact ⟨rfl, fun p hp _ => by cases hp⟩
          · simp only [Option.some.injEq, Prod.mk.injEq] at h
            obtain ⟨rfl, rfl⟩ := h
            exact ⟨rfl, fun _ _ _ => hle⟩
  refine ⟨Grown_of_SameBindings hb c1 c2 hbot.1 c3 (fun a ha => ?_), hv,
    fun p hp => ⟨fun ht => ?_, fun hf => ?_⟩⟩
  · rw [c4]
    exact List.mem_append_right _ ha
  · obtain ⟨_, h1, _⟩ := c6 p hp
    obtain ⟨_, _, _, h4⟩ := h1 ht
    subst ht
    obtain ⟨_, hfresh⟩ := VariableAlloc_heap h
    exact ⟨(hfresh p hp).2.1, h4⟩
  · obtain ⟨_, _, h2⟩ := c6 p hp
    obtain ⟨_, h3, h4, _⟩ := h2 hf
    exact ⟨h3, h4, hbot.2 p hp hf⟩

theorem ret_ne_fail {α : Type} {a : α} (h : ∃ f, Exit.ret a = Exit.fail f) : False := by
  obtain ⟨f, hf⟩ := h
  cases hf

theorem VariableAllocValueAndData_grown {pc pc1 : Picoc} {Parser : Option ParseState}
    {DataSize : Int} {IsLValue : Bool} {LValueFrom : Nat} {OnHeap : Bool} {e : Exit Nat}
    (h : VariableAllocValueAndData pc Parser DataSize IsLValue LValueFrom OnHeap
      = some (e, pc1)) :
    Grown pc pc1 ∧ ((∃ f, e = Exit.fail f) → pc1.vals = pc.vals)
      ∧ ∀ p, e = Exit.ret p → NewHeader pc pc1 OnHeap p
          ∧ (OnHeap = true → DataSize = 0 →
              p < pc.arena.HeapMemory ∨ pc.arena.HeapMemory + pc.arena.HeapSize ≤ p) := by
  unfold VariableAllocValueAndData at h
  split at h
  · cases h
  · rename_i f pc0 hal
    simp only [Option.some.injEq, Prod.mk.injEq] at h
    obtain ⟨rfl, rfl⟩ := h
    obtain ⟨hG, hv, _⟩ := VariableAlloc_grown hal
    exact ⟨hG, fun _ => hv, fun p hp => by cases hp⟩
  · rename_i NewValue pc0 hal
    simp only [Option.some.injEq, Prod.mk.injEq] at h
    obtain ⟨rfl, rfl⟩ := h
    obtain ⟨hG, hv, hp⟩ := VariableAlloc_grown hal
    obtain ⟨hheap, hstack⟩ := hp NewValue rfl
    refine ⟨hG, fun hf => (ret_ne_fail hf).elim, fun p hp => ?_⟩
    cases hp
    refine ⟨⟨fun a ha => ?_, ⟨_, if_pos rfl, rfl⟩, fun ht => (hheap ht).1, fun hf => ?_⟩,
      fun ht hd => ?_⟩
    · show (if a = NewValue then _ else _) = _
      rw [if_neg ha, hv]
    · obtain ⟨h1, _, h3⟩ := hstack hf
      exact ⟨h1, h3⟩
    · subst hd
      have h40 : toSizeT (toInt ((MEM_ALIGN sizeofValue + toSizeT 0) % addrLimit)) = 40 := by
        decide
      rcases (hheap ht).2 with h1 | h1
      · rw [h40] at h1
        exact Or.inl (by omega)
      · exact Or.inr h1

theorem NewHeader_retouch {pc pc1 : Picoc} {OnHeap : Bool} {p : Nat} (h : NewHeader pc pc1 OnHeap p)
    (pc2 : Picoc) (x : Value)
    (hv : ∀ a, pc2.vals a = if a = p then some x else pc1.vals a) (hx : x.OutOfScope = false)
    (ht : pc2.arena.HeapStackTop = pc1.arena.HeapStackTop) : NewHeader pc pc2 OnHeap p := by
  obtain ⟨h1, _, h3, h4⟩ := h
  refine ⟨fun a ha => ?_, ⟨x, ?_, hx⟩, h3, fun hf => ?_⟩
  · rw [hv, if_neg ha, h1 a ha]
  · rw [hv, if_pos rfl]
  · rw [ht]
    exact h4 hf

theorem VariableAllocValueFromType_grown {pc pc1 : Picoc} {Parser : Option ParseState}
    {Typ : TypePtr} {IsLValue : Bool} {LValueFrom : Nat} {OnHeap : Bool} {e : Exit Nat}
    (h : VariableAllocValueFromType pc Parser Typ IsLValue LValueFrom OnHeap = some (e, pc1)) :
    Grown pc pc1 ∧ ((∃ f, e = Exit.fail f) → pc1.vals = pc.vals)
      ∧ ∀ p, e = Exit.ret p → NewHeader pc pc1 OnHeap p := by
  unfold VariableAllocValueFromType at h
  split at h
  · cases h
  · split at h
    · cases h
    · split at h
      · cases h
      · rename_i f pc0 hal
        simp only [Option.some.injEq, Prod.mk.injEq] at h
        obtain ⟨rfl, rfl⟩ := h
        obtain ⟨hG, hv, _⟩ := VariableAllocValueAndData_grown hal
        exact ⟨hG, hv, fun p hp => by cases hp⟩
      · rename_i NewValue pc0 hal
        obtain ⟨hG, _, hp⟩ := VariableAllocValueAndData_grown hal
        obtain ⟨hN, _⟩ := hp NewValue rfl
        split at h
        · cases h
        · split at h
          · cases h
          · rename_i v hv0
            simp only [Option.some.injEq, Prod.mk.injEq] at h
            obtain ⟨rfl, rfl⟩ := h
            obtain ⟨x, hx, ho⟩ := hN.2.1
            rw [hv0] at hx
            cases hx
            refine ⟨hG, fun hf => (ret_ne_fail hf).elim, fun p hp => ?_⟩
            cases hp
            exact NewHeader_retouch hN _ { v with Typ := Typ } (fun a => rfl) ho rfl

theorem VariableAllocValueAndCopy_grown {pc pc1 : Picoc} {Parser : Option ParseState}
    {FromValue : Nat} {OnHeap : Bool} {e : Exit Nat}
    (h : VariableAllocValueAndCopy pc Parser FromValue OnHeap = some (e, pc1)) :
    Grown pc pc1 ∧ ((∃ f, e = Exit.fail f) → pc1.vals = pc.vals)
      ∧ ∀ p, e = Exit.ret p → NewHeader pc pc1 OnHeap p := by
  unfold VariableAllocValueAndCopy at h
  split at h
  · cases h
  · rename_i fv hfv
    split at h
    · cases h
    · split at h
      · cases h
      · simp only at h
        split at h
        · cases h
        · rename_i f pc0 hal
          simp only [Option.some.injEq, Prod.mk.injEq] at h
          obtain ⟨rfl, rfl⟩ := h
          obtain ⟨hG, hv, _⟩ := VariableAllocValueAndData_grown hal
          exact ⟨hG, hv, fun p hp => by cases hp⟩
        · rename_i NewValue pc0 hal
          obtain ⟨hG, _, hp⟩ := VariableAllocValueAndData_grown hal
          obtain ⟨hN, _⟩ := hp NewValue rfl
          split at h
          · cases h
          · rename_i v hv0
            simp only [Option.some.injEq, Prod.mk.injEq] at h
            obtain ⟨rfl, rfl⟩ := h
            obtain ⟨x, hx, ho⟩ := hN.2.1
            rw [hv0] at hx
            cases hx
            refine ⟨hG, fun hf => (ret_ne_fail hf).elim, fun p hp => ?_⟩
            cases hp
            exact NewHeader_retouch hN _ { v with Typ := fv.Typ } (fun a => rfl) ho rfl

theorem TableSet_grown {pc pc1 : Picoc} {Tbl : Table} {Key Val F : Nat} {L C : Int}
    {e : Exit (Bool × Table)} (h : TableSet pc Tbl Key Val F L C = some (e, pc1)) :
    Grown pc pc1 ∧ pc1.vals = pc.vals
      ∧ ∀ ok Tbl1, e = Exit.ret (ok, Tbl1) →
          (ok = false ∧ Tbl1 = Tbl)
          ∨ (ok = true
              ∧ Tbl1 = { Tbl with HashTable :=
                  (List.set Tbl.HashTable (Key % Tbl.Size)
                    ({ DeclFileName := F, DeclLine := L % 65536, DeclColumn := C % 65536,
                       Key := Key, Val := Val } :: Tbl.HashTable.getD (Key % Tbl.Size) [])) }
              ∧ (Tbl.OnHeap = false → pc.arena.HeapStackTop < pc1.arena.HeapStackTop)) := by
  unfold TableSet at h
  split at h
  · simp only [Option.some.injEq, Prod.mk.injEq] at h
    obtain ⟨rfl, rfl⟩ := h
    refine ⟨Grown_refl _, rfl, fun ok Tbl1 he => ?_⟩
    simp only [Exit.ret.injEq, Prod.mk.injEq] at he
    exact Or.inl ⟨he.1.symm, he.2.symm⟩
  · split at h
    · cases h
    · rename_i f pc0 hal
      simp only [Option.some.injEq, Prod.mk.injEq] at h
      obtain ⟨rfl, rfl⟩ := h
      obtain ⟨hG, hv, _⟩ := VariableAlloc_grown hal
      exact ⟨hG, hv, fun ok Tbl1 he => by cases he⟩
    · rename_i p pc0 hal
      simp only [Option.some.injEq, Prod.mk.injEq] at h
      obtain ⟨rfl, rfl⟩ := h
      obtain ⟨hG, hv, hp⟩ := VariableAlloc_grown hal
      refine ⟨hG, hv, fun ok Tbl1 he => ?_⟩
      simp only [Exit.ret.injEq, Prod.mk.injEq] at he
      obtain ⟨rfl, rfl⟩ := he
      refine Or.inr ⟨rfl, rfl, fun hf => ?_⟩
      obtain ⟨h1, h2, _⟩ := (hp p rfl).2 hf
      have h40 : MEM_ALIGN (toSizeT (toInt sizeofTableEntry)) = 40 := by decide
      rw [h40] at h2
      omega

theorem TableStrRegister_grown {pc pc1 : Picoc} {Str : List Char} {e : Exit Nat}
    (h : TableStrRegister pc Str = some (e, pc1)) :
    Grown pc pc1 ∧ pc1.vals = pc.vals
      ∧ pc1.arena.HeapStackTop = pc.arena.HeapStackTop
      ∧ ((∀ a ∈ pc.StringTable, a % 2 = 0) → (∀ a ∈ pc.calloc, a % 2 = 0) →
          ∀ k, e = Exit.ret k → k % 2 = 0) := by
  unfold TableStrRegister at h
  split at h
  · rename_i a ha
    simp only [Option.some.injEq, Prod.mk.injEq] at h
    obtain ⟨rfl, rfl⟩ := h
    refine ⟨Grown_refl _, rfl, rfl, fun hs _ k hk => ?_⟩
    cases hk
    unfold TableSearchIdentifier at ha
    exact hs _ (List.mem_of_find?_eq_some ha)
  · split at h
    · cases h
    · rename_i f pc0 hal
      simp only [Option.some.injEq, Prod.mk.injEq] at h
      obtain ⟨rfl, rfl⟩ := h
      obtain ⟨hG, hv, _⟩ := VariableAlloc_grown hal
      obtain ⟨⟨rest, m, rfl⟩, _⟩ := VariableAlloc_heap hal
      exact ⟨hG, hv, rfl, fun _ _ k hk => by cases hk⟩
    · rename_i NewEntry pc0 hal
      obtain ⟨hG, hv, _⟩ := VariableAlloc_grown hal
      obtain ⟨g0, g1, g2, g3, g4, g5, g6, g7⟩ := hG
      obtain ⟨_, _, _, _, _, c6⟩ := VariableAlloc_cases hal
      obtain ⟨_, hmem, _⟩ := c6 NewEntry rfl
      obtain ⟨hc, _⟩ := hmem rfl
      obtain ⟨⟨rest, m, rfl⟩, _⟩ := VariableAlloc_heap hal
      split at h
      · cases h
      · simp only [Option.some.injEq, Prod.mk.injEq] at h
        obtain ⟨rfl, rfl⟩ := h
        have hN : (∀ a ∈ pc.calloc, a % 2 = 0) → NewEntry % 2 = 0 := fun hcal =>
          hcal NewEntry (by rw [hc]; exact List.mem_cons_self _ _)
        refine ⟨⟨g0, g1, g2, g3, g4, g5, g6, fun hs hcal a ha => ?_⟩, hv, rfl,
          fun _ hcal k hk => ?_⟩
        · rcases List.mem_cons.mp ha with rfl | ha
          · have := hN hcal
            omega
          · exact hs a ha
        · cases hk
          have := hN hcal
          omega

/-- The entries of a table after a new entry was put at the head of a chain: a member is
the new entry or an old one, and the list of the value addresses has no repetition when
the old one has none and the new address is not in it. -/
theorem flatten_set_cons (New : TableEntry) (l : List (List TableEntry)) (i : Nat) :
    (∀ e ∈ (List.set l i (New :: l.getD i [])).flatten, e = New ∨ e ∈ l.flatten)
      ∧ ((l.flatten.map (fun e => e.Val)).Nodup → (∀ e ∈ l.flatten, e.Val ≠ New.Val) →
          ((List.set l i (New :: l.getD i [])).flatten.map (fun e => e.Val)).Nodup) := by
  induction l generalizing i with
  | nil => exact ⟨fun e he => Or.inr he, fun h _ => h⟩
  | cons c l ih =>
    cases i with
    | zero =>
      simp only [List.set_cons_zero, List.flatten_cons, List.getD_cons_zero, List.cons_append]
      refine ⟨fun e he => ?_, fun hnd hne => ?_⟩
      · rcases List.mem_cons.mp he with h | h
        · exact Or.inl h
        · exact Or.inr h
      · rw [List.map_cons, List.nodup_cons]
        refine ⟨fun hmem => ?_, hnd⟩
        obtain ⟨e, he, heq⟩ := List.mem_map.mp hmem
        exact hne e he heq
    | succ j =>
      simp only [List.set_cons_succ, List.flatten_cons, List.getD_cons_succ]
      obtain ⟨ih1, ih2⟩ := ih j
      refine ⟨fun e he => ?_, fun hnd hne => ?_⟩
      · rcases List.mem_append.mp he with h | h
        · exact Or.inr (List.mem_append_left _ h)
        · rcases ih1 e h with h2 | h2
          · exact Or.inl h2
          · exact Or.inr (List.mem_append_right _ h2)
      · rw [List.map_append] at hnd ⊢
        rw [List.nodup_append] at hnd ⊢
        obtain ⟨n1, n2, n3⟩ := hnd
        refine ⟨n1, ih2 n2 (fun e he => hne e (List.mem_append_right _ he)), ?_⟩
        intro a ha1 ha2
        obtain ⟨e, he, heq⟩ := List.mem_map.mp ha2
        rcases ih1 e he with h2 | h2
        · subst h2
          obtain ⟨e1, he1, heq1⟩ := List.mem_map.mp ha1
          exact hne e1 (List.mem_append_left _ he1) (heq1.trans heq.symm)
        · exact n3 ha1 (List.mem_map.mpr ⟨e, h2, heq⟩)

/-- The current table after `setCurrentTable`, and the parts of the state it keeps. -/
theorem setCurrentTable_current {pc : Picoc} {Tbl : Table} (Tbl2 : Table)
    (hT : currentTable pc = some Tbl) :
    currentTable (setCurrentTable pc Tbl2) = some Tbl2
      ∧ (setCurrentTable pc Tbl2).vals = pc.vals
      ∧ (setCurrentTable pc Tbl2).TopStackFrame = pc.TopStackFrame
      ∧ (setCurrentTable pc Tbl2).arena = pc.arena
      ∧ (setCurrentTable pc Tbl2).calloc = pc.calloc
      ∧ (setCurrentTable pc Tbl2).StringTable = pc.StringTable := by
  obtain ⟨f1, _, _, _, _, _, f7⟩ := setCurrentTable_fields pc Tbl2
  obtain ⟨a1, a2⟩ := setCurrentTable_arena pc Tbl2
  exact ⟨currentTable_setCurrentTable pc Tbl Tbl2 hT pc.vals, f1, f7, a1, a2,
    (setCurrentTable_strings pc Tbl2).2.1⟩

/-- The invariant goes over to a state that has the same current table and the same
value headers of its entries, when the arena and the allocator only grew. -/
theorem TagInv_keep {pc pc1 : Picoc} (hI : TagInv pc) (hG : Grown pc pc1)
    (hv : ∀ Tbl, currentTable pc = some Tbl → ∀ e ∈ Tbl.entries, pc1.vals e.Val = pc.vals e.Val) :
    TagInv pc1 := by
  obtain ⟨hc, ht, hM, hS, hB, hTop, hcal, hstr⟩ := hG
  obtain ⟨Tbl, hT, hlen, hOn, htag, hnd, hlive, hmt, hbe, hse, hce⟩ := hI
  refine ⟨Tbl, hc.trans hT, hlen, by rw [ht]; exact hOn, fun e he => ?_, hnd, fun h0 e he => ?_,
    by rw [hM]; exact Nat.le_trans hmt hTop, by rw [hB, hM, hS]; exact hbe, hstr hse hce,
    fun a ha => hce a (hcal a ha)⟩
  · obtain ⟨v, hv1, hv2⟩ := htag e he
    exact ⟨v, by rw [hv Tbl hT e he]; exact hv1, hv2⟩
  · rw [ht] at h0
    unfold HeaderLive
    rw [hM, hS]
    rcases hlive h0 e he with h | h | h
    · exact Or.inl (Nat.lt_of_lt_of_le h hTop)
    · exact Or.inr (Or.inl h)
    · exact Or.inr (Or.inr h)

/-- The invariant after a new entry with an even key and a new value header in scope was
put into the current table. -/
theorem TagInv_insert {pc pc1 : Picoc} {Tbl : Table} {New : TableEntry} {i : Nat}
    (hI : TagInv pc) (hT : currentTable pc = some Tbl)
    (hc : currentTable pc1
      = some { Tbl with HashTable := List.set Tbl.HashTable i (New :: Tbl.HashTable.getD i []) })
    (ht : pc1.TopStackFrame = pc.TopStackFrame)
    (hM : pc1.arena.HeapMemory = pc.arena.HeapMemory)
    (hS : pc1.arena.HeapSize = pc.arena.HeapSize)
    (hB : pc1.arena.HeapBottom = pc.arena.HeapBottom)
    (hTop : pc.arena.HeapStackTop ≤ pc1.arena.HeapStackTop)
    (hcal : ∀ a ∈ pc1.calloc, a ∈ pc.calloc)
    (hstr : ∀ a ∈ pc1.StringTable, a % 2 = 0)
    (hv : ∀ a, a ≠ New.Val → pc1.vals a = pc.vals a)
    (hnew : ∃ x, pc1.vals New.Val = some x ∧ x.OutOfScope = false)
    (hkey : New.Key % 2 = 0)
    (hfresh : ∀ e ∈ Tbl.entries, e.Val ≠ New.Val)
    (hlive1 : pc.TopStackFrame ≠ 0 → HeaderLive pc1 New) :
    TagInv pc1 := by
  obtain ⟨Tbl0, hT0, hlen, hOn, htag, hnd, hlive, hmt, hbe, _, hce⟩ := hI
  rw [hT] at hT0
  cases hT0
  obtain ⟨m1, m2⟩ := flatten_set_cons New Tbl.HashTable i
  refine ⟨_, hc, by simp only [List.length_set]; exact hlen, by rw [ht]; exact hOn,
    fun e he => ?_, m2 hnd hfresh, fun h0 e he => ?_,
    by rw [hM]; exact Nat.le_trans hmt hTop, by rw [hB, hM, hS]; exact hbe, hstr,
    fun a ha => hce a (hcal a ha)⟩
  · rcases m1 e he with rfl | h
    · obtain ⟨x, hx, ho⟩ := hnew
      refine ⟨x, hx, ?_⟩
      rw [ho]
      constructor
      · intro h
        omega
      · intro h
        cases h
    · obtain ⟨v, hv1, hv2⟩ := htag e h
      exact ⟨v, by rw [hv e.Val (hfresh e h)]; exact hv1, hv2⟩
  · rw [ht] at h0
    rcases m1 e he with rfl | h
    · exact hlive1 h0
    · unfold HeaderLive
      rw [hM, hS]
      rcases hlive h0 e h with h | h | h
      · exact Or.inl (Nat.lt_of_lt_of_le h hTop)
      · exact Or.inr (Or.inl h)
      · exact Or.inr (Or.inr h)

/-- A new value header is not the header of an entry of the current table. -/
theorem NewHeader_fresh {pc pc1 : Picoc} {p : Nat} (hI : TagInv pc) {Tbl : Table}
    (hT : currentTable pc = some Tbl) {OnHeap : Bool}
    (hN : NewHeader pc pc1 OnHeap p) (hO : OnHeap = false → pc.TopStackFrame ≠ 0)
    (hTop : pc.arena.HeapStackTop ≤ pc1.arena.HeapStackTop) :
    ∀ e ∈ Tbl.entries, e.Val ≠ p := by
  obtain ⟨Tbl0, hT0, hlen, hOn, htag, hnd, hlive, hmt, hbe, _, hce⟩ := hI
  rw [hT] at hT0
  cases hT0
  obtain ⟨_, _, n3, n4⟩ := hN
  intro e he heq
  obtain ⟨v, hv1, _⟩ := htag e he
  cases OnHeap with
  | true =>
    rw [heq, n3 rfl] at hv1
    cases hv1
  | false =>
    obtain ⟨h1, h2⟩ := n4 rfl
    rcases hlive (hO rfl) e he with h | h | h <;> omega

/-- The invariant after `TableSet` was given a new value header for an even key, and after
the table it returns was stored as the current table. -/
theorem TableSet_TagInv {pc pcm pc3 : Picoc} {Tbl : Table} {OnHeap : Bool} {p Key F : Nat}
    {L C : Int} {e : Exit (Bool × Table)}
    (hset : TableSet pcm Tbl Key p F L C = some (e, pc3))
    (hI : TagInv pc) (hT : currentTable pc = some Tbl)
    (hG : Grown pc pcm) (hN : NewHeader pc pcm OnHeap p)
    (hO : OnHeap = false → pc.TopStackFrame ≠ 0)
    (hL : pc.TopStackFrame ≠ 0 → OnHeap = true →
      p < pc.arena.HeapMemory ∨ pc.arena.HeapMemory + pc.arena.HeapSize ≤ p)
    (hk : Key % 2 = 0) :
    ((∃ f, e = Exit.fail f) → TagInv pc3)
      ∧ ∀ ok Tbl1, e = Exit.ret (ok, Tbl1) → TagInv (setCurrentTable pc3 Tbl1) := by
  obtain ⟨hG2, hv2, hcase⟩ := TableSet_grown hset
  have hG3 := Grown_trans hG hG2
  have hfresh := NewHeader_fresh hI hT hN hO hG.2.2.2.2.2.1
  have hvals : ∀ T, currentTable pc = some T → ∀ e ∈ T.entries, pc3.vals e.Val = pc.vals e.Val := by
    intro T hT2 e he
    rw [hT] at hT2
    cases hT2
    rw [hv2]
    exact hN.1 _ (hfresh e he)
  have hI3 : TagInv pc3 := TagInv_keep hI hG3 hvals
  refine ⟨fun _ => hI3, fun ok Tbl1 he => ?_⟩
  have hT3 : currentTable pc3 = some Tbl := hG3.1.trans hT
  rcases hcase ok Tbl1 he with ⟨_, h1⟩ | ⟨_, rfl, hstack⟩
  · rw [h1, setCurrentTable_self pc3 Tbl hT3]
    exact hI3
  · obtain ⟨s1, s2, s3, s4, s5, s6⟩ := setCurrentTable_current
      { Tbl with HashTable :=
          (List.set Tbl.HashTable (Key % Tbl.Size)
            ({ DeclFileName := F, DeclLine := L % 65536, DeclColumn := C % 65536,
               Key := Key, Val := p } :: Tbl.HashTable.getD (Key % Tbl.Size) [])) } hT3
    obtain ⟨g0, g1, g2, g3, g4, g5, g6, g7⟩ := hG3
    obtain ⟨Tbl0, hT0, hlen, hOn, htag, hnd, hlive, hmt, hbe, hse, hce⟩ := hI
    rw [hT] at hT0
    cases hT0
    refine TagInv_insert ⟨Tbl, hT, hlen, hOn, htag, hnd, hlive, hmt, hbe, hse, hce⟩ hT s1
      (s3.trans g1) (by rw [s4]; exact g2) (by rw [s4]; exact g3) (by rw [s4]; exact g4)
      (by rw [s4]; exact g5) (by rw [s5]; exact g6) (by rw [s6]; exact g7 hse hce)
      (fun a ha => by rw [s2, hv2]; exact hN.1 a ha)
      (by rw [s2, hv2]; exact hN.2.1) hk hfresh (fun h0 => ?_)
    unfold HeaderLive
    rw [s4, g2, g3]
    show p < pc3.arena.HeapStackTop ∨ _
    cases OnHeap with
    | true => exact Or.inr (hL h0 rfl)
    | false =>
      obtain ⟨h1, _⟩ := hN.2.2.2 rfl
      have hOf : Tbl.OnHeap = false := by
        rw [hOn]
        exact decide_eq_false h0
      have h2 := hstack hOf
      have h3 := hG.2.2.2.2.2.1
      exact Or.inl (by omega)

/-- The invariant holds after a call of `VariableDefine` with an even identifier,
whichever way the call ends. -/
theorem VariableDefine_TagInv {pc pc2 : Picoc} {Parser : Option ParseState}
    {Ident InitValue : Nat} {Typ : TypePtr} {MakeWritable : Bool} {e : Exit Nat}
    (hI : TagInv pc) (hk : Ident % 2 = 0)
    (h : VariableDefine pc Parser Ident InitValue Typ MakeWritable = some (e, pc2)) :
    TagInv pc2 := by
  have hval : ∀ r pc1,
      (if InitValue ≠ 0 then
        VariableAllocValueAndCopy pc Parser InitValue (decide (pc.TopStackFrame = 0))
      else
        VariableAllocValueFromType pc Parser Typ MakeWritable 0 (decide (pc.TopStackFrame = 0)))
        = some (r, pc1) →
      Grown pc pc1 ∧ ((∃ f, r = Exit.fail f) → pc1.vals = pc.vals)
        ∧ ∀ p, r = Exit.ret p → NewHeader pc pc1 (decide (pc.TopStackFrame = 0)) p := by
    intro r pc1 hr
    split at hr
    · exact VariableAllocValueAndCopy_grown hr
    · exact VariableAllocValueFromType_grown hr
  unfold VariableDefine at h
  simp only at h
  split at h
  · cases h
  · rename_i f pc1 hal
    simp only [Option.some.injEq, Prod.mk.injEq] at h
    obtain ⟨rfl, rfl⟩ := h
    obtain ⟨hG, hv, _⟩ := hval _ _ hal
    exact TagInv_keep hI hG (fun _ _ e _ => by rw [hv ⟨f, rfl⟩])
  · rename_i AssignValue pc1 hal
    obtain ⟨hG, _, hp⟩ := hval _ _ hal
    have hN := hp AssignValue rfl
    split at h
    · rename_i v Tbl hv1 hT1
      have hT : currentTable pc = some Tbl := hG.1.symm.trans hT1
      split at h
      · cases h
      · rename_i f pc3 hset
        simp only [Option.some.injEq, Prod.mk.injEq] at h
        obtain ⟨rfl, rfl⟩ := h
        exact (TableSet_TagInv hset hI hT (Grown_vals hG _)
          (NewHeader_retouch hN _ _ (fun a => rfl) rfl rfl)
          (fun hf h0 => by rw [decide_eq_true h0] at hf; cases hf)
          (fun h0 ht => absurd (of_decide_eq_true ht) h0) hk).1 ⟨f, rfl⟩
      · rename_i ok Tbl1 pc3 hset
        have hres := (TableSet_TagInv hset hI hT (Grown_vals hG _)
          (NewHeader_retouch hN _ _ (fun a => rfl) rfl rfl)
          (fun hf h0 => by rw [decide_eq_true h0] at hf; cases hf)
          (fun h0 ht => absurd (of_decide_eq_true ht) h0) hk).2 ok Tbl1 rfl
        split at h
        · simp only [Option.some.injEq, Prod.mk.injEq] at h
          obtain ⟨rfl, rfl⟩ := h
          exact hres
        · simp only [Option.some.injEq, Prod.mk.injEq] at h
          obtain ⟨rfl, rfl⟩ := h
          exact hres
    · cases h

/-- The invariant holds after a call of `VariableDefinePlatformVar`, whichever way the
call ends. -/
theorem VariableDefinePlatformVar_TagInv {pc pc2 : Picoc} {Parser : Option ParseState}
    {Ident : Nat} {Typ : TypePtr} {FromValue : Nat} {IsWritable : Bool} {e : Exit Unit}
    (hI : TagInv pc)
    (h : VariableDefinePlatformVar pc Parser Ident Typ FromValue IsWritable = some (e, pc2)) :
    TagInv pc2 := by
  unfold VariableDefinePlatformVar at h
  split at h
  · cases h
  · rename_i f pc1 hal
    simp only [Option.some.injEq, Prod.mk.injEq] at h
    obtain ⟨rfl, rfl⟩ := h
    obtain ⟨hG, hv, _⟩ := VariableAllocValueAndData_grown hal
    exact TagInv_keep hI hG (fun _ _ e _ => by rw [hv ⟨f, rfl⟩])
  · rename_i SomeValue pc1 hal
    obtain ⟨hG, _, hp⟩ := VariableAllocValueAndData_grown hal
    obtain ⟨hN, hloc⟩ := hp SomeValue rfl
    split at h
    · rename_i v Str hv1 hs1
      simp only at h
      obtain ⟨x, hx, ho⟩ := hN.2.1
      rw [hv1] at hx
      cases hx
      have hNm := NewHeader_retouch hN
        { pc1 with vals := (fun a =>
            if a = SomeValue then some { v with Typ := Typ, Val := FromValue } else pc1.vals a) }
        { v with Typ := Typ, Val := FromValue } (fun a => rfl) ho rfl
      obtain ⟨Tbl, hT, hlen, hOn, htag, hnd, hlive, hmt, hbe, hse, hce⟩ := hI
      have hI : TagInv pc := ⟨Tbl, hT, hlen, hOn, htag, hnd, hlive, hmt, hbe, hse, hce⟩
      have hfresh := NewHeader_fresh hI hT hN (fun hf => by cases hf) hG.2.2.2.2.2.1
      split at h
      · cases h
      · rename_i f pc3 hreg
        simp only [Option.some.injEq, Prod.mk.injEq] at h
        obtain ⟨rfl, rfl⟩ := h
        obtain ⟨hGr, hvr, _, _⟩ := TableStrRegister_grown hreg
        refine TagInv_keep hI (Grown_trans (Grown_vals hG _) hGr) (fun T hT2 e he => ?_)
        rw [hT] at hT2
        cases hT2
        rw [hvr]
        exact hNm.1 _ (hfresh e he)
      · rename_i Key pc3 hreg
        obtain ⟨hGr, hvr, htop, hkey⟩ := TableStrRegister_grown hreg
        have hG3 : Grown pc pc3 := Grown_trans (Grown_vals hG _) hGr
        have hk : Key % 2 = 0 :=
          hkey (hG.2.2.2.2.2.2.2 hse hce) (fun a ha => hce a (hG.2.2.2.2.2.2.1 a ha)) Key rfl
        have hN3 : NewHeader pc pc3 true SomeValue :=
          ⟨fun a ha => by rw [hvr]; exact hNm.1 a ha, by rw [hvr]; exact hNm.2.1, hNm.2.2.1,
            fun hf => by cases hf⟩
        split at h
        · cases h
        · rename_i Tbl3 hT3
          have hTe : Tbl3 = Tbl := by
            rw [hG3.1, hT] at hT3
            exact (Option.some.inj hT3).symm
          subst hTe
          split at h
          · cases h
          · rename_i f pc4 hset
            simp only [Option.some.injEq, Prod.mk.injEq] at h
            obtain ⟨rfl, rfl⟩ := h
            exact (TableSet_TagInv hset hI hT hG3 hN3 (fun hf => by cases hf)
              (fun _ _ => hloc rfl rfl) hk).1 ⟨f, rfl⟩
          · rename_i ok Tbl1 pc4 hset
            have hres := (TableSet_TagInv hset hI hT hG3 hN3 (fun hf => by cases hf)
              (fun _ _ => hloc rfl rfl) hk).2 ok Tbl1 rfl
            split at h
            · simp only [Option.some.injEq, Prod.mk.injEq] at h
              obtain ⟨rfl, rfl⟩ := h
              exact hres
            · simp only [Option.some.injEq, Prod.mk.injEq] at h
              obtain ⟨rfl, rfl⟩ := h
              exact hres
    · cases h

/-- The invariant after the headers and keys of the entries that pass a test were changed
in step: the new flag of an entry that passes is `flag`, its new key has the low-order bit
set exactly when `flag` is true. -/
theorem TagInv_cond {pc : Picoc} {Tbl : Table} (hI : TagInv pc) (hT : currentTable pc = some Tbl)
    (cond : Value → Bool) (flag : Bool) (g : Nat → Nat)
    (hg : ∀ k, g k % 2 = 1 ↔ flag = true)
    (V : Nat → Option Value) (H : List (List TableEntry))
    (hV : V = fun a =>
      if hitAt cond pc.vals Tbl.HashTable.flatten a then
        (pc.vals a).map (fun v => { v with OutOfScope := flag })
      else pc.vals a)
    (hH : H = Tbl.HashTable.map (fun chain =>
      chain.map (fun e => if hit cond pc.vals e then { e with Key := g e.Key } else e))) :
    TagInv (setCurrentTable { pc with vals := V } { Tbl with HashTable := H }) := by
  obtain ⟨Tbl0, hT0, hlen, hOn, htag, hnd, hlive, hmt, hbe, hse, hce⟩ := hI
  rw [hT] at hT0
  cases hT0
  have hTv : currentTable { pc with vals := V } = some Tbl := hT
  obtain ⟨s1, s2, s3, s4, s5, s6⟩ := setCurrentTable_current { Tbl with HashTable := H } hTv
  have hval : ∀ e : TableEntry,
      (if hit cond pc.vals e then ({ e with Key := g e.Key } : TableEntry) else e).Val = e.Val := by
    intro e
    split <;> rfl
  have hent : ∀ e2 ∈ ({ Tbl with HashTable := H } : Table).entries,
      ∃ e ∈ Tbl.entries,
        e2 = (if hit cond pc.vals e then { e with Key := g e.Key } else e) := by
    intro e2 he2
    unfold Table.entries at he2
    simp only [hH, ← List.map_flatten] at he2
    obtain ⟨e, he, heq⟩ := List.mem_map.mp he2
    exact ⟨e, he, heq.symm⟩
  refine ⟨_, s1, by simp only [hH, List.length_map]; exact hlen, by rw [s3]; exact hOn,
    fun e2 he2 => ?_, ?_, fun h0 e2 he2 => ?_, by rw [s4]; exact hmt, by rw [s4]; exact hbe,
    by rw [s6]; exact hse, by rw [s5]; exact hce⟩
  · obtain ⟨e, he, rfl⟩ := hent e2 he2
    obtain ⟨v, hv1, hv2⟩ := htag e he
    unfold TagMatches
    rw [s2, hval]
    show ∃ v, V e.Val = some v ∧ _
    rw [hV]
    simp only
    rw [hitAt_mem cond pc.vals Tbl.HashTable.flatten e he]
    cases hh : hit cond pc.vals e with
    | true =>
      simp only [if_true, hv1, Option.map_some']
      exact ⟨_, rfl, hg e.Key⟩
    | false =>
      simp only [Bool.false_eq_true, if_false]
      exact ⟨v, hv1, hv2⟩
  · unfold Table.entries
    simp only [hH, ← List.map_flatten, List.map_map]
    have : ((fun e : TableEntry => e.Val) ∘ fun e =>
        if hit cond pc.vals e then ({ e with Key := g e.Key } : TableEntry) else e)
        = fun e => e.Val := funext hval
    rw [this]
    exact hnd
  · rw [s3] at h0
    obtain ⟨e, he, rfl⟩ := hent e2 he2
    unfold HeaderLive
    rw [s4, hval]
    exact hlive h0 e he

theorem tag_odd (k : Nat) : (k ||| 1) % 2 = 1 := by
  rw [Nat.or_mod_two_eq_one]
  exact Or.inr rfl

theorem untag_even (k : Nat) : (k &&& (addrLimit - 2)) % 2 = 0 := by
  have h : ¬ (k &&& (addrLimit - 2)) % 2 = 1 := by
    rw [Nat.and_mod_two_eq_one]
    intro h
    exact absurd h.2 (by decide)
  omega

/-- The invariant holds after a call of `VariableScopeEnd`. -/
theorem VariableScopeEnd_TagInv {pc pc2 : Picoc} {Parser : ParseState} {ScopeID PrevScopeID : Int}
    {e : Exit ParseState} (hI : TagInv pc)
    (h : VariableScopeEnd pc Parser ScopeID PrevScopeID = some (e, pc2)) : TagInv pc2 := by
  by_cases hid : ScopeID = -1
  · unfold VariableScopeEnd at h
    rw [if_pos hid] at h
    simp only [Option.some.injEq, Prod.mk.injEq] at h
    rw [← h.2]
    exact hI
  · obtain ⟨Tbl, hT, hlen, hOn, htag, hnd, hrest⟩ := hI
    have hsome : ∀ e ∈ Tbl.entries, (pc.vals e.Val).isSome := by
      intro e he
      obtain ⟨v, hv, _⟩ := htag e he
      rw [hv]
      rfl
    rw [VariableScopeEnd_eq pc Parser ScopeID PrevScopeID Tbl hid hT hlen hsome hnd] at h
    simp only [Option.some.injEq, Prod.mk.injEq] at h
    rw [← h.2]
    exact TagInv_cond ⟨Tbl, hT, hlen, hOn, htag, hnd, hrest⟩ hT (endCond ScopeID) true
      (fun k => k ||| 1) (fun k => ⟨fun _ => rfl, fun _ => tag_odd k⟩) _ _ rfl rfl

/-- The invariant holds after a call of `VariableScopeBegin`. -/
theorem VariableScopeBegin_TagInv {pc pc2 : Picoc} {Parser : ParseState} {OldScopeID : Int}
    {e : Exit (Int × ParseState × Int)} (hI : TagInv pc)
    (h : VariableScopeBegin pc Parser OldScopeID = some (e, pc2)) : TagInv pc2 := by
  by_cases hid : Parser.ScopeID = -1
  · unfold VariableScopeBegin at h
    rw [if_pos hid] at h
    simp only [Option.some.injEq, Prod.mk.injEq] at h
    rw [← h.2]
    exact hI
  · obtain ⟨Tbl, hT, hlen, hOn, htag, hnd, hrest⟩ := hI
    have hsome : ∀ e ∈ Tbl.entries, (pc.vals e.Val).isSome := by
      intro e he
      obtain ⟨v, hv, _⟩ := htag e he
      rw [hv]
      rfl
    rw [VariableScopeBegin_eq pc Parser OldScopeID Tbl hid hT hlen hsome hnd] at h
    simp only [Option.some.injEq, Prod.mk.injEq] at h
    rw [← h.2]
    exact TagInv_cond ⟨Tbl, hT, hlen, hOn, htag, hnd, hrest⟩ hT (beginCond (scopeHash Parser))
      false (fun k => k &&& (addrLimit - 2))
      (fun k => ⟨fun h1 => by
          have h2 := untag_even k
          have h3 : (k &&& (addrLimit - 2)) % 2 = 1 := h1
          omega, fun h1 => by cases h1⟩) _ _ rfl rfl

/-- A newly initialised table has the invariant. -/
theorem ScopeStart_TagInv {pc : Picoc} (h : ScopeStart pc) : TagInv pc := by
  obtain ⟨Tbl, hT, hinit, hmt, hbe, hse, hce⟩ := h
  have hent : Tbl.entries = [] := by
    unfold Table.entries
    rw [hinit]
    unfold TableInitTable
    simp only
    generalize Tbl.Size = n
    induction n with
    | zero => rfl
    | succ n ih =>
      rw [List.replicate_succ, List.flatten_cons, ih]
      rfl
  refine ⟨Tbl, hT, ?_, ?_, fun e he => ?_, ?_, fun _ e he => ?_, hmt, hbe, hse, hce⟩
  · rw [hinit]
    unfold TableInitTable
    simp only [List.length_replicate]
  · rw [hinit]
    rfl
  · rw [hent] at he
    cases he
  · rw [hent]
    exact List.nodup_nil
  · rw [hent] at he
    cases he

/-- Every state reached from a newly initialised table has the invariant. -/
theorem ScopeReachable_TagInv {pc : Picoc} (h : ScopeReachable pc) : TagInv pc := by
  induction h with
  | start h0 => exact ScopeStart_TagInv h0
  | step _ hs ih =>
    cases hs with
    | define Parser Ident InitValue Typ MakeWritable e hk hd => exact VariableDefine_TagInv ih hk hd
    | platformVar Parser Ident Typ FromValue IsWritable e hd =>
      exact VariableDefinePlatformVar_TagInv ih hd
    | scopeBegin Parser OldScopeID e hd => exact VariableScopeBegin_TagInv ih hd
    | scopeEnd Parser ScopeID PrevScopeID e hd => exact VariableScopeEnd_TagInv ih hd

/-- A call that has a result leaves the state `stateAfter`. -/
theorem stateAfter_result {α : Type} (pc : Picoc) (c : Call α) (h : c.isSome = true) :
    ∃ e, c = some (e, stateAfter pc c) := by
  cases c with
  | none => cases h
  | some r => exact ⟨r.1, rfl⟩

theorem exStaticF_ScopeStart : ScopeStart exStaticF :=
  ⟨emptyTable LOCAL_TABLE_SIZE false, rfl, rfl, by decide, by decide, by decide, by decide⟩

theorem exTag4_reachable : ScopeReachable exTag4 := by
  obtain ⟨e1, h1⟩ := stateAfter_result exStaticF (VariableScopeBegin exStaticF exParser 0) rfl
  obtain ⟨e2, h2⟩ := stateAfter_result exTag1
    (VariableDefine exTag1 (some exInnerBrace) 52 0 (TypePtr.field TypeField.IntType) true) rfl
  obtain ⟨e3, h3⟩ := stateAfter_result exTag2
    (VariableDefinePlatformVar exTag2 (some exInnerBrace) 24 (TypePtr.field TypeField.IntType)
      30000 true) rfl
  obtain ⟨e4, h4⟩ := stateAfter_result exTag3
    (VariableScopeEnd exTag3 exInnerBrace 525000000 77) rfl
  exact ScopeReachable.step (ScopeReachable.step (ScopeReachable.step (ScopeReachable.step
    (ScopeReachable.start exStaticF_ScopeStart)
    (ScopeStep.scopeBegin exParser 0 e1 h1))
    (ScopeStep.define (some exInnerBrace) 52 0 (TypePtr.field TypeField.IntType) true e2 rfl h2))
    (ScopeStep.platformVar (some exInnerBrace) 24 (TypePtr.field TypeField.IntType) 30000 true
      e3 h3))
    (ScopeStep.scopeEnd exInnerBrace 525000000 77 e4 h4)

/-- C37: in every state reached from a newly initialised current table through calls of
`VariableDefine` (with an even identifier), `VariableDefinePlatformVar`,
`VariableScopeBegin` and `VariableScopeEnd`, whichever way each call ends, each entry of
the current table has a value header, and the low-order bit of its key is set exactly when
the `OutOfScope` flag of that value is set. -/
theorem C37_key_tag_matches_flag (pc : Picoc) (h : ScopeReachable pc) :
    ∃ Tbl, currentTable pc = some Tbl
      ∧ ∀ e ∈ Tbl.entries, ∃ v, pc.vals e.Val = some v
          ∧ (e.Key % 2 = 1 ↔ v.OutOfScope = true) := by
  obtain ⟨Tbl, hT, _, _, htag, _⟩ := ScopeReachable_TagInv h
  exact ⟨Tbl, hT, htag⟩

/-- C37 at the state `exTag4`, reached by entering a block of the function `f`, executing
`int x;` there, defining a platform variable and leaving the block: the table holds the
hidden entry of `x` with the key 53 and the visible entry of the platform variable with the
key 24. -/
theorem C37_key_tag_matches_flag_witness :
    ScopeReachable exTag4
      ∧ (currentTable exTag4).map (fun T => T.entries.map (fun e =>
          (e.Key, (exTag4.vals e.Val).map (fun v => v.OutOfScope))))
        = some [(24, some false), (53, some true)]
      ∧ ∃ Tbl, currentTable exTag4 = some Tbl
          ∧ ∀ e ∈ Tbl.entries, ∃ v, exTag4.vals e.Val = some v
              ∧ (e.Key % 2 = 1 ↔ v.OutOfScope = true) :=
  ⟨exTag4_reachable, rfl, C37_key_tag_matches_flag exTag4 exTag4_reachable⟩

/-! ## C38: the stack top and the heap frontier -/

/-- C38 at a concrete input: on the arena that `HeapInit` makes of a block of 1024 bytes at
4096, `HeapAllocStack(1016)` raises the stack top to the heap frontier 5112, which its test
allows; `HeapPushStackFrame`, which has no such test, then stores the link at 5112 and
raises the stack top to 5120, above `HeapBottom`.  A further `HeapPushStackFrame` would
store its link outside the block. -/
theorem C38_push_frame_passes_heap_bottom :
    HeapInit 4096 (fun _ => 0) 1024 = some exArena
      ∧ exArena.HeapBottom = 5112
      ∧ HeapAllocStack exArena 1016 = some (exArenaFull, 4096)
      ∧ exArenaFull.HeapStackTop = 5112
      ∧ HeapPushStackFrame exArenaFull = some exArenaOver
      ∧ exArenaOver.HeapStackTop = 5120 ∧ exArenaOver.HeapBottom = 5112
      ∧ exArenaOver.StackFrame = 5112
      ∧ HeapPushStackFrame exArenaOver = none
      ∧ (HeapAllocStack exArenaOver 8).map (fun r => r.2) = some 0 :=
  ⟨by rfl, by rfl, by rfl, by rfl, by rfl, by rfl, by rfl, by rfl, by rfl, by rfl⟩

/-! ## C39: the scope id after a block -/

/-- A `VariableScopeBegin` that finds the scope id -1 in the parser, or computes an id
other than -1, followed by the `VariableScopeEnd` with the returned id and the saved id,
leaves the scope id of the parser as it was. -/
theorem VariableScope_restores {pc pc1 pc2 : Picoc} {Parser Parser1 Parser2 : ParseState}
    {Old0 Old id : Int}
    (hb : VariableScopeBegin pc Parser Old0 = some (Exit.ret (id, Parser1, Old), pc1))
    (he : VariableScopeEnd pc1 Parser1 id Old = some (Exit.ret Parser2, pc2))
    (hid : Parser.ScopeID = -1 ∨ scopeHash Parser ≠ -1) : Parser2.ScopeID = Parser.ScopeID := by
  unfold VariableScopeBegin at hb
  by_cases h1 : Parser.ScopeID = -1
  · rw [if_pos h1] at hb
    simp only [Option.some.injEq, Prod.mk.injEq, Exit.ret.injEq] at hb
    obtain ⟨⟨rfl, rfl, rfl⟩, rfl⟩ := hb
    unfold VariableScopeEnd at he
    rw [if_pos rfl] at he
    simp only [Option.some.injEq, Prod.mk.injEq, Exit.ret.injEq] at he
    rw [← he.1]
  · rw [if_neg h1] at hb
    have hh : scopeHash Parser ≠ -1 := by
      rcases hid with hid | hid
      · exact absurd hid h1
      · exact hid
    simp only at hb
    split at hb
    · cases hb
    split at hb
    · cases hb
    split at hb
    · cases hb
    simp only [Option.some.injEq, Prod.mk.injEq, Exit.ret.injEq] at hb
    obtain ⟨⟨rfl, rfl, rfl⟩, rfl⟩ := hb
    unfold VariableScopeEnd at he
    rw [if_neg hh] at he
    split at he
    · cases he
    split at he
    · cases he
    split at he
    · cases he
    simp only [Option.some.injEq, Prod.mk.injEq, Exit.ret.injEq] at he
    rw [← he.1]

/-- C39 at a concrete input: for a parser with the scope id 0 whose source text is at
4294967295 and whose position is 4294967304, `VariableScopeBegin` computes the id
`(int)4294967295 * ((int)4294967304 / 8)`, which is -1, stores it in the parser and returns
it with the saved id 0; `VariableScopeEnd` with the id -1 returns at once, so the scope id
of the parser is -1 afterwards and not 0.  A further `VariableScopeBegin` then does
nothing. -/
theorem C39_scope_id_lost_when_hash_is_minus_one :
    exParserMinusOne.ScopeID = 0 ∧ scopeHash exParserMinusOne = -1
      ∧ VariableScopeBegin exStatic exParserMinusOne 5
        = some (Exit.ret (-1, { exParserMinusOne with ScopeID := -1 }, 0), exStatic)
      ∧ VariableScopeEnd exStatic { exParserMinusOne with ScopeID := -1 } (-1) 0
        = some (Exit.ret { exParserMinusOne with ScopeID := -1 }, exStatic)
      ∧ VariableScopeBegin exStatic { exParser with ScopeID := -1 } 5
        = some (Exit.ret (-1, { exParser with ScopeID := -1 }, 5), exStatic) :=
  ⟨by rfl, by rfl, by rfl, by rfl, by rfl⟩

/-! ## C40: the mangled names of statics -/

set_option maxRecDepth 100000 in
/-- C40 at concrete inputs.  In a file whose name has 253 characters the buffer is full
after `/`, the file name and `/`, so `static int x;` and `static char y;` get the same
mangled name of 255 characters: the second declaration is not a first visit, returns the
value of `x` and binds `y` to the payload of `x` with the type `int`.  And the file-scope
`static int x;` of the file `a/f` and the `static char x;` in the function `f` of the file
`a` both get the name `/a/f/x` and share the value at 10100. -/
theorem C40_distinct_statics_share_storage :
    mangledName (List.replicate 253 'd') none ['x']
        = mangledName (List.replicate 253 'd') none ['y']
      ∧ (mangledName (List.replicate 253 'd') none ['x']).length = 255
      ∧ VariableDefineButIgnoreIdentical 2 exLong exParser 52 (TypePtr.field TypeField.IntType)
          true false = some (Exit.ret (10100, true), exLong1)
      ∧ VariableDefineButIgnoreIdentical 2 exLong1 { exParser with Line := 5 } 56
          (TypePtr.field TypeField.CharType) true false
        = some (Exit.ret (10100, false), exLong2)
      ∧ (TableGet exLong2.GlobalTable 52).map (fun e => e.Val) = some 10300
      ∧ (TableGet exLong2.GlobalTable 56).map (fun e => e.Val) = some 10500
      ∧ (exLong2.vals 10300).map (fun v => (v.Typ, v.Val))
        = some (TypePtr.field TypeField.IntType, 10140)
      ∧ (exLong2.vals 10500).map (fun v => (v.Typ, v.Val))
        = some (TypePtr.field TypeField.IntType, 10140)
      ∧ mangledName ['a', '/', 'f'] none ['x'] = mangledName ['a'] (some ['f']) ['x']
      ∧ VariableDefineButIgnoreIdentical 2 exSlash { exParser with FileName := 40 } 52
          (TypePtr.field TypeField.IntType) true false
        = some (Exit.ret (10100, true), exSlash1)
      ∧ VariableDefineButIgnoreIdentical 2 exSlashF { exParser with Line := 9 } 52
          (TypePtr.field TypeField.CharType) true false
        = some (Exit.ret (10100, false), exSlashF1)
      ∧ exSlashF1.strings 10024 = some ['/', 'a', '/', 'f', '/', 'x'] :=
  ⟨by rfl, by rfl, by rfl, by rfl, by rfl, by rfl, by rfl, by rfl, by rfl, by rfl, by rfl,
    by rfl⟩

/-! ## C10: static-local identity -/

/-- A definition of a platform variable that fails with "already defined" found its
registered name bound in the current table. -/
theorem VariableDefinePlatformVar_already {pc pc1 : Picoc} {Parser : Option ParseState}
    {Ident : Nat} {Typ : TypePtr} {FromValue : Nat} {IsWritable : Bool} {Tbl : Table}
    {Str : List Char} {k : Nat}
    (hS : pc.strings Ident = some Str) (hk : TableSearchIdentifier pc Str = some k)
    (hT : currentTable pc = some Tbl)
    (h : VariableDefinePlatformVar pc Parser Ident Typ FromValue IsWritable
      = some (Exit.fail Failure.AlreadyDefined, pc1)) :
    (TableGet Tbl k).isSome = true := by
  unfold VariableDefinePlatformVar at h
  split at h
  · cases h
  · rename_i f pcA hal
    have := VariableAllocValueAndData_fail hal
    simp only [Option.some.injEq, Prod.mk.injEq, Exit.fail.injEq] at h
    rw [h.1] at this
    cases this
  · rename_i SomeValue pcA hal
    obtain ⟨hs, _, _⟩ := VariableAllocValueAndData_fields hal
    have hT1 : currentTable pcA = some Tbl := (currentTable_congr hs).trans hT
    obtain ⟨a1, a2, a3, a4, a5, a6⟩ := hs
    split at h
    · rename_i v Str1 hv hstr
      simp only at h
      rw [a4, hS] at hstr
      obtain rfl : Str = Str1 := Option.some.inj hstr
      have hreg : ∀ V : Nat → Option Value,
          TableStrRegister { pcA with vals := V } Str
            = some (Exit.ret k, { pcA with vals := V }) := by
        intro V
        unfold TableStrRegister
        have : TableSearchIdentifier { pcA with vals := V } Str = some k := by
          rw [← hk]
          exact TableSearchIdentifier_congr a4 a5 Str
        rw [this]
      rw [hreg] at h
      simp only at h
      have hT2 : ∀ V : Nat → Option Value, currentTable { pcA with vals := V } = some Tbl :=
        fun _ => hT1
      rw [hT2] at h
      simp only at h
      split at h
      · cases h
      · rename_i f pc4 hset
        have := TableSet_fail hset
        simp only [Option.some.injEq, Prod.mk.injEq, Exit.fail.injEq] at h
        rw [h.1] at this
        cases this
      · rename_i ok Tbl1 pc4 hset
        obtain ⟨_, _, _, sok⟩ := TableSet_effect hset
        split at h
        · rename_i hok
          cases hg : TableGet Tbl k with
          | some e => rfl
          | none =>
            exact absurd (sok hg).1 hok
        · cases h
    · cases h

/-- C10 (static-local identity): let a static declaration in a function have been executed
through `VariableDefineButIgnoreIdentical` and have returned the value `v`.  Let the same
declaration (same file name, enclosing function name and identifier) be executed again in
a call of the function, in a state that kept the registration and the global binding of
the mangled name and the header of `v`, with the short name not bound in the current
table, and let this execution end otherwise than with "out of memory".  Then it returns
the same value `v`, whose header, and with it the payload address, is the one that the
first execution left; `*FirstVisit` is as on entry; and the global table is unchanged, so
no global binding is added. -/
theorem C10_static_local_identity (fuel : Nat) (pc : Picoc) (Parser : ParseState) (Ident : Nat)
    (Typ : TypePtr) (FirstVisit FirstVisit1 : Bool) (v : Nat) (pc1 : Picoc)
    (FileName IdentStr Func : List Char)
    (hwf : pc.GlobalTable.HashTable.length = pc.GlobalTable.Size) (hsz : 0 < pc.GlobalTable.Size)
    (hF : pc.strings Parser.FileName = some FileName) (hI : pc.strings Ident = some IdentStr)
    (hFn : enclosingFuncName pc = some (some Func))
    (h1 : VariableDefineButIgnoreIdentical fuel pc Parser Ident Typ true FirstVisit
      = some (Exit.ret (v, FirstVisit1), pc1))
    (fuel2 : Nat) (pc2 : Picoc) (Parser2 : ParseState) (Ident2 : Nat) (Typ2 : TypePtr)
    (FirstVisit2 : Bool) (m k : Nat) (Tbl2 : Table) (e2 : Exit (Nat × Bool)) (pc3 : Picoc)
    (hF2 : pc2.strings Parser2.FileName = some FileName)
    (hI2 : pc2.strings Ident2 = some IdentStr)
    (hFn2 : enclosingFuncName pc2 = some (some Func))
    (hm1 : TableSearchIdentifier pc1 (mangledName FileName (some Func) IdentStr) = some m)
    (hm2 : TableSearchIdentifier pc2 (mangledName FileName (some Func) IdentStr) = some m)
    (hglob : TableGet pc2.GlobalTable m = TableGet pc1.GlobalTable m)
    (hkeep : pc2.vals v = pc1.vals v)
    (hfwd : TypeIsForwardDeclared pc2.types fuel2 Typ2 = some false)
    (hT2 : currentTable pc2 = some Tbl2) (hwf2 : Tbl2.HashTable.length = Tbl2.Size)
    (hsz2 : 0 < Tbl2.Size)
    (hk : TableSearchIdentifier pc2 IdentStr = some k) (hunb : TableGet Tbl2 k = none)
    (h2 : VariableDefineButIgnoreIdentical fuel2 pc2 Parser2 Ident2 Typ2 true FirstVisit2
      = some (e2, pc3))
    (hmem : e2 ≠ Exit.fail Failure.OutOfMemory) :
    e2 = Exit.ret (v, FirstVisit2)
      ∧ pc3.vals v = pc1.vals v ∧ (pc1.vals v).isSome = true
      ∧ pc3.GlobalTable = pc2.GlobalTable
      ∧ (TableGet pc3.GlobalTable m).map (fun e => e.Val) = some v := by
  obtain ⟨m0, e, hs, hg, hval, hsome⟩ :=
    VariableDefineButIgnoreIdentical_static hwf hsz hF hI hFn h1
  rw [hm1] at hs
  obtain rfl : m = m0 := Option.some.inj hs
  have hg2 : TableGet pc2.GlobalTable m = some e := hglob.trans hg
  have h0 : pc2.TopStackFrame ≠ 0 := by
    intro h0
    unfold enclosingFuncName at hFn2
    rw [if_neg (not_not.mpr h0)] at hFn2
    cases hFn2
  obtain ⟨ev, hev⟩ := Option.isSome_iff_exists.mp (hkeep ▸ hsome)
  -- the second execution comes down to the definition of the alias
  have hcall : VariableDefineButIgnoreIdentical fuel2 pc2 Parser2 Ident2 Typ2 true FirstVisit2
      = match VariableDefinePlatformVar pc2 (some Parser2) Ident2 ev.Typ ev.Val true with
        | none => none
        | some (Exit.fail f, pc5) => some (Exit.fail f, pc5)
        | some (Exit.ret _, pc5) => some (Exit.ret (v, FirstVisit2), pc5) := by
    unfold VariableDefineButIgnoreIdentical
    rw [hfwd]
    simp only [if_true]
    rw [hF2, hI2, hFn2]
    simp only
    have hreg : TableStrRegister pc2 (mangledName FileName (some Func) IdentStr)
        = some (Exit.ret m, pc2) := by
      unfold TableStrRegister
      rw [hm2]
    rw [hreg]
    simp only
    rw [hg2]
    simp only
    rw [hval, hev]
  rw [hcall] at h2
  have hdef : VariableDefinePlatformVar pc2 (some Parser2) Ident2 ev.Typ ev.Val true
      = some (Exit.ret (), pc3) ∧ e2 = Exit.ret (v, FirstVisit2) := by
    cases hr : VariableDefinePlatformVar pc2 (some Parser2) Ident2 ev.Typ ev.Val true with
    | none =>
      rw [hr] at h2
      cases h2
    | some r =>
      obtain ⟨x, pc5⟩ := r
      cases x with
      | fail f =>
        rw [hr] at h2
        simp only [Option.some.injEq, Prod.mk.injEq] at h2
        obtain ⟨rfl, rfl⟩ := h2
        rcases VariableDefinePlatformVar_fail hr with rfl | rfl
        · exact absurd rfl hmem
        · have := VariableDefinePlatformVar_already hI2 hk hT2 hr
          rw [hunb] at this
          cases this
      | ret u =>
        rw [hr] at h2
        simp only [Option.some.injEq, Prod.mk.injEq] at h2
        obtain ⟨rfl, rfl⟩ := h2
        exact ⟨rfl, rfl⟩
  obtain ⟨hdef, rfl⟩ := hdef
  obtain ⟨_, d2, _, _, _⟩ := VariableDefinePlatformVar_effect hdef
  have hkeepm := VariableDefinePlatformVar_keeps hdef m e hg2
  obtain ⟨_, nv, _, _, _, _, _, _, _, _, _, hnone, _, _, _, _, hvals⟩ :=
    VariableDefinePlatformVar_binds hT2 hwf2 hsz2 hdef
  have hne : v ≠ nv := by
    intro heq
    rw [heq, hnone] at hev
    cases hev
  refine ⟨rfl, (hvals v hne).trans hkeep, hsome, d2 h0, ?_⟩
  rw [hkeepm]
  exact congrArg some hval

/-- C10 at a concrete input: `static int x;` of the file `a.c` is executed in two calls of
the function `f`; in the second call the local table is new, so `x` is not bound.  Both
executions return the value at 10100, whose payload is at 10140, and the global table is
the same before and after the second. -/
theorem C10_static_local_identity_witness :
    VariableDefineButIgnoreIdentical 2 exStaticF exParser 52 (TypePtr.field TypeField.IntType)
        true false = some (Exit.ret (10100, true), exStaticF1)
      ∧ (currentTable exStaticF2).map (fun t => TableGet t 52) = some none
      ∧ VariableDefineButIgnoreIdentical 2 exStaticF2 exParser 52
          (TypePtr.field TypeField.IntType) true false
        = some (Exit.ret (10100, false), exStaticF3)
      ∧ (exStaticF1.vals 10100).map (fun x => x.Val) = some 10140
      ∧ (exStaticF3.vals 10100 = exStaticF1.vals 10100
          ∧ (exStaticF1.vals 10100).isSome = true
          ∧ exStaticF3.GlobalTable = exStaticF2.GlobalTable
          ∧ (TableGet exStaticF3.GlobalTable 10024).map (fun e => e.Val) = some 10100) := by
  have h := C10_static_local_identity 2 exStaticF exParser 52
    (TypePtr.field TypeField.IntType) false true 10100 exStaticF1 ['a', '.', 'c'] ['x'] ['f']
    (by rfl) (by decide) (by rfl) (by rfl) (by rfl) (by rfl)
    2 exStaticF2 exParser 52 (TypePtr.field TypeField.IntType) false 10024 52
    (emptyTable LOCAL_TABLE_SIZE false) (Exit.ret (10100, false)) exStaticF3
    (by rfl) (by rfl) (by rfl) (by rfl) (by rfl) (by rfl) (by rfl) (by rfl) (by rfl) (by rfl)
    (by decide) (by rfl) (by rfl) (by rfl) (by intro h; cases h)
  exact ⟨by rfl, by rfl, by rfl, by rfl, h.2⟩

/-! ## C23: the layout of a struct with a member of its own type -/

/-- C35, amended: for a declaration whose base type was parsed, that is with a base type
that is not null, `TypeParseIdentPart` does not accept a parenthesized sub-declarator: when
the declarator starts with an open bracket (as in `int (*p)` or `int (*a)[3]`) the call
fails with "bad type declaration" and leaves the instance as it is, whatever follows the
bracket; and `TypeParse` fails in the same way when `TypeParseFront` has returned such a
base type with the parser at an open bracket. -/
theorem C35_open_bracket_after_base_type_fails (Named : NamedType) (buf : TokenBuffer)
    (fuel : Nat) (pc : Picoc) (Parser : ParseState) (BasicTyp : TypePtr)
    (hT : BasicTyp ≠ TypePtr.null)
    (hB : (LexGetToken buf Parser true).1 = LexToken.TokenOpenBracket) :
    TypeParseIdentPart Named buf fuel pc Parser BasicTyp
        = some (Exit.fail Failure.BadTypeDeclaration, pc)
      ∧ ∀ (pc0 : Picoc) (Parser0 : ParseState) (b IsStatic : Bool),
          TypeParseFront Named buf (fuel + 1) pc0 Parser0
            = some (Exit.ret (b, BasicTyp, IsStatic, Parser), pc) →
          TypeParse Named buf (fuel + 1) pc0 Parser0
            = some (Exit.fail Failure.BadTypeDeclaration, pc) := by
  refine ⟨identPart_open_bracket _ buf fuel pc Parser BasicTyp hT hB, ?_⟩
  intro pc0 Parser0 b IsStatic hfront
  unfold TypeParse
  rw [hfront]
  simp only
  rw [identPart_open_bracket _ buf fuel pc Parser BasicTyp hT hB]

/-- C35, amended, at a concrete input: in `int (*p);`, after `TypeParseFront` returned the
base type `int` with the parser at the open bracket, `TypeParseIdentPart` fails with "bad
type declaration" and the instance is unchanged, and so does `TypeParse` of the whole
declaration. -/
theorem C35_open_bracket_after_base_type_fails_witness :
    (LexGetToken exNested { exParser with Pos := 70002, CharacterPos := 6 } true).1
        = LexToken.TokenOpenBracket
      ∧ TypeParseIdentPart exNoNamed exNested 2 exS
          { exParser with Pos := 70002, CharacterPos := 6 } (TypePtr.field TypeField.IntType)
        = some (Exit.fail Failure.BadTypeDeclaration, exS)
      ∧ TypeParse exNoNamed exNested 3 exS exParser
        = some (Exit.fail Failure.BadTypeDeclaration, exS) := by
  obtain ⟨h1, h2⟩ := C35_open_bracket_after_base_type_fails exNoNamed exNested 2 exS
    { exParser with Pos := 70002, CharacterPos := 6 } (TypePtr.field TypeField.IntType)
    (by decide) (by rfl)
  exact ⟨by rfl, h1, h2 exS exParser true false (by rfl)⟩

end PicocModel
